import Mathlib

/-!
# Nexodus agents: peer reconciler and relay

A shallow embedding of the reconciliation loop of the nexodus peer agent
(`internal/nexodus/nexd`), of the relay agent (`internal/nexodus/nexrelay`) and
of the helpers they share (`internal/nexodus`): the device cache, the peering
policy (`buildPeersConfig`), the deployment of the derived configuration
(`DeployWireguardConfig`), peer removal (`HandlePeerDelete`), the `Reconcile`
cycle that ties them together, the startup of the agents (`NewNexodus` with the
NAT classifier `nodePrep`, and `Start` up to the registration and the first
`Reconcile`), the key pair store (`keys.go`), and for the relay the state
sampler (`relayStateReconcile`) and the relay check of `Start`.

Conventions of the embedding:

* Go `string` is `String`; `uuid.UUID` is a natural number and `uuid.Nil` is `0`.
* a Go `map[uuid.UUID]Device` is an association list; a `range` over the map
  visits the entries in list order.  Go leaves that order unspecified, and every
  statement below holds for every order of the list.
* the operating system (routing table, WireGuard device, tunnel interface) is an
  explicit `Host` value that the operations thread through; every external call
  is appended to `Host.calls`.
* behaviour that lives outside the repository sources (command results, CIDR
  parsers of the missing `utils.go`, key parsing of `wgtypes`) is a field of
  `Platform`.
-/

namespace Nexd

/-! ## Go standard library helpers -/

/-- Index of the first occurrence of `c` in `s`, as `bytealg.IndexByteString`. -/
def indexByte (s : List Char) (c : Char) : Option Nat :=
  match s with
  | [] => none
  | x :: xs => if x = c then some 0 else (indexByte xs c).map (· + 1)

/-- Index of the last occurrence of `c` in `s`, as `bytealg.LastIndexByteString`. -/
def lastIndexByte (s : List Char) (c : Char) : Option Nat :=
  match s with
  | [] => none
  | x :: xs =>
    match lastIndexByte xs c with
    | some i => some (i + 1)
    | none => if x = c then some 0 else none

/-- Go `net.SplitHostPort`: `some (host, port)` when the address splits, `none`
when the library returns an `AddrError`. -/
def SplitHostPort (hostport : String) : Option (String × String) :=
  let s := hostport.data
  match lastIndexByte s ':' with
  | none => none
  | some i =>
    if s.head? = some '[' then
      match indexByte s ']' with
      | none => none
      | some e =>
        if e + 1 = s.length then none
        else if e + 1 = i then
          if (indexByte (s.drop 1) '[').isSome then none
          else if (indexByte (s.drop (e + 1)) ']').isSome then none
          else some (String.mk ((s.take e).drop 1), String.mk (s.drop (i + 1)))
        else none
    else
      if (indexByte (s.take i) ':').isSome then none
      else if (indexByte s '[').isSome then none
      else if (indexByte s ']').isSome then none
      else some (String.mk (s.take i), String.mk (s.drop (i + 1)))

/-- Go `net.JoinHostPort`. -/
def JoinHostPort (host port : String) : String :=
  if (indexByte host.data ':').isSome then "[" ++ host ++ "]:" ++ port
  else host ++ ":" ++ port

/-- Go `fmt.Sprintf("%s/%d", ip, n)`. -/
def sprintfCidr (ip : String) (n : Nat) : String :=
  ip ++ "/" ++ toString n

/-! ## Data model -/

/-- A `uuid.UUID`; `uuid.Nil` is `0`. -/
abbrev UUID := Nat

/-- The zero UUID `uuid.Nil`. -/
def uuidNil : UUID := 0

/-- Modelled from the spec: `models.Device` (its declaration, `device.go`, is not
among the sources).  The fields are those of the spec's data model, which are
also the ones the agent reads. -/
structure Device where
  ID : UUID := 0
  UserID : String := ""
  OrganizationID : UUID := 0
  PublicKey : String := ""
  LocalIP : String := ""
  AllowedIPs : List String := []
  TunnelIP : String := ""
  ChildPrefix : List String := []
  Relay : Bool := false
  OrganizationPrefix : String := ""
  ReflexiveIPv4 : String := ""
  EndpointLocalAddressIPv4 : String := ""
  SymmetricNat : Bool := false
  Hostname : String := ""
  deriving DecidableEq, Repr

/-- The derived WireGuard peer entry `nexodus.WgPeerConfig`, with the fields the
agent assigns. -/
structure WgPeerConfig where
  PublicKey : String := ""
  Endpoint : String := ""
  AllowedIPs : List String := []
  PersistentKeepAlive : String := ""
  deriving DecidableEq, Repr

/-- Constant `nexodus.PersistentKeepalive`. -/
def PersistentKeepalive : String := "0"

/-- The local interface section `wgLocalConfig`. -/
structure wgLocalConfig where
  PrivateKey : String := ""
  ListenPort : Int := 0
  deriving DecidableEq, Repr

/-- The derived configuration `wgConfig`. -/
structure wgConfig where
  Interface : wgLocalConfig := {}
  Peers : List WgPeerConfig := []
  deriving DecidableEq, Repr

/-- The device cache `map[uuid.UUID]models.Device`, as an association list. -/
abbrev DeviceCache := List (UUID × Device)

/-- Map read `cache[id]`: the stored device, `none` when the key is absent. -/
def cacheGet (cache : DeviceCache) (id : UUID) : Option Device :=
  match cache with
  | [] => none
  | (k, v) :: rest => if k = id then some v else cacheGet rest id

/-- Map write `cache[id] = d`: replaces the entry of `id`, or adds one. -/
def cacheSet (cache : DeviceCache) (id : UUID) (d : Device) : DeviceCache :=
  match cache with
  | [] => [(id, d)]
  | (k, v) :: rest => if k = id then (id, d) :: rest else (k, v) :: cacheSet rest id d

/-- Map removal `delete(cache, id)`. -/
def cacheDelete (cache : DeviceCache) (id : UUID) : DeviceCache :=
  cache.filter (fun e => e.1 ≠ id)

/-- A well-formed cache: no key occurs twice (it is a map) and every device is
stored under its own ID (the only writes are `cache[p.ID] = p`). -/
def CacheWF (cache : DeviceCache) : Prop :=
  (cache.map Prod.fst).Nodup ∧ ∀ e ∈ cache, e.1 = e.2.ID

/-- The agent state `nexd.Nexodus` (logger, HTTP client and controller URL left out). -/
structure Nexodus where
  wireguardPubKey : String := ""
  wireguardPvtKey : String := ""
  wireguardPubKeyInConfig : Bool := false
  tunnelIface : String := "wg0"
  controllerIP : String := ""
  listenPort : Int := 0
  organization : UUID := 0
  requestedIP : String := ""
  userProvidedLocalIP : String := ""
  LocalIP : String := ""
  childPrefix : List String := []
  stun : Bool := false
  relayWgIP : String := ""
  wgConfig : wgConfig := {}
  deviceCache : DeviceCache := []
  wgLocalAddress : String := ""
  endpointLocalAddress : String := ""
  nodeReflexiveAddress : String := ""
  hostname : String := ""
  symmetricNat : Bool := false
  status : Nat := 0
  statusMsg : String := ""
  version : String := ""
  username : String := ""
  password : String := ""
  skipTlsVerify : Bool := false
  deriving DecidableEq, Repr

/-! ## The host: routing table, WireGuard device, tunnel interface -/

/-- A UDP endpoint `net.UDPAddr` (no zone).  `IP` is the address in text, as
`IP.String()` prints it; the nil address prints as `<nil>`. -/
structure UDPAddr where
  IP : String
  Port : Int
  deriving DecidableEq, Repr

/-- Go `ipEmptyString` of package `net`, on the text of the address: the empty
string for the nil address. -/
def ipEmptyString (ip : String) : String :=
  if ip = "<nil>" then "" else ip

/-- Go `(*net.UDPAddr).String`. -/
def UDPAddr.String (a : UDPAddr) : String :=
  JoinHostPort (ipEmptyString a.IP) (toString a.Port)

/-- A peer entry `wgtypes.PeerConfig` as the agent fills it. -/
structure PeerConfig where
  PublicKey : String
  Remove : Bool := false
  Endpoint : Option UDPAddr := none
  AllowedIPs : List String := []
  PersistentKeepaliveInterval : Option Nat := none
  deriving DecidableEq, Repr

/-- A device configuration `wgtypes.Config`. -/
structure Config where
  ReplacePeers : Bool := false
  Peers : List PeerConfig := []
  deriving DecidableEq, Repr

/-- An entry of the host routing table: destination prefix and output device. -/
structure Route where
  dst : String
  dev : String
  deriving DecidableEq, Repr

/-- The calls the agent issues to the operating system, to the WireGuard
library and to the peer handlers of package `nexodus`, in the order it issues
them. -/
inductive Call where
  | RunCommand (args : List String)
  | AddRoute (dst dev : String)
  | DeleteRoute (dst dev : String)
  | DelLink (dev : String)
  | HandlePeerRoute (allowedIps : List String) (dev : String)
  | HandlePeerTunnel (peer : WgPeerConfig) (dev : String) (relay : Bool)
  | addPeer (peer : WgPeerConfig) (dev : String) (relay : Bool)
  | deletePeer (publicKey dev : String)
  | ConfigureDevice (dev : String) (cfg : Config)
  deriving DecidableEq, Repr

/-- The state of the operating system as the agent observes and changes it. -/
structure Host where
  /-- the routing table -/
  routes : List Route := []
  /-- public keys of the peers configured on the tunnel device -/
  wgPeers : List String := []
  /-- whether the tunnel link exists -/
  linkExists : Bool := false
  /-- the IPv4 address on the tunnel interface, if any -/
  ifaceIPv4 : Option String := none
  /-- every external call issued so far -/
  calls : List Call := []
  deriving DecidableEq, Repr

/-- What the repository sources do not fix: the parsers of the missing
`utils.go`, library parsers, and whether a system call succeeds.  A success
oracle sees the whole host state, call history included, so it may fail any
individual call. -/
structure Platform where
  /-- the missing `nexodus.ParseIPNet` followed by `Mask.Size()`: the prefix
  length of a CIDR, `none` on a parse error -/
  ParseIPNet : String → Option Nat
  /-- the missing `nexodus.ParseNetworkStr`: the string it returns and whether
  its error is nil -/
  ParseNetworkStr : String → String × Bool
  /-- whether `wgtypes.ParseKey` accepts the key -/
  ParseKey : String → Bool
  /-- whether `net.ParseCIDR` accepts the prefix -/
  ParseCIDR : String → Bool
  /-- the result of `strconv.Atoi` -/
  Atoi : String → Option Int
  /-- the address `net.ParseIP` returns, in text (`<nil>` when the string is not
  an IP address) -/
  ParseIP : String → String
  /-- whether `wgctrl.New` succeeds -/
  wgctrlNew : Host → Bool
  /-- whether `wgClient.ConfigureDevice` succeeds -/
  ConfigureDeviceOk : Host → String → Config → Bool
  /-- `some b` when the route lookup of the missing linux `RouteExists` fails
  and reports `b` next to its error -/
  RouteExistsErr : Host → String → Option Bool
  /-- whether the missing linux `AddRoute` succeeds -/
  AddRouteOk : Host → String → String → Bool
  /-- whether the missing linux `DeleteRoute` succeeds -/
  DeleteRouteOk : Host → String → String → Bool
  /-- whether the missing linux `DelLink` succeeds -/
  DelLinkOk : Host → String → Bool
  /-- whether `RunCommand` succeeds -/
  RunCommandOk : Host → List String → Bool

/-- Append a call to the history. -/
def Host.log (h : Host) (c : Call) : Host :=
  { h with calls := h.calls ++ [c] }

/-- The tunnel link disappears: its peers, its address and the routes through it go with it. -/
def Host.dropLink (h : Host) (dev : String) : Host :=
  { h with linkExists := false, wgPeers := [], ifaceIPv4 := none,
           routes := h.routes.filter (fun r => r.dev ≠ dev) }

/-- Go `nexodus.GetIPv4Iface(dev).String()`: the textual address, `<nil>` when there is none. -/
def GetIPv4IfaceString (h : Host) : String :=
  match h.ifaceIPv4 with
  | some a => a
  | none => "<nil>"

/-- Modelled from the spec: the linux `RouteExists` (`utils_linux.go` is not
among the sources): a route is "already present" when the routing table holds an
entry for the prefix.  Returns the answer and whether the error is nil. -/
def RouteExists (P : Platform) (h : Host) (dst : String) : Bool × Bool :=
  match P.RouteExistsErr h dst with
  | some b => (b, false)
  | none => (h.routes.any (fun r => r.dst = dst), true)

/-- Modelled from the spec: the linux `AddRoute` (`utils_linux.go` is not among
the sources): on success the routing table gains a route to the prefix through
the device.  Returns whether the error is nil. -/
def AddRoute (P : Platform) (h : Host) (dst dev : String) : Bool × Host :=
  let h1 := h.log (.AddRoute dst dev)
  if P.AddRouteOk h dst dev then (true, { h1 with routes := h1.routes ++ [⟨dst, dev⟩] })
  else (false, h1)

/-- Modelled from the spec: the linux `DeleteRoute` (`utils_linux.go` is not
among the sources): on success the route to the prefix through the device leaves
the routing table.  Returns whether the error is nil. -/
def DeleteRoute (P : Platform) (h : Host) (dst dev : String) : Bool × Host :=
  let h1 := h.log (.DeleteRoute dst dev)
  if P.DeleteRouteOk h dst dev then
    (true, { h1 with routes := h1.routes.filter (fun r => ¬ (r.dst = dst ∧ r.dev = dev)) })
  else (false, h1)

/-- The effect of one accepted `wgtypes.PeerConfig` on the configured peers. -/
def applyPeerConfig (peers : List String) (p : PeerConfig) : List String :=
  if p.Remove then peers.filter (fun k => k ≠ p.PublicKey)
  else if p.PublicKey ∈ peers then peers else peers ++ [p.PublicKey]

/-- Library call `wgClient.ConfigureDevice(dev, cfg)`.  Returns whether the error is nil. -/
def ConfigureDevice (P : Platform) (h : Host) (dev : String) (cfg : Config) : Bool × Host :=
  let h1 := h.log (.ConfigureDevice dev cfg)
  if P.ConfigureDeviceOk h dev cfg then
    (true, { h1 with wgPeers := cfg.Peers.foldl applyPeerConfig (if cfg.ReplacePeers then [] else h1.wgPeers) })
  else (false, h1)

/-- Helper `nexodus.RunCommand`: the call is recorded; returns whether the error is nil. -/
def RunCommand (P : Platform) (h : Host) (args : List String) : Bool × Host :=
  (P.RunCommandOk h args, h.log (.RunCommand args))

/-- Modelled from the spec: the linux `DelLink` (`utils_linux.go` is not among
the sources): on success the link is gone.  Returns whether the error is nil. -/
def DelLink (P : Platform) (h : Host) (dev : String) : Bool × Host :=
  let h1 := h.log (.DelLink dev)
  if P.DelLinkOk h dev then (true, h1.dropLink dev) else (false, h1)

/-! ## Routes (`route.go`, `route_linux.go`) -/

/-- Function `nexodus.AddChildPrefixRoute`.  Returns whether the error is nil. -/
def AddChildPrefixRoute (P : Platform) (h : Host) (childPrefix tunnelIface : String) : Bool × Host :=
  let (routeExists, ok) := RouteExists P h childPrefix
  if !ok then (false, h)
  else if !routeExists then AddRoute P h childPrefix tunnelIface
  else (true, h)

/-- Function `nexodus.HandlePeerRoute` of the linux build. -/
def HandlePeerRoute (P : Platform) (h : Host) (allowedIps : List String) (tunnelIface : String) : Host :=
  allowedIps.foldl (fun h allowedIP =>
    let (routeExists, _) := RouteExists P h allowedIP
    if !routeExists then (AddRoute P h allowedIP tunnelIface).2 else h)
    (h.log (.HandlePeerRoute allowedIps tunnelIface))

/-- Function `nexodus.HandlePeerRouteDelete` of the linux build. -/
def HandlePeerRouteDelete (P : Platform) (h : Host) (dev : String) (allowedIps : List String) : Host :=
  allowedIps.foldl (fun h allowedIP =>
    let (routeExists, _) := RouteExists P h allowedIP
    if !routeExists then h else (DeleteRoute P h allowedIP dev).2) h

/-! ## WireGuard peers (`wg.go`) -/

/-- Function `nexodus.addPeer`.  Returns whether the error is nil. -/
def addPeer (P : Platform) (h : Host) (wgPeerConfig : WgPeerConfig) (tunnelIface : String)
    (relay : Bool) : Bool × Host :=
  let h1 := h.log (.addPeer wgPeerConfig tunnelIface relay)
  if !P.wgctrlNew h then (false, h1)
  else if !P.ParseKey wgPeerConfig.PublicKey then (false, h1)
  else if !wgPeerConfig.AllowedIPs.all P.ParseCIDR then (false, h1)
  else
    match SplitHostPort wgPeerConfig.Endpoint with
    | none => (false, h1)
    | some (LocalIP, endpointPort) =>
      match P.Atoi endpointPort with
      | none => (false, h1)
      | some port =>
        let cfg : Config :=
          if relay then
            { ReplacePeers := false,
              Peers := [{ PublicKey := wgPeerConfig.PublicKey, Remove := false,
                          AllowedIPs := wgPeerConfig.AllowedIPs,
                          PersistentKeepaliveInterval := some 0 }] }
          else
            { ReplacePeers := false,
              Peers := [{ PublicKey := wgPeerConfig.PublicKey, Remove := false,
                          Endpoint := some ⟨P.ParseIP LocalIP, port⟩,
                          AllowedIPs := wgPeerConfig.AllowedIPs,
                          PersistentKeepaliveInterval := some 0 }] }
        ConfigureDevice P h1 tunnelIface cfg

/-- Function `nexodus.HandlePeerTunnel`. -/
def HandlePeerTunnel (P : Platform) (h : Host) (wgPeerConfig : WgPeerConfig) (tunnelIface : String)
    (relay : Bool) : Host :=
  let h1 := h.log (.HandlePeerTunnel wgPeerConfig tunnelIface relay)
  match SplitHostPort wgPeerConfig.Endpoint with
  | none => h1
  | some _ => (addPeer P h1 wgPeerConfig tunnelIface relay).2

/-- Function `nexodus.deletePeer`.  Returns whether the error is nil. -/
def deletePeer (P : Platform) (h : Host) (publicKey dev : String) : Bool × Host :=
  let h1 := h.log (.deletePeer publicKey dev)
  if !P.wgctrlNew h then (false, h1)
  else if !P.ParseKey publicKey then (false, h1)
  else ConfigureDevice P h1 dev { ReplacePeers := false, Peers := [{ PublicKey := publicKey, Remove := true }] }

/-- Function `nexodus.inPeerListing`. -/
def inPeerListing (peers : List Device) (p : Device) : Bool :=
  peers.any (fun peer => peer.ID = p.ID)

/-- The loop of `nexodus.HandlePeerDelete` over the entries of the cache as they
were when the `range` began; `cache` is the map as the loop has left it so far.
An entry deleted before the loop reaches it is not visited (Go's rule for a
`range` over a map). -/
def HandlePeerDeleteLoop (P : Platform) (peerListing : List Device) (tunnelIface : String) :
    List (UUID × Device) → DeviceCache → Host → Bool × DeviceCache × Host
  | [], cache, h => (true, cache, h)
  | (k, p) :: rest, cache, h =>
    if (cacheGet cache k).isNone then HandlePeerDeleteLoop P peerListing tunnelIface rest cache h
    else if inPeerListing peerListing p then
      HandlePeerDeleteLoop P peerListing tunnelIface rest cache h
    else
      let cached := (cacheGet cache p.ID).getD {}
      let (ok, h1) := deletePeer P h cached.PublicKey tunnelIface
      if !ok then (false, cache, h1)
      else
        let h2 := HandlePeerRouteDelete P h1 tunnelIface p.AllowedIPs
        HandlePeerDeleteLoop P peerListing tunnelIface rest
          (cacheDelete (cacheDelete cache p.ID) p.ID) h2

/-- Function `nexodus.HandlePeerDelete`.  Returns whether the error is nil, the cache
and the host. -/
def HandlePeerDelete (P : Platform) (peerListing : List Device) (deviceCache : DeviceCache)
    (tunnelIface : String) (h : Host) : Bool × DeviceCache × Host :=
  HandlePeerDeleteLoop P peerListing tunnelIface deviceCache deviceCache h

/-! ## Peering policy (`nexd/wg_peers.go`) -/

/-- How a call of `buildPeersConfig` ends: it reaches its last statement
(`done`), returns early because a hub organization has no relay address
(`skipped`), calls `os.Exit(1)` (`exited`), or indexes an empty `AllowedIPs`
(`panicked`). -/
inductive BuildStatus where
  | done
  | skipped
  | exited
  | panicked
  deriving DecidableEq, Repr

/-- The variables the first loop of `buildPeersConfig` assigns. -/
structure RelayScan where
  pubKeyInConfig : Bool
  relayIP : String := ""
  orgPrefix : String := ""
  deriving DecidableEq, Repr

/-- One iteration of the first loop of `buildPeersConfig`; `none` is the
index-out-of-range panic of `device.AllowedIPs[0]`. -/
def relayScanStep (ax : Nexodus) (st : RelayScan) (device : Device) : Option RelayScan :=
  let st1 := if device.PublicKey = ax.wireguardPubKey then { st with pubKeyInConfig := true } else st
  if device.Relay then
    match device.AllowedIPs with
    | [] => none
    | ip :: _ =>
      some { st1 with
        relayIP := ip,
        orgPrefix := if ax.organization = device.OrganizationID then device.OrganizationPrefix
                     else st1.orgPrefix }
  else some st1

/-- The first loop of `buildPeersConfig` over the cached devices. -/
def relayScan (ax : Nexodus) : List Device → RelayScan → Option RelayScan
  | [], st => some st
  | device :: rest, st =>
    match relayScanStep ax st device with
    | none => none
    | some st1 => relayScan ax rest st1

/-- The loop `for _, prefix := range value.ChildPrefix` of `buildPeersConfig`:
each prefix gets a route through the tunnel and is appended to `allowed`. -/
def foldChildPrefix (P : Platform) (tunnelIface : String) (childPrefix : List String)
    (h : Host) (allowed : List String) : Host × List String :=
  childPrefix.foldl
    (fun acc pfx => ((AddChildPrefixRoute P acc.1 pfx tunnelIface).2, acc.2 ++ [pfx])) (h, allowed)

/-- The variables the second loop of `buildPeersConfig` updates. -/
structure PeerLoop where
  peers : List WgPeerConfig := []
  relayAllowedIP : List String := []
  relayWgIP : String := ""
  host : Host := {}
  deriving DecidableEq, Repr

/-- The relay arm of the second loop of `buildPeersConfig` ("Build the relay
peer entry ... All nodes get this peer"): for a relay, its child prefixes get
routes and join `relayAllowedIP`, and the relay peer is appended. -/
def relayArm (P : Platform) (ax : Nexodus) (relayIP : String) (st : PeerLoop) (value : Device) :
    PeerLoop :=
  if value.Relay then
    let r := foldChildPrefix P ax.tunnelIface value.ChildPrefix st.host st.relayAllowedIP
    { peers := st.peers ++ [{ PublicKey := value.PublicKey, Endpoint := value.LocalIP,
                              AllowedIPs := r.2, PersistentKeepAlive := PersistentKeepalive }],
      relayAllowedIP := r.2, relayWgIP := relayIP, host := r.1 }
  else st

/-- One iteration of the second loop of `buildPeersConfig` (peer persona). -/
def peerStep (P : Platform) (ax : Nexodus) (relayIP : String) (st : PeerLoop) (value : Device) :
    PeerLoop :=
  match SplitHostPort value.LocalIP with
  | none => st
  | some (_, peerPort) =>
    if value.PublicKey = ax.wireguardPubKey then st
    else
      let st1 := relayArm P ax relayIP st value
      if ax.nodeReflexiveAddress = value.ReflexiveIPv4 ∧ value.Relay = false then
        let directLocalPeerEndpointSocket := JoinHostPort value.EndpointLocalAddressIPv4 peerPort
        let r := foldChildPrefix P ax.tunnelIface value.ChildPrefix st1.host value.AllowedIPs
        { st1 with
          peers := st1.peers ++ [{ PublicKey := value.PublicKey,
                                   Endpoint := directLocalPeerEndpointSocket,
                                   AllowedIPs := r.2, PersistentKeepAlive := PersistentKeepalive }],
          host := r.1 }
      else if ax.symmetricNat = false ∧ value.SymmetricNat = false ∧ value.Relay = false then
        let r := foldChildPrefix P ax.tunnelIface value.ChildPrefix st1.host value.AllowedIPs
        { st1 with
          peers := st1.peers ++ [{ PublicKey := value.PublicKey, Endpoint := value.LocalIP,
                                   AllowedIPs := r.2, PersistentKeepAlive := PersistentKeepalive }],
          host := r.1 }
      else st1

/-- One iteration of the loop of `buildLocalConfig` (linux: `runtime.GOOS` is
`linux`; the missing `LinkExists` reads the host). -/
def buildLocalConfigStep (P : Platform) (st : Nexodus × Host) (value : Device) : Nexodus × Host :=
  let ax := st.1
  let h := st.2
  if value.PublicKey = ax.wireguardPubKey then
    let h1 :=
      if ax.wgLocalAddress ≠ value.TunnelIP then
        if h.linkExists then (DelLink P h ax.tunnelIface).2 else h
      else h
    ({ ax with wgLocalAddress := value.TunnelIP,
               wgConfig := { ax.wgConfig with
                 Interface := { PrivateKey := ax.wireguardPvtKey, ListenPort := ax.listenPort } } },
     h1)
  else st

/-- Method `Nexodus.buildLocalConfig`. -/
def buildLocalConfig (P : Platform) (ax : Nexodus) (h : Host) : Nexodus × Host :=
  (ax.deviceCache.map Prod.snd).foldl (buildLocalConfigStep P) (ax, h)

/-- The block "Get a valid netmask from the organization prefix" of
`buildPeersConfig`: the initial `relayAllowedIP`, which is empty when no
organization prefix was found and otherwise the relay address with the prefix
length of the organization, as `ParseNetworkStr` returns it; `none` is the
`os.Exit(1)` after a failed `ParseIPNet`. -/
def initialRelayAllowedIP (P : Platform) (relayIP orgPrefix : String) : Option (List String) :=
  if orgPrefix ≠ "" then
    match P.ParseIPNet orgPrefix with
    | none => none
    | some orgMask => some [(P.ParseNetworkStr (sprintfCidr relayIP orgMask)).1]
  else some []

/-- The result of `buildPeersConfig`: how it ended, the agent and the host. -/
structure BuildResult where
  status : BuildStatus
  ax : Nexodus
  host : Host
  deriving DecidableEq, Repr

/-- Method `Nexodus.buildPeersConfig` (peer persona). -/
def buildPeersConfig (P : Platform) (ax : Nexodus) (h : Host) : BuildResult :=
  let devices := ax.deviceCache.map Prod.snd
  match relayScan ax devices { pubKeyInConfig := ax.wireguardPubKeyInConfig } with
  | none => ⟨.panicked, ax, h⟩
  | some scan =>
    let ax1 := { ax with wireguardPubKeyInConfig := scan.pubKeyInConfig }
    let hubOrg := decide (scan.orgPrefix ≠ "")
    if scan.relayIP = "" ∧ hubOrg = true then ⟨.skipped, ax1, h⟩
    else
      match initialRelayAllowedIP P scan.relayIP scan.orgPrefix with
      | none => ⟨.exited, ax1, h⟩
      | some relayAllowedIP =>
        let st := devices.foldl (peerStep P ax1 scan.relayIP)
          { peers := [], relayAllowedIP := relayAllowedIP, relayWgIP := ax1.relayWgIP, host := h }
        let ax2 := { ax1 with relayWgIP := st.relayWgIP,
                              wgConfig := { ax1.wgConfig with Peers := st.peers } }
        let r := buildLocalConfig P ax2 st.host
        ⟨.done, r.1, r.2⟩

/-! ## Interface setup (`nexd/nexd_linux.go`) and deployment (`nexd/wg_deploy.go`) -/

/-- The errors a reconcile cycle distinguishes: the sentinel
`nexodus.InterfaceErr` and every other error. -/
inductive Err where
  | InterfaceErr
  | other (msg : String)
  deriving DecidableEq, Repr

/-- Constant `nexodus.LinuxPrivateKeyFile`. -/
def LinuxPrivateKeyFile : String := "/etc/wireguard/private.key"

/-- The address an interface carries after `ip address add <addr>`: the part
before the prefix length. -/
def addrOfCidr (addr : String) : String :=
  String.mk (addr.data.takeWhile (fun c => c ≠ '/'))

/-- The first step of `setupInterface`: "delete the wireguard ip link interface
if it exists" (the missing `IfaceExists` lookup reads the host; a failure is
only logged). -/
def deleteExistingLink (P : Platform) (ax : Nexodus) (h : Host) : Host :=
  if h.linkExists then
    let r := RunCommand P h ["ip", "link", "del", ax.tunnelIface]
    if r.1 then r.2.dropLink ax.tunnelIface else r.2
  else h

/-- The step "give the wg interface an address" of `setupInterface`: on a failed
`ip address add` the address found on the interface is deleted and the addition
retried.  Returns whether the step succeeded. -/
def assignAddress (P : Platform) (ax : Nexodus) (h : Host) : Bool × Host :=
  let r4 := RunCommand P h ["ip", "address", "add", ax.wgLocalAddress, "dev", ax.tunnelIface]
  if r4.1 then (true, { r4.2 with ifaceIPv4 := some (addrOfCidr ax.wgLocalAddress) })
  else
    let rDel := RunCommand P r4.2 ["ip", "address", "del", GetIPv4IfaceString r4.2, "dev", ax.tunnelIface]
    let hDel := if rDel.1 then { rDel.2 with ifaceIPv4 := none } else rDel.2
    let rAdd := RunCommand P hDel ["ip", "address", "add", ax.wgLocalAddress, "dev", ax.tunnelIface]
    if rAdd.1 then (true, { rAdd.2 with ifaceIPv4 := some (addrOfCidr ax.wgLocalAddress) })
    else (false, rAdd.2)

/-- Method `Nexodus.setupInterface` of the linux build.  Returns `none` for a nil
error. -/
def setupInterface (P : Platform) (ax : Nexodus) (h : Host) : Option Err × Host :=
  -- delete the wireguard ip link interface if it exists
  let h1 := deleteExistingLink P ax h
  -- create the wireguard ip link interface
  let r2 := RunCommand P h1 ["ip", "link", "add", ax.tunnelIface, "type", "wireguard"]
  if !r2.1 then (some .InterfaceErr, r2.2)
  else
    -- start the wireguard listener
    let r3 := RunCommand P { r2.2 with linkExists := true }
      ["wg", "set", ax.tunnelIface, "listen-port", toString ax.listenPort,
       "private-key", LinuxPrivateKeyFile]
    if !r3.1 then (some .InterfaceErr, r3.2)
    else
      -- give the wg interface an address
      let r5 := assignAddress P ax r3.2
      if !r5.1 then (some .InterfaceErr, r5.2)
      else
        -- bring the wg0 interface up
        let r6 := RunCommand P r5.2 ["ip", "link", "set", ax.tunnelIface, "up"]
        if r6.1 then (none, r6.2) else (some .InterfaceErr, r6.2)

/-- The body of the loops of `DeployWireguardConfig`: routes first, then the tunnel. -/
def installPeer (P : Platform) (ax : Nexodus) (h : Host) (peer : WgPeerConfig) : Host :=
  HandlePeerTunnel P (HandlePeerRoute P h peer.AllowedIPs ax.tunnelIface) peer ax.tunnelIface false

/-- Method `Nexodus.DeployWireguardConfig`.  Returns `none` for a nil error. -/
def DeployWireguardConfig (P : Platform) (ax : Nexodus) (h : Host) (newPeers : List Device)
    (firstTime : Bool) : Option Err × Host :=
  let cfg : wgConfig := { Interface := ax.wgConfig.Interface, Peers := ax.wgConfig.Peers }
  let r : Option Err × Host :=
    if ax.wgLocalAddress ≠ GetIPv4IfaceString h then setupInterface P ax h else (none, h)
  match r with
  | (some e, h1) => (some e, h1)
  | (none, h1) =>
    if firstTime then
      (none, cfg.Peers.foldl (installPeer P ax) h1)
    else
      (none, newPeers.foldl (fun h newPeer =>
        if newPeer.ID ≠ uuidNil then
          cfg.Peers.foldl (fun h peer =>
            if peer.PublicKey = newPeer.PublicKey ∧ newPeer.PublicKey ≠ ax.wireguardPubKey then
              installPeer P ax h peer
            else h) h
        else h) h1)

/-! ## The reconcile cycle (`nexd/nexd.go`) -/

/-- How a call of `Reconcile` ends: it returns (a nil or non-nil error), the
process exits (`logger.Fatal`, `os.Exit`), or it panics. -/
inductive Result where
  | returned (err : Option Err)
  | exited
  | panicked
  deriving DecidableEq, Repr

/-- One iteration of the loop `for _, p := range peerListing` of `Reconcile`,
acting on the cache, the `changed` flag and `newPeers`.  The loop of the
first-time branch has the same body without the flag, which is dropped there. -/
def diffStep (st : DeviceCache × Bool × List Device) (p : Device) :
    DeviceCache × Bool × List Device :=
  let cache := st.1
  let changed := st.2.1
  let newPeers := st.2.2
  -- existing, ok := ax.deviceCache[p.ID]
  let existing : Device := (cacheGet cache p.ID).getD {}
  let ok := (cacheGet cache p.ID).isSome
  let st1 : DeviceCache × Bool × List Device :=
    if !ok then (cacheSet cache p.ID p, true, newPeers ++ [p]) else (cache, changed, newPeers)
  -- reflect.DeepEqual(existing, p)
  if existing ≠ p then (cacheSet st1.1 p.ID p, true, st1.2.2 ++ [p]) else st1

/-- The calls `ax.buildPeersConfig()` and `ax.DeployWireguardConfig(newPeers, firstTime)`
with the error handling `Reconcile` wraps around them: in the first-time branch
an `InterfaceErr` is fatal, every other error is returned.  The first component
is `none` when the cycle goes on. -/
def buildAndDeploy (P : Platform) (ax : Nexodus) (h : Host) (newPeers : List Device)
    (firstTime : Bool) : Option Result × Nexodus × Host :=
  let b := buildPeersConfig P ax h
  match b.status with
  | .exited => (some .exited, b.ax, b.host)
  | .panicked => (some .panicked, b.ax, b.host)
  | _ =>
    match DeployWireguardConfig P b.ax b.host newPeers firstTime with
    | (some e, h1) =>
      (some (if firstTime = true ∧ e = .InterfaceErr then .exited else .returned (some e)), b.ax, h1)
    | (none, h1) => (none, b.ax, h1)

/-- The part of `Reconcile` below the first-time branch ("all subsequent peer
listings updates get branched from here"): the diff against the cache, the
rebuild and deployment when something changed, and the deletion pass.
`newPeers0` is `newPeers` as the first-time branch left it. -/
def reconcileUpdate (P : Platform) (ax : Nexodus) (h : Host) (peerListing : List Device)
    (newPeers0 : List Device) : Result × Nexodus × Host :=
  let d := peerListing.foldl diffStep (ax.deviceCache, false, newPeers0)
  let ax2 := { ax with deviceCache := d.1 }
  let dep : Option Result × Nexodus × Host :=
    if d.2.1 then buildAndDeploy P ax2 h d.2.2 false else (none, ax2, h)
  match dep.1 with
  | some res => (res, dep.2.1, dep.2.2)
  | none =>
    -- check for any peer deletions; its error is only logged
    let r := HandlePeerDelete P peerListing dep.2.1.deviceCache dep.2.1.tunnelIface dep.2.2
    (.returned none, { dep.2.1 with deviceCache := r.2.1 }, r.2.2)

/-- Method `Nexodus.Reconcile`; `fetched` is what `GetDeviceInOrganization`
returned (`none` for an error). -/
def Reconcile (P : Platform) (ax : Nexodus) (h : Host) (fetched : Option (List Device))
    (firstTime : Bool) : Result × Nexodus × Host :=
  match fetched with
  | none => (.returned (some (.other "GetDeviceInOrganization")), ax, h)
  | some peerListing =>
    if firstTime then
      -- initial peer list processing branches from here
      let d := peerListing.foldl diffStep (ax.deviceCache, false, [])
      let r := buildAndDeploy P { ax with deviceCache := d.1 } h d.2.2 true
      match r.1 with
      | some res => (res, r.2.1, r.2.2)
      | none => reconcileUpdate P r.2.1 r.2.2 peerListing d.2.2
    else reconcileUpdate P ax h peerListing []

/-! ## The relay agent (`nexrelay`) -/

/-- The agent state `nexrelay.Nexrelay` (logger, HTTP client and controller URL
left out). -/
structure Nexrelay where
  wireguardPubKey : String := ""
  wireguardPvtKey : String := ""
  wireguardPubKeyInConfig : Bool := false
  tunnelIface : String := "wg0"
  controllerIP : String := ""
  listenPort : Int := 0
  organization : UUID := 0
  requestedIP : String := ""
  userProvidedLocalIP : String := ""
  LocalIP : String := ""
  stun : Bool := false
  wgConfig : wgConfig := {}
  deviceCache : DeviceCache := []
  wgLocalAddress : String := ""
  endpointLocalAddress : String := ""
  nodeReflexiveAddress : String := ""
  hostname : String := ""
  status : Nat := 0
  statusMsg : String := ""
  version : String := ""
  username : String := ""
  password : String := ""
  skipTlsVerify : Bool := false
  deriving DecidableEq, Repr

/-- Constant `PersistentHubKeepalive`. -/
def PersistentHubKeepalive : String := "0"

/-- Constant `nexodus.WgDefaultPort`. -/
def WgDefaultPort : Nat := 51820

/-- One iteration of the first loop of `Nexrelay.buildPeersConfig`; `none` is the
index-out-of-range panic of `device.AllowedIPs[0]`. -/
def Nexrelay.relayScanStep (nexr : Nexrelay) (st : RelayScan) (device : Device) :
    Option RelayScan :=
  let st1 := if device.PublicKey = nexr.wireguardPubKey then { st with pubKeyInConfig := true } else st
  if device.Relay then
    match device.AllowedIPs with
    | [] => none
    | ip :: _ =>
      some { st1 with
        relayIP := ip,
        orgPrefix := if nexr.organization = device.OrganizationID then device.OrganizationPrefix
                     else st1.orgPrefix }
  else some st1

/-- The first loop of `Nexrelay.buildPeersConfig` over the cached devices. -/
def Nexrelay.relayScan (nexr : Nexrelay) : List Device → RelayScan → Option RelayScan
  | [], st => some st
  | device :: rest, st =>
    match Nexrelay.relayScanStep nexr st device with
    | none => none
    | some st1 => Nexrelay.relayScan nexr rest st1

/-- The variables the second loop of `Nexrelay.buildPeersConfig` updates. -/
structure RelayPeerLoop where
  peers : List WgPeerConfig := []
  host : Host := {}
  deriving DecidableEq, Repr

/-- One iteration of the second loop of `Nexrelay.buildPeersConfig`: every device
that is not this host and whose `LocalIP` splits gets a peer; a device on this
relay's reflexive address, or else a device that is neither symmetric nor a
relay, gets a second one.  `value.AllowedIPs` grows with the child prefixes at
each of the loops over `value.ChildPrefix`. -/
def Nexrelay.peerStep (P : Platform) (nexr : Nexrelay) (st : RelayPeerLoop) (value : Device) :
    RelayPeerLoop :=
  match SplitHostPort value.LocalIP with
  | none => st
  | some (_, peerPort) =>
    if value.PublicKey = nexr.wireguardPubKey then st
    else
      let r1 := foldChildPrefix P nexr.tunnelIface value.ChildPrefix st.host value.AllowedIPs
      let peers1 := st.peers ++ [{ PublicKey := value.PublicKey, Endpoint := value.LocalIP,
                                   AllowedIPs := r1.2,
                                   PersistentKeepAlive := PersistentHubKeepalive }]
      if nexr.nodeReflexiveAddress = value.ReflexiveIPv4 ∧ value.Relay = false then
        let directLocalPeerEndpointSocket := JoinHostPort value.EndpointLocalAddressIPv4 peerPort
        let r2 := foldChildPrefix P nexr.tunnelIface value.ChildPrefix r1.1 r1.2
        { peers := peers1 ++ [{ PublicKey := value.PublicKey,
                                Endpoint := directLocalPeerEndpointSocket,
                                AllowedIPs := r2.2, PersistentKeepAlive := PersistentKeepalive }],
          host := r2.1 }
      else if value.SymmetricNat = false ∧ value.Relay = false then
        let r2 := foldChildPrefix P nexr.tunnelIface value.ChildPrefix r1.1 r1.2
        { peers := peers1 ++ [{ PublicKey := value.PublicKey, Endpoint := value.LocalIP,
                                AllowedIPs := r2.2, PersistentKeepAlive := PersistentKeepalive }],
          host := r2.1 }
      else { peers := peers1, host := r1.1 }

/-- One iteration of the loop of `Nexrelay.buildLocalConfig` (linux: the relay
runs on linux only). -/
def Nexrelay.buildLocalConfigStep (P : Platform) (st : Nexrelay × Host) (value : Device) :
    Nexrelay × Host :=
  let nexr := st.1
  let h := st.2
  if value.PublicKey = nexr.wireguardPubKey then
    let h1 :=
      if nexr.wgLocalAddress ≠ value.TunnelIP then
        if h.linkExists then (DelLink P h nexr.tunnelIface).2 else h
      else h
    ({ nexr with wgLocalAddress := value.TunnelIP,
                 wgConfig := { nexr.wgConfig with
                   Interface := { PrivateKey := nexr.wireguardPvtKey,
                                  ListenPort := nexr.listenPort } } },
     h1)
  else st

/-- Method `Nexrelay.buildLocalConfig`. -/
def Nexrelay.buildLocalConfig (P : Platform) (nexr : Nexrelay) (h : Host) : Nexrelay × Host :=
  (nexr.deviceCache.map Prod.snd).foldl (Nexrelay.buildLocalConfigStep P) (nexr, h)

/-- The result of `Nexrelay.buildPeersConfig`: how it ended, the agent and the host. -/
structure RelayBuildResult where
  status : BuildStatus
  nexr : Nexrelay
  host : Host
  deriving DecidableEq, Repr

/-- Method `Nexrelay.buildPeersConfig`. -/
def Nexrelay.buildPeersConfig (P : Platform) (nexr : Nexrelay) (h : Host) : RelayBuildResult :=
  let devices := nexr.deviceCache.map Prod.snd
  match Nexrelay.relayScan nexr devices { pubKeyInConfig := nexr.wireguardPubKeyInConfig } with
  | none => ⟨.panicked, nexr, h⟩
  | some scan =>
    let nexr1 := { nexr with wireguardPubKeyInConfig := scan.pubKeyInConfig }
    let hubOrg := decide (scan.orgPrefix ≠ "")
    if scan.relayIP = "" ∧ hubOrg = true then ⟨.skipped, nexr1, h⟩
    else
      let st := devices.foldl (Nexrelay.peerStep P nexr1) { peers := [], host := h }
      let nexr2 := { nexr1 with wgConfig := { nexr1.wgConfig with Peers := st.peers } }
      let r := Nexrelay.buildLocalConfig P nexr2 st.host
      ⟨.done, r.1, r.2⟩

/-- The step "give the wg interface an address" of `Nexrelay.setupInterface`. -/
def Nexrelay.assignAddress (P : Platform) (nexr : Nexrelay) (h : Host) : Bool × Host :=
  let r4 := RunCommand P h ["ip", "address", "add", nexr.wgLocalAddress, "dev", nexr.tunnelIface]
  if r4.1 then (true, { r4.2 with ifaceIPv4 := some (addrOfCidr nexr.wgLocalAddress) })
  else
    let rDel := RunCommand P r4.2
      ["ip", "address", "del", GetIPv4IfaceString r4.2, "dev", nexr.tunnelIface]
    let hDel := if rDel.1 then { rDel.2 with ifaceIPv4 := none } else rDel.2
    let rAdd := RunCommand P hDel
      ["ip", "address", "add", nexr.wgLocalAddress, "dev", nexr.tunnelIface]
    if rAdd.1 then (true, { rAdd.2 with ifaceIPv4 := some (addrOfCidr nexr.wgLocalAddress) })
    else (false, rAdd.2)

/-- The first step of `Nexrelay.setupInterface`: "delete the wireguard ip link
interface if it exists". -/
def Nexrelay.deleteExistingLink (P : Platform) (nexr : Nexrelay) (h : Host) : Host :=
  if h.linkExists then
    let r := RunCommand P h ["ip", "link", "del", nexr.tunnelIface]
    if r.1 then r.2.dropLink nexr.tunnelIface else r.2
  else h

/-- Method `Nexrelay.setupInterface` of the linux build.  Returns `none` for a nil
error. -/
def Nexrelay.setupInterface (P : Platform) (nexr : Nexrelay) (h : Host) : Option Err × Host :=
  -- delete the wireguard ip link interface if it exists
  let h1 := Nexrelay.deleteExistingLink P nexr h
  -- create the wireguard ip link interface
  let r2 := RunCommand P h1 ["ip", "link", "add", nexr.tunnelIface, "type", "wireguard"]
  if !r2.1 then (some .InterfaceErr, r2.2)
  else
    -- start the wireguard listener on a well-known port
    let r3 := RunCommand P { r2.2 with linkExists := true }
      ["wg", "set", nexr.tunnelIface, "listen-port", toString WgDefaultPort,
       "private-key", LinuxPrivateKeyFile]
    if !r3.1 then (some .InterfaceErr, r3.2)
    else
      -- give the wg interface an address
      let r5 := Nexrelay.assignAddress P nexr r3.2
      if !r5.1 then (some .InterfaceErr, r5.2)
      else
        -- bring the wg0 interface up
        let r6 := RunCommand P r5.2 ["ip", "link", "set", nexr.tunnelIface, "up"]
        if r6.1 then (none, r6.2) else (some .InterfaceErr, r6.2)

/-- The body of the loops of `Nexrelay.DeployWireguardConfig`: routes first, then
the tunnel, configured as a relay-side peer. -/
def Nexrelay.installPeer (P : Platform) (nexr : Nexrelay) (h : Host) (peer : WgPeerConfig) : Host :=
  HandlePeerTunnel P (HandlePeerRoute P h peer.AllowedIPs nexr.tunnelIface) peer nexr.tunnelIface true

/-- Method `Nexrelay.DeployWireguardConfig`.  Returns `none` for a nil error. -/
def Nexrelay.DeployWireguardConfig (P : Platform) (nexr : Nexrelay) (h : Host)
    (newPeers : List Device) (firstTime : Bool) : Option Err × Host :=
  let cfg : Nexd.wgConfig := { Interface := nexr.wgConfig.Interface, Peers := nexr.wgConfig.Peers }
  let r : Option Err × Host :=
    if nexr.wgLocalAddress ≠ GetIPv4IfaceString h then Nexrelay.setupInterface P nexr h
    else (none, h)
  match r with
  | (some e, h1) => (some e, h1)
  | (none, h1) =>
    if firstTime then
      (none, cfg.Peers.foldl (Nexrelay.installPeer P nexr) h1)
    else
      (none, newPeers.foldl (fun h newPeer =>
        if newPeer.ID ≠ uuidNil then
          cfg.Peers.foldl (fun h peer =>
            if peer.PublicKey = newPeer.PublicKey ∧ newPeer.PublicKey ≠ nexr.wireguardPubKey then
              Nexrelay.installPeer P nexr h peer
            else h) h
        else h) h1)

/-! ### The relay state sampler and the relay check (`nexrelay.go`) -/

/-- A dumped WireGuard session `nexodus.WgSessions` (declared outside the
sources): the fields the sampler reads. -/
structure WgSessions where
  PublicKey : String := ""
  Endpoint : String := ""
  deriving DecidableEq, Repr

/-- The request body `models.UpdateDevice` (declared outside the sources), with
the fields the agents assign. -/
structure UpdateDevice where
  LocalIP : String := ""
  ChildPrefix : List String := []
  ReflexiveIPv4 : String := ""
  EndpointLocalAddressIPv4 : String := ""
  SymmetricNat : Bool := false
  Hostname : String := ""
  deriving DecidableEq, Repr

/-- The request body `models.AddDevice` (declared outside the sources), with the
fields the agents assign. -/
structure AddDevice where
  UserID : String := ""
  OrganizationID : UUID := 0
  PublicKey : String := ""
  LocalIP : String := ""
  TunnelIP : String := ""
  ChildPrefix : List String := []
  ReflexiveIPv4 : String := ""
  EndpointLocalAddressIPv4 : String := ""
  SymmetricNat : Bool := false
  Hostname : String := ""
  Relay : Bool := false
  deriving DecidableEq, Repr

/-- The requests the agent sends to the controller, in the order it sends them. -/
inductive ApiCall where
  | GetCurrentUser
  | GetDeviceInOrganization (org : UUID)
  | CreateDevice (body : AddDevice)
  | UpdateDevice (id : UUID) (body : UpdateDevice)
  deriving DecidableEq, Repr

/-- The map `relayData` of `relayStateReconcile`: the first dumped session of
each public key. -/
def relayData (relayInfo : List WgSessions) (publicKey : String) : Option WgSessions :=
  relayInfo.find? (fun s => s.PublicKey = publicKey)

/-- Method `Nexrelay.relayStateReconcile`.  `fetched` is what
`GetDeviceInOrganization` returned (`none` for an error) and `relayInfo` what
`DumpPeers` returned (its error is only logged).  Returns the error (`none` for
nil) and the requests sent; an error of `UpdateDevice` is only logged. -/
def Nexrelay.relayStateReconcile (_nexr : Nexrelay) (orgID : UUID)
    (fetched : Option (List Device)) (relayInfo : List WgSessions) :
    Option Err × List ApiCall :=
  match fetched with
  | none => (some (.other "GetDeviceInOrganization"), [.GetDeviceInOrganization orgID])
  | some peerListing =>
    (none, peerListing.foldl (fun calls peer =>
      -- if the peer is behind a symmetric NAT, skip to the next peer
      if peer.SymmetricNat then calls
      else
        match relayData relayInfo peer.PublicKey with
        | none => calls
        | some session =>
          if session.Endpoint ≠ "" then
            -- test the reflexive address is valid and not still in a (none) state
            match SplitHostPort session.Endpoint with
            | none => calls
            | some _ => calls ++ [.UpdateDevice peer.ID { LocalIP := session.Endpoint }]
          else calls) [.GetDeviceInOrganization orgID])

/-- Method `Nexrelay.orgRelayCheck`.  `fetched` is what `GetDeviceInOrganization`
returned.  Returns the relay ID and whether the error is nil. -/
def Nexrelay.orgRelayCheck (nexr : Nexrelay) (fetched : Option (List Device)) : UUID × Bool :=
  match fetched with
  | none => (uuidNil, false)
  | some peerListing =>
    match peerListing.find? (fun p => p.Relay && decide (nexr.wireguardPubKey ≠ p.PublicKey)) with
    | some p => (p.ID, true)
    | none => (uuidNil, true)

/-- The outcome of `client.CreateDevice`: the device, a conflict carrying the ID
of the existing device (`none` when that ID does not parse), or another error. -/
inductive CreateDeviceResult where
  | ok (device : Device)
  | conflict (id : Option UUID)
  | failed
  deriving DecidableEq, Repr

/-- What `Start` (of either agent) obtains from its environment up to the
registration: the outcome of each step that can fail. -/
structure StartEnv where
  /-- whether `CtlServerStart` succeeds -/
  ctlServerOk : Bool := true
  /-- the password read from the terminal, `none` when reading fails -/
  passwordInput : Option String := none
  /-- whether `client.NewClient` succeeds -/
  clientOk : Bool := true
  /-- the key pair `CheckExistingKeys` finds -/
  existingKeys : Option (String × String) := none
  /-- the key pair `GenerateNewKeys` produces -/
  generatedKeys : Option (String × String) := none
  /-- the user `GetCurrentUser` returns: its ID and organizations -/
  currentUser : Option (String × List UUID) := none
  /-- the listing `GetDeviceInOrganization` returns -/
  listing : Option (List Device) := none
  /-- the address and port a STUN request observes -/
  stunRequest : Option (String × Int) := none
  /-- the address `findLocalIP` discovers -/
  findLocalIP : Option String := none
  /-- the result of `CreateDevice` -/
  createDevice : AddDevice → CreateDeviceResult
  /-- the result of `UpdateDevice` -/
  updateDevice : UUID → UpdateDevice → Option Device

/-- How the registration part of `Nexrelay.Start` ends. -/
inductive StartResult where
  | failed (msg : String)
  | registered (device : Device)
  deriving DecidableEq, Repr

/-- The first part of `Nexrelay.Start`: the control server, the login, the key
pair and the organization of the user.  Returns the agent with keys and
organization set and the ID of the user, or how `Start` failed (with the agent
and the requests sent so far). -/
def Nexrelay.startSession (env : StartEnv) (nexr : Nexrelay) :
    Except (String × Nexrelay × List ApiCall) (Nexrelay × String) :=
  if !env.ctlServerOk then .error ("CtlServerStart()", nexr, [])
  else
    let pw : Option String :=
      if nexr.username ≠ "" ∧ nexr.password = "" then env.passwordInput else some nexr.password
    match pw with
    | none => .error ("login aborted", nexr, [])
    | some password =>
      let nexr := { nexr with password := password }
      if !env.clientOk then .error ("NewClient", nexr, [])
      else
        let nexr := { nexr with status := 2, statusMsg := "" }
        let keys : Option (String × String) :=
          match env.existingKeys with
          | some k => some k
          | none => env.generatedKeys
        match keys with
        | none => .error ("Unable to locate or generate a key/pair", nexr, [])
        | some (publicKey, privateKey) =>
          let nexr := { nexr with wireguardPubKey := publicKey, wireguardPvtKey := privateKey }
          match env.currentUser with
          | none => .error ("get organization error", nexr, [.GetCurrentUser])
          | some (userID, organizations) =>
            match organizations with
            | [] => .error ("user does not belong to any organizations", nexr, [.GetCurrentUser])
            | [org] => .ok ({ nexr with organization := org }, userID)
            | _ :: _ :: _ =>
              .error ("user being in > 1 organization is not yet supported", nexr,
                [.GetCurrentUser])

/-- The endpoint `Nexrelay.Start` advertises: the address and port it joins into
`endpointSocket`; `none` when `findLocalIP` fails.  `local0` is the endpoint the
user provided (empty when none). -/
def Nexrelay.startEndpoint (env : StartEnv) (nexr : Nexrelay) (local0 : String × Int) :
    Option (String × Int) :=
  let local1 : String × Int :=
    if nexr.stun = true ∧ local0.1 = "" then
      match env.stunRequest with
      | none => local0
      | some ipPort => ipPort
    else local0
  if local1.1 = "" then env.findLocalIP.map (fun ip => (ip, nexr.listenPort))
  else some local1

/-- The part of `Nexrelay.Start` that follows the relay check: the choice of the
endpoint and the registration of the relay device.  `local0` is the endpoint the
user provided (empty when none) and `calls` the requests sent so far. -/
def Nexrelay.startRegister (env : StartEnv) (nexr : Nexrelay) (userID : String)
    (local0 : String × Int) (calls : List ApiCall) : StartResult × Nexrelay × List ApiCall :=
  match Nexrelay.startEndpoint env nexr local0 with
  | none => (.failed "unable to determine the ip address of the host", nexr, calls)
  | some (localIP, localEndpointPort) =>
    let nexr := { nexr with LocalIP := localIP, endpointLocalAddress := localIP }
    let endpointSocket := JoinHostPort localIP (toString localEndpointPort)
    let body : AddDevice :=
      { UserID := userID, OrganizationID := nexr.organization,
        PublicKey := nexr.wireguardPubKey, LocalIP := endpointSocket,
        TunnelIP := nexr.requestedIP, ReflexiveIPv4 := nexr.nodeReflexiveAddress,
        EndpointLocalAddressIPv4 := nexr.endpointLocalAddress,
        SymmetricNat := false, Hostname := nexr.hostname, Relay := true }
    let calls := calls ++ [.CreateDevice body]
    match env.createDevice body with
    | .ok device => (.registered device, nexr, calls)
    | .failed => (.failed "error creating device", nexr, calls)
    | .conflict none => (.failed "error parsing conflicting device id", nexr, calls)
    | .conflict (some deviceID) =>
      let upd : UpdateDevice :=
        { LocalIP := endpointSocket, ReflexiveIPv4 := nexr.nodeReflexiveAddress,
          EndpointLocalAddressIPv4 := nexr.endpointLocalAddress,
          SymmetricNat := false, Hostname := nexr.hostname }
      let calls := calls ++ [.UpdateDevice deviceID upd]
      match env.updateDevice deviceID upd with
      | some device => (.registered device, nexr, calls)
      | none => (.failed "error updating device", nexr, calls)

/-- Method `Nexrelay.Start` up to and including the registration of the relay
device (what follows it, IP forwarding, the first `Reconcile` and the periodic
loops, is not part of this definition).  Returns how it ended, the agent and the
requests sent to the controller. -/
def Nexrelay.Start (env : StartEnv) (nexr : Nexrelay) : StartResult × Nexrelay × List ApiCall :=
  match Nexrelay.startSession env nexr with
  | .error r => (.failed r.1, r.2.1, r.2.2)
  | .ok (nexr, userID) =>
    let calls : List ApiCall := [.GetCurrentUser, .GetDeviceInOrganization nexr.organization]
    -- User requested ip --request-ip takes precedent
    let local0 : String × Int :=
      if nexr.userProvidedLocalIP ≠ "" then (nexr.userProvidedLocalIP, nexr.listenPort)
      else ("", 0)
    let chk := Nexrelay.orgRelayCheck nexr env.listing
    if !chk.2 then (.failed "GetDeviceInOrganization", nexr, calls)
    else if chk.1 ≠ uuidNil then
      (.failed "the organization already contains a relay node", nexr, calls)
    else Nexrelay.startRegister env nexr userID local0 calls

/-! ## Startup of the peer agent (`nexd/nexd.go`) -/

/-- The arguments of `NewNexodus` (context and logger left out). -/
structure NexodusArgs where
  controller : String := ""
  username : String := ""
  password : String := ""
  wgListenPort : Int := 0
  wireguardPubKey : String := ""
  wireguardPvtKey : String := ""
  requestedIP : String := ""
  userProvidedLocalIP : String := ""
  childPrefix : List String := []
  stun : Bool := false
  relayOnly : Bool := false
  insecureSkipTlsVerify : Bool := false
  version : String := ""
  deriving DecidableEq, Repr

/-- What `NewNexodus` and `nodePrep` obtain from their environment: the outcome
of each helper that is declared outside the sources.  A STUN request yields the
address it returns and whether its error is nil; the address that comes with an
error is whatever `StunRequest` returns then. -/
structure NewEnv where
  /-- whether `BinaryChecks` succeeds -/
  binaryChecksOk : Bool := true
  /-- whether `url.Parse` accepts the controller URL -/
  urlParseOk : Bool := true
  /-- whether `CheckOS` succeeds -/
  checkOSOk : Bool := true
  /-- the result of `os.Hostname` -/
  hostname : Option String := some ""
  /-- the result of `GetWgListenPort` -/
  getWgListenPort : Option Int := none
  /-- the result of `DefaultTunnelDev` -/
  defaultTunnelDev : String := "wg0"
  /-- whether `ValidateIp` accepts the address -/
  ValidateIp : String → Bool
  /-- whether `ValidateCIDR` accepts the prefix -/
  ValidateCIDR : String → Bool
  /-- the result of `StunRequest` to `StunServer1` -/
  stun1 : UDPAddr × Bool
  /-- the result of `StunRequest` to `StunServer2` -/
  stun2 : UDPAddr × Bool

/-- Method `Nexodus.removeExistingInterface` of the linux build (the missing
`LinkExists` reads the host; a failure of `DelLink` is only logged). -/
def removeExistingInterface (P : Platform) (ax : Nexodus) (h : Host) : Host :=
  if h.linkExists then (DelLink P h ax.tunnelIface).2 else h

/-- Method `Nexodus.nodePrep`: the NAT classifier.  `stun1` and `stun2` are what
the two calls of `StunRequest` return. -/
def nodePrep (P : Platform) (ax : Nexodus) (h : Host) (stun1 stun2 : UDPAddr × Bool) :
    Nexodus × Host :=
  -- remove an existing wg interfaces
  let h1 := removeExistingInterface P ax h
  -- discover the server reflexive address
  let stunAddr := stun1.1
  let ax1 := if !stun1.2 then ax else { ax with nodeReflexiveAddress := stunAddr.IP }
  let stunAddr2 := stun2.1
  let isSymmetric : Bool :=
    if !stun2.2 then false else decide (stunAddr.String ≠ stunAddr2.String)
  if isSymmetric then ({ ax1 with symmetricNat := true }, h1) else (ax1, h1)

/-- Method `Nexodus.checkUnsupportedConfigs`.  Returns whether the error is nil. -/
def checkUnsupportedConfigs (env : NewEnv) (ax : Nexodus) : Bool :=
  if ax.userProvidedLocalIP ≠ "" ∧ env.ValidateIp ax.userProvidedLocalIP = false then false
  else if ax.requestedIP ≠ "" ∧ env.ValidateIp ax.requestedIP = false then false
  else ax.childPrefix.all env.ValidateCIDR

/-- Function `NewNexodus`: `none` when it returns an error, otherwise the agent
it returns, and the host as `nodePrep` leaves it. -/
def NewNexodus (P : Platform) (env : NewEnv) (h : Host) (a : NexodusArgs) :
    Option Nexodus × Host :=
  if !env.binaryChecksOk then (none, h)
  else if !env.urlParseOk then (none, h)
  else if !env.checkOSOk then (none, h)
  else
    match env.hostname with
    | none => (none, h)
    | some hostname =>
      let port : Option Int := if a.wgListenPort = 0 then env.getWgListenPort else some a.wgListenPort
      match port with
      | none => (none, h)
      | some wgListenPort =>
        let ax : Nexodus :=
          { wireguardPubKey := a.wireguardPubKey,
            wireguardPvtKey := a.wireguardPvtKey,
            controllerIP := a.controller,
            listenPort := wgListenPort,
            requestedIP := a.requestedIP,
            userProvidedLocalIP := a.userProvidedLocalIP,
            childPrefix := a.childPrefix,
            stun := a.stun,
            deviceCache := [],
            hostname := hostname,
            symmetricNat := a.relayOnly,
            status := 0,
            version := a.version,
            username := a.username,
            password := a.password,
            skipTlsVerify := a.insecureSkipTlsVerify,
            tunnelIface := env.defaultTunnelDev }
        if !checkUnsupportedConfigs env ax then (none, h)
        else
          let r := nodePrep P ax h env.stun1 env.stun2
          (some r.1, r.2)

/-- The first part of `Nexodus.Start`: the control server, the login, the key
pair and the organization of the user.  Returns the agent with keys and
organization set and the ID of the user, or how `Start` failed (with the agent
and the requests sent so far). -/
def startSession (env : StartEnv) (ax : Nexodus) :
    Except (String × Nexodus × List ApiCall) (Nexodus × String) :=
  if !env.ctlServerOk then .error ("CtlServerStart()", ax, [])
  else
    let pw : Option String :=
      if ax.username ≠ "" ∧ ax.password = "" then env.passwordInput else some ax.password
    match pw with
    | none => .error ("login aborted", ax, [])
    | some password =>
      let ax := { ax with password := password }
      if !env.clientOk then .error ("NewClient", ax, [])
      else
        let ax := { ax with status := 2, statusMsg := "" }
        let keys : Option (String × String) :=
          match env.existingKeys with
          | some k => some k
          | none => env.generatedKeys
        match keys with
        | none => .error ("Unable to locate or generate a key/pair", ax, [])
        | some (publicKey, privateKey) =>
          let ax := { ax with wireguardPubKey := publicKey, wireguardPvtKey := privateKey }
          match env.currentUser with
          | none => .error ("get organization error", ax, [.GetCurrentUser])
          | some (userID, organizations) =>
            match organizations with
            | [] => .error ("user does not belong to any organizations", ax, [.GetCurrentUser])
            | [org] => .ok ({ ax with organization := org }, userID)
            | _ :: _ :: _ =>
              .error ("user being in > 1 organization is not yet supported", ax,
                [.GetCurrentUser])

/-- The endpoint `Nexodus.Start` advertises: the address and port it joins into
`endpointSocket`; `none` when `findLocalIP` fails. -/
def startEndpoint (env : StartEnv) (ax : Nexodus) : Option (String × Int) :=
  -- User requested ip --request-ip takes precedent
  let local0 : String × Int :=
    if ax.userProvidedLocalIP ≠ "" then (ax.userProvidedLocalIP, ax.listenPort) else ("", 0)
  -- If we are behind a symmetricNat, the endpoint ip discovered by a stun server is useless
  let local1 : String × Int :=
    if ax.symmetricNat = false ∧ ax.stun = true ∧ local0.1 = "" then
      match env.stunRequest with
      | none => local0
      | some ipPort => ipPort
    else local0
  if local1.1 = "" then env.findLocalIP.map (fun ip => (ip, ax.listenPort))
  else some local1

/-- The body of the `CreateDevice` request of `Nexodus.Start`; `ax` is the agent
with `LocalIP` and `endpointLocalAddress` set. -/
def startAddDevice (ax : Nexodus) (userID endpointSocket : String) : AddDevice :=
  { UserID := userID, OrganizationID := ax.organization,
    PublicKey := ax.wireguardPubKey, LocalIP := endpointSocket,
    TunnelIP := ax.requestedIP, ChildPrefix := ax.childPrefix,
    ReflexiveIPv4 := ax.nodeReflexiveAddress,
    EndpointLocalAddressIPv4 := ax.endpointLocalAddress,
    SymmetricNat := ax.symmetricNat, Hostname := ax.hostname, Relay := false }

/-- The body of the `UpdateDevice` request `Nexodus.Start` sends after a
conflict. -/
def startUpdateDevice (ax : Nexodus) (endpointSocket : String) : UpdateDevice :=
  { LocalIP := endpointSocket, ChildPrefix := ax.childPrefix,
    ReflexiveIPv4 := ax.nodeReflexiveAddress,
    EndpointLocalAddressIPv4 := ax.endpointLocalAddress,
    SymmetricNat := ax.symmetricNat, Hostname := ax.hostname }

/-- The part of `Nexodus.Start` that chooses the endpoint and registers the
device.  `calls` are the requests sent so far. -/
def startRegister (env : StartEnv) (ax : Nexodus) (userID : String) (calls : List ApiCall) :
    StartResult × Nexodus × List ApiCall :=
  match startEndpoint env ax with
  | none => (.failed "unable to determine the ip address of the host", ax, calls)
  | some (localIP, localEndpointPort) =>
    let ax := { ax with LocalIP := localIP, endpointLocalAddress := localIP }
    let endpointSocket := JoinHostPort localIP (toString localEndpointPort)
    let body := startAddDevice ax userID endpointSocket
    match env.createDevice body with
    | .ok device => (.registered device, ax, calls ++ [.CreateDevice body])
    | .failed => (.failed "error creating device", ax, calls ++ [.CreateDevice body])
    | .conflict none =>
      (.failed "error parsing conflicting device id", ax, calls ++ [.CreateDevice body])
    | .conflict (some deviceID) =>
      let upd := startUpdateDevice ax endpointSocket
      match env.updateDevice deviceID upd with
      | some device =>
        (.registered device, ax, calls ++ [.CreateDevice body, .UpdateDevice deviceID upd])
      | none =>
        (.failed "error updating device", ax,
          calls ++ [.CreateDevice body, .UpdateDevice deviceID upd])

/-- How `Nexodus.Start` ends, up to the end of its first `Reconcile`: it returns
an error before reconciling, or it has run the first `Reconcile`, which ended
as `res`. -/
inductive PeerStartResult where
  | failed (msg : String)
  | reconciled (res : Result)
  deriving DecidableEq, Repr

/-- Method `Nexodus.Start` up to and including its first `Reconcile` (the
periodic loops that follow are not part of this definition).  The listing the
first `Reconcile` fetches is `env.listing`.  Returns how it ended, the agent, the
host and the requests sent to the controller. -/
def Start (P : Platform) (env : StartEnv) (ax : Nexodus) (h : Host) :
    PeerStartResult × Nexodus × Host × List ApiCall :=
  match startSession env ax with
  | .error r => (.failed r.1, r.2.1, h, r.2.2)
  | .ok (ax, userID) =>
    match startRegister env ax userID [.GetCurrentUser] with
    | (.failed msg, ax, calls) => (.failed msg, ax, h, calls)
    | (.registered _, ax, calls) =>
      let r := Reconcile P ax h env.listing true
      (.reconciled r.1, r.2.1, r.2.2, calls ++ [.GetDeviceInOrganization ax.organization])

/-! ## The key pair store (`keys.go`) -/

/-- What the key pair store obtains from its environment: the files and the `wg`
binary. -/
structure KeyEnv where
  /-- the missing `FileExists` -/
  FileExists : String → Bool
  /-- the result of `os.ReadFile`: the content, `none` for an error -/
  ReadFile : String → Option String
  /-- the output of `wg genkey`, `none` for an error -/
  genkey : Option String
  /-- the output of `wg pubkey` for the private key on its standard input -/
  pubkey : String → Option String
  /-- whether the missing `WriteToFile` succeeds on the path -/
  WriteToFileOk : String → Bool

/-- Go `strings.Replace(s, "\n", "", -1)`: every newline is dropped. -/
def stringsReplaceNewline (s : String) : String :=
  String.mk (s.data.filter (fun c => c ≠ '\n'))

/-- Go `unicode.IsSpace`. -/
def IsSpace (c : Char) : Bool :=
  let n := c.toNat
  n = 9 || n = 10 || n = 11 || n = 12 || n = 13 || n = 32 || n = 0x85 || n = 0xA0 ||
  n = 0x1680 || (0x2000 ≤ n && n ≤ 0x200a) || n = 0x2028 || n = 0x2029 || n = 0x202f ||
  n = 0x205f || n = 0x3000

/-- Go `strings.TrimSpace`: leading and trailing white space is dropped. -/
def TrimSpace (s : String) : String :=
  String.mk ((s.data.dropWhile IsSpace).reverse.dropWhile IsSpace).reverse

/-- Function `readKeyFileToString`: `none` when it returns an error. -/
def readKeyFileToString (env : KeyEnv) (s : String) : Option String :=
  match env.ReadFile s with
  | none => none
  | some rawStr => some (stringsReplaceNewline rawStr)

/-- Function `readKeyFile`: `none` when it returns an error. -/
def readKeyFile (env : KeyEnv) (keyFile : String) : Option String :=
  if !env.FileExists keyFile then none
  else readKeyFileToString env keyFile

/-- Function `CheckExistingKeys` of `keys_darwin.go` and `keys_windows.go`, which
differ in the two file paths only; the paths are parameters here.  `none` when
it returns an error. -/
def CheckExistingKeys (env : KeyEnv) (publicKeyFile privateKeyFile : String) :
    Option (String × String) :=
  match readKeyFile env publicKeyFile with
  | none => none
  | some publicKey =>
    match readKeyFile env privateKeyFile with
    | none => none
    | some privateKey =>
      if publicKey ≠ "" ∧ privateKey ≠ "" then some (publicKey, privateKey) else none

/-- Function `generateKeyPair`: `none` when it returns an error. -/
def generateKeyPair (env : KeyEnv) (publicKeyFile privateKeyFile : String) :
    Option (String × String) :=
  match env.genkey with
  | none => none
  | some privateKey =>
    match env.pubkey privateKey with
    | none => none
    | some publicKey =>
      let wgPubKey := TrimSpace publicKey
      let wgPvtKey := TrimSpace privateKey
      -- write the new keys to disk
      if !env.WriteToFileOk publicKeyFile then none
      else if !env.WriteToFileOk privateKeyFile then none
      else some (wgPubKey, wgPvtKey)

/-! ## A reference platform

Concrete parsers and always-succeeding system calls, used to run the agent on
concrete inputs. -/

/-- Decimal digits to a number; `none` for an empty string or a non-digit. -/
def parseDec (cs : List Char) : Option Nat :=
  if cs = [] ∨ ¬ cs.all Char.isDigit then none
  else some (cs.foldl (fun n c => 10 * n + (c.toNat - 48)) 0)

/-- Split a character list at every occurrence of `sep`. -/
def splitAt (sep : Char) : List Char → List (List Char)
  | [] => [[]]
  | c :: cs =>
    if c = sep then [] :: splitAt sep cs
    else
      match splitAt sep cs with
      | [] => [[c]]
      | w :: ws => (c :: w) :: ws

/-- A dotted-quad IPv4 address: four decimal fields of at most three digits, each
at most 255 and without a leading zero. -/
def parseIPv4 (cs : List Char) : Option (List Nat) :=
  let fields := splitAt '.' cs
  if fields.length ≠ 4 then none
  else
    let octet (f : List Char) : Option Nat :=
      if f.length > 3 ∨ (f.length > 1 ∧ f.head? = some '0') then none
      else (parseDec f).bind (fun n => if n ≤ 255 then some n else none)
    fields.mapM octet

/-- An IPv4 CIDR `a.b.c.d/len` with `len ≤ 32`: the address and the prefix length. -/
def parseCIDR4 (s : String) : Option (List Nat × Nat) :=
  match splitAt '/' s.data with
  | [ip, len] =>
    match parseIPv4 ip, parseDec len with
    | some a, some n => if n ≤ 32 then some (a, n) else none
    | _, _ => none
  | _ => none

/-- The range check of Go `strconv.Atoi`: a value outside the 64-bit `int` range
is an error. -/
def intRange (v : Int) : Option Int :=
  if -9223372036854775808 ≤ v ∧ v ≤ 9223372036854775807 then some v else none

/-- Go `strconv.Atoi`: decimal digits with an optional sign; `none` for any other
string and for a value outside the 64-bit `int` range. -/
def atoi (s : String) : Option Int :=
  match s.data with
  | '-' :: cs => (parseDec cs).bind (fun n => intRange (- (n : Int)))
  | '+' :: cs => (parseDec cs).bind (fun n => intRange (n : Int))
  | cs => (parseDec cs).bind (fun n => intRange (n : Int))

/-- Modelled from the spec: the missing `ParseIPNet` and `ParseNetworkStr` of
`utils.go` on the reference platform.  `ParseIPNet` yields the prefix length of an
IPv4 CIDR; `ParseNetworkStr` accepts an IPv4 CIDR and returns it ("the relay's
overlay IP widened to the organization's mask"), and returns the empty string
with an error for anything else.  `ParseIP` accepts dotted-quad IPv4 addresses.
Every system call succeeds and every key is accepted. -/
def refPlatform : Platform where
  ParseIPNet := fun s => (parseCIDR4 s).map Prod.snd
  ParseNetworkStr := fun s => if (parseCIDR4 s).isSome then (s, true) else ("", false)
  ParseKey := fun _ => true
  ParseCIDR := fun s => (parseCIDR4 s).isSome
  Atoi := atoi
  ParseIP := fun s => if (parseIPv4 s.data).isSome then s else "<nil>"
  wgctrlNew := fun _ => true
  ConfigureDeviceOk := fun _ _ _ => true
  RouteExistsErr := fun _ _ => none
  AddRouteOk := fun _ _ _ => true
  DeleteRouteOk := fun _ _ _ => true
  DelLinkOk := fun _ _ => true
  RunCommandOk := fun _ _ => true

/-- The failing platform of the counterexamples: the reference platform with a
WireGuard device that rejects every configuration (as when the tunnel link has
been removed behind the agent's back). -/
def wgDownPlatform : Platform :=
  { refPlatform with ConfigureDeviceOk := fun _ _ _ => false }

/-! ## Statements of the specification -/

/-- The map `{d.ID → d | d ∈ L}` of the specification read at `id`: the record
the listing carries under that ID (the last one, should an ID be listed twice),
`none` when the ID is not listed. -/
def listingMap (L : List Device) (id : UUID) : Option Device :=
  L.foldl (fun acc d => if d.ID = id then some d else acc) none

/-- The fields of the agent that `buildPeersConfig` never assigns. -/
def SameFrame (a b : Nexodus) : Prop :=
  a.deviceCache = b.deviceCache ∧ a.tunnelIface = b.tunnelIface ∧
  a.wireguardPubKey = b.wireguardPubKey ∧ a.symmetricNat = b.symmetricNat ∧
  a.nodeReflexiveAddress = b.nodeReflexiveAddress ∧ a.organization = b.organization

/-- The devices the peering policy of the peer persona gives a peer: the
`LocalIP` splits, the device is not this host, and it is a relay, shares this
host's reflexive address, or neither side is behind a symmetric NAT. -/
def policyAdmits (ax : Nexodus) (d : Device) : Bool :=
  (SplitHostPort d.LocalIP).isSome && decide (d.PublicKey ≠ ax.wireguardPubKey) &&
    (d.Relay || decide (ax.nodeReflexiveAddress = d.ReflexiveIPv4) ||
      (!ax.symmetricNat && !d.SymmetricNat))

/-- The peer the relay arm of `buildPeersConfig` builds for `value` when
`allowed` is the relay allowed-IP list accumulated so far. -/
def relayPeer (allowed : List String) (value : Device) : WgPeerConfig :=
  { PublicKey := value.PublicKey, Endpoint := value.LocalIP,
    AllowedIPs := allowed ++ value.ChildPrefix, PersistentKeepAlive := PersistentKeepalive }

/-- The peer the same-reflexive-address arm of `buildPeersConfig` builds for `value`. -/
def localPeer (value : Device) (peerPort : String) : WgPeerConfig :=
  { PublicKey := value.PublicKey,
    Endpoint := JoinHostPort value.EndpointLocalAddressIPv4 peerPort,
    AllowedIPs := value.AllowedIPs ++ value.ChildPrefix, PersistentKeepAlive := PersistentKeepalive }

/-- The peer the direct arm of `buildPeersConfig` builds for `value`. -/
def directPeer (value : Device) : WgPeerConfig :=
  { PublicKey := value.PublicKey, Endpoint := value.LocalIP,
    AllowedIPs := value.AllowedIPs ++ value.ChildPrefix, PersistentKeepAlive := PersistentKeepalive }

/-- The peers one iteration of the peer loop appends (the projection of
`peerStep` on `peers`). -/
def stepPeers (ax : Nexodus) (allowed : List String) (value : Device) : List WgPeerConfig :=
  match SplitHostPort value.LocalIP with
  | none => []
  | some (_, peerPort) =>
    if value.PublicKey = ax.wireguardPubKey then []
    else
      (if value.Relay then [relayPeer allowed value] else []) ++
      (if ax.nodeReflexiveAddress = value.ReflexiveIPv4 ∧ value.Relay = false then
        [localPeer value peerPort]
       else if ax.symmetricNat = false ∧ value.SymmetricNat = false ∧ value.Relay = false then
        [directPeer value]
       else [])

/-- The relay allowed-IP list after one iteration of the peer loop (the
projection of `peerStep` on `relayAllowedIP`). -/
def stepAllowed (ax : Nexodus) (allowed : List String) (value : Device) : List String :=
  if (SplitHostPort value.LocalIP).isSome ∧ value.PublicKey ≠ ax.wireguardPubKey ∧ value.Relay = true
  then allowed ++ value.ChildPrefix else allowed

/-- The peers the peer loop derives from a list of devices, starting from the
relay allowed-IP list `allowed`: the peering policy as a pure function. -/
def policyPeers (ax : Nexodus) : List String → List Device → List WgPeerConfig
  | _, [] => []
  | allowed, value :: rest =>
    stepPeers ax allowed value ++ policyPeers ax (stepAllowed ax allowed value) rest

/-- Whether the static checks of `HandlePeerTunnel` and `addPeer` accept the
peer: the endpoint splits, the key and every allowed IP parse, and the port is a
number. -/
def installable (P : Platform) (p : WgPeerConfig) : Bool :=
  match SplitHostPort p.Endpoint with
  | none => false
  | some (_, port) =>
    P.ParseKey p.PublicKey && p.AllowedIPs.all P.ParseCIDR && (P.Atoi port).isSome

/-- The cache a fresh agent builds from a listing. -/
def freshCache (L : List Device) : DeviceCache :=
  (L.foldl diffStep ([], false, [])).1

/-- The cache of a fresh agent after the listing `L1` and then the listing `L2`
have been merged into it, before any deletion pass. -/
def mergedCache (L1 L2 : List Device) : DeviceCache :=
  (L2.foldl diffStep (freshCache L1, false, [])).1

/-- The peering policy run over a cache: `buildPeersConfig` on the agent holding
that cache, on an untouched host. -/
def policyBuild (P : Platform) (ax : Nexodus) (cache : DeviceCache) : BuildResult :=
  buildPeersConfig P { ax with deviceCache := cache } {}

/-- The peers the peering policy (`buildPeersConfig`) derives from the listing
`L` alone: the configuration a build over the cache of `L` leaves. -/
def derivedPeers (P : Platform) (ax : Nexodus) (L : List Device) : List WgPeerConfig :=
  (policyBuild P ax (freshCache L)).ax.wgConfig.Peers

/-- The peers one iteration of the relay's peer loop appends (the projection of
`Nexrelay.peerStep` on `peers`): the peer every device gets, then the local
peer of a device on the relay's reflexive address or else the second peer of a
device that is neither symmetric nor a relay. -/
def Nexrelay.stepPeers (nexr : Nexrelay) (value : Device) : List WgPeerConfig :=
  match SplitHostPort value.LocalIP with
  | none => []
  | some (_, peerPort) =>
    if value.PublicKey = nexr.wireguardPubKey then []
    else
      { PublicKey := value.PublicKey, Endpoint := value.LocalIP,
        AllowedIPs := value.AllowedIPs ++ value.ChildPrefix,
        PersistentKeepAlive := PersistentHubKeepalive } ::
      (if nexr.nodeReflexiveAddress = value.ReflexiveIPv4 ∧ value.Relay = false then
        [{ PublicKey := value.PublicKey,
           Endpoint := JoinHostPort value.EndpointLocalAddressIPv4 peerPort,
           AllowedIPs := value.AllowedIPs ++ value.ChildPrefix ++ value.ChildPrefix,
           PersistentKeepAlive := PersistentKeepalive }]
       else if value.SymmetricNat = false ∧ value.Relay = false then
        [{ PublicKey := value.PublicKey, Endpoint := value.LocalIP,
           AllowedIPs := value.AllowedIPs ++ value.ChildPrefix ++ value.ChildPrefix,
           PersistentKeepAlive := PersistentKeepalive }]
       else [])

/-- The host `h'` is the host `h` after further calls, each of which satisfies
`Q`: the call history has only grown, by calls in `Q`. -/
def Emits (Q : Call → Prop) (h h' : Host) : Prop :=
  ∃ cs, h'.calls = h.calls ++ cs ∧ ∀ c ∈ cs, Q c

/-- The calls issued while the host went from `h` to `h'`. -/
def callsSince (h h' : Host) : List Call :=
  h'.calls.drop h.calls.length

/-- A call that installs a route or a peer entry: a route addition, a peer
handler, `addPeer`, or a `ConfigureDevice` that adds a peer. -/
def Call.installs : Call → Bool
  | .AddRoute _ _ => true
  | .HandlePeerRoute _ _ => true
  | .HandlePeerTunnel _ _ _ => true
  | .addPeer _ _ _ => true
  | .ConfigureDevice _ cfg => cfg.Peers.any (fun p => !p.Remove)
  | _ => false

/-- A call that removes a peer or its routes: `deletePeer`, a route deletion, or
a `ConfigureDevice` that removes a peer. -/
def Call.removes : Call → Bool
  | .deletePeer _ _ => true
  | .DeleteRoute _ _ => true
  | .ConfigureDevice _ cfg => cfg.Peers.any (fun p => p.Remove)
  | _ => false

/-- The two peer handlers of a deployment: the calls that install the routes and
the peer entry of one peer. -/
def Call.isHandler : Call → Bool
  | .HandlePeerRoute _ _ => true
  | .HandlePeerTunnel _ _ _ => true
  | _ => false

/-- The calls one peer installation issues, in order: the route handler, the
route additions for allowed IPs of the peer, then the tunnel handler and what it
issues for the peer entry (`addPeer`, `ConfigureDevice`). -/
def InstallSegment (iface : String) (relay : Bool) (p : WgPeerConfig) (seg : List Call) : Prop :=
  ∃ rs ts, seg = (.HandlePeerRoute p.AllowedIPs iface :: rs) ++
      (.HandlePeerTunnel p iface relay :: ts) ∧
    (∀ c ∈ rs, ∃ ip ∈ p.AllowedIPs, c = .AddRoute ip iface) ∧
    (∀ c ∈ ts, c = .addPeer p iface relay ∨
      ∃ cfg, c = .ConfigureDevice iface cfg ∧
        ∀ q ∈ cfg.Peers, q.Remove = false ∧ q.PublicKey = p.PublicKey)

/-- The peers an incremental deployment installs: for each new peer with a
non-nil ID, in order, the peers of the configuration that carry its key, unless
that key is this host's. -/
def selectedPeers (peers : List WgPeerConfig) (ownKey : String) (newPeers : List Device) :
    List WgPeerConfig :=
  newPeers.flatMap (fun newPeer =>
    if newPeer.ID ≠ uuidNil then
      peers.filter (fun peer => peer.PublicKey = newPeer.PublicKey ∧ newPeer.PublicKey ≠ ownKey)
    else [])

/-! ## Sample inputs (the scenarios of the specification) -/

/-- This host's own entry: public key `A`, overlay address `10.0.0.1/32`. -/
def selfA : Device :=
  { ID := 1, PublicKey := "A", TunnelIP := "10.0.0.1/32", AllowedIPs := ["10.0.0.1/32"] }

/-- Peer `B` of the clean-enrollment scenario. -/
def devB : Device :=
  { ID := 2, PublicKey := "B", LocalIP := "203.0.113.5:51820", AllowedIPs := ["10.0.0.2/32"],
    ReflexiveIPv4 := "203.0.113.5" }

/-- A device `Y` that the controller no longer lists. -/
def devY : Device :=
  { ID := 9, PublicKey := "Y", LocalIP := "203.0.113.9:51820", AllowedIPs := ["10.0.0.9/32"],
    ReflexiveIPv4 := "203.0.113.9" }

/-- The agent of the scenarios: public key `A`, reflexive address `198.51.100.1`. -/
def agentA : Nexodus :=
  { wireguardPubKey := "A", wireguardPvtKey := "a", listenPort := 51820,
    nodeReflexiveAddress := "198.51.100.1" }

/-- Device `X` of the deletion scenario. -/
def devX : Device :=
  { ID := 8, PublicKey := "X", LocalIP := "203.0.113.8:51820", AllowedIPs := ["10.0.0.8/32"],
    ReflexiveIPv4 := "203.0.113.8" }

/-- A host on which the peers `X` and `Y` and their routes are installed. -/
def hostXY : Host :=
  { routes := [⟨"10.0.0.8/32", "wg0"⟩, ⟨"10.0.0.9/32", "wg0"⟩], wgPeers := ["X", "Y"],
    linkExists := true, ifaceIPv4 := some "10.0.0.1" }

/-- Device `D` of the same-LAN scenario: it shares this host's reflexive address. -/
def devD : Device :=
  { ID := 4, PublicKey := "D", LocalIP := "198.51.100.1:41000", AllowedIPs := ["10.0.0.4/32"],
    ReflexiveIPv4 := "198.51.100.1", EndpointLocalAddressIPv4 := "192.168.1.17" }

/-- A device behind a symmetric NAT on this host's LAN: same reflexive address,
`SymmetricNat` set, not a relay. -/
def devS : Device :=
  { ID := 5, PublicKey := "S", LocalIP := "198.51.100.1:42000", AllowedIPs := ["10.0.0.5/32"],
    ReflexiveIPv4 := "198.51.100.1", EndpointLocalAddressIPv4 := "192.168.1.18",
    SymmetricNat := true }

/-- A device behind a symmetric NAT elsewhere. -/
def devT : Device :=
  { ID := 6, PublicKey := "T", LocalIP := "203.0.113.6:42000", AllowedIPs := ["10.0.0.6/32"],
    ReflexiveIPv4 := "203.0.113.6", SymmetricNat := true, ChildPrefix := ["192.168.60.0/24"] }

/-- Relay `R` of the relay-mediation scenario as the specification writes it: its
first allowed IP carries a `/32`. -/
def relayR32 : Device :=
  { ID := 3, PublicKey := "R", LocalIP := "198.51.100.9:51820", AllowedIPs := ["10.0.0.254/32"],
    Relay := true, OrganizationPrefix := "10.0.0.0/24", ReflexiveIPv4 := "198.51.100.9" }

/-- Relay `R` with a bare overlay address as its first allowed IP. -/
def relayR : Device :=
  { relayR32 with AllowedIPs := ["10.0.0.254"] }

/-- Device `C` of the relay-mediation scenario. -/
def devC : Device :=
  { ID := 7, PublicKey := "C", LocalIP := "198.51.100.42:51820", AllowedIPs := ["10.0.0.3/32"],
    ReflexiveIPv4 := "198.51.100.42" }

/-- This host's own entry when it is the gateway of the child prefix
192.168.50.0/24. -/
def selfLan : Device :=
  { selfA with LocalIP := "198.51.100.1:51820", ReflexiveIPv4 := "198.51.100.1",
               ChildPrefix := ["192.168.50.0/24"] }

/-- A peer that is the gateway of the child prefix 192.168.20.0/24. -/
def devG : Device :=
  { ID := 10, PublicKey := "G", LocalIP := "203.0.113.20:51820", AllowedIPs := ["10.0.0.20/32"],
    ReflexiveIPv4 := "203.0.113.20", ChildPrefix := ["192.168.20.0/24"] }

/-- This host's own entry with a bare overlay address. -/
def selfBare : Device :=
  { selfA with TunnelIP := "10.0.0.1" }

/-- Peer `B` after it reported a symmetric NAT: same ID and key, `SymmetricNat` set. -/
def devBsym : Device :=
  { devB with SymmetricNat := true }

/-- Peer `B` after its endpoint moved to another port: same ID and key. -/
def devBmoved : Device :=
  { devB with LocalIP := "203.0.113.5:51821" }

/-- A first listing: this host, `B` and `Y`. -/
def firstListing : List Device := [selfBare, devB, devY]

/-- A later listing: `B` has moved, `Y` has left and `X` has joined. -/
def secondListing : List Device := [selfBare, devBmoved, devX]

/-- A device whose endpoint has not converged: its `LocalIP` is `(none)`. -/
def devN : Device :=
  { ID := 11, PublicKey := "N", LocalIP := "(none)", AllowedIPs := ["10.0.0.11/32"],
    ReflexiveIPv4 := "203.0.113.11", ChildPrefix := ["192.168.99.0/24"] }

/-- The relay agent of the scenarios: public key `R`, reflexive address
`198.51.100.9`. -/
def relayAgent : Nexrelay :=
  { wireguardPubKey := "R", wireguardPvtKey := "r", listenPort := 51820,
    nodeReflexiveAddress := "198.51.100.9" }

/-- The relay's own entry, with a bare overlay address. -/
def relaySelf : Device :=
  { relayR32 with TunnelIP := "10.0.0.254" }

/-- A device on the relay's own LAN: it shares the relay's reflexive address. -/
def devL : Device :=
  { ID := 14, PublicKey := "L", LocalIP := "198.51.100.9:43000", AllowedIPs := ["10.0.0.14/32"],
    ReflexiveIPv4 := "198.51.100.9", EndpointLocalAddressIPv4 := "192.168.7.14" }

/-- Peer `K` of the learn-and-republish scenario. -/
def devK : Device :=
  { ID := 12, PublicKey := "K", LocalIP := "192.0.2.12:51820", AllowedIPs := ["10.0.0.12/32"],
    ReflexiveIPv4 := "192.0.2.12" }

/-- Peer `M` of the learn-and-republish scenario. -/
def devM : Device :=
  { ID := 13, PublicKey := "M", LocalIP := "192.0.2.13:51820", AllowedIPs := ["10.0.0.13/32"],
    ReflexiveIPv4 := "192.0.2.13" }

/-- The session dump of the learn-and-republish scenario: `K` is seen at
`203.0.113.77:55512`, `M` has no endpoint yet. -/
def sessionDump : List WgSessions :=
  [{ PublicKey := "K", Endpoint := "203.0.113.77:55512" },
   { PublicKey := "M", Endpoint := "(none)" }]

/-- Another device that claims to be the relay of the organization. -/
def otherRelay : Device :=
  { ID := 20, PublicKey := "Q", LocalIP := "198.51.100.20:51820", AllowedIPs := ["10.0.0.253/32"],
    Relay := true, ReflexiveIPv4 := "198.51.100.20" }

/-- A device record that claims to be the relay and carries the nil ID. -/
def nilRelay : Device :=
  { otherRelay with ID := uuidNil }

/-- An environment in which every step of `Nexrelay.Start` succeeds: keys `R`/`r`
are found, the user belongs to organization 1, the controller lists `listing`,
and the registration is accepted. -/
def startEnv (listing : List Device) : StartEnv :=
  { existingKeys := some ("R", "r"), currentUser := some ("u", [1]), listing := some listing,
    findLocalIP := some "198.51.100.9",
    createDevice := fun body =>
      .ok { ID := 3, PublicKey := body.PublicKey, LocalIP := body.LocalIP, Relay := body.Relay },
    updateDevice := fun _ _ => none }

/-- A platform on which the tunnel link cannot be created: `ip link add` fails,
every other call succeeds. -/
def noLinkPlatform : Platform :=
  { refPlatform with
    RunCommandOk := fun _ args => decide (args.take 3 ≠ ["ip", "link", "add"]) }

/-- The record of peer `B` with the nil ID. -/
def devBnil : Device :=
  { devB with ID := uuidNil }

/-- The peer agent after a deployment: overlay address `10.0.0.1` recorded, peer
`B` in the derived configuration. -/
def agentUp : Nexodus :=
  { agentA with wgLocalAddress := "10.0.0.1", wgConfig := { Peers := [directPeer devB] } }

/-- A host whose tunnel interface is up with the address `10.0.0.1`. -/
def hostUp : Host :=
  { linkExists := true, ifaceIPv4 := some "10.0.0.1" }

/-- The answer of the first STUN server in the scenarios. -/
def stunA : UDPAddr := ⟨"198.51.100.1", 40000⟩

/-- An answer of the second STUN server that shows another port mapping. -/
def stunB : UDPAddr := ⟨"198.51.100.1", 40001⟩

/-- The zero address `net.UDPAddr{}`. -/
def stunZero : UDPAddr := ⟨"<nil>", 0⟩

/-- An environment in which every check of `NewNexodus` passes and the two STUN
requests return `stun1` and `stun2`. -/
def newEnv (stun1 stun2 : UDPAddr × Bool) : NewEnv :=
  { hostname := some "host-a", ValidateIp := fun _ => true, ValidateCIDR := fun _ => true,
    stun1 := stun1, stun2 := stun2 }

/-- The arguments of the peer agent of the scenarios. -/
def argsA : NexodusArgs :=
  { wgListenPort := 51820, wireguardPubKey := "A", wireguardPvtKey := "a" }

/-- An environment of `Nexodus.Start` in which the login succeeds, keys `A`/`a`
are found, the user belongs to organization 1, the controller lists this host
and `B`, a STUN request observes `198.51.100.1:40000` and the host address is
`192.168.1.10`; `create` and `update` are the answers to the registration. -/
def peerStartEnv (create : AddDevice → CreateDeviceResult)
    (update : UUID → UpdateDevice → Option Device) : StartEnv :=
  { existingKeys := some ("A", "a"), currentUser := some ("u", [1]),
    listing := some [selfBare, devB], stunRequest := some ("198.51.100.1", 40000),
    findLocalIP := some "192.168.1.10", createDevice := create, updateDevice := update }

/-- A controller that accepts every update and returns the device. -/
def updateOk (id : UUID) (body : UpdateDevice) : Option Device :=
  some { ID := id, PublicKey := "A", LocalIP := body.LocalIP, ChildPrefix := body.ChildPrefix,
         ReflexiveIPv4 := body.ReflexiveIPv4, SymmetricNat := body.SymmetricNat,
         Hostname := body.Hostname }

/-- A key store in which both key files exist with the content `content`, and
the `wg` binary prints `content` as well. -/
def keyEnv (content : String) : KeyEnv :=
  { FileExists := fun _ => true, ReadFile := fun _ => some content,
    genkey := some content, pubkey := fun _ => some content, WriteToFileOk := fun _ => true }

/-! # Lemmas and theorems -/

/-! ## The device cache as a map -/

theorem cacheGet_cacheSet (c : DeviceCache) (k : UUID) (d : Device) (k' : UUID) :
    cacheGet (cacheSet c k d) k' = if k = k' then some d else cacheGet c k' := by
  induction c with
  | nil => simp [cacheSet, cacheGet]
  | cons e rest ih =>
    obtain ⟨k0, v0⟩ := e
    by_cases h0 : k0 = k
    · subst h0
      by_cases h1 : k0 = k' <;> simp [cacheSet, cacheGet, h1]
    · by_cases h1 : k0 = k'
      · subst h1
        have : ¬ k = k0 := fun h => h0 h.symm
        simp [cacheSet, cacheGet, h0, this]
      · simp [cacheSet, cacheGet, h0, h1, ih]

theorem cacheGet_cacheDelete (c : DeviceCache) (k k' : UUID) :
    cacheGet (cacheDelete c k) k' = if k = k' then none else cacheGet c k' := by
  induction c with
  | nil => simp [cacheDelete, cacheGet]
  | cons e rest ih =>
    obtain ⟨k0, v0⟩ := e
    unfold cacheDelete at ih ⊢
    by_cases h0 : k0 = k
    · subst h0
      by_cases h1 : k0 = k'
      · simp [h1] at ih
        simp [cacheGet, h1, ih]
      · simp [h1] at ih
        simp [cacheGet, h1, ih]
    · by_cases h1 : k0 = k'
      · subst h1
        have : ¬ k = k0 := fun h => h0 h.symm
        simp [cacheGet, h0, this]
      · simp at ih
        simp [cacheGet, h0, h1, ih]

theorem cacheGet_of_mem {c : DeviceCache} (hnd : (c.map Prod.fst).Nodup) {k : UUID} {v : Device}
    (hm : (k, v) ∈ c) : cacheGet c k = some v := by
  induction c with
  | nil => simp at hm
  | cons e rest ih =>
    obtain ⟨k0, v0⟩ := e
    simp only [List.map_cons, List.nodup_cons] at hnd
    rcases List.mem_cons.1 hm with heq | hin
    · injection heq with h1 h2
      subst h1; subst h2
      simp [cacheGet]
    · have hne : k0 ≠ k := by
        intro h; subst h
        exact hnd.1 (List.mem_map.2 ⟨(k0, v), hin, rfl⟩)
      simp [cacheGet, hne, ih hnd.2 hin]

theorem mem_of_cacheGet {c : DeviceCache} {k : UUID} {v : Device}
    (hg : cacheGet c k = some v) : (k, v) ∈ c := by
  induction c with
  | nil => simp [cacheGet] at hg
  | cons e rest ih =>
    obtain ⟨k0, v0⟩ := e
    by_cases h0 : k0 = k
    · subst h0
      simp [cacheGet] at hg
      subst hg
      simp
    · simp [cacheGet, h0] at hg
      exact List.mem_cons_of_mem _ (ih hg)

theorem mem_cacheSet {c : DeviceCache} {k : UUID} {d : Device} {e : UUID × Device}
    (he : e ∈ cacheSet c k d) : e = (k, d) ∨ e ∈ c := by
  induction c with
  | nil => simpa [cacheSet] using he
  | cons e0 rest ih =>
    obtain ⟨k0, v0⟩ := e0
    by_cases h0 : k0 = k
    · simp [cacheSet, h0] at he
      rcases he with h | h
      · exact Or.inl h
      · exact Or.inr (List.mem_cons_of_mem _ h)
    · simp [cacheSet, h0] at he
      rcases he with h | h
      · exact Or.inr (by simp [h])
      · rcases ih h with h' | h'
        · exact Or.inl h'
        · exact Or.inr (List.mem_cons_of_mem _ h')

theorem keys_cacheSet (c : DeviceCache) (k : UUID) (d : Device) :
    (cacheSet c k d).map Prod.fst =
      if k ∈ c.map Prod.fst then c.map Prod.fst else c.map Prod.fst ++ [k] := by
  induction c with
  | nil => simp [cacheSet]
  | cons e rest ih =>
    obtain ⟨k0, v0⟩ := e
    by_cases h0 : k0 = k
    · subst h0; simp [cacheSet]
    · have h0' : ¬ k = k0 := fun h => h0 h.symm
      simp only [cacheSet, h0, if_false, List.map_cons, ih, List.mem_cons, h0', false_or]
      split <;> simp

theorem CacheWF_cacheSet {c : DeviceCache} (hwf : CacheWF c) (d : Device) :
    CacheWF (cacheSet c d.ID d) := by
  refine ⟨?_, ?_⟩
  · rw [keys_cacheSet]
    split
    · exact hwf.1
    · rename_i hn
      exact List.Nodup.append hwf.1 (List.nodup_singleton _) (by
        intro a ha hb
        simp at hb
        subst hb
        exact hn ha)
  · intro e he
    rcases mem_cacheSet he with h | h
    · subst h; rfl
    · exact hwf.2 e h

theorem cacheGet_diffStep (st : DeviceCache × Bool × List Device) (p : Device) (id : UUID) :
    cacheGet (diffStep st p).1 id = if p.ID = id then some p else cacheGet st.1 id := by
  obtain ⟨cache, changed, newPeers⟩ := st
  unfold diffStep
  by_cases hid : p.ID = id
  · subst hid
    cases hg : cacheGet cache p.ID with
    | none =>
      by_cases hz : ({} : Device) = p <;> simp [hg, hz, cacheGet_cacheSet]
    | some e =>
      by_cases hz : e = p
      · subst hz
        simp [hg]
      · simp [hg, hz, cacheGet_cacheSet]
  · cases hg : cacheGet cache p.ID with
    | none =>
      by_cases hz : ({} : Device) = p <;> simp [hg, hz, hid, cacheGet_cacheSet]
    | some e =>
      by_cases hz : e = p <;> simp [hg, hz, hid, cacheGet_cacheSet]

theorem cacheGet_foldl_diffStep (L : List Device) (st : DeviceCache × Bool × List Device)
    (id : UUID) :
    cacheGet (L.foldl diffStep st).1 id =
      L.foldl (fun acc d => if d.ID = id then some d else acc) (cacheGet st.1 id) := by
  induction L generalizing st with
  | nil => rfl
  | cons p rest ih => simp only [List.foldl_cons, ih, cacheGet_diffStep]

theorem foldl_pick_of_not_listed (L : List Device) (id : UUID) (init : Option Device)
    (h : L.any (fun d => d.ID = id) = false) :
    L.foldl (fun acc d => if d.ID = id then some d else acc) init = init := by
  induction L generalizing init with
  | nil => rfl
  | cons p rest ih =>
    simp only [List.any_cons, Bool.or_eq_false_iff, decide_eq_false_iff_not] at h
    simp only [List.foldl_cons, h.1, if_false]
    exact ih init h.2

theorem foldl_pick_of_listed (L : List Device) (id : UUID) (init init' : Option Device)
    (h : L.any (fun d => d.ID = id) = true) :
    L.foldl (fun acc d => if d.ID = id then some d else acc) init =
      L.foldl (fun acc d => if d.ID = id then some d else acc) init' := by
  induction L generalizing init init' with
  | nil => simp at h
  | cons p rest ih =>
    simp only [List.foldl_cons]
    by_cases hp : p.ID = id
    · simp [hp]
    · simp only [hp, if_false]
      apply ih
      simpa [hp] using h

theorem CacheWF_diffStep {st : DeviceCache × Bool × List Device} (hwf : CacheWF st.1) (p : Device) :
    CacheWF (diffStep st p).1 := by
  obtain ⟨cache, changed, newPeers⟩ := st
  unfold diffStep
  simp only
  split <;> split <;> first | exact hwf | exact CacheWF_cacheSet hwf p | exact CacheWF_cacheSet (CacheWF_cacheSet hwf p) p

theorem CacheWF_foldl_diffStep (L : List Device) {st : DeviceCache × Bool × List Device}
    (hwf : CacheWF st.1) : CacheWF (L.foldl diffStep st).1 := by
  induction L generalizing st with
  | nil => exact hwf
  | cons p rest ih => exact ih (CacheWF_diffStep hwf p)

theorem cacheGet_eq_none_of_not_mem {c : DeviceCache} {k : UUID}
    (h : k ∉ c.map Prod.fst) : cacheGet c k = none := by
  induction c with
  | nil => rfl
  | cons e rest ih =>
    obtain ⟨k0, v0⟩ := e
    simp only [List.map_cons, List.mem_cons, not_or] at h
    have h0 : ¬ k0 = k := fun hh => h.1 hh.symm
    simp [cacheGet, h0, ih h.2]

theorem inPeerListing_eq (L : List Device) (p : Device) :
    inPeerListing L p = L.any (fun d => d.ID = p.ID) := rfl

theorem HandlePeerDeleteLoop_ok (P : Platform) (L : List Device) (iface : String)
    (hdel : ∀ h key, (deletePeer P h key iface).1 = true) :
    ∀ (entries : List (UUID × Device)) (cache : DeviceCache) (h : Host),
      (HandlePeerDeleteLoop P L iface entries cache h).1 = true := by
  intro entries
  induction entries with
  | nil => intro cache h; rfl
  | cons e rest ih =>
    intro cache h
    obtain ⟨k, p⟩ := e
    unfold HandlePeerDeleteLoop
    split
    · exact ih cache h
    · split
      · exact ih cache h
      · simp only [hdel, Bool.not_true, Bool.false_eq_true, if_false]
        exact ih _ _

/-- One step of the deletion loop at an entry that is present and not listed,
when the loop as a whole reports no error: the removal succeeded and the loop
goes on without the entry. -/
theorem HandlePeerDeleteLoop_step_unlisted (P : Platform) (L : List Device) (iface : String)
    (p : Device) (rest : List (UUID × Device)) (cache : DeviceCache) (h : Host)
    (hs : cacheGet cache p.ID = some p) (hl : inPeerListing L p = false)
    (hok : (HandlePeerDeleteLoop P L iface ((p.ID, p) :: rest) cache h).1 = true) :
    (deletePeer P h p.PublicKey iface).1 = true ∧
    HandlePeerDeleteLoop P L iface ((p.ID, p) :: rest) cache h =
      HandlePeerDeleteLoop P L iface rest (cacheDelete (cacheDelete cache p.ID) p.ID)
        (HandlePeerRouteDelete P (deletePeer P h p.PublicKey iface).2 iface p.AllowedIPs) := by
  cases hd : (deletePeer P h p.PublicKey iface).1 with
  | false =>
    simp [HandlePeerDeleteLoop, hs, hl, hd] at hok
  | true =>
    refine ⟨rfl, ?_⟩
    simp [HandlePeerDeleteLoop, hs, hl, hd]

/-- When the deletion loop reports no error, it leaves exactly the visited
entries whose ID is listed (and every entry it did not visit). -/
theorem HandlePeerDeleteLoop_cache (P : Platform) (L : List Device) (iface : String) :
    ∀ (entries : List (UUID × Device)) (cache : DeviceCache) (h : Host),
      (∀ e ∈ entries, e.1 = e.2.ID) →
      (∀ e ∈ entries, cacheGet cache e.1 = some e.2 ∨ cacheGet cache e.1 = none) →
      (HandlePeerDeleteLoop P L iface entries cache h).1 = true →
      ∀ id, cacheGet (HandlePeerDeleteLoop P L iface entries cache h).2.1 id =
        if id ∈ entries.map Prod.fst ∧ L.any (fun d => d.ID = id) = false then none
        else cacheGet cache id := by
  intro entries
  induction entries with
  | nil => intro cache h _ _ _; simp [HandlePeerDeleteLoop]
  | cons e rest ih =>
    intro cache h hid hget hok id
    obtain ⟨k, p⟩ := e
    have hk : k = p.ID := hid (k, p) (List.mem_cons_self _ _)
    have hid' : ∀ e ∈ rest, e.1 = e.2.ID := fun e he => hid e (List.mem_cons_of_mem _ he)
    have hget' : ∀ e ∈ rest, cacheGet cache e.1 = some e.2 ∨ cacheGet cache e.1 = none :=
      fun e he => hget e (List.mem_cons_of_mem _ he)
    subst hk
    have hmem : ∀ id : UUID, ¬ id = p.ID →
        ((id ∈ p.ID :: List.map Prod.fst rest) ↔ id ∈ List.map Prod.fst rest) := by
      intro id hi; rw [List.mem_cons]; simp [hi]
    have hget0 : cacheGet cache p.ID = some p ∨ cacheGet cache p.ID = none :=
      hget (p.ID, p) (List.mem_cons_self _ _)
    rcases hget0 with hs | hn
    · by_cases hl : inPeerListing L p = true
      · have hstep : HandlePeerDeleteLoop P L iface ((p.ID, p) :: rest) cache h =
            HandlePeerDeleteLoop P L iface rest cache h := by
          simp [HandlePeerDeleteLoop, hs, hl]
        rw [hstep] at hok ⊢
        rw [ih cache h hid' hget' hok id]
        by_cases hi : id = p.ID
        · subst hi
          rw [inPeerListing_eq] at hl
          simp [hl]
        · simp only [List.map_cons, hmem id hi]
      · have hl' : inPeerListing L p = false := by simpa using hl
        obtain ⟨_, hstep⟩ := HandlePeerDeleteLoop_step_unlisted P L iface p rest cache h hs hl' hok
        rw [hstep] at hok ⊢
        have hget2 : ∀ e ∈ rest,
            cacheGet (cacheDelete (cacheDelete cache p.ID) p.ID) e.1 = some e.2 ∨
            cacheGet (cacheDelete (cacheDelete cache p.ID) p.ID) e.1 = none := by
          intro e he
          simp only [cacheGet_cacheDelete]
          by_cases hi : p.ID = e.1
          · simp [hi]
          · simpa [hi] using hget' e he
        rw [ih _ _ hid' hget2 hok id]
        simp only [cacheGet_cacheDelete]
        rw [inPeerListing_eq] at hl'
        by_cases hi : p.ID = id
        · subst hi; simp [hl']
        · have hi' : ¬ id = p.ID := fun hh => hi hh.symm
          simp only [hi, if_false, List.map_cons, hmem id hi']
    · have hstep : HandlePeerDeleteLoop P L iface ((p.ID, p) :: rest) cache h =
          HandlePeerDeleteLoop P L iface rest cache h := by
        simp [HandlePeerDeleteLoop, hn]
      rw [hstep] at hok ⊢
      rw [ih cache h hid' hget' hok id]
      by_cases hi : id = p.ID
      · subst hi; simp [hn]
      · simp only [List.map_cons, hmem id hi]

/-- When `HandlePeerDelete` reports no error on a well-formed cache, it keeps
exactly the entries whose ID is listed. -/
theorem HandlePeerDelete_cache_of_ok (P : Platform) (L : List Device) (iface : String)
    (cache : DeviceCache) (hwf : CacheWF cache) (h : Host)
    (hok : (HandlePeerDelete P L cache iface h).1 = true) (id : UUID) :
    cacheGet (HandlePeerDelete P L cache iface h).2.1 id =
      if L.any (fun d => d.ID = id) then cacheGet cache id else none := by
  unfold HandlePeerDelete at hok ⊢
  rw [HandlePeerDeleteLoop_cache P L iface cache cache h (fun e he => hwf.2 e he)
    (fun e he => Or.inl (cacheGet_of_mem hwf.1 (by cases e; exact he))) hok id]
  by_cases hl : L.any (fun d => d.ID = id) = true
  · simp [hl]
  · have hl' : L.any (fun d => d.ID = id) = false := by simpa using hl
    by_cases hm : id ∈ cache.map Prod.fst
    · simp [hl', hm]
    · simp [hl', cacheGet_eq_none_of_not_mem hm]

/-- With every removal succeeding, `HandlePeerDelete` on a well-formed cache
reports no error and keeps exactly the entries whose ID is listed. -/
theorem HandlePeerDelete_cache (P : Platform) (L : List Device) (iface : String)
    (hdel : ∀ h key, (deletePeer P h key iface).1 = true)
    (cache : DeviceCache) (hwf : CacheWF cache) (h : Host) :
    (HandlePeerDelete P L cache iface h).1 = true ∧
    ∀ id, cacheGet (HandlePeerDelete P L cache iface h).2.1 id =
      if L.any (fun d => d.ID = id) then cacheGet cache id else none :=
  ⟨HandlePeerDeleteLoop_ok P L iface hdel cache cache h,
   HandlePeerDelete_cache_of_ok P L iface cache hwf h
     (HandlePeerDeleteLoop_ok P L iface hdel cache cache h)⟩

/-! ## What the policy build and the deployment leave untouched -/

theorem SameFrame.refl (a : Nexodus) : SameFrame a a := ⟨rfl, rfl, rfl, rfl, rfl, rfl⟩

theorem SameFrame.trans {a b c : Nexodus} (h1 : SameFrame a b) (h2 : SameFrame b c) :
    SameFrame a c :=
  ⟨h1.1.trans h2.1, h1.2.1.trans h2.2.1, h1.2.2.1.trans h2.2.2.1,
   h1.2.2.2.1.trans h2.2.2.2.1, h1.2.2.2.2.1.trans h2.2.2.2.2.1, h1.2.2.2.2.2.trans h2.2.2.2.2.2⟩

theorem buildLocalConfigStep_frame (P : Platform) (st : Nexodus × Host) (value : Device) :
    SameFrame st.1 (buildLocalConfigStep P st value).1 ∧
    (buildLocalConfigStep P st value).1.wgConfig.Peers = st.1.wgConfig.Peers := by
  by_cases hk : value.PublicKey = st.1.wireguardPubKey
  · rw [buildLocalConfigStep, if_pos hk]
    exact ⟨⟨rfl, rfl, rfl, rfl, rfl, rfl⟩, rfl⟩
  · rw [buildLocalConfigStep, if_neg hk]
    exact ⟨SameFrame.refl _, rfl⟩

theorem buildLocalConfig_fold_frame (P : Platform) (devs : List Device) (st : Nexodus × Host) :
    SameFrame st.1 (devs.foldl (buildLocalConfigStep P) st).1 ∧
    (devs.foldl (buildLocalConfigStep P) st).1.wgConfig.Peers = st.1.wgConfig.Peers := by
  induction devs generalizing st with
  | nil => exact ⟨SameFrame.refl _, rfl⟩
  | cons d rest ih =>
    have h1 := buildLocalConfigStep_frame P st d
    have h2 := ih (buildLocalConfigStep P st d)
    exact ⟨h1.1.trans h2.1, h2.2.trans h1.2⟩

theorem buildLocalConfig_frame (P : Platform) (ax : Nexodus) (h : Host) :
    SameFrame ax (buildLocalConfig P ax h).1 ∧
    (buildLocalConfig P ax h).1.wgConfig.Peers = ax.wgConfig.Peers :=
  buildLocalConfig_fold_frame P _ (ax, h)

theorem buildPeersConfig_frame (P : Platform) (ax : Nexodus) (h : Host) :
    SameFrame ax (buildPeersConfig P ax h).ax := by
  unfold buildPeersConfig
  simp only
  split
  · exact SameFrame.refl _
  · split
    · exact ⟨rfl, rfl, rfl, rfl, rfl, rfl⟩
    · split
      · exact ⟨rfl, rfl, rfl, rfl, rfl, rfl⟩
      · refine SameFrame.trans ?_ (buildLocalConfig_frame P _ _).1
        exact ⟨rfl, rfl, rfl, rfl, rfl, rfl⟩

theorem buildAndDeploy_frame (P : Platform) (ax : Nexodus) (h : Host) (newPeers : List Device)
    (firstTime : Bool) : SameFrame ax (buildAndDeploy P ax h newPeers firstTime).2.1 := by
  unfold buildAndDeploy
  simp only
  split
  · exact buildPeersConfig_frame P ax h
  · exact buildPeersConfig_frame P ax h
  · split <;> exact buildPeersConfig_frame P ax h

theorem buildAndDeploy_ne_ok (P : Platform) (ax : Nexodus) (h : Host) (newPeers : List Device)
    (firstTime : Bool) : (buildAndDeploy P ax h newPeers firstTime).1 ≠ some (.returned none) := by
  unfold buildAndDeploy
  simp only
  split
  · simp
  · simp
  · split
    · simp only [ne_eq, Option.some.injEq]
      split <;> simp
    · simp

/-- When the update part of a cycle returns nil and every removal succeeds, the
cache is the listing. -/
theorem reconcileUpdate_cache (P : Platform) (ax : Nexodus) (h : Host) (L : List Device)
    (newPeers0 : List Device) (hwf : CacheWF ax.deviceCache)
    (hdel : ∀ h key, (deletePeer P h key ax.tunnelIface).1 = true)
    (hret : (reconcileUpdate P ax h L newPeers0).1 = .returned none) (id : UUID) :
    cacheGet (reconcileUpdate P ax h L newPeers0).2.1.deviceCache id =
      if L.any (fun d => d.ID = id) then listingMap L id else none := by
  unfold reconcileUpdate at hret ⊢
  simp only at hret ⊢
  generalize hd : L.foldl diffStep (ax.deviceCache, false, newPeers0) = d at hret ⊢
  have hdw : CacheWF d.1 := by
    rw [← hd]; exact CacheWF_foldl_diffStep L hwf
  have hdg : ∀ id, cacheGet d.1 id =
      L.foldl (fun acc d => if d.ID = id then some d else acc) (cacheGet ax.deviceCache id) := by
    intro id; rw [← hd]; exact cacheGet_foldl_diffStep L _ id
  generalize hdep : (if d.2.1 = true then buildAndDeploy P { ax with deviceCache := d.1 } h d.2.2 false
      else (none, { ax with deviceCache := d.1 }, h)) = dep at hret ⊢
  have hframe : SameFrame { ax with deviceCache := d.1 } dep.2.1 := by
    rw [← hdep]
    split
    · exact buildAndDeploy_frame P _ h d.2.2 false
    · exact SameFrame.refl _
  have hne : dep.1 ≠ some (.returned none) := by
    rw [← hdep]
    split
    · exact buildAndDeploy_ne_ok P _ h d.2.2 false
    · simp
  cases hd1 : dep.1 with
  | some res =>
    rw [hd1] at hret hne
    simp only at hret
    exact absurd (congrArg some hret) hne
  | none =>
    simp only [hd1]
    have hc : dep.2.1.deviceCache = d.1 := hframe.1.symm
    have ht : dep.2.1.tunnelIface = ax.tunnelIface := hframe.2.1.symm
    rw [hc, ht]
    rw [(HandlePeerDelete_cache P L ax.tunnelIface hdel d.1 hdw dep.2.2).2 id]
    by_cases hl : L.any (fun d => d.ID = id) = true
    · simp only [hl, if_true]
      rw [hdg id]
      exact foldl_pick_of_listed L id _ _ hl
    · simp [hl]

/-- The cache `Reconcile` leaves, when it returns nil and every removal
succeeds: the starting cache overwritten with the listing and restricted to the
listed IDs, which is the listing read as a map. -/
theorem Reconcile_cache (P : Platform) (ax : Nexodus) (h : Host) (L : List Device)
    (firstTime : Bool) (hwf : CacheWF ax.deviceCache)
    (hdel : ∀ h key, (deletePeer P h key ax.tunnelIface).1 = true)
    (hret : (Reconcile P ax h (some L) firstTime).1 = .returned none) (id : UUID) :
    cacheGet (Reconcile P ax h (some L) firstTime).2.1.deviceCache id = listingMap L id := by
  have hmap : (if L.any (fun d => d.ID = id) then listingMap L id else none) = listingMap L id := by
    by_cases hl : L.any (fun d => d.ID = id) = true
    · simp [hl]
    · have hl' : L.any (fun d => d.ID = id) = false := by simpa using hl
      simp only [hl', Bool.false_eq_true, if_false]
      exact (foldl_pick_of_not_listed L id none hl').symm
  cases firstTime with
  | false =>
    simp only [Reconcile, Bool.false_eq_true, if_false] at hret ⊢
    rw [reconcileUpdate_cache P ax h L [] hwf hdel hret id, hmap]
  | true =>
    simp only [Reconcile, if_true] at hret ⊢
    generalize hd : L.foldl diffStep (ax.deviceCache, false, []) = d at hret ⊢
    generalize hr : buildAndDeploy P { ax with deviceCache := d.1 } h d.2.2 true = r at hret ⊢
    have hframe : SameFrame { ax with deviceCache := d.1 } r.2.1 := by
      rw [← hr]; exact buildAndDeploy_frame P _ h d.2.2 true
    have hne : r.1 ≠ some (.returned none) := by
      rw [← hr]; exact buildAndDeploy_ne_ok P _ h d.2.2 true
    cases hr1 : r.1 with
    | some res =>
      rw [hr1] at hret hne
      simp only at hret
      exact absurd (congrArg some hret) hne
    | none =>
      simp only [hr1] at hret ⊢
      have hwf1 : CacheWF r.2.1.deviceCache := by
        rw [← hframe.1, ← hd]; exact CacheWF_foldl_diffStep L hwf
      have hdel1 : ∀ h key, (deletePeer P h key r.2.1.tunnelIface).1 = true := by
        rw [← hframe.2.1]; exact hdel
      rw [reconcileUpdate_cache P r.2.1 r.2.2 L d.2.2 hwf1 hdel1 hret id, hmap]

/-! ## The host under the route and peer operations -/

@[simp] theorem Host.log_routes (h : Host) (c : Call) : (h.log c).routes = h.routes := rfl
@[simp] theorem Host.log_wgPeers (h : Host) (c : Call) : (h.log c).wgPeers = h.wgPeers := rfl
@[simp] theorem Host.log_calls (h : Host) (c : Call) : (h.log c).calls = h.calls ++ [c] := rfl
@[simp] theorem Host.log_linkExists (h : Host) (c : Call) : (h.log c).linkExists = h.linkExists := rfl
@[simp] theorem Host.log_ifaceIPv4 (h : Host) (c : Call) : (h.log c).ifaceIPv4 = h.ifaceIPv4 := rfl

theorem ConfigureDevice_routes (P : Platform) (h : Host) (dev : String) (cfg : Config) :
    (ConfigureDevice P h dev cfg).2.routes = h.routes := by
  unfold ConfigureDevice
  simp only
  split <;> rfl

theorem deletePeer_routes (P : Platform) (h : Host) (key dev : String) :
    (deletePeer P h key dev).2.routes = h.routes := by
  unfold deletePeer
  simp only
  split
  · rfl
  · split
    · rfl
    · rw [ConfigureDevice_routes]; rfl

theorem deletePeer_wgPeers_of_ok (P : Platform) (h : Host) (key dev : String)
    (hok : (deletePeer P h key dev).1 = true) :
    (deletePeer P h key dev).2.wgPeers = h.wgPeers.filter (fun k => k ≠ key) := by
  unfold deletePeer at hok ⊢
  simp only at hok ⊢
  split at hok
  · simp at hok
  · split at hok
    · simp at hok
    · rename_i h1 h2
      simp only [h1, h2, if_false]
      unfold ConfigureDevice at hok ⊢
      simp only at hok ⊢
      split at hok
      · rename_i h3
        simp [h3, applyPeerConfig]
      · simp at hok

theorem deletePeer_wgPeers_subset (P : Platform) (h : Host) (key dev : String) :
    ∀ k ∈ (deletePeer P h key dev).2.wgPeers, k ∈ h.wgPeers := by
  intro k hk
  unfold deletePeer at hk
  simp only at hk
  split at hk
  · exact hk
  · split at hk
    · exact hk
    · unfold ConfigureDevice at hk
      simp only at hk
      split at hk
      · simp [applyPeerConfig] at hk
        exact hk.1
      · exact hk

theorem DeleteRoute_wgPeers (P : Platform) (h : Host) (dst dev : String) :
    (DeleteRoute P h dst dev).2.wgPeers = h.wgPeers := by
  unfold DeleteRoute
  simp only
  split <;> rfl

theorem DeleteRoute_routes_subset (P : Platform) (h : Host) (dst dev : String) :
    ∀ r ∈ (DeleteRoute P h dst dev).2.routes, r ∈ h.routes := by
  intro r hr
  unfold DeleteRoute at hr
  simp only at hr
  split at hr
  · exact (List.mem_filter.1 hr).1
  · exact hr

theorem HandlePeerRouteDelete_wgPeers (P : Platform) (h : Host) (dev : String) (ips : List String) :
    (HandlePeerRouteDelete P h dev ips).wgPeers = h.wgPeers := by
  unfold HandlePeerRouteDelete
  induction ips generalizing h with
  | nil => rfl
  | cons ip rest ih =>
    simp only [List.foldl_cons]
    rw [ih]
    split
    · rfl
    · exact DeleteRoute_wgPeers P h ip dev

theorem HandlePeerRouteDelete_routes_subset (P : Platform) (h : Host) (dev : String)
    (ips : List String) : ∀ r ∈ (HandlePeerRouteDelete P h dev ips).routes, r ∈ h.routes := by
  unfold HandlePeerRouteDelete
  induction ips generalizing h with
  | nil => intro r hr; exact hr
  | cons ip rest ih =>
    intro r hr
    simp only [List.foldl_cons] at hr
    have := ih _ r hr
    split at this
    · exact this
    · exact DeleteRoute_routes_subset P h ip dev r this

/-- When route lookups do not fail and route deletions succeed, no route to a
prefix of `ips` through `dev` is left after `HandlePeerRouteDelete`. -/
theorem HandlePeerRouteDelete_removes (P : Platform) (dev : String)
    (hlook : ∀ h dst, P.RouteExistsErr h dst = none)
    (hdelr : ∀ h dst, P.DeleteRouteOk h dst dev = true)
    (ips : List String) (h : Host) :
    ∀ ip ∈ ips, (⟨ip, dev⟩ : Route) ∉ (HandlePeerRouteDelete P h dev ips).routes := by
  induction ips generalizing h with
  | nil => intro ip hip; simp at hip
  | cons ip0 rest ih =>
    intro ip hip
    have hstep : (⟨ip0, dev⟩ : Route) ∉
        (if (!(RouteExists P h ip0).1) = true then h else (DeleteRoute P h ip0 dev).2).routes := by
      unfold RouteExists
      rw [hlook]
      simp only
      split
      · rename_i hne
        intro hmem
        have : h.routes.any (fun r => r.dst = ip0) = true :=
          List.any_eq_true.2 ⟨⟨ip0, dev⟩, hmem, by simp⟩
        simp [this] at hne
      · unfold DeleteRoute
        simp only [hdelr, if_true]
        intro hmem
        have := (List.mem_filter.1 hmem).2
        simp at this
    have hfold : HandlePeerRouteDelete P h dev (ip0 :: rest) =
        HandlePeerRouteDelete P
          (if (!(RouteExists P h ip0).1) = true then h else (DeleteRoute P h ip0 dev).2) dev rest := by
      simp [HandlePeerRouteDelete]
    rw [hfold]
    rcases List.mem_cons.1 hip with heq | hin
    · subst heq
      intro hmem
      exact hstep (HandlePeerRouteDelete_routes_subset P _ dev rest _ hmem)
    · exact ih _ ip hin

theorem HandlePeerDeleteLoop_host_subset (P : Platform) (L : List Device) (iface : String) :
    ∀ (entries : List (UUID × Device)) (cache : DeviceCache) (h : Host),
      (∀ k ∈ (HandlePeerDeleteLoop P L iface entries cache h).2.2.wgPeers, k ∈ h.wgPeers) ∧
      (∀ x ∈ (HandlePeerDeleteLoop P L iface entries cache h).2.2.routes, x ∈ h.routes) := by
  intro entries
  induction entries with
  | nil => intro cache h; exact ⟨fun k hk => hk, fun x hx => hx⟩
  | cons e rest ih =>
    intro cache h
    obtain ⟨k0, p⟩ := e
    unfold HandlePeerDeleteLoop
    split
    · exact ih cache h
    · split
      · exact ih cache h
      · simp only
        split
        · refine ⟨fun k hk => deletePeer_wgPeers_subset P h _ iface k hk, fun x hx => ?_⟩
          rw [deletePeer_routes] at hx
          exact hx
        · have := ih (cacheDelete (cacheDelete cache p.ID) p.ID)
            (HandlePeerRouteDelete P
              (deletePeer P h ((cacheGet cache p.ID).getD {}).PublicKey iface).2 iface p.AllowedIPs)
          refine ⟨fun k hk => ?_, fun x hx => ?_⟩
          · have h1 := this.1 k hk
            rw [HandlePeerRouteDelete_wgPeers] at h1
            exact deletePeer_wgPeers_subset P h _ iface k h1
          · have h1 := HandlePeerRouteDelete_routes_subset P _ iface p.AllowedIPs x (this.2 x hx)
            rw [deletePeer_routes] at h1
            exact h1

/-- When the deletion loop reports no error and route lookups and route
deletions succeed: for each visited entry whose ID is not listed, its peer is
gone from the WireGuard device and no route to one of its allowed IPs through
the tunnel is left. -/
theorem HandlePeerDeleteLoop_host (P : Platform) (L : List Device) (iface : String)
    (hlook : ∀ h dst, P.RouteExistsErr h dst = none)
    (hdelr : ∀ h dst, P.DeleteRouteOk h dst iface = true) :
    ∀ (entries : List (UUID × Device)) (cache : DeviceCache) (h : Host),
      (entries.map Prod.fst).Nodup →
      (∀ e ∈ entries, e.1 = e.2.ID ∧ cacheGet cache e.1 = some e.2) →
      (HandlePeerDeleteLoop P L iface entries cache h).1 = true →
      ∀ e ∈ entries, inPeerListing L e.2 = false →
        e.2.PublicKey ∉ (HandlePeerDeleteLoop P L iface entries cache h).2.2.wgPeers ∧
        ∀ ip ∈ e.2.AllowedIPs,
          (⟨ip, iface⟩ : Route) ∉ (HandlePeerDeleteLoop P L iface entries cache h).2.2.routes := by
  intro entries
  induction entries with
  | nil => intro cache h _ _ _ e he; simp at he
  | cons e0 rest ih =>
    intro cache h hnd hinv hok e he hun
    obtain ⟨k0, p⟩ := e0
    have h0 := hinv (k0, p) (List.mem_cons_self _ _)
    have hk : k0 = p.ID := h0.1
    subst hk
    have hs : cacheGet cache p.ID = some p := h0.2
    simp only [List.map_cons, List.nodup_cons] at hnd
    have hinv' : ∀ e ∈ rest, e.1 = e.2.ID ∧ cacheGet cache e.1 = some e.2 :=
      fun e he => hinv e (List.mem_cons_of_mem _ he)
    by_cases hl : inPeerListing L p = true
    · have hstep : HandlePeerDeleteLoop P L iface ((p.ID, p) :: rest) cache h =
          HandlePeerDeleteLoop P L iface rest cache h := by
        simp [HandlePeerDeleteLoop, hs, hl]
      rw [hstep] at hok ⊢
      rcases List.mem_cons.1 he with heq | hin
      · subst heq
        simp [hl] at hun
      · exact ih cache h hnd.2 hinv' hok e hin hun
    · have hl' : inPeerListing L p = false := by simpa using hl
      obtain ⟨hd, hstep⟩ := HandlePeerDeleteLoop_step_unlisted P L iface p rest cache h hs hl' hok
      rw [hstep] at hok ⊢
      have hinv2 : ∀ e ∈ rest, e.1 = e.2.ID ∧
          cacheGet (cacheDelete (cacheDelete cache p.ID) p.ID) e.1 = some e.2 := by
        intro e he
        refine ⟨(hinv' e he).1, ?_⟩
        have hne : ¬ p.ID = e.1 := by
          intro hh
          exact hnd.1 (hh ▸ List.mem_map.2 ⟨e, he, rfl⟩)
        simp only [cacheGet_cacheDelete, hne, if_false]
        exact (hinv' e he).2
      rcases List.mem_cons.1 he with heq | hin
      · subst heq
        have hsub := HandlePeerDeleteLoop_host_subset P L iface rest
          (cacheDelete (cacheDelete cache p.ID) p.ID)
          (HandlePeerRouteDelete P (deletePeer P h p.PublicKey iface).2 iface p.AllowedIPs)
        refine ⟨fun hmem => ?_, fun ip hip hmem => ?_⟩
        · have h1 := hsub.1 _ hmem
          rw [HandlePeerRouteDelete_wgPeers, deletePeer_wgPeers_of_ok P h _ iface hd] at h1
          simpa using (List.mem_filter.1 h1).2
        · exact HandlePeerRouteDelete_removes P iface hlook hdelr p.AllowedIPs _ ip hip
            (hsub.2 _ hmem)
      · exact ih _ _ hnd.2 hinv2 hok e hin hun

theorem HandlePeerDeleteLoop_sublist (P : Platform) (L : List Device) (iface : String) :
    ∀ (entries : List (UUID × Device)) (cache : DeviceCache) (h : Host),
      List.Sublist (HandlePeerDeleteLoop P L iface entries cache h).2.1 cache := by
  intro entries
  induction entries with
  | nil => intro cache h; exact List.Sublist.refl _
  | cons e rest ih =>
    intro cache h
    obtain ⟨k0, p⟩ := e
    unfold HandlePeerDeleteLoop
    split
    · exact ih cache h
    · split
      · exact ih cache h
      · simp only
        split
        · exact List.Sublist.refl _
        · refine List.Sublist.trans (ih _ _) ?_
          unfold cacheDelete
          exact List.Sublist.trans (List.filter_sublist _) (List.filter_sublist _)

theorem CacheWF_of_sublist {c c' : DeviceCache} (hs : List.Sublist c' c) (hwf : CacheWF c) :
    CacheWF c' :=
  ⟨(hs.map Prod.fst).nodup hwf.1, fun e he => hwf.2 e (hs.subset he)⟩

theorem HandlePeerDelete_wf (P : Platform) (L : List Device) (cache : DeviceCache)
    (iface : String) (h : Host) (hwf : CacheWF cache) :
    CacheWF (HandlePeerDelete P L cache iface h).2.1 :=
  CacheWF_of_sublist (HandlePeerDeleteLoop_sublist P L iface cache cache h) hwf

theorem listingMap_eq_none (L : List Device) (id : UUID) (h : ∀ d ∈ L, d.ID ≠ id) :
    listingMap L id = none := by
  apply foldl_pick_of_not_listed
  rw [Bool.eq_false_iff]
  intro hany
  obtain ⟨d, hd, hid⟩ := List.any_eq_true.1 hany
  exact h d hd (by simpa using hid)

theorem foldl_pick_keep (L : List Device) (d : Device)
    (h : ∀ d' ∈ L, d'.ID = d.ID → d' = d) :
    L.foldl (fun acc x => if x.ID = d.ID then some x else acc) (some d) = some d := by
  induction L with
  | nil => rfl
  | cons p rest ih =>
    simp only [List.foldl_cons]
    by_cases hp : p.ID = d.ID
    · have : p = d := h p (List.mem_cons_self _ _) hp
      subst this
      simp only [if_true]
      exact ih (fun d' hd' => h d' (List.mem_cons_of_mem _ hd'))
    · simp only [hp, if_false]
      exact ih (fun d' hd' => h d' (List.mem_cons_of_mem _ hd'))

theorem foldl_pick_of_unique (L : List Device) (d : Device) (init : Option Device)
    (hd : d ∈ L) (h : ∀ d' ∈ L, d'.ID = d.ID → d' = d) :
    L.foldl (fun acc x => if x.ID = d.ID then some x else acc) init = some d := by
  induction L generalizing init with
  | nil => simp at hd
  | cons p rest ih =>
    simp only [List.foldl_cons]
    have hrest : ∀ d' ∈ rest, d'.ID = d.ID → d' = d :=
      fun d' hd' => h d' (List.mem_cons_of_mem _ hd')
    by_cases hin : d ∈ rest
    · exact ih _ hin hrest
    · have hpd : d = p := by
        rcases List.mem_cons.1 hd with h1 | h1
        · exact h1
        · exact absurd h1 hin
      subst hpd
      simp only [if_true]
      exact foldl_pick_keep rest d hrest

theorem listingMap_of_unique (L : List Device) (d : Device)
    (hd : d ∈ L) (h : ∀ d' ∈ L, d'.ID = d.ID → d' = d) : listingMap L d.ID = some d :=
  foldl_pick_of_unique L d none hd h

theorem buildAndDeploy_wf (P : Platform) (ax : Nexodus) (h : Host) (newPeers : List Device)
    (firstTime : Bool) (hwf : CacheWF ax.deviceCache) :
    CacheWF (buildAndDeploy P ax h newPeers firstTime).2.1.deviceCache := by
  rw [← (buildAndDeploy_frame P ax h newPeers firstTime).1]; exact hwf

theorem reconcileUpdate_wf (P : Platform) (ax : Nexodus) (h : Host) (L : List Device)
    (newPeers0 : List Device) (hwf : CacheWF ax.deviceCache) :
    CacheWF (reconcileUpdate P ax h L newPeers0).2.1.deviceCache := by
  unfold reconcileUpdate
  simp only
  generalize hd : L.foldl diffStep (ax.deviceCache, false, newPeers0) = d
  have hdw : CacheWF d.1 := by
    rw [← hd]; exact CacheWF_foldl_diffStep L hwf
  generalize hdep : (if d.2.1 = true then buildAndDeploy P { ax with deviceCache := d.1 } h d.2.2 false
      else (none, { ax with deviceCache := d.1 }, h)) = dep
  have hframe : SameFrame { ax with deviceCache := d.1 } dep.2.1 := by
    rw [← hdep]
    split
    · exact buildAndDeploy_frame P _ h d.2.2 false
    · exact SameFrame.refl _
  have hc : dep.2.1.deviceCache = d.1 := hframe.1.symm
  cases hd1 : dep.1 with
  | some res => simp only; rw [hc]; exact hdw
  | none =>
    simp only
    exact HandlePeerDelete_wf P L _ _ _ (hc ▸ hdw)

/-- Every outcome of `Reconcile` leaves a well-formed cache. -/
theorem Reconcile_wf (P : Platform) (ax : Nexodus) (h : Host) (fetched : Option (List Device))
    (firstTime : Bool) (hwf : CacheWF ax.deviceCache) :
    CacheWF (Reconcile P ax h fetched firstTime).2.1.deviceCache := by
  cases fetched with
  | none => exact hwf
  | some L =>
    cases firstTime with
    | false =>
      simp only [Reconcile, Bool.false_eq_true, if_false]
      exact reconcileUpdate_wf P ax h L [] hwf
    | true =>
      simp only [Reconcile, if_true]
      generalize hd : L.foldl diffStep (ax.deviceCache, false, []) = d
      have hdw : CacheWF d.1 := by
        rw [← hd]; exact CacheWF_foldl_diffStep L hwf
      have hbw := buildAndDeploy_wf P { ax with deviceCache := d.1 } h d.2.2 true hdw
      split
      · exact hbw
      · exact reconcileUpdate_wf P _ _ L d.2.2 hbw

/-! ## The peer loop of `buildPeersConfig` -/

theorem foldChildPrefix_snd (P : Platform) (iface : String) (cp : List String) (h : Host)
    (allowed : List String) : (foldChildPrefix P iface cp h allowed).2 = allowed ++ cp := by
  unfold foldChildPrefix
  induction cp generalizing h allowed with
  | nil => simp
  | cons c rest ih => simp only [List.foldl_cons, ih, List.append_assoc, List.singleton_append]

theorem peerStep_peers (P : Platform) (ax : Nexodus) (relayIP : String) (st : PeerLoop)
    (value : Device) :
    (peerStep P ax relayIP st value).peers = st.peers ++ stepPeers ax st.relayAllowedIP value ∧
    (peerStep P ax relayIP st value).relayAllowedIP = stepAllowed ax st.relayAllowedIP value := by
  unfold peerStep stepPeers stepAllowed
  cases hs : SplitHostPort value.LocalIP with
  | none => simp
  | some hp =>
    obtain ⟨host, peerPort⟩ := hp
    simp only [Option.isSome_some, true_and]
    by_cases hself : value.PublicKey = ax.wireguardPubKey
    · simp [hself]
    · simp only [hself, if_false, not_false_eq_true, true_and, ne_eq]
      cases hr : value.Relay with
      | true =>
        simp [relayArm, hr, foldChildPrefix_snd, relayPeer]
      | false =>
        simp only [Bool.false_eq_true, if_false, and_true, List.nil_append]
        by_cases hrefl : ax.nodeReflexiveAddress = value.ReflexiveIPv4
        · simp [relayArm, hr, hrefl, foldChildPrefix_snd, localPeer]
        · simp only [hrefl, if_false]
          by_cases hsym : ax.symmetricNat = false ∧ value.SymmetricNat = false
          · simp [relayArm, hr, hsym, foldChildPrefix_snd, directPeer]
          · simp [relayArm, hr, hsym]

theorem peerLoop_peers (P : Platform) (ax : Nexodus) (relayIP : String) (devs : List Device)
    (st : PeerLoop) :
    (devs.foldl (peerStep P ax relayIP) st).peers =
      st.peers ++ policyPeers ax st.relayAllowedIP devs := by
  induction devs generalizing st with
  | nil => simp [policyPeers]
  | cons d rest ih =>
    simp only [List.foldl_cons, policyPeers]
    rw [ih, (peerStep_peers P ax relayIP st d).1, (peerStep_peers P ax relayIP st d).2,
      List.append_assoc]

theorem stepPeers_congr (ax ax' : Nexodus) (hk : ax'.wireguardPubKey = ax.wireguardPubKey)
    (hr : ax'.nodeReflexiveAddress = ax.nodeReflexiveAddress)
    (hs : ax'.symmetricNat = ax.symmetricNat) (allowed : List String) (value : Device) :
    stepPeers ax' allowed value = stepPeers ax allowed value := by
  unfold stepPeers; rw [hk, hr, hs]

theorem stepAllowed_congr (ax ax' : Nexodus) (hk : ax'.wireguardPubKey = ax.wireguardPubKey)
    (allowed : List String) (value : Device) :
    stepAllowed ax' allowed value = stepAllowed ax allowed value := by
  unfold stepAllowed; rw [hk]

theorem policyPeers_congr (ax ax' : Nexodus) (hk : ax'.wireguardPubKey = ax.wireguardPubKey)
    (hr : ax'.nodeReflexiveAddress = ax.nodeReflexiveAddress)
    (hs : ax'.symmetricNat = ax.symmetricNat) (allowed : List String) (devs : List Device) :
    policyPeers ax' allowed devs = policyPeers ax allowed devs := by
  induction devs generalizing allowed with
  | nil => rfl
  | cons d rest ih =>
    simp only [policyPeers, stepPeers_congr ax ax' hk hr hs, stepAllowed_congr ax ax' hk, ih]

/-- What a completed `buildPeersConfig` computed: the first loop did not panic,
the hub check passed, the initial relay allowed-IP list exists, and the derived
peers are the policy projection of the cached devices. -/
theorem buildPeersConfig_done (P : Platform) (ax : Nexodus) (h : Host)
    (hdone : (buildPeersConfig P ax h).status = .done) :
    ∃ scan allowed0,
      relayScan ax (ax.deviceCache.map Prod.snd) { pubKeyInConfig := ax.wireguardPubKeyInConfig }
        = some scan ∧
      ¬ (scan.relayIP = "" ∧ scan.orgPrefix ≠ "") ∧
      initialRelayAllowedIP P scan.relayIP scan.orgPrefix = some allowed0 ∧
      (buildPeersConfig P ax h).ax.wgConfig.Peers =
        policyPeers ax allowed0 (ax.deviceCache.map Prod.snd) := by
  unfold buildPeersConfig at hdone ⊢
  simp only at hdone ⊢
  cases hscan : relayScan ax (ax.deviceCache.map Prod.snd)
      { pubKeyInConfig := ax.wireguardPubKeyInConfig } with
  | none => simp [hscan] at hdone
  | some scan =>
    simp only [hscan] at hdone ⊢
    by_cases hhub : scan.relayIP = "" ∧ decide (scan.orgPrefix ≠ "") = true
    · simp [hhub] at hdone
    · simp only [hhub, if_false] at hdone ⊢
      cases hinit : initialRelayAllowedIP P scan.relayIP scan.orgPrefix with
      | none => simp [hinit] at hdone
      | some allowed0 =>
        simp only [hinit] at hdone ⊢
        refine ⟨scan, allowed0, rfl, ?_, hinit, ?_⟩
        · simpa using hhub
        · rw [(buildLocalConfig_frame P _ _).2]
          simp only
          rw [peerLoop_peers]
          simp only [List.nil_append]
          apply policyPeers_congr <;> rfl

theorem policyPeers_append (ax : Nexodus) (allowed : List String) (ds1 ds2 : List Device) :
    policyPeers ax allowed (ds1 ++ ds2) =
      policyPeers ax allowed ds1 ++ policyPeers ax (ds1.foldl (stepAllowed ax) allowed) ds2 := by
  induction ds1 generalizing allowed with
  | nil => simp [policyPeers]
  | cons d rest ih =>
    show stepPeers ax allowed d ++ policyPeers ax (stepAllowed ax allowed d) (rest ++ ds2) = _
    simp only [policyPeers, ih, List.foldl_cons, List.append_assoc]

theorem mem_stepPeers (ax : Nexodus) (allowed : List String) (value : Device) (p : WgPeerConfig)
    (hp : p ∈ stepPeers ax allowed value) :
    p.PublicKey = value.PublicKey ∧ policyAdmits ax value = true := by
  unfold stepPeers at hp
  unfold policyAdmits
  cases hs : SplitHostPort value.LocalIP with
  | none => simp [hs] at hp
  | some hpv =>
    obtain ⟨host, port⟩ := hpv
    simp only [hs] at hp
    by_cases hself : value.PublicKey = ax.wireguardPubKey
    · simp [hself] at hp
    · simp only [hself, if_false, List.mem_append] at hp
      simp only [Option.isSome_some, ne_eq, hself, not_false_eq_true, decide_True, Bool.and_self,
        Bool.true_and]
      rcases hp with hp | hp
      · split at hp
        · rename_i hr
          simp only [List.mem_singleton] at hp
          subst hp
          simp [relayPeer, hr]
        · simp at hp
      · split at hp
        · rename_i hr
          simp only [List.mem_singleton] at hp
          subst hp
          simp [localPeer, hr.1]
        · split at hp
          · rename_i hr
            simp only [List.mem_singleton] at hp
            subst hp
            simp [directPeer, hr.1, hr.2.1]
          · simp at hp

/-- Every derived peer comes from a device the policy admits. -/
theorem mem_policyPeers (ax : Nexodus) (allowed : List String) (devs : List Device)
    (p : WgPeerConfig) (hp : p ∈ policyPeers ax allowed devs) :
    ∃ d ∈ devs, p.PublicKey = d.PublicKey ∧ policyAdmits ax d = true := by
  induction devs generalizing allowed with
  | nil => simp [policyPeers] at hp
  | cons d rest ih =>
    simp only [policyPeers, List.mem_append] at hp
    rcases hp with hp | hp
    · exact ⟨d, List.mem_cons_self _ _, mem_stepPeers ax allowed d p hp⟩
    · obtain ⟨d', hd', h'⟩ := ih _ hp
      exact ⟨d', List.mem_cons_of_mem _ hd', h'⟩

theorem stepPeers_of_admits (ax : Nexodus) (allowed : List String) (value : Device)
    (ha : policyAdmits ax value = true) :
    ∃ p ∈ stepPeers ax allowed value, p.PublicKey = value.PublicKey := by
  unfold policyAdmits at ha
  unfold stepPeers
  cases hs : SplitHostPort value.LocalIP with
  | none => simp [hs] at ha
  | some hpv =>
    obtain ⟨host, port⟩ := hpv
    simp only [hs, Option.isSome_some, Bool.true_and, Bool.and_eq_true, decide_eq_true_eq,
      Bool.or_eq_true, Bool.not_eq_true'] at ha
    obtain ⟨hself, harm⟩ := ha
    simp only [ne_eq] at hself
    simp only [hself, if_false]
    cases hr : value.Relay with
    | true => exact ⟨relayPeer allowed value, by simp, rfl⟩
    | false =>
      simp only [hr, Bool.false_eq_true, false_or] at harm
      by_cases hrefl : ax.nodeReflexiveAddress = value.ReflexiveIPv4
      · exact ⟨localPeer value port, by simp [hrefl], rfl⟩
      · rcases harm with harm | harm
        · exact absurd harm hrefl
        · exact ⟨directPeer value, by simp [hrefl, harm.1, harm.2], rfl⟩

/-- Every device the policy admits gets a derived peer. -/
theorem policyPeers_of_admits (ax : Nexodus) (allowed : List String) (devs : List Device)
    (d : Device) (hd : d ∈ devs) (ha : policyAdmits ax d = true) :
    ∃ p ∈ policyPeers ax allowed devs, p.PublicKey = d.PublicKey := by
  induction devs generalizing allowed with
  | nil => simp at hd
  | cons d0 rest ih =>
    simp only [policyPeers, List.mem_append]
    rcases List.mem_cons.1 hd with heq | hin
    · subst heq
      obtain ⟨p, hp, hk⟩ := stepPeers_of_admits ax allowed d ha
      exact ⟨p, Or.inl hp, hk⟩
    · obtain ⟨p, hp, hk⟩ := ih _ hin
      exact ⟨p, Or.inr hp, hk⟩

theorem policyPeers_keys (ax : Nexodus) (allowed : List String) (ds : DeviceCache)
    (p : WgPeerConfig) (hp : p ∈ policyPeers ax allowed (ds.map Prod.snd)) :
    ∃ e ∈ ds, p.PublicKey = e.2.PublicKey := by
  obtain ⟨d, hd, hk, _⟩ := mem_policyPeers ax allowed _ p hp
  obtain ⟨e, he, rfl⟩ := List.mem_map.1 hd
  exact ⟨e, he, hk⟩

/-- The derived peers of a cache `ds1 ++ (k, D) :: ds2`, split at the
contribution of `D`. -/
theorem policyPeers_split (ax : Nexodus) (allowed : List String) (ds1 ds2 : DeviceCache)
    (k : UUID) (D : Device) :
    policyPeers ax allowed ((ds1 ++ (k, D) :: ds2).map Prod.snd) =
      policyPeers ax allowed (ds1.map Prod.snd) ++
        (stepPeers ax ((ds1.map Prod.snd).foldl (stepAllowed ax) allowed) D ++
          policyPeers ax (stepAllowed ax ((ds1.map Prod.snd).foldl (stepAllowed ax) allowed) D)
            (ds2.map Prod.snd)) := by
  rw [List.map_append, List.map_cons, policyPeers_append]
  rfl

theorem filter_key_eq_nil (l : List WgPeerConfig) (key : String)
    (h : ∀ p ∈ l, p.PublicKey ≠ key) : l.filter (fun p => p.PublicKey = key) = [] := by
  rw [List.filter_eq_nil_iff]
  intro p hp
  simpa using h p hp

/-- A list `pre ++ q :: post` in which only `q` carries `q.PublicKey`, filtered
by that key, is `[q]`. -/
theorem filter_key_split (pre post : List WgPeerConfig) (q : WgPeerConfig)
    (h1 : ∀ p ∈ pre, p.PublicKey ≠ q.PublicKey) (h2 : ∀ p ∈ post, p.PublicKey ≠ q.PublicKey) :
    (pre ++ q :: post).filter (fun p => p.PublicKey = q.PublicKey) = [q] := by
  rw [List.filter_append, filter_key_eq_nil pre _ h1, List.filter_cons]
  simp [filter_key_eq_nil post _ h2]

theorem stepAllowed_fold_no_relay (ax : Nexodus) (allowed : List String) (ds : List Device)
    (h : ∀ d ∈ ds, d.Relay = false) : ds.foldl (stepAllowed ax) allowed = allowed := by
  induction ds with
  | nil => rfl
  | cons d rest ih =>
    simp only [List.foldl_cons]
    have hd : d.Relay = false := h d (List.mem_cons_self _ _)
    have : stepAllowed ax allowed d = allowed := by simp [stepAllowed, hd]
    rw [this]
    exact ih (fun d' hd' => h d' (List.mem_cons_of_mem _ hd'))

theorem relayScan_no_relay (ax : Nexodus) (ds : List Device) (st : RelayScan)
    (h : ∀ d ∈ ds, d.Relay = false) :
    ∃ b, relayScan ax ds st = some { st with pubKeyInConfig := b } := by
  induction ds generalizing st with
  | nil => exact ⟨st.pubKeyInConfig, rfl⟩
  | cons d rest ih =>
    have hd : d.Relay = false := h d (List.mem_cons_self _ _)
    have hrest : ∀ d' ∈ rest, d'.Relay = false := fun d' hd' => h d' (List.mem_cons_of_mem _ hd')
    unfold relayScan
    by_cases hk : d.PublicKey = ax.wireguardPubKey
    · obtain ⟨b, hb⟩ := ih { st with pubKeyInConfig := true } hrest
      exact ⟨b, by simp [relayScanStep, hd, hk, hb]⟩
    · obtain ⟨b, hb⟩ := ih st hrest
      exact ⟨b, by simp [relayScanStep, hd, hk, hb]⟩

theorem relayScan_append (ax : Nexodus) (ds1 ds2 : List Device) (st : RelayScan) :
    relayScan ax (ds1 ++ ds2) st = (relayScan ax ds1 st).bind (relayScan ax ds2) := by
  induction ds1 generalizing st with
  | nil => rfl
  | cons d rest ih =>
    show relayScan ax (d :: (rest ++ ds2)) st = (relayScan ax (d :: rest) st).bind _
    simp only [relayScan]
    cases relayScanStep ax st d with
    | none => rfl
    | some st1 => exact ih st1

theorem relayScan_no_relay_fields (ax : Nexodus) (ds : List Device) (st scan : RelayScan)
    (h : ∀ d ∈ ds, d.Relay = false) (hs : relayScan ax ds st = some scan) :
    scan.relayIP = st.relayIP ∧ scan.orgPrefix = st.orgPrefix := by
  obtain ⟨b, hb⟩ := relayScan_no_relay ax ds st h
  rw [hb] at hs
  injection hs with hs
  subst hs
  exact ⟨rfl, rfl⟩

theorem relayScanStep_relay (ax : Nexodus) (st st2 : RelayScan) (R : Device)
    (hR : R.Relay = true) (horg : ax.organization = R.OrganizationID)
    (hs : relayScanStep ax st R = some st2) :
    R.AllowedIPs.head? = some st2.relayIP ∧ st2.orgPrefix = R.OrganizationPrefix := by
  unfold relayScanStep at hs
  cases hA : R.AllowedIPs with
  | nil => simp [hR, hA] at hs
  | cons ip tl =>
    simp only [hR, hA, horg, if_true] at hs
    injection hs with hs
    subst hs
    exact ⟨rfl, rfl⟩

/-- The first loop on a cache whose last relay is `R`: the relay address is the
first allowed IP of `R`, and the organization prefix is that of `R` when `R`
belongs to this host's organization. -/
theorem relayScan_single_relay (ax : Nexodus) (ds1 ds2 : List Device) (R : Device)
    (st0 scan : RelayScan)
    (h2 : ∀ d ∈ ds2, d.Relay = false) (hR : R.Relay = true)
    (horg : ax.organization = R.OrganizationID)
    (hscan : relayScan ax (ds1 ++ R :: ds2) st0 = some scan) :
    R.AllowedIPs.head? = some scan.relayIP ∧ scan.orgPrefix = R.OrganizationPrefix := by
  rw [relayScan_append] at hscan
  cases h1s : relayScan ax ds1 st0 with
  | none => simp [h1s] at hscan
  | some st1 =>
    rw [h1s] at hscan
    simp only [Option.some_bind, relayScan] at hscan
    cases h2s : relayScanStep ax st1 R with
    | none => simp [h2s] at hscan
    | some st2 =>
      rw [h2s] at hscan
      have hf := relayScan_no_relay_fields ax ds2 st2 scan h2 hscan
      have hr := relayScanStep_relay ax st1 st2 R hR horg h2s
      rw [hf.1, hf.2]
      exact hr

/-! ## Child-prefix routes -/

theorem AddRoute_routes_mono (P : Platform) (h : Host) (dst dev : String) :
    ∀ r ∈ h.routes, r ∈ (AddRoute P h dst dev).2.routes := by
  intro r hr
  unfold AddRoute
  simp only
  split
  · simp [hr]
  · exact hr

theorem AddChildPrefixRoute_routes_mono (P : Platform) (h : Host) (cp iface : String) :
    ∀ r ∈ h.routes, r ∈ (AddChildPrefixRoute P h cp iface).2.routes := by
  intro r hr
  unfold AddChildPrefixRoute
  simp only
  split
  · exact hr
  · split
    · exact AddRoute_routes_mono P h cp iface r hr
    · exact hr

/-- When the route lookup does not fail and the route addition succeeds, the
routing table holds a route to the child prefix after `AddChildPrefixRoute`:
the one just added through the tunnel, or one that was there before. -/
theorem AddChildPrefixRoute_adds (P : Platform) (h : Host) (cp iface : String)
    (hlook : P.RouteExistsErr h cp = none) (hadd : P.AddRouteOk h cp iface = true) :
    ∃ r ∈ (AddChildPrefixRoute P h cp iface).2.routes,
      r.dst = cp ∧ (r.dev = iface ∨ r ∈ h.routes) := by
  unfold AddChildPrefixRoute RouteExists
  simp only [hlook, Bool.not_true, Bool.false_eq_true, if_false]
  cases hany : h.routes.any (fun r => decide (r.dst = cp)) with
  | true =>
    obtain ⟨r, hr, hd⟩ := List.any_eq_true.1 hany
    simp only [Bool.not_true, Bool.false_eq_true, if_false]
    exact ⟨r, hr, by simpa using hd, Or.inr hr⟩
  | false =>
    simp only [Bool.not_false, if_true]
    unfold AddRoute
    simp only [hadd, if_true]
    exact ⟨⟨cp, iface⟩, by simp, rfl, Or.inl rfl⟩

theorem foldChildPrefix_routes_mono (P : Platform) (iface : String) (cps : List String)
    (h : Host) (allowed : List String) :
    ∀ r ∈ h.routes, r ∈ (foldChildPrefix P iface cps h allowed).1.routes := by
  unfold foldChildPrefix
  induction cps generalizing h allowed with
  | nil => intro r hr; exact hr
  | cons c rest ih =>
    intro r hr
    simp only [List.foldl_cons]
    exact ih _ _ r (AddChildPrefixRoute_routes_mono P h c iface r hr)

theorem foldChildPrefix_cons (P : Platform) (iface : String) (c : String) (rest : List String)
    (h : Host) (allowed : List String) :
    foldChildPrefix P iface (c :: rest) h allowed =
      foldChildPrefix P iface rest (AddChildPrefixRoute P h c iface).2 (allowed ++ [c]) := rfl

theorem foldChildPrefix_adds (P : Platform) (iface : String)
    (hlook : ∀ h dst, P.RouteExistsErr h dst = none)
    (hadd : ∀ h dst, P.AddRouteOk h dst iface = true)
    (cps : List String) (h : Host) (allowed : List String) :
    ∀ c ∈ cps, ∃ r ∈ (foldChildPrefix P iface cps h allowed).1.routes,
      r.dst = c ∧ (r.dev = iface ∨ r ∈ h.routes) := by
  induction cps generalizing h allowed with
  | nil => intro c hc; simp at hc
  | cons c0 rest ih =>
    intro c hc
    rw [foldChildPrefix_cons]
    rcases List.mem_cons.1 hc with heq | hin
    · subst heq
      obtain ⟨r, hr, hd, hdev⟩ := AddChildPrefixRoute_adds P h c iface (hlook h c) (hadd h c)
      exact ⟨r, foldChildPrefix_routes_mono P iface rest _ _ r hr, hd, hdev⟩
    · obtain ⟨r, hr, hd, hdev⟩ := ih (AddChildPrefixRoute P h c0 iface).2 (allowed ++ [c0]) c hin
      refine ⟨r, hr, hd, ?_⟩
      rcases hdev with hdev | hdev
      · exact Or.inl hdev
      · -- a route the first addition left: it is the new tunnel route or an old one
        unfold AddChildPrefixRoute at hdev
        simp only at hdev
        split at hdev
        · exact Or.inr hdev
        · split at hdev
          · unfold AddRoute at hdev
            simp only [hadd, if_true, Host.log_routes, List.mem_append, List.mem_singleton] at hdev
            rcases hdev with hdev | hdev
            · exact Or.inr hdev
            · subst hdev; exact Or.inl rfl
          · exact Or.inr hdev

theorem relayArm_routes_mono (P : Platform) (ax : Nexodus) (relayIP : String) (st : PeerLoop)
    (value : Device) : ∀ r ∈ st.host.routes, r ∈ (relayArm P ax relayIP st value).host.routes := by
  intro r hr
  unfold relayArm
  split
  · exact foldChildPrefix_routes_mono P _ _ _ _ r hr
  · exact hr

theorem peerStep_routes_mono (P : Platform) (ax : Nexodus) (relayIP : String) (st : PeerLoop)
    (value : Device) : ∀ r ∈ st.host.routes, r ∈ (peerStep P ax relayIP st value).host.routes := by
  intro r hr
  have h1 := relayArm_routes_mono P ax relayIP st value r hr
  unfold peerStep
  split
  · exact hr
  · split
    · exact hr
    · simp only
      split
      · exact foldChildPrefix_routes_mono P _ _ _ _ r h1
      · split
        · exact foldChildPrefix_routes_mono P _ _ _ _ r h1
        · exact h1

theorem AddChildPrefixRoute_routes_origin (P : Platform) (h : Host) (cp iface : String) :
    ∀ r ∈ (AddChildPrefixRoute P h cp iface).2.routes, r.dev = iface ∨ r ∈ h.routes := by
  intro r hr
  unfold AddChildPrefixRoute at hr
  simp only at hr
  split at hr
  · exact Or.inr hr
  · split at hr
    · unfold AddRoute at hr
      simp only at hr
      split at hr
      · simp only [Host.log_routes, List.mem_append, List.mem_singleton] at hr
        rcases hr with hr | hr
        · exact Or.inr hr
        · subst hr; exact Or.inl rfl
      · exact Or.inr hr
    · exact Or.inr hr

theorem foldChildPrefix_routes_origin (P : Platform) (iface : String) (cps : List String)
    (h : Host) (allowed : List String) :
    ∀ r ∈ (foldChildPrefix P iface cps h allowed).1.routes, r.dev = iface ∨ r ∈ h.routes := by
  induction cps generalizing h allowed with
  | nil => intro r hr; exact Or.inr hr
  | cons c rest ih =>
    intro r hr
    rw [foldChildPrefix_cons] at hr
    rcases ih _ _ r hr with h1 | h1
    · exact Or.inl h1
    · exact AddChildPrefixRoute_routes_origin P h c iface r h1

theorem relayArm_routes_origin (P : Platform) (ax : Nexodus) (relayIP : String) (st : PeerLoop)
    (value : Device) :
    ∀ r ∈ (relayArm P ax relayIP st value).host.routes,
      r.dev = ax.tunnelIface ∨ r ∈ st.host.routes := by
  intro r hr
  unfold relayArm at hr
  split at hr
  · exact foldChildPrefix_routes_origin P _ _ _ _ r hr
  · exact Or.inr hr

theorem peerStep_routes_origin (P : Platform) (ax : Nexodus) (relayIP : String) (st : PeerLoop)
    (value : Device) :
    ∀ r ∈ (peerStep P ax relayIP st value).host.routes,
      r.dev = ax.tunnelIface ∨ r ∈ st.host.routes := by
  intro r hr
  have hrel := relayArm_routes_origin P ax relayIP st value r
  unfold peerStep at hr
  split at hr
  · exact Or.inr hr
  · split at hr
    · exact Or.inr hr
    · simp only at hr
      split at hr
      · rcases foldChildPrefix_routes_origin P _ _ _ _ r hr with h1 | h1
        · exact Or.inl h1
        · exact hrel h1
      · split at hr
        · rcases foldChildPrefix_routes_origin P _ _ _ _ r hr with h1 | h1
          · exact Or.inl h1
          · exact hrel h1
        · exact hrel hr

theorem peerStep_adds_routes (P : Platform) (ax : Nexodus) (relayIP : String)
    (hlook : ∀ h dst, P.RouteExistsErr h dst = none)
    (hadd : ∀ h dst, P.AddRouteOk h dst ax.tunnelIface = true)
    (st : PeerLoop) (value : Device) (ha : policyAdmits ax value = true) :
    ∀ c ∈ value.ChildPrefix, ∃ r ∈ (peerStep P ax relayIP st value).host.routes,
      r.dst = c ∧ (r.dev = ax.tunnelIface ∨ r ∈ st.host.routes) := by
  intro c hc
  unfold policyAdmits at ha
  cases hs : SplitHostPort value.LocalIP with
  | none => simp [hs] at ha
  | some hpv =>
    obtain ⟨host, port⟩ := hpv
    simp only [hs, Option.isSome_some, Bool.true_and, Bool.and_eq_true, decide_eq_true_eq,
      Bool.or_eq_true, Bool.not_eq_true'] at ha
    obtain ⟨hself, harm⟩ := ha
    simp only [ne_eq] at hself
    cases hr : value.Relay with
    | true =>
      have hstep : (peerStep P ax relayIP st value).host =
          (foldChildPrefix P ax.tunnelIface value.ChildPrefix st.host st.relayAllowedIP).1 := by
        simp [peerStep, relayArm, hs, hself, hr]
      rw [hstep]
      exact foldChildPrefix_adds P ax.tunnelIface hlook hadd _ _ _ c hc
    | false =>
      simp only [hr, Bool.false_eq_true, false_or] at harm
      have hstep : (peerStep P ax relayIP st value).host =
          (foldChildPrefix P ax.tunnelIface value.ChildPrefix st.host value.AllowedIPs).1 := by
        by_cases hrefl : ax.nodeReflexiveAddress = value.ReflexiveIPv4
        · simp [peerStep, relayArm, hs, hself, hr, hrefl]
        · rcases harm with harm | harm
          · exact absurd harm hrefl
          · simp [peerStep, relayArm, hs, hself, hr, hrefl, harm.1, harm.2]
      rw [hstep]
      exact foldChildPrefix_adds P ax.tunnelIface hlook hadd _ _ _ c hc

theorem peerLoop_routes_mono (P : Platform) (ax : Nexodus) (relayIP : String)
    (devs : List Device) (st : PeerLoop) :
    ∀ r ∈ st.host.routes, r ∈ (devs.foldl (peerStep P ax relayIP) st).host.routes := by
  induction devs generalizing st with
  | nil => intro r hr; exact hr
  | cons d rest ih =>
    intro r hr
    exact ih _ r (peerStep_routes_mono P ax relayIP st d r hr)

theorem peerLoop_adds_routes (P : Platform) (ax : Nexodus) (relayIP : String)
    (hlook : ∀ h dst, P.RouteExistsErr h dst = none)
    (hadd : ∀ h dst, P.AddRouteOk h dst ax.tunnelIface = true)
    (devs : List Device) (st : PeerLoop) (d : Device) (hd : d ∈ devs)
    (ha : policyAdmits ax d = true) :
    ∀ c ∈ d.ChildPrefix, ∃ r ∈ (devs.foldl (peerStep P ax relayIP) st).host.routes,
      r.dst = c ∧ (r.dev = ax.tunnelIface ∨ r ∈ st.host.routes) := by
  induction devs generalizing st with
  | nil => simp at hd
  | cons d0 rest ih =>
    intro c hc
    simp only [List.foldl_cons]
    by_cases hin : d ∈ rest
    · obtain ⟨r, hr, hdst, hdev⟩ := ih (peerStep P ax relayIP st d0) hin c hc
      refine ⟨r, hr, hdst, ?_⟩
      rcases hdev with hdev | hdev
      · exact Or.inl hdev
      · exact peerStep_routes_origin P ax relayIP st d0 r hdev
    · have : d = d0 := by
        rcases List.mem_cons.1 hd with h1 | h1
        · exact h1
        · exact absurd h1 hin
      subst this
      obtain ⟨r, hr, hdst, hdev⟩ := peerStep_adds_routes P ax relayIP hlook hadd st d ha c hc
      exact ⟨r, peerLoop_routes_mono P ax relayIP rest _ r hr, hdst, hdev⟩

/-- When every cached entry of this host carries the recorded local address,
`buildLocalConfig` leaves the host as it is. -/
theorem buildLocalConfig_fold_host (P : Platform) (devs : List Device) (st : Nexodus × Host)
    (hsame : ∀ d ∈ devs, d.PublicKey = st.1.wireguardPubKey → d.TunnelIP = st.1.wgLocalAddress) :
    (devs.foldl (buildLocalConfigStep P) st).2 = st.2 := by
  induction devs generalizing st with
  | nil => rfl
  | cons d rest ih =>
    simp only [List.foldl_cons]
    have hd := hsame d (List.mem_cons_self _ _)
    by_cases hk : d.PublicKey = st.1.wireguardPubKey
    · have hstep : buildLocalConfigStep P st d =
          ({ st.1 with wgLocalAddress := d.TunnelIP,
                       wgConfig := { st.1.wgConfig with
                         Interface := { PrivateKey := st.1.wireguardPvtKey,
                                        ListenPort := st.1.listenPort } } }, st.2) := by
        rw [buildLocalConfigStep, if_pos hk]
        simp [hd hk]
      rw [hstep]
      rw [ih]
      intro d' hd' hk'
      exact hsame d' (List.mem_cons_of_mem _ hd') hk' |>.trans (hd hk).symm
    · have hstep : buildLocalConfigStep P st d = st := by
        rw [buildLocalConfigStep, if_neg hk]
      rw [hstep]
      exact ih st (fun d' hd' => hsame d' (List.mem_cons_of_mem _ hd'))

theorem buildLocalConfig_fold_host_nolink (P : Platform) (devs : List Device) (st : Nexodus × Host)
    (hno : st.2.linkExists = false) :
    (devs.foldl (buildLocalConfigStep P) st).2 = st.2 := by
  induction devs generalizing st with
  | nil => rfl
  | cons d rest ih =>
    simp only [List.foldl_cons]
    have hstep : (buildLocalConfigStep P st d).2 = st.2 := by
      unfold buildLocalConfigStep
      simp only [hno, Bool.false_eq_true, if_false, ite_self]
      split <;> rfl
    rw [ih _ (hstep ▸ hno), hstep]

theorem AddChildPrefixRoute_linkExists (P : Platform) (h : Host) (cp iface : String) :
    (AddChildPrefixRoute P h cp iface).2.linkExists = h.linkExists := by
  unfold AddChildPrefixRoute
  simp only
  split
  · rfl
  · split
    · unfold AddRoute
      simp only
      split <;> rfl
    · rfl

theorem foldChildPrefix_linkExists (P : Platform) (iface : String) (cps : List String)
    (h : Host) (allowed : List String) :
    (foldChildPrefix P iface cps h allowed).1.linkExists = h.linkExists := by
  induction cps generalizing h allowed with
  | nil => rfl
  | cons c rest ih =>
    rw [foldChildPrefix_cons, ih, AddChildPrefixRoute_linkExists]

theorem relayArm_linkExists (P : Platform) (ax : Nexodus) (relayIP : String) (st : PeerLoop)
    (value : Device) : (relayArm P ax relayIP st value).host.linkExists = st.host.linkExists := by
  unfold relayArm
  split
  · exact foldChildPrefix_linkExists P _ _ _ _
  · rfl

theorem peerStep_linkExists (P : Platform) (ax : Nexodus) (relayIP : String) (st : PeerLoop)
    (value : Device) : (peerStep P ax relayIP st value).host.linkExists = st.host.linkExists := by
  have h1 := relayArm_linkExists P ax relayIP st value
  unfold peerStep
  split
  · rfl
  · split
    · rfl
    · simp only
      split
      · exact (foldChildPrefix_linkExists P _ _ _ _).trans h1
      · split
        · exact (foldChildPrefix_linkExists P _ _ _ _).trans h1
        · exact h1

theorem peerLoop_linkExists (P : Platform) (ax : Nexodus) (relayIP : String)
    (devs : List Device) (st : PeerLoop) :
    (devs.foldl (peerStep P ax relayIP) st).host.linkExists = st.host.linkExists := by
  induction devs generalizing st with
  | nil => rfl
  | cons d rest ih =>
    simp only [List.foldl_cons]
    rw [ih, peerStep_linkExists]

theorem policyAdmits_congr (ax ax' : Nexodus) (hf : SameFrame ax ax') (d : Device) :
    policyAdmits ax' d = policyAdmits ax d := by
  unfold policyAdmits
  rw [← hf.2.2.1, ← hf.2.2.2.1, ← hf.2.2.2.2.1]

/-- The host a completed `buildPeersConfig` leaves: the one the peer loop
produced, passed through `buildLocalConfig`. -/
theorem buildPeersConfig_done_host (P : Platform) (ax : Nexodus) (h : Host)
    (hdone : (buildPeersConfig P ax h).status = .done) :
    ∃ (ax1 ax2 : Nexodus) (relayIP : String) (st0 : PeerLoop),
      SameFrame ax ax1 ∧ SameFrame ax ax2 ∧ ax2.wgLocalAddress = ax.wgLocalAddress ∧
      st0.host = h ∧
      (buildPeersConfig P ax h).host =
        (buildLocalConfig P ax2
          ((ax.deviceCache.map Prod.snd).foldl (peerStep P ax1 relayIP) st0).host).2 := by
  unfold buildPeersConfig at hdone ⊢
  simp only at hdone ⊢
  cases hscan : relayScan ax (ax.deviceCache.map Prod.snd)
      { pubKeyInConfig := ax.wireguardPubKeyInConfig } with
  | none => simp [hscan] at hdone
  | some scan =>
    simp only [hscan] at hdone ⊢
    by_cases hhub : scan.relayIP = "" ∧ decide (scan.orgPrefix ≠ "") = true
    · simp [hhub] at hdone
    · simp only [hhub, if_false] at hdone ⊢
      cases hinit : initialRelayAllowedIP P scan.relayIP scan.orgPrefix with
      | none => simp [hinit] at hdone
      | some allowed0 =>
        simp only [hinit] at hdone ⊢
        refine ⟨_, _, _, (⟨[], allowed0, ax.relayWgIP, h⟩ : PeerLoop), ?_, ?_, ?_, rfl, rfl⟩
        · exact ⟨rfl, rfl, rfl, rfl, rfl, rfl⟩
        · exact ⟨rfl, rfl, rfl, rfl, rfl, rfl⟩
        · rfl

/-! ## A second cycle over an unchanged listing -/

theorem diffStep_fixed (st : DeviceCache × Bool × List Device) (p : Device)
    (h : cacheGet st.1 p.ID = some p) : diffStep st p = st := by
  obtain ⟨cache, changed, newPeers⟩ := st
  simp only at h
  simp [diffStep, h]

theorem foldl_diffStep_fixed (L : List Device) (st : DeviceCache × Bool × List Device)
    (h : ∀ p ∈ L, cacheGet st.1 p.ID = some p) : L.foldl diffStep st = st := by
  induction L with
  | nil => rfl
  | cons p rest ih =>
    simp only [List.foldl_cons]
    rw [diffStep_fixed st p (h p (List.mem_cons_self _ _))]
    exact ih (fun q hq => h q (List.mem_cons_of_mem _ hq))

theorem listed_of_listingMap (L : List Device) (id : UUID) (d : Device)
    (h : listingMap L id = some d) : L.any (fun x => x.ID = id) = true := by
  by_contra hn
  have hn' : L.any (fun x => x.ID = id) = false := by simpa using hn
  have := foldl_pick_of_not_listed L id none hn'
  unfold listingMap at h
  rw [this] at h
  cases h

/-- The deletion loop over entries that are all listed (or already gone) does
nothing. -/
theorem HandlePeerDeleteLoop_all_listed (P : Platform) (L : List Device) (iface : String) :
    ∀ (entries : List (UUID × Device)) (cache : DeviceCache) (h : Host),
      (∀ e ∈ entries, inPeerListing L e.2 = true) →
      HandlePeerDeleteLoop P L iface entries cache h = (true, cache, h) := by
  intro entries
  induction entries with
  | nil => intro cache h _; rfl
  | cons e rest ih =>
    intro cache h hl
    obtain ⟨k, p⟩ := e
    have hp : inPeerListing L p = true := hl (k, p) (List.mem_cons_self _ _)
    have hrest := ih cache h (fun e he => hl e (List.mem_cons_of_mem _ he))
    unfold HandlePeerDeleteLoop
    split <;> exact hrest

theorem nodup_ids_unique (L : List Device) (hnd : (L.map (fun d => d.ID)).Nodup) (d : Device)
    (hd : d ∈ L) : ∀ d' ∈ L, d'.ID = d.ID → d' = d := by
  intro d' hd' hid
  exact List.inj_on_of_nodup_map hnd hd' hd hid

/-- A periodic cycle over a cache that already is the listing changes nothing
and issues no call. -/
theorem reconcileUpdate_idle (P : Platform) (ax : Nexodus) (h : Host) (L : List Device)
    (hwf : CacheWF ax.deviceCache) (hnd : (L.map (fun d => d.ID)).Nodup)
    (hcache : ∀ id, cacheGet ax.deviceCache id = listingMap L id) :
    reconcileUpdate P ax h L [] = (.returned none, ax, h) := by
  have hfix : L.foldl diffStep (ax.deviceCache, false, []) = (ax.deviceCache, false, []) := by
    apply foldl_diffStep_fixed
    intro p hp
    simp only
    rw [hcache p.ID]
    exact listingMap_of_unique L p hp (nodup_ids_unique L hnd p hp)
  have hlisted : ∀ e ∈ ax.deviceCache, inPeerListing L e.2 = true := by
    intro e he
    have hg : cacheGet ax.deviceCache e.1 = some e.2 :=
      cacheGet_of_mem hwf.1 (by cases e; exact he)
    rw [hcache e.1] at hg
    rw [inPeerListing_eq, ← hwf.2 e he]
    exact listed_of_listingMap L e.1 e.2 hg
  unfold reconcileUpdate
  simp only [hfix, Bool.false_eq_true, if_false]
  unfold HandlePeerDelete
  rw [HandlePeerDeleteLoop_all_listed P L ax.tunnelIface ax.deviceCache ax.deviceCache h hlisted]

/-- Peer removal never fails on the reference platform. -/
theorem refPlatform_deletePeer_ok (h : Host) (key dev : String) :
    (deletePeer refPlatform h key dev).1 = true := by
  simp [deletePeer, refPlatform, ConfigureDevice]

/-! ## The configured peers under the build and the deployment -/

theorem AddRoute_wgPeers (P : Platform) (h : Host) (dst dev : String) :
    (AddRoute P h dst dev).2.wgPeers = h.wgPeers := by
  unfold AddRoute; simp only; split <;> rfl

theorem AddRoute_ifaceIPv4 (P : Platform) (h : Host) (dst dev : String) :
    (AddRoute P h dst dev).2.ifaceIPv4 = h.ifaceIPv4 := by
  unfold AddRoute; simp only; split <;> rfl

theorem AddChildPrefixRoute_wgPeers (P : Platform) (h : Host) (cp iface : String) :
    (AddChildPrefixRoute P h cp iface).2.wgPeers = h.wgPeers ∧
    (AddChildPrefixRoute P h cp iface).2.ifaceIPv4 = h.ifaceIPv4 := by
  unfold AddChildPrefixRoute
  simp only
  split
  · exact ⟨rfl, rfl⟩
  · split
    · exact ⟨AddRoute_wgPeers P h cp iface, AddRoute_ifaceIPv4 P h cp iface⟩
    · exact ⟨rfl, rfl⟩

theorem foldChildPrefix_wgPeers (P : Platform) (iface : String) (cps : List String)
    (h : Host) (allowed : List String) :
    (foldChildPrefix P iface cps h allowed).1.wgPeers = h.wgPeers ∧
    (foldChildPrefix P iface cps h allowed).1.ifaceIPv4 = h.ifaceIPv4 := by
  induction cps generalizing h allowed with
  | nil => exact ⟨rfl, rfl⟩
  | cons c rest ih =>
    rw [foldChildPrefix_cons]
    exact ⟨(ih _ _).1.trans (AddChildPrefixRoute_wgPeers P h c iface).1,
      (ih _ _).2.trans (AddChildPrefixRoute_wgPeers P h c iface).2⟩

theorem relayArm_wgPeers (P : Platform) (ax : Nexodus) (relayIP : String) (st : PeerLoop)
    (value : Device) :
    (relayArm P ax relayIP st value).host.wgPeers = st.host.wgPeers ∧
    (relayArm P ax relayIP st value).host.ifaceIPv4 = st.host.ifaceIPv4 := by
  unfold relayArm
  split
  · exact foldChildPrefix_wgPeers P _ _ _ _
  · exact ⟨rfl, rfl⟩

theorem peerStep_wgPeers (P : Platform) (ax : Nexodus) (relayIP : String) (st : PeerLoop)
    (value : Device) :
    (peerStep P ax relayIP st value).host.wgPeers = st.host.wgPeers ∧
    (peerStep P ax relayIP st value).host.ifaceIPv4 = st.host.ifaceIPv4 := by
  have h1 := relayArm_wgPeers P ax relayIP st value
  unfold peerStep
  split
  · exact ⟨rfl, rfl⟩
  · split
    · exact ⟨rfl, rfl⟩
    · simp only
      split
      · exact ⟨(foldChildPrefix_wgPeers P _ _ _ _).1.trans h1.1,
          (foldChildPrefix_wgPeers P _ _ _ _).2.trans h1.2⟩
      · split
        · exact ⟨(foldChildPrefix_wgPeers P _ _ _ _).1.trans h1.1,
            (foldChildPrefix_wgPeers P _ _ _ _).2.trans h1.2⟩
        · exact h1

theorem peerLoop_wgPeers (P : Platform) (ax : Nexodus) (relayIP : String)
    (devs : List Device) (st : PeerLoop) :
    (devs.foldl (peerStep P ax relayIP) st).host.wgPeers = st.host.wgPeers ∧
    (devs.foldl (peerStep P ax relayIP) st).host.ifaceIPv4 = st.host.ifaceIPv4 := by
  induction devs generalizing st with
  | nil => exact ⟨rfl, rfl⟩
  | cons d rest ih =>
    simp only [List.foldl_cons]
    exact ⟨(ih _).1.trans (peerStep_wgPeers P ax relayIP st d).1,
      (ih _).2.trans (peerStep_wgPeers P ax relayIP st d).2⟩

theorem HandlePeerRoute_loop_wgPeers (P : Platform) (h : Host) (ips : List String)
    (iface : String) :
    (ips.foldl (fun h allowedIP =>
      let (routeExists, _) := RouteExists P h allowedIP
      if !routeExists then (AddRoute P h allowedIP iface).2 else h) h).wgPeers = h.wgPeers := by
  induction ips generalizing h with
  | nil => rfl
  | cons ip rest ih =>
    simp only [List.foldl_cons]
    rw [ih]
    split
    · exact AddRoute_wgPeers P h ip iface
    · rfl

theorem HandlePeerRoute_wgPeers (P : Platform) (h : Host) (ips : List String) (iface : String) :
    (HandlePeerRoute P h ips iface).wgPeers = h.wgPeers := by
  unfold HandlePeerRoute
  rw [HandlePeerRoute_loop_wgPeers]
  rfl

theorem ConfigureDevice_add_wgPeers (P : Platform) (h : Host) (dev : String) (p : PeerConfig)
    (hr : p.Remove = false) :
    (ConfigureDevice P h dev { ReplacePeers := false, Peers := [p] }).2.wgPeers = h.wgPeers ∨
    (ConfigureDevice P h dev { ReplacePeers := false, Peers := [p] }).2.wgPeers =
      (if p.PublicKey ∈ h.wgPeers then h.wgPeers else h.wgPeers ++ [p.PublicKey]) := by
  unfold ConfigureDevice
  simp only
  split
  · right
    simp [applyPeerConfig, hr]
  · left; rfl

/-- Whatever happens, `HandlePeerTunnel` keeps the configured peers and adds at
most the key of its peer. -/
theorem HandlePeerTunnel_wgPeers (P : Platform) (h : Host) (p : WgPeerConfig) (dev : String)
    (relay : Bool) :
    (HandlePeerTunnel P h p dev relay).wgPeers = h.wgPeers ∨
    (HandlePeerTunnel P h p dev relay).wgPeers =
      (if p.PublicKey ∈ h.wgPeers then h.wgPeers else h.wgPeers ++ [p.PublicKey]) := by
  unfold HandlePeerTunnel
  simp only
  split
  · left; rfl
  · unfold addPeer
    simp only
    split
    · left; rfl
    · split
      · left; rfl
      · split
        · left; rfl
        · split
          · left; rfl
          · split
            · left; rfl
            · split
              · exact ConfigureDevice_add_wgPeers P _ dev _ rfl
              · exact ConfigureDevice_add_wgPeers P _ dev _ rfl

/-- When the WireGuard client opens, the device accepts the configuration and
the peer passes the static checks, `HandlePeerTunnel` configures the peer. -/
theorem HandlePeerTunnel_installs (P : Platform) (h : Host) (p : WgPeerConfig) (dev : String)
    (hwg : ∀ h, P.wgctrlNew h = true) (hcfg : ∀ h dev cfg, P.ConfigureDeviceOk h dev cfg = true)
    (hi : installable P p = true) :
    (HandlePeerTunnel P h p dev false).wgPeers =
      (if p.PublicKey ∈ h.wgPeers then h.wgPeers else h.wgPeers ++ [p.PublicKey]) := by
  unfold installable at hi
  cases hs : SplitHostPort p.Endpoint with
  | none => simp [hs] at hi
  | some hp =>
    obtain ⟨host, port⟩ := hp
    simp only [hs, Bool.and_eq_true] at hi
    obtain ⟨⟨hkey, hcidr⟩, hatoi⟩ := hi
    obtain ⟨n, hn⟩ := Option.isSome_iff_exists.1 hatoi
    simp [HandlePeerTunnel, addPeer, hs, hwg, hkey, hcidr, hn, ConfigureDevice, hcfg,
      applyPeerConfig]

theorem installPeer_wgPeers (P : Platform) (ax : Nexodus) (h : Host) (p : WgPeerConfig) :
    (installPeer P ax h p).wgPeers = h.wgPeers ∨
    (installPeer P ax h p).wgPeers =
      (if p.PublicKey ∈ h.wgPeers then h.wgPeers else h.wgPeers ++ [p.PublicKey]) := by
  unfold installPeer
  have := HandlePeerTunnel_wgPeers P (HandlePeerRoute P h p.AllowedIPs ax.tunnelIface) p
    ax.tunnelIface false
  rw [HandlePeerRoute_wgPeers] at this
  exact this

theorem installPeer_installs (P : Platform) (ax : Nexodus) (h : Host) (p : WgPeerConfig)
    (hwg : ∀ h, P.wgctrlNew h = true) (hcfg : ∀ h dev cfg, P.ConfigureDeviceOk h dev cfg = true)
    (hi : installable P p = true) :
    (installPeer P ax h p).wgPeers =
      (if p.PublicKey ∈ h.wgPeers then h.wgPeers else h.wgPeers ++ [p.PublicKey]) := by
  unfold installPeer
  rw [HandlePeerTunnel_installs P _ p ax.tunnelIface hwg hcfg hi, HandlePeerRoute_wgPeers]

theorem mem_installPeer_of_mem (P : Platform) (ax : Nexodus) (h : Host) (p : WgPeerConfig)
    (k : String) (hk : k ∈ h.wgPeers) : k ∈ (installPeer P ax h p).wgPeers := by
  rcases installPeer_wgPeers P ax h p with h1 | h1
  · rw [h1]; exact hk
  · rw [h1]; split
    · exact hk
    · exact List.mem_append_left _ hk

theorem mem_installPeer (P : Platform) (ax : Nexodus) (h : Host) (p : WgPeerConfig)
    (k : String) (hk : k ∈ (installPeer P ax h p).wgPeers) : k ∈ h.wgPeers ∨ k = p.PublicKey := by
  rcases installPeer_wgPeers P ax h p with h1 | h1
  · rw [h1] at hk; exact Or.inl hk
  · rw [h1] at hk
    split at hk
    · exact Or.inl hk
    · rcases List.mem_append.1 hk with h2 | h2
      · exact Or.inl h2
      · exact Or.inr (by simpa using h2)

theorem installPeer_key_mem (P : Platform) (ax : Nexodus) (h : Host) (p : WgPeerConfig)
    (hwg : ∀ h, P.wgctrlNew h = true) (hcfg : ∀ h dev cfg, P.ConfigureDeviceOk h dev cfg = true)
    (hi : installable P p = true) : p.PublicKey ∈ (installPeer P ax h p).wgPeers := by
  rw [installPeer_installs P ax h p hwg hcfg hi]
  split
  · assumption
  · simp

/-- The configured peers after installing, in order, those peers of a list that
satisfy `c`: the ones configured before and the keys of the installed peers. -/
theorem mem_installWhere (P : Platform) (ax : Nexodus) (c : WgPeerConfig → Prop)
    [DecidablePred c] (peers : List WgPeerConfig) (h : Host) (k : String) :
    (k ∈ (peers.foldl (fun h peer => if c peer then installPeer P ax h peer else h) h).wgPeers →
      k ∈ h.wgPeers ∨ ∃ p ∈ peers, c p ∧ p.PublicKey = k) ∧
    (k ∈ h.wgPeers →
      k ∈ (peers.foldl (fun h peer => if c peer then installPeer P ax h peer else h) h).wgPeers) := by
  induction peers generalizing h with
  | nil => exact ⟨fun hk => Or.inl hk, fun hk => hk⟩
  | cons p rest ih =>
    simp only [List.foldl_cons]
    refine ⟨fun hk => ?_, fun hk => ?_⟩
    · rcases (ih _).1 hk with h1 | ⟨q, hq, hc, hkq⟩
      · by_cases hcp : c p
        · rw [if_pos hcp] at h1
          rcases mem_installPeer P ax h p k h1 with h2 | h2
          · exact Or.inl h2
          · exact Or.inr ⟨p, List.mem_cons_self _ _, hcp, h2.symm⟩
        · rw [if_neg hcp] at h1
          exact Or.inl h1
      · exact Or.inr ⟨q, List.mem_cons_of_mem _ hq, hc, hkq⟩
    · apply (ih _).2
      by_cases hcp : c p
      · rw [if_pos hcp]; exact mem_installPeer_of_mem P ax h p k hk
      · rw [if_neg hcp]; exact hk

theorem mem_installWhere_of_installable (P : Platform) (ax : Nexodus) (c : WgPeerConfig → Prop)
    [DecidablePred c] (hwg : ∀ h, P.wgctrlNew h = true)
    (hcfg : ∀ h dev cfg, P.ConfigureDeviceOk h dev cfg = true)
    (peers : List WgPeerConfig) (h : Host) (p : WgPeerConfig) (hp : p ∈ peers) (hc : c p)
    (hi : installable P p = true) :
    p.PublicKey ∈
      (peers.foldl (fun h peer => if c peer then installPeer P ax h peer else h) h).wgPeers := by
  induction peers generalizing h with
  | nil => simp at hp
  | cons q rest ih =>
    simp only [List.foldl_cons]
    by_cases hin : p ∈ rest
    · exact ih _ hin
    · have : p = q := by
        rcases List.mem_cons.1 hp with h1 | h1
        · exact h1
        · exact absurd h1 hin
      subst this
      rw [if_pos hc]
      exact (mem_installWhere P ax c rest _ p.PublicKey).2
        (installPeer_key_mem P ax h p hwg hcfg hi)

theorem RunCommand_wgPeers (P : Platform) (h : Host) (args : List String) :
    (RunCommand P h args).2.wgPeers = h.wgPeers := rfl

theorem deleteExistingLink_wgPeers (P : Platform) (ax : Nexodus) (h : Host) :
    (deleteExistingLink P ax h).wgPeers = h.wgPeers ∨ (deleteExistingLink P ax h).wgPeers = [] := by
  unfold deleteExistingLink
  split
  · simp only
    split
    · right; rfl
    · left; rfl
  · left; rfl

theorem assignAddress_wgPeers (P : Platform) (ax : Nexodus) (h : Host) :
    (assignAddress P ax h).2.wgPeers = h.wgPeers := by
  unfold assignAddress
  simp only
  split
  · rfl
  · split
    · split <;> rfl
    · split <;> rfl

/-- Interface setup leaves the configured peers alone or removes them all. -/
theorem setupInterface_wgPeers (P : Platform) (ax : Nexodus) (h : Host) :
    (setupInterface P ax h).2.wgPeers = h.wgPeers ∨ (setupInterface P ax h).2.wgPeers = [] := by
  have h1 := deleteExistingLink_wgPeers P ax h
  have key : ∀ hh : Host, hh.wgPeers = (deleteExistingLink P ax h).wgPeers →
      (hh.wgPeers = h.wgPeers ∨ hh.wgPeers = []) := by
    intro hh he
    rw [he]; exact h1
  unfold setupInterface
  simp only
  split
  · exact key _ rfl
  · split
    · exact key _ rfl
    · split
      · exact key _ (assignAddress_wgPeers P ax _)
      · split
        · exact key _ (assignAddress_wgPeers P ax _)
        · exact key _ (assignAddress_wgPeers P ax _)

/-! ## The diff against the cache: which devices become new peers -/

theorem diffStep_newPeers_mono (st : DeviceCache × Bool × List Device) (p : Device) :
    (∀ n ∈ st.2.2, n ∈ (diffStep st p).2.2) ∧
    (st.2.1 = true → (diffStep st p).2.1 = true) := by
  unfold diffStep
  simp only
  constructor
  · intro n hn
    split <;> split <;> simp [hn]
  · intro hc
    split <;> split <;> simp [hc]

theorem foldl_diffStep_newPeers_mono (L : List Device) (st : DeviceCache × Bool × List Device) :
    (∀ n ∈ st.2.2, n ∈ (L.foldl diffStep st).2.2) ∧
    (st.2.1 = true → (L.foldl diffStep st).2.1 = true) := by
  induction L generalizing st with
  | nil => exact ⟨fun _ hn => hn, fun hc => hc⟩
  | cons p rest ih =>
    simp only [List.foldl_cons]
    have h1 := diffStep_newPeers_mono st p
    have h2 := ih (diffStep st p)
    exact ⟨fun n hn => h2.1 n (h1.1 n hn), fun hc => h2.2 (h1.2 hc)⟩

/-- Every new peer is a device of the listing. -/
theorem mem_diffStep_newPeers (st : DeviceCache × Bool × List Device) (p n : Device)
    (hn : n ∈ (diffStep st p).2.2) : n ∈ st.2.2 ∨ n = p := by
  unfold diffStep at hn
  simp only at hn
  split at hn <;> split at hn <;> simp at hn <;> tauto

theorem mem_foldl_diffStep_newPeers (L : List Device) (st : DeviceCache × Bool × List Device)
    (n : Device) (hn : n ∈ (L.foldl diffStep st).2.2) : n ∈ st.2.2 ∨ n ∈ L := by
  induction L generalizing st with
  | nil => exact Or.inl hn
  | cons p rest ih =>
    simp only [List.foldl_cons] at hn
    rcases ih _ hn with h1 | h1
    · rcases mem_diffStep_newPeers st p n h1 with h2 | h2
      · exact Or.inl h2
      · exact Or.inr (h2 ▸ List.mem_cons_self _ _)
    · exact Or.inr (List.mem_cons_of_mem _ h1)

/-- A device the cache does not hold as listed becomes a new peer and sets the
`changed` flag. -/
theorem diffStep_new (st : DeviceCache × Bool × List Device) (p : Device)
    (h : cacheGet st.1 p.ID ≠ some p) :
    p ∈ (diffStep st p).2.2 ∧ (diffStep st p).2.1 = true := by
  unfold diffStep
  simp only
  cases hg : cacheGet st.1 p.ID with
  | none =>
    simp
    split <;> simp
  | some e =>
    have hne : e ≠ p := fun he => h (by rw [hg, he])
    simp [hne]

theorem foldl_diffStep_new (L : List Device) (st : DeviceCache × Bool × List Device)
    (hnd : (L.map (fun d => d.ID)).Nodup) (d : Device) (hd : d ∈ L)
    (h : cacheGet st.1 d.ID ≠ some d) :
    d ∈ (L.foldl diffStep st).2.2 ∧ (L.foldl diffStep st).2.1 = true := by
  induction L generalizing st with
  | nil => simp at hd
  | cons p rest ih =>
    simp only [List.foldl_cons]
    simp only [List.map_cons, List.nodup_cons] at hnd
    rcases List.mem_cons.1 hd with heq | hin
    · subst heq
      have h1 := diffStep_new st d h
      have h2 := foldl_diffStep_newPeers_mono rest (diffStep st d)
      exact ⟨h2.1 d h1.1, h2.2 h1.2⟩
    · apply ih _ hnd.2 hin
      have hne : ¬ p.ID = d.ID := by
        intro hh
        exact hnd.1 (hh ▸ List.mem_map.2 ⟨d, hin, rfl⟩)
      rw [cacheGet_diffStep]
      simpa [hne] using h

/-- When the diff leaves the `changed` flag unset, the cache already holds every
listed device and the diff changes nothing. -/
theorem foldl_diffStep_unchanged (L : List Device) (cache : DeviceCache) (np : List Device)
    (hnd : (L.map (fun d => d.ID)).Nodup)
    (hc : (L.foldl diffStep (cache, false, np)).2.1 = false) :
    (∀ d ∈ L, cacheGet cache d.ID = some d) ∧
    L.foldl diffStep (cache, false, np) = (cache, false, np) := by
  have hall : ∀ d ∈ L, cacheGet cache d.ID = some d := by
    intro d hd
    by_contra hne
    have := (foldl_diffStep_new L (cache, false, np) hnd d hd hne).2
    rw [hc] at this
    exact Bool.noConfusion this
  exact ⟨hall, foldl_diffStep_fixed L _ hall⟩

/-! ## The devices a cache holds -/

theorem mem_values_iff {c : DeviceCache} (hwf : CacheWF c) (e : Device) :
    e ∈ c.map Prod.snd ↔ cacheGet c e.ID = some e := by
  constructor
  · intro he
    obtain ⟨⟨k, v⟩, hm, hv⟩ := List.mem_map.1 he
    simp only at hv
    subst hv
    have hk : k = v.ID := hwf.2 (k, v) hm
    subst hk
    exact cacheGet_of_mem hwf.1 hm
  · intro hg
    exact List.mem_map.2 ⟨(e.ID, e), mem_of_cacheGet hg, rfl⟩

theorem foldl_pick_nodup (L : List Device) (hnd : (L.map (fun d => d.ID)).Nodup) (id : UUID)
    (init : Option Device) (e : Device) :
    L.foldl (fun acc d => if d.ID = id then some d else acc) init = some e ↔
      (e ∈ L ∧ e.ID = id) ∨ (init = some e ∧ ∀ d ∈ L, d.ID ≠ id) := by
  induction L generalizing init with
  | nil => simp
  | cons p rest ih =>
    simp only [List.map_cons, List.nodup_cons] at hnd
    simp only [List.foldl_cons]
    rw [ih hnd.2]
    by_cases hp : p.ID = id
    · have hrest : ∀ d ∈ rest, d.ID ≠ id := by
        intro d hd hh
        exact hnd.1 (by rw [hp, ← hh]; exact List.mem_map.2 ⟨d, hd, rfl⟩)
      simp only [hp, if_true, List.mem_cons]
      constructor
      · rintro (⟨hin, hid⟩ | ⟨heq, _⟩)
        · exact absurd hid (hrest e hin)
        · have : p = e := Option.some.inj heq
          subst this
          exact Or.inl ⟨Or.inl rfl, hp⟩
      · rintro (⟨hin | hin, hid⟩ | ⟨_, hall⟩)
        · subst hin
          exact Or.inr ⟨rfl, hrest⟩
        · exact absurd hid (hrest e hin)
        · exact absurd hp (hall p (Or.inl rfl))
    · simp only [hp, if_false, List.mem_cons]
      constructor
      · rintro (⟨hin, hid⟩ | ⟨heq, hall⟩)
        · exact Or.inl ⟨Or.inr hin, hid⟩
        · refine Or.inr ⟨heq, ?_⟩
          intro d hd
          rcases hd with hd | hd
          · subst hd; exact hp
          · exact hall d hd
      · rintro (⟨hin | hin, hid⟩ | ⟨heq, hall⟩)
        · subst hin; exact absurd hid hp
        · exact Or.inl ⟨hin, hid⟩
        · exact Or.inr ⟨heq, fun d hd => hall d (Or.inr hd)⟩

/-- The devices of the cache after a listing has been merged into it: the listed
devices, and the cached devices whose ID is not listed. -/
theorem mem_values_foldl_diffStep (L : List Device) (st : DeviceCache × Bool × List Device)
    (hwf : CacheWF st.1) (hnd : (L.map (fun d => d.ID)).Nodup) (e : Device) :
    e ∈ (L.foldl diffStep st).1.map Prod.snd ↔
      e ∈ L ∨ (e ∈ st.1.map Prod.snd ∧ ∀ d ∈ L, d.ID ≠ e.ID) := by
  rw [mem_values_iff (CacheWF_foldl_diffStep L hwf), cacheGet_foldl_diffStep,
    foldl_pick_nodup L hnd, mem_values_iff hwf]
  constructor
  · rintro (⟨h1, _⟩ | h2)
    · exact Or.inl h1
    · exact Or.inr h2
  · rintro (h1 | h2)
    · exact Or.inl ⟨h1, rfl⟩
    · exact Or.inr h2

theorem CacheWF_nil : CacheWF ([] : DeviceCache) := by
  constructor
  · exact List.nodup_nil
  · intro e he
    simp at he

theorem CacheWF_freshCache (L : List Device) : CacheWF (freshCache L) :=
  @CacheWF_foldl_diffStep L ([], false, []) CacheWF_nil

theorem mem_values_freshCache (L : List Device) (hnd : (L.map (fun d => d.ID)).Nodup)
    (e : Device) : e ∈ (freshCache L).map Prod.snd ↔ e ∈ L := by
  unfold freshCache
  rw [mem_values_foldl_diffStep L _ CacheWF_nil hnd]
  simp

/-! ## The deletion pass and the configured peers -/

/-- After a deletion pass that returns no error, the configured peers are those
configured before whose key is not the key of an unlisted cached device. -/
theorem HandlePeerDeleteLoop_wgPeers (P : Platform) (L : List Device) (iface : String) :
    ∀ (entries : List (UUID × Device)) (cache : DeviceCache) (h : Host),
      (entries.map Prod.fst).Nodup →
      (∀ e ∈ entries, e.1 = e.2.ID ∧ cacheGet cache e.1 = some e.2) →
      (HandlePeerDeleteLoop P L iface entries cache h).1 = true →
      ∀ k, k ∈ (HandlePeerDeleteLoop P L iface entries cache h).2.2.wgPeers ↔
        (k ∈ h.wgPeers ∧ ∀ e ∈ entries, inPeerListing L e.2 = false → e.2.PublicKey ≠ k) := by
  intro entries
  induction entries with
  | nil =>
    intro cache h _ _ _ k
    simp [HandlePeerDeleteLoop]
  | cons e0 rest ih =>
    intro cache h hnd hinv hok k
    obtain ⟨k0, p⟩ := e0
    have h0 := hinv (k0, p) (List.mem_cons_self _ _)
    have hk : k0 = p.ID := h0.1
    subst hk
    have hs : cacheGet cache p.ID = some p := h0.2
    simp only [List.map_cons, List.nodup_cons] at hnd
    have hinv' : ∀ e ∈ rest, e.1 = e.2.ID ∧ cacheGet cache e.1 = some e.2 :=
      fun e he => hinv e (List.mem_cons_of_mem _ he)
    by_cases hl : inPeerListing L p = true
    · have hstep : HandlePeerDeleteLoop P L iface ((p.ID, p) :: rest) cache h =
          HandlePeerDeleteLoop P L iface rest cache h := by
        simp [HandlePeerDeleteLoop, hs, hl]
      rw [hstep] at hok ⊢
      rw [ih cache h hnd.2 hinv' hok k]
      constructor
      · rintro ⟨h1, h2⟩
        refine ⟨h1, ?_⟩
        intro e he hun
        rcases List.mem_cons.1 he with heq | hin
        · subst heq
          simp [hl] at hun
        · exact h2 e hin hun
      · rintro ⟨h1, h2⟩
        exact ⟨h1, fun e he hun => h2 e (List.mem_cons_of_mem _ he) hun⟩
    · have hl' : inPeerListing L p = false := by simpa using hl
      obtain ⟨hd, hstep⟩ := HandlePeerDeleteLoop_step_unlisted P L iface p rest cache h hs hl' hok
      rw [hstep] at hok ⊢
      have hinv2 : ∀ e ∈ rest, e.1 = e.2.ID ∧
          cacheGet (cacheDelete (cacheDelete cache p.ID) p.ID) e.1 = some e.2 := by
        intro e he
        refine ⟨(hinv' e he).1, ?_⟩
        have hne : ¬ p.ID = e.1 := by
          intro hh
          exact hnd.1 (hh ▸ List.mem_map.2 ⟨e, he, rfl⟩)
        simp only [cacheGet_cacheDelete, hne, if_false]
        exact (hinv' e he).2
      rw [ih _ _ hnd.2 hinv2 hok k, HandlePeerRouteDelete_wgPeers,
        deletePeer_wgPeers_of_ok P h _ iface hd, List.mem_filter]
      constructor
      · rintro ⟨⟨h1, hne⟩, h2⟩
        refine ⟨h1, ?_⟩
        intro e he hun
        rcases List.mem_cons.1 he with heq | hin
        · subst heq
          intro hh
          exact (by simpa using hne : ¬ k = p.PublicKey) hh.symm
        · exact h2 e hin hun
      · rintro ⟨h1, h2⟩
        refine ⟨⟨h1, ?_⟩, fun e he hun => h2 e (List.mem_cons_of_mem _ he) hun⟩
        have := h2 (p.ID, p) (List.mem_cons_self _ _) hl'
        simpa using fun hh : k = p.PublicKey => this hh.symm

theorem HandlePeerDelete_wgPeers (P : Platform) (L : List Device) (iface : String)
    (cache : DeviceCache) (hwf : CacheWF cache) (h : Host)
    (hok : (HandlePeerDelete P L cache iface h).1 = true) (k : String) :
    k ∈ (HandlePeerDelete P L cache iface h).2.2.wgPeers ↔
      (k ∈ h.wgPeers ∧
        ∀ e ∈ cache.map Prod.snd, (∀ d ∈ L, d.ID ≠ e.ID) → e.PublicKey ≠ k) := by
  unfold HandlePeerDelete at hok ⊢
  have hinv : ∀ e ∈ cache, e.1 = e.2.ID ∧ cacheGet cache e.1 = some e.2 := by
    intro e he
    exact ⟨hwf.2 e he, cacheGet_of_mem hwf.1 he⟩
  rw [HandlePeerDeleteLoop_wgPeers P L iface cache cache h hwf.1 hinv hok k]
  have hun : ∀ e : Device, inPeerListing L e = false ↔ ∀ d ∈ L, d.ID ≠ e.ID := by
    intro e
    simp [inPeerListing]
  constructor
  · rintro ⟨h1, h2⟩
    refine ⟨h1, ?_⟩
    intro e he hall
    obtain ⟨x, hx, hxe⟩ := List.mem_map.1 he
    subst hxe
    exact h2 x hx ((hun x.2).2 hall)
  · rintro ⟨h1, h2⟩
    refine ⟨h1, ?_⟩
    intro e he hl
    exact h2 e.2 (List.mem_map.2 ⟨e, he, rfl⟩) ((hun e.2).1 hl)

/-! ## What a build depends on -/

theorem relayScanStep_congr (ax ax' : Nexodus) (ho : ax.organization = ax'.organization)
    (s s' : RelayScan) (hip : s.relayIP = s'.relayIP) (hpre : s.orgPrefix = s'.orgPrefix)
    (d : Device) :
    (relayScanStep ax s d).map (fun x => (x.relayIP, x.orgPrefix)) =
      (relayScanStep ax' s' d).map (fun x => (x.relayIP, x.orgPrefix)) := by
  unfold relayScanStep
  simp only [ho]
  cases hr : d.Relay
  · simp only [Bool.false_eq_true, if_false, Option.map_some']
    split <;> split <;> simp [hip, hpre]
  · simp only [if_true]
    cases d.AllowedIPs with
    | nil => rfl
    | cons ip rest =>
      simp only [Option.map_some']
      split_ifs <;> simp_all

theorem relayScan_congr (ax ax' : Nexodus) (ho : ax.organization = ax'.organization)
    (devs : List Device) (s s' : RelayScan) (hip : s.relayIP = s'.relayIP)
    (hpre : s.orgPrefix = s'.orgPrefix) :
    (relayScan ax devs s).map (fun x => (x.relayIP, x.orgPrefix)) =
      (relayScan ax' devs s').map (fun x => (x.relayIP, x.orgPrefix)) := by
  induction devs generalizing s s' with
  | nil => simp [relayScan, hip, hpre]
  | cons d rest ih =>
    have hstep := relayScanStep_congr ax ax' ho s s' hip hpre d
    simp only [relayScan]
    cases h1 : relayScanStep ax s d with
    | none =>
      rw [h1] at hstep
      cases h2 : relayScanStep ax' s' d with
      | none => rfl
      | some b => rw [h2] at hstep; simp at hstep
    | some a =>
      rw [h1] at hstep
      cases h2 : relayScanStep ax' s' d with
      | none => rw [h2] at hstep; simp at hstep
      | some b =>
        rw [h2] at hstep
        simp only [Option.map_some', Option.some.injEq, Prod.mk.injEq] at hstep
        exact ih a b hstep.1 hstep.2

/-- The status of a build and the peers it derives depend on the frame of the
agent and on the cache only: not on the host and not on what earlier builds
left in the agent. -/
theorem buildPeersConfig_congr (P : Platform) (ax ax' : Nexodus) (h h' : Host)
    (hf : SameFrame ax ax') :
    (buildPeersConfig P ax h).status = (buildPeersConfig P ax' h').status ∧
    ((buildPeersConfig P ax h).status = .done →
      (buildPeersConfig P ax h).ax.wgConfig.Peers =
        (buildPeersConfig P ax' h').ax.wgConfig.Peers) := by
  obtain ⟨hc, hi, hk, hs, hr, ho⟩ := hf
  have hscan := relayScan_congr ax ax' ho (ax.deviceCache.map Prod.snd)
    { pubKeyInConfig := ax.wireguardPubKeyInConfig }
    { pubKeyInConfig := ax'.wireguardPubKeyInConfig } rfl rfl
  have hstat : (buildPeersConfig P ax h).status = (buildPeersConfig P ax' h').status := by
    unfold buildPeersConfig
    simp only
    rw [← hc]
    cases h1 : relayScan ax (ax.deviceCache.map Prod.snd)
        { pubKeyInConfig := ax.wireguardPubKeyInConfig } with
    | none =>
      rw [h1] at hscan
      cases h2 : relayScan ax' (ax.deviceCache.map Prod.snd)
          { pubKeyInConfig := ax'.wireguardPubKeyInConfig } with
      | none => rfl
      | some b => rw [h2] at hscan; simp at hscan
    | some a =>
      rw [h1] at hscan
      cases h2 : relayScan ax' (ax.deviceCache.map Prod.snd)
          { pubKeyInConfig := ax'.wireguardPubKeyInConfig } with
      | none => rw [h2] at hscan; simp at hscan
      | some b =>
        rw [h2] at hscan
        simp only [Option.map_some', Option.some.injEq, Prod.mk.injEq] at hscan
        simp only [hscan.1, hscan.2]
        split
        · rfl
        · cases initialRelayAllowedIP P b.relayIP b.orgPrefix <;> rfl
  refine ⟨hstat, fun hdone => ?_⟩
  obtain ⟨s1, a1, hs1, _, hi1, hp1⟩ := buildPeersConfig_done P ax h hdone
  obtain ⟨s2, a2, hs2, _, hi2, hp2⟩ := buildPeersConfig_done P ax' h' (hstat ▸ hdone)
  rw [← hc] at hs2 hp2
  rw [hs1, hs2] at hscan
  simp only [Option.map_some', Option.some.injEq, Prod.mk.injEq] at hscan
  rw [hscan.1, hscan.2, hi2] at hi1
  have ha : a2 = a1 := Option.some.inj hi1
  rw [hp1, hp2, ha]
  exact (policyPeers_congr ax ax' hk.symm hr.symm hs.symm a1 _).symm

/-! ## What a build does to the configured peers -/

theorem DelLink_wgPeers (P : Platform) (h : Host) (dev : String) :
    (DelLink P h dev).2.wgPeers = h.wgPeers ∨ (DelLink P h dev).2.wgPeers = [] := by
  unfold DelLink
  simp only
  split
  · right; rfl
  · left; rfl

theorem buildLocalConfigStep_wgPeers (P : Platform) (st : Nexodus × Host) (value : Device) :
    (buildLocalConfigStep P st value).2.wgPeers = st.2.wgPeers ∨
    (buildLocalConfigStep P st value).2.wgPeers = [] := by
  unfold buildLocalConfigStep
  simp only
  split
  · simp only
    split
    · split
      · exact DelLink_wgPeers P _ _
      · left; rfl
    · left; rfl
  · left; rfl

theorem buildLocalConfig_fold_wgPeers (P : Platform) (devs : List Device) (st : Nexodus × Host) :
    (devs.foldl (buildLocalConfigStep P) st).2.wgPeers = st.2.wgPeers ∨
    (devs.foldl (buildLocalConfigStep P) st).2.wgPeers = [] := by
  induction devs generalizing st with
  | nil => left; rfl
  | cons d rest ih =>
    simp only [List.foldl_cons]
    rcases ih (buildLocalConfigStep P st d) with h1 | h1
    · rcases buildLocalConfigStep_wgPeers P st d with h2 | h2
      · left; rw [h1, h2]
      · right; rw [h1, h2]
    · right; exact h1

/-- The two ways a build ends: early, with the host and the address untouched, or
after the peer loop and `buildLocalConfig`. -/
theorem buildPeersConfig_parts (P : Platform) (ax : Nexodus) (h : Host) :
    ((buildPeersConfig P ax h).host = h ∧
      (buildPeersConfig P ax h).ax.wgLocalAddress = ax.wgLocalAddress) ∨
    ∃ (ax1 ax2 : Nexodus) (relayIP : String) (st0 : PeerLoop),
      SameFrame ax ax1 ∧ SameFrame ax ax2 ∧ ax2.wgLocalAddress = ax.wgLocalAddress ∧
      st0.host = h ∧
      (buildPeersConfig P ax h).host =
        (buildLocalConfig P ax2
          ((ax.deviceCache.map Prod.snd).foldl (peerStep P ax1 relayIP) st0).host).2 ∧
      (buildPeersConfig P ax h).ax =
        (buildLocalConfig P ax2
          ((ax.deviceCache.map Prod.snd).foldl (peerStep P ax1 relayIP) st0).host).1 := by
  unfold buildPeersConfig
  simp only
  cases hscan : relayScan ax (ax.deviceCache.map Prod.snd)
      { pubKeyInConfig := ax.wireguardPubKeyInConfig } with
  | none => left; exact ⟨rfl, rfl⟩
  | some scan =>
    simp only
    by_cases hhub : scan.relayIP = "" ∧ decide (scan.orgPrefix ≠ "") = true
    · left
      simp only [hhub, and_self, if_true]
    · simp only [hhub, if_false]
      cases hinit : initialRelayAllowedIP P scan.relayIP scan.orgPrefix with
      | none => left; exact ⟨rfl, rfl⟩
      | some allowed0 =>
        right
        simp only
        refine ⟨_, _, _, (⟨[], allowed0, ax.relayWgIP, h⟩ : PeerLoop), ?_, ?_, ?_, rfl, rfl, rfl⟩
        · exact ⟨rfl, rfl, rfl, rfl, rfl, rfl⟩
        · exact ⟨rfl, rfl, rfl, rfl, rfl, rfl⟩
        · rfl

/-- A build leaves the configured peers alone or, by deleting the link, removes
them all. -/
theorem buildPeersConfig_wgPeers (P : Platform) (ax : Nexodus) (h : Host) :
    (buildPeersConfig P ax h).host.wgPeers = h.wgPeers ∨
    (buildPeersConfig P ax h).host.wgPeers = [] := by
  rcases buildPeersConfig_parts P ax h with ⟨h1, _⟩ | ⟨ax1, ax2, relayIP, st0, _, _, _, h0, hh, _⟩
  · left; rw [h1]
  · rw [hh]
    simp only [buildLocalConfig]
    rcases buildLocalConfig_fold_wgPeers P (ax2.deviceCache.map Prod.snd)
      (ax2, ((ax.deviceCache.map Prod.snd).foldl (peerStep P ax1 relayIP) st0).host) with h1 | h1
    · left
      rw [h1]
      simp only
      rw [(peerLoop_wgPeers P _ _ _ _).1, h0]
    · right; exact h1

/-- When every cached entry of this host carries the address the agent already
has, `buildLocalConfig` leaves host and address as they are. -/
theorem buildLocalConfig_fold_keep (P : Platform) (devs : List Device) (st : Nexodus × Host)
    (hself : ∀ d ∈ devs, d.PublicKey = st.1.wireguardPubKey → d.TunnelIP = st.1.wgLocalAddress) :
    (devs.foldl (buildLocalConfigStep P) st).2 = st.2 ∧
    (devs.foldl (buildLocalConfigStep P) st).1.wgLocalAddress = st.1.wgLocalAddress := by
  induction devs generalizing st with
  | nil => exact ⟨rfl, rfl⟩
  | cons d rest ih =>
    simp only [List.foldl_cons]
    have hstep : (buildLocalConfigStep P st d).2 = st.2 ∧
        (buildLocalConfigStep P st d).1.wgLocalAddress = st.1.wgLocalAddress ∧
        (buildLocalConfigStep P st d).1.wireguardPubKey = st.1.wireguardPubKey := by
      unfold buildLocalConfigStep
      simp only
      split
      · rename_i hk
        have ht := hself d (List.mem_cons_self _ _) hk
        simp [ht]
      · exact ⟨rfl, rfl, rfl⟩
    have := ih (buildLocalConfigStep P st d) (by
      intro e he hk
      rw [hstep.2.1]
      exact hself e (List.mem_cons_of_mem _ he) (hk.trans hstep.2.2))
    rw [this.1, this.2, hstep.1, hstep.2.1]
    exact ⟨rfl, rfl⟩

theorem buildPeersConfig_keep (P : Platform) (ax : Nexodus) (h : Host)
    (hself : ∀ d ∈ ax.deviceCache.map Prod.snd,
      d.PublicKey = ax.wireguardPubKey → d.TunnelIP = ax.wgLocalAddress) :
    (buildPeersConfig P ax h).host.wgPeers = h.wgPeers ∧
    (buildPeersConfig P ax h).host.ifaceIPv4 = h.ifaceIPv4 ∧
    (buildPeersConfig P ax h).ax.wgLocalAddress = ax.wgLocalAddress := by
  rcases buildPeersConfig_parts P ax h with ⟨h1, h2⟩ | ⟨ax1, ax2, relayIP, st0, _, hf2, ha, h0, hh, hax⟩
  · rw [h1]; exact ⟨rfl, rfl, h2⟩
  · have hk := buildLocalConfig_fold_keep P (ax2.deviceCache.map Prod.snd)
      (ax2, ((ax.deviceCache.map Prod.snd).foldl (peerStep P ax1 relayIP) st0).host) (by
        intro d hd hkey
        simp only at hkey ⊢
        rw [ha]
        rw [← hf2.1] at hd
        exact hself d hd (hkey.trans hf2.2.2.1.symm))
    rw [hh, hax]
    simp only [buildLocalConfig]
    rw [hk.1, hk.2]
    simp only
    rw [(peerLoop_wgPeers P _ _ _ _).1, (peerLoop_wgPeers P _ _ _ _).2, h0]
    exact ⟨rfl, rfl, ha⟩

/-! ## What a deployment does to the configured peers -/

/-- The loop of an incremental deployment over `newPeers`. -/
theorem mem_installNew (P : Platform) (ax : Nexodus) (peers : List WgPeerConfig)
    (np : List Device) (h : Host) (k : String) :
    (k ∈ (np.foldl (fun h newPeer =>
        if newPeer.ID ≠ uuidNil then
          peers.foldl (fun h peer =>
            if peer.PublicKey = newPeer.PublicKey ∧ newPeer.PublicKey ≠ ax.wireguardPubKey then
              installPeer P ax h peer
            else h) h
        else h) h).wgPeers →
      k ∈ h.wgPeers ∨ ∃ n ∈ np, ∃ p ∈ peers, p.PublicKey = n.PublicKey ∧
        n.PublicKey ≠ ax.wireguardPubKey ∧ n.ID ≠ uuidNil ∧ p.PublicKey = k) ∧
    (k ∈ h.wgPeers →
      k ∈ (np.foldl (fun h newPeer =>
        if newPeer.ID ≠ uuidNil then
          peers.foldl (fun h peer =>
            if peer.PublicKey = newPeer.PublicKey ∧ newPeer.PublicKey ≠ ax.wireguardPubKey then
              installPeer P ax h peer
            else h) h
        else h) h).wgPeers) := by
  induction np generalizing h with
  | nil => exact ⟨fun hk => Or.inl hk, fun hk => hk⟩
  | cons n rest ih =>
    simp only [List.foldl_cons]
    by_cases hid : n.ID ≠ uuidNil
    · rw [if_pos hid]
      have hin := mem_installWhere P ax
        (fun peer => peer.PublicKey = n.PublicKey ∧ n.PublicKey ≠ ax.wireguardPubKey) peers h k
      constructor
      · intro hk
        rcases (ih _).1 hk with h1 | ⟨m, hm, p, hp, h2⟩
        · rcases hin.1 h1 with h3 | ⟨p, hp, hc, hpk⟩
          · exact Or.inl h3
          · exact Or.inr ⟨n, List.mem_cons_self _ _, p, hp, hc.1, hc.2, hid, hpk⟩
        · exact Or.inr ⟨m, List.mem_cons_of_mem _ hm, p, hp, h2⟩
      · intro hk
        exact (ih _).2 (hin.2 hk)
    · rw [if_neg hid]
      constructor
      · intro hk
        rcases (ih _).1 hk with h1 | ⟨m, hm, p, hp, h2⟩
        · exact Or.inl h1
        · exact Or.inr ⟨m, List.mem_cons_of_mem _ hm, p, hp, h2⟩
      · intro hk
        exact (ih _).2 hk

theorem mem_installNew_of_installable (P : Platform) (ax : Nexodus)
    (hwg : ∀ h, P.wgctrlNew h = true) (hcfg : ∀ h dev cfg, P.ConfigureDeviceOk h dev cfg = true)
    (peers : List WgPeerConfig) (np : List Device) (h : Host)
    (n : Device) (hn : n ∈ np) (hid : n.ID ≠ uuidNil) (hown : n.PublicKey ≠ ax.wireguardPubKey)
    (p : WgPeerConfig) (hp : p ∈ peers) (hpk : p.PublicKey = n.PublicKey)
    (hi : installable P p = true) :
    p.PublicKey ∈ (np.foldl (fun h newPeer =>
        if newPeer.ID ≠ uuidNil then
          peers.foldl (fun h peer =>
            if peer.PublicKey = newPeer.PublicKey ∧ newPeer.PublicKey ≠ ax.wireguardPubKey then
              installPeer P ax h peer
            else h) h
        else h) h).wgPeers := by
  induction np generalizing h with
  | nil => simp at hn
  | cons m rest ih =>
    simp only [List.foldl_cons]
    rcases List.mem_cons.1 hn with heq | hin
    · subst heq
      rw [if_pos hid]
      apply (mem_installNew P ax peers rest _ p.PublicKey).2
      exact mem_installWhere_of_installable P ax
        (fun peer => peer.PublicKey = n.PublicKey ∧ n.PublicKey ≠ ax.wireguardPubKey)
        hwg hcfg peers h p hp ⟨hpk, hown⟩ hi
    · exact ih _ hin

theorem foldl_installPeer_eq (P : Platform) (ax : Nexodus) (peers : List WgPeerConfig) (h : Host) :
    peers.foldl (installPeer P ax) h =
      peers.foldl (fun h peer => if (fun _ => True) peer then installPeer P ax h peer else h) h := by
  simp

/-- A first deployment that returns no error on a host without peers leaves
exactly the installable peers of the configuration. -/
theorem DeployWireguardConfig_first_wgPeers (P : Platform) (ax : Nexodus) (h : Host)
    (np : List Device)
    (hwg : ∀ h, P.wgctrlNew h = true) (hcfg : ∀ h dev cfg, P.ConfigureDeviceOk h dev cfg = true)
    (hempty : h.wgPeers = [])
    (hinst : ∀ p ∈ ax.wgConfig.Peers, installable P p = true)
    (hok : (DeployWireguardConfig P ax h np true).1 = none) (k : String) :
    k ∈ (DeployWireguardConfig P ax h np true).2.wgPeers ↔
      ∃ p ∈ ax.wgConfig.Peers, p.PublicKey = k := by
  unfold DeployWireguardConfig at hok ⊢
  simp only at hok ⊢
  have hr : ∀ r : Option Err × Host, r.2.wgPeers = [] →
      (match r with
        | (some e, h1) => ((some e, h1) : Option Err × Host)
        | (none, h1) =>
          if true = true then (none, ax.wgConfig.Peers.foldl (installPeer P ax) h1)
          else (none, h1)).1 = none →
      (k ∈ (match r with
        | (some e, h1) => ((some e, h1) : Option Err × Host)
        | (none, h1) =>
          if true = true then (none, ax.wgConfig.Peers.foldl (installPeer P ax) h1)
          else (none, h1)).2.wgPeers ↔
        ∃ p ∈ ax.wgConfig.Peers, p.PublicKey = k) := by
    rintro ⟨e, h1⟩ he hn
    cases e with
    | some e => simp at hn
    | none =>
      simp only [if_true]
      rw [foldl_installPeer_eq]
      have hm := mem_installWhere P ax (fun _ => True) ax.wgConfig.Peers h1 k
      constructor
      · intro hk
        rcases hm.1 hk with h2 | ⟨p, hp, _, hpk⟩
        · simp only at he
          rw [he] at h2
          simp at h2
        · exact ⟨p, hp, hpk⟩
      · rintro ⟨p, hp, hpk⟩
        subst hpk
        exact mem_installWhere_of_installable P ax (fun _ => True) hwg hcfg _ h1 p hp trivial
          (hinst p hp)
  by_cases ha : ax.wgLocalAddress ≠ GetIPv4IfaceString h
  · rw [if_pos ha] at hok ⊢
    have hs : (setupInterface P ax h).2.wgPeers = [] := by
      rcases setupInterface_wgPeers P ax h with h1 | h1
      · rw [h1, hempty]
      · exact h1
    simpa using hr (setupInterface P ax h) hs (by simpa using hok)
  · rw [if_neg ha] at hok ⊢
    simpa using hr (none, h) hempty (by simp)

/-- An incremental deployment on an interface that carries the agent's address
keeps the configured peers and adds peers of the configuration matching a new
peer. -/
theorem DeployWireguardConfig_incr_wgPeers (P : Platform) (ax : Nexodus) (h : Host)
    (np : List Device) (ha : ax.wgLocalAddress = GetIPv4IfaceString h) (k : String) :
    (k ∈ (DeployWireguardConfig P ax h np false).2.wgPeers →
      k ∈ h.wgPeers ∨ ∃ n ∈ np, ∃ p ∈ ax.wgConfig.Peers, p.PublicKey = n.PublicKey ∧
        n.PublicKey ≠ ax.wireguardPubKey ∧ n.ID ≠ uuidNil ∧ p.PublicKey = k) ∧
    (k ∈ h.wgPeers → k ∈ (DeployWireguardConfig P ax h np false).2.wgPeers) := by
  unfold DeployWireguardConfig
  simp only [ha, ne_eq, not_true_eq_false, if_false, Bool.false_eq_true]
  exact mem_installNew P ax ax.wgConfig.Peers np h k

theorem DeployWireguardConfig_incr_installs (P : Platform) (ax : Nexodus) (h : Host)
    (np : List Device) (ha : ax.wgLocalAddress = GetIPv4IfaceString h)
    (hwg : ∀ h, P.wgctrlNew h = true) (hcfg : ∀ h dev cfg, P.ConfigureDeviceOk h dev cfg = true)
    (n : Device) (hn : n ∈ np) (hid : n.ID ≠ uuidNil) (hown : n.PublicKey ≠ ax.wireguardPubKey)
    (p : WgPeerConfig) (hp : p ∈ ax.wgConfig.Peers) (hpk : p.PublicKey = n.PublicKey)
    (hi : installable P p = true) :
    p.PublicKey ∈ (DeployWireguardConfig P ax h np false).2.wgPeers := by
  unfold DeployWireguardConfig
  simp only [ha, ne_eq, not_true_eq_false, if_false, Bool.false_eq_true]
  exact mem_installNew_of_installable P ax hwg hcfg ax.wgConfig.Peers np h n hn hid hown p hp hpk hi

/-! ## One reconcile cycle and the configured peers -/

theorem buildAndDeploy_none (P : Platform) (ax : Nexodus) (h : Host) (np : List Device)
    (ft : Bool) (hn : (buildAndDeploy P ax h np ft).1 = none) :
    (buildAndDeploy P ax h np ft).2.1 = (buildPeersConfig P ax h).ax ∧
    (DeployWireguardConfig P (buildPeersConfig P ax h).ax (buildPeersConfig P ax h).host np ft).1
      = none ∧
    (buildAndDeploy P ax h np ft).2.2 =
      (DeployWireguardConfig P (buildPeersConfig P ax h).ax (buildPeersConfig P ax h).host np ft).2
    := by
  unfold buildAndDeploy at hn ⊢
  simp only at hn ⊢
  cases hs : (buildPeersConfig P ax h).status <;> simp only [hs] at hn ⊢
  · rcases hd : DeployWireguardConfig P (buildPeersConfig P ax h).ax
      (buildPeersConfig P ax h).host np ft with ⟨e, h1⟩
    rw [hd] at hn
    cases e with
    | some e => simp at hn
    | none => exact ⟨rfl, rfl, rfl⟩
  · rcases hd : DeployWireguardConfig P (buildPeersConfig P ax h).ax
      (buildPeersConfig P ax h).host np ft with ⟨e, h1⟩
    rw [hd] at hn
    cases e with
    | some e => simp at hn
    | none => exact ⟨rfl, rfl, rfl⟩
  · simp at hn
  · simp at hn

/-- A cycle over a listing the cache already mirrors does nothing, whatever
`newPeers` the first-time branch left. -/
theorem reconcileUpdate_fixed (P : Platform) (ax : Nexodus) (h : Host) (L np : List Device)
    (hall : ∀ p ∈ L, cacheGet ax.deviceCache p.ID = some p)
    (hlisted : ∀ e ∈ ax.deviceCache.map Prod.snd, e ∈ L) :
    reconcileUpdate P ax h L np = (.returned none, ax, h) := by
  have hfix : L.foldl diffStep (ax.deviceCache, false, np) = (ax.deviceCache, false, np) :=
    foldl_diffStep_fixed L _ hall
  have hl : ∀ e ∈ ax.deviceCache, inPeerListing L e.2 = true := by
    intro e he
    have := hlisted e.2 (List.mem_map.2 ⟨e, he, rfl⟩)
    rw [inPeerListing_eq]
    exact List.any_eq_true.2 ⟨e.2, this, by simp⟩
  unfold reconcileUpdate
  simp only [hfix, Bool.false_eq_true, if_false]
  unfold HandlePeerDelete
  rw [HandlePeerDeleteLoop_all_listed P L ax.tunnelIface ax.deviceCache ax.deviceCache h hl]

theorem cacheGet_freshCache (L : List Device) (hnd : (L.map (fun d => d.ID)).Nodup)
    (p : Device) (hp : p ∈ L) : cacheGet (freshCache L) p.ID = some p :=
  (mem_values_iff (CacheWF_freshCache L) p).1 ((mem_values_freshCache L hnd p).2 hp)

/-- The first cycle of a fresh agent: the build runs over the cache of the
listing, the deployment returns no error, and nothing else touches the host. -/
theorem Reconcile_first_fresh (P : Platform) (ax : Nexodus) (h : Host) (L : List Device)
    (hcache : ax.deviceCache = []) (hnd : (L.map (fun d => d.ID)).Nodup)
    (hret : (Reconcile P ax h (some L) true).1 = .returned none) :
    ∃ np,
      (Reconcile P ax h (some L) true).2.1 =
        (buildPeersConfig P { ax with deviceCache := freshCache L } h).ax ∧
      (DeployWireguardConfig P (buildPeersConfig P { ax with deviceCache := freshCache L } h).ax
        (buildPeersConfig P { ax with deviceCache := freshCache L } h).host np true).1 = none ∧
      (Reconcile P ax h (some L) true).2.2 =
        (DeployWireguardConfig P (buildPeersConfig P { ax with deviceCache := freshCache L } h).ax
          (buildPeersConfig P { ax with deviceCache := freshCache L } h).host np true).2 := by
  refine ⟨(L.foldl diffStep ([], false, [])).2.2, ?_⟩
  unfold Reconcile at hret ⊢
  simp only [if_true, hcache] at hret ⊢
  have hfc : (L.foldl diffStep (([] : DeviceCache), false, [])).1 = freshCache L := rfl
  rw [hfc] at hret ⊢
  cases hr : (buildAndDeploy P { ax with deviceCache := freshCache L } h
      (L.foldl diffStep ([], false, [])).2.2 true).1 with
  | some res =>
    simp only [hr] at hret
    exact absurd (hret ▸ hr) (buildAndDeploy_ne_ok P _ h _ true)
  | none =>
    simp only [hr]
    obtain ⟨h1, h2, h3⟩ := buildAndDeploy_none P _ h _ true hr
    have hfr := buildAndDeploy_frame P { ax with deviceCache := freshCache L } h
      (L.foldl diffStep ([], false, [])).2.2 true
    have hc : (buildAndDeploy P { ax with deviceCache := freshCache L } h
        (L.foldl diffStep ([], false, [])).2.2 true).2.1.deviceCache = freshCache L := hfr.1.symm
    rw [reconcileUpdate_fixed P _ _ L _
      (by intro p hp; rw [hc]; exact cacheGet_freshCache L hnd p hp)
      (by intro e he; rw [hc] at he; exact (mem_values_freshCache L hnd e).1 he)]
    exact ⟨h1, h2, h3⟩

/-- The parts of a periodic cycle that returns no error: a deployment when the
diff found a change, then the deletion pass over the merged cache. -/
theorem reconcileUpdate_parts (P : Platform) (ax : Nexodus) (h : Host) (L : List Device)
    (hret : (reconcileUpdate P ax h L []).1 = .returned none) :
    ∃ hD : Host,
      (reconcileUpdate P ax h L []).2.2 =
        (HandlePeerDelete P L (L.foldl diffStep (ax.deviceCache, false, [])).1
          ax.tunnelIface hD).2.2 ∧
      (((L.foldl diffStep (ax.deviceCache, false, [])).2.1 = false ∧ hD = h) ∨
       ((L.foldl diffStep (ax.deviceCache, false, [])).2.1 = true ∧
        (DeployWireguardConfig P
          (buildPeersConfig P
            { ax with deviceCache := (L.foldl diffStep (ax.deviceCache, false, [])).1 } h).ax
          (buildPeersConfig P
            { ax with deviceCache := (L.foldl diffStep (ax.deviceCache, false, [])).1 } h).host
          (L.foldl diffStep (ax.deviceCache, false, [])).2.2 false).1 = none ∧
        hD = (DeployWireguardConfig P
          (buildPeersConfig P
            { ax with deviceCache := (L.foldl diffStep (ax.deviceCache, false, [])).1 } h).ax
          (buildPeersConfig P
            { ax with deviceCache := (L.foldl diffStep (ax.deviceCache, false, [])).1 } h).host
          (L.foldl diffStep (ax.deviceCache, false, [])).2.2 false).2)) := by
  unfold reconcileUpdate at hret ⊢
  simp only at hret ⊢
  cases hc : (L.foldl diffStep (ax.deviceCache, false, [])).2.1 with
  | false =>
    simp only [hc, Bool.false_eq_true, if_false] at hret ⊢
    exact ⟨h, rfl, Or.inl ⟨trivial, rfl⟩⟩
  | true =>
    simp only [hc, if_true] at hret ⊢
    cases hr : (buildAndDeploy P
        { ax with deviceCache := (L.foldl diffStep (ax.deviceCache, false, [])).1 } h
        (L.foldl diffStep (ax.deviceCache, false, [])).2.2 false).1 with
    | some res =>
      simp only [hr] at hret
      exact absurd (hret ▸ hr) (buildAndDeploy_ne_ok P _ h _ false)
    | none =>
      simp only [hr]
      obtain ⟨h1, h2, h3⟩ := buildAndDeploy_none P _ h _ false hr
      have hfr := buildAndDeploy_frame P
        { ax with deviceCache := (L.foldl diffStep (ax.deviceCache, false, [])).1 } h
        (L.foldl diffStep (ax.deviceCache, false, [])).2.2 false
      refine ⟨_, ?_, Or.inr ⟨trivial, h2, h3⟩⟩
      rw [← hfr.1, ← hfr.2.1]

theorem policyAdmits_ne_self (ax : Nexodus) (d : Device) (h : policyAdmits ax d = true) :
    d.PublicKey ≠ ax.wireguardPubKey := by
  unfold policyAdmits at h
  simp only [Bool.and_eq_true, decide_eq_true_eq] at h
  exact h.1.2

theorem GetIPv4IfaceString_congr (h h' : Host) (he : h.ifaceIPv4 = h'.ifaceIPv4) :
    GetIPv4IfaceString h = GetIPv4IfaceString h' := by
  unfold GetIPv4IfaceString
  rw [he]

/-- The peers a periodic cycle leaves are peers it found or peers of admitted
cached devices matching a listed device, and none of them carries the key of a
cached device the listing dropped. -/
theorem reconcileUpdate_wgPeers_sub (P : Platform) (ax : Nexodus) (h : Host) (L : List Device)
    (hwf : CacheWF ax.deviceCache) (hnd : (L.map (fun d => d.ID)).Nodup)
    (hdel : ∀ h key, (deletePeer P h key ax.tunnelIface).1 = true)
    (haddr : ax.wgLocalAddress = GetIPv4IfaceString h)
    (hself : ∀ d, (d ∈ L ∨ d ∈ ax.deviceCache.map Prod.snd) →
      d.PublicKey = ax.wireguardPubKey → d.TunnelIP = ax.wgLocalAddress)
    (hdone : (buildPeersConfig P
      { ax with deviceCache := (L.foldl diffStep (ax.deviceCache, false, [])).1 } h).status = .done)
    (hret : (reconcileUpdate P ax h L []).1 = .returned none)
    (k : String) (hk : k ∈ (reconcileUpdate P ax h L []).2.2.wgPeers) :
    (k ∈ h.wgPeers ∨
      ∃ n ∈ L, ∃ e, (e ∈ L ∨ (e ∈ ax.deviceCache.map Prod.snd ∧ ∀ d ∈ L, d.ID ≠ e.ID)) ∧
        policyAdmits ax e = true ∧ e.PublicKey = n.PublicKey ∧ n.PublicKey = k) ∧
    ∀ e ∈ ax.deviceCache.map Prod.snd, (∀ d ∈ L, d.ID ≠ e.ID) → e.PublicKey ≠ k := by
  obtain ⟨hD, hres, hcase⟩ := reconcileUpdate_parts P ax h L hret
  have hwfB : CacheWF (L.foldl diffStep (ax.deviceCache, false, [])).1 :=
    @CacheWF_foldl_diffStep L (ax.deviceCache, false, []) hwf
  have hok := (HandlePeerDelete_cache P L ax.tunnelIface hdel _ hwfB hD).1
  rw [hres, HandlePeerDelete_wgPeers P L ax.tunnelIface _ hwfB hD hok k] at hk
  obtain ⟨hk1, hk2⟩ := hk
  have hmem := mem_values_foldl_diffStep L (ax.deviceCache, false, []) hwf hnd
  refine ⟨?_, fun e he hun => hk2 e ((hmem e).2 (Or.inr ⟨he, hun⟩)) hun⟩
  rcases hcase with ⟨_, hh⟩ | ⟨_, _, hh⟩
  · left; rw [← hh]; exact hk1
  · have hkeep := buildPeersConfig_keep P
      { ax with deviceCache := (L.foldl diffStep (ax.deviceCache, false, [])).1 } h (by
        intro d hd hkey
        rcases (hmem d).1 hd with h1 | ⟨h1, _⟩
        · exact hself d (Or.inl h1) hkey
        · exact hself d (Or.inr h1) hkey)
    have ha : (buildPeersConfig P
        { ax with deviceCache := (L.foldl diffStep (ax.deviceCache, false, [])).1 } h).ax.wgLocalAddress
        = GetIPv4IfaceString (buildPeersConfig P
        { ax with deviceCache := (L.foldl diffStep (ax.deviceCache, false, [])).1 } h).host := by
      rw [hkeep.2.2, GetIPv4IfaceString_congr _ h hkeep.2.1]
      exact haddr
    rw [hh] at hk1
    rcases (DeployWireguardConfig_incr_wgPeers P _ _ _ ha k).1 hk1 with h1 | ⟨n, hn, p, hp, hpn, _, _, hpk⟩
    · left; rw [← hkeep.1]; exact h1
    · right
      obtain ⟨_, a0, _, _, _, hpeers⟩ := buildPeersConfig_done P _ h hdone
      rw [hpeers] at hp
      obtain ⟨e, he, hpe, hadm⟩ := mem_policyPeers _ a0 _ p hp
      have hnL : n ∈ L := by
        rcases mem_foldl_diffStep_newPeers L _ n hn with h1 | h1
        · simp at h1
        · exact h1
      exact ⟨n, hnL, e, (hmem e).1 he, hadm, hpe.symm.trans hpn, hpn.symm.trans hpk⟩

/-- A periodic cycle keeps a configured peer, and configures the peer of an
admitted device that is new or changed, unless the key is that of a cached
device the listing dropped. -/
theorem reconcileUpdate_wgPeers_sup (P : Platform) (ax : Nexodus) (h : Host) (L : List Device)
    (hwf : CacheWF ax.deviceCache) (hnd : (L.map (fun d => d.ID)).Nodup)
    (hdel : ∀ h key, (deletePeer P h key ax.tunnelIface).1 = true)
    (hwg : ∀ h, P.wgctrlNew h = true) (hcfg : ∀ h dev cfg, P.ConfigureDeviceOk h dev cfg = true)
    (haddr : ax.wgLocalAddress = GetIPv4IfaceString h)
    (hself : ∀ d, (d ∈ L ∨ d ∈ ax.deviceCache.map Prod.snd) →
      d.PublicKey = ax.wireguardPubKey → d.TunnelIP = ax.wgLocalAddress)
    (hnil : ∀ d ∈ L, d.ID ≠ uuidNil)
    (hdone : (buildPeersConfig P
      { ax with deviceCache := (L.foldl diffStep (ax.deviceCache, false, [])).1 } h).status = .done)
    (hinst : ∀ p ∈ (buildPeersConfig P
      { ax with deviceCache := (L.foldl diffStep (ax.deviceCache, false, [])).1 } h).ax.wgConfig.Peers,
      installable P p = true)
    (hret : (reconcileUpdate P ax h L []).1 = .returned none)
    (k : String)
    (hk : k ∈ h.wgPeers ∨
      ∃ d ∈ L, cacheGet ax.deviceCache d.ID ≠ some d ∧ policyAdmits ax d = true ∧ d.PublicKey = k)
    (hkeep : ∀ e ∈ ax.deviceCache.map Prod.snd, (∀ d ∈ L, d.ID ≠ e.ID) → e.PublicKey ≠ k) :
    k ∈ (reconcileUpdate P ax h L []).2.2.wgPeers := by
  obtain ⟨hD, hres, hcase⟩ := reconcileUpdate_parts P ax h L hret
  have hwfB : CacheWF (L.foldl diffStep (ax.deviceCache, false, [])).1 :=
    @CacheWF_foldl_diffStep L (ax.deviceCache, false, []) hwf
  have hok := (HandlePeerDelete_cache P L ax.tunnelIface hdel _ hwfB hD).1
  rw [hres, HandlePeerDelete_wgPeers P L ax.tunnelIface _ hwfB hD hok k]
  have hmem := mem_values_foldl_diffStep L (ax.deviceCache, false, []) hwf hnd
  refine ⟨?_, ?_⟩
  · rcases hcase with ⟨hc, hh⟩ | ⟨_, _, hh⟩
    · rw [hh]
      rcases hk with h1 | ⟨d, hd, hne, _, _⟩
      · exact h1
      · have := (foldl_diffStep_new L (ax.deviceCache, false, []) hnd d hd hne).2
        rw [hc] at this
        exact Bool.noConfusion this
    · have hb := buildPeersConfig_keep P
        { ax with deviceCache := (L.foldl diffStep (ax.deviceCache, false, [])).1 } h (by
          intro d hd hkey
          rcases (hmem d).1 hd with h1 | ⟨h1, _⟩
          · exact hself d (Or.inl h1) hkey
          · exact hself d (Or.inr h1) hkey)
      have ha : (buildPeersConfig P
          { ax with deviceCache := (L.foldl diffStep (ax.deviceCache, false, [])).1 } h).ax.wgLocalAddress
          = GetIPv4IfaceString (buildPeersConfig P
          { ax with deviceCache := (L.foldl diffStep (ax.deviceCache, false, [])).1 } h).host := by
        rw [hb.2.2, GetIPv4IfaceString_congr _ h hb.2.1]
        exact haddr
      rw [hh]
      rcases hk with h1 | ⟨d, hd, hne, hadm, hdk⟩
      · apply (DeployWireguardConfig_incr_wgPeers P _ _ _ ha k).2
        rw [hb.1]; exact h1
      · have hnew := (foldl_diffStep_new L (ax.deviceCache, false, []) hnd d hd hne).1
        obtain ⟨_, a0, _, _, _, hpeers⟩ := buildPeersConfig_done P _ h hdone
        obtain ⟨p, hp, hpk⟩ := policyPeers_of_admits
          { ax with deviceCache := (L.foldl diffStep (ax.deviceCache, false, [])).1 } a0
          ((L.foldl diffStep (ax.deviceCache, false, [])).1.map Prod.snd) d
          ((hmem d).2 (Or.inl hd)) hadm
        rw [← hpeers] at hp
        have hfr := buildPeersConfig_frame P
          { ax with deviceCache := (L.foldl diffStep (ax.deviceCache, false, [])).1 } h
        have hown : d.PublicKey ≠ (buildPeersConfig P
            { ax with deviceCache := (L.foldl diffStep (ax.deviceCache, false, [])).1 }
            h).ax.wireguardPubKey := by
          rw [← hfr.2.2.1]
          exact policyAdmits_ne_self ax d hadm
        have := DeployWireguardConfig_incr_installs P _ _ _ ha hwg hcfg d hnew (hnil d hd) hown
          p hp hpk (hinst p hp)
        rw [hpk, hdk] at this
        exact this
  · intro e he hun
    rcases (hmem e).1 he with h1 | ⟨h1, _⟩
    · exact absurd rfl (hun e h1)
    · exact hkeep e h1 hun

/-! ## The keys of the derived peers -/

/-- The keys of the peers a completed build derives are the keys of the cached
devices the policy admits. -/
theorem buildPeersConfig_keys (P : Platform) (ax : Nexodus) (h : Host)
    (hdone : (buildPeersConfig P ax h).status = .done) (k : String) :
    (∃ p ∈ (buildPeersConfig P ax h).ax.wgConfig.Peers, p.PublicKey = k) ↔
      ∃ d ∈ ax.deviceCache.map Prod.snd, policyAdmits ax d = true ∧ d.PublicKey = k := by
  obtain ⟨_, a0, _, _, _, hpeers⟩ := buildPeersConfig_done P ax h hdone
  rw [hpeers]
  constructor
  · rintro ⟨p, hp, hpk⟩
    obtain ⟨d, hd, hpd, hadm⟩ := mem_policyPeers ax a0 _ p hp
    exact ⟨d, hd, hadm, hpd.symm.trans hpk⟩
  · rintro ⟨d, hd, hadm, hdk⟩
    obtain ⟨p, hp, hpk⟩ := policyPeers_of_admits ax a0 _ d hd hadm
    exact ⟨p, hp, hpk.trans hdk⟩

theorem derivedPeers_keys (P : Platform) (ax : Nexodus) (L : List Device)
    (hnd : (L.map (fun d => d.ID)).Nodup)
    (hb : (policyBuild P ax (freshCache L)).status = .done) (k : String) :
    (∃ p ∈ derivedPeers P ax L, p.PublicKey = k) ↔
      ∃ d ∈ L, policyAdmits ax d = true ∧ d.PublicKey = k := by
  unfold derivedPeers
  unfold policyBuild at hb ⊢
  rw [buildPeersConfig_keys P _ _ hb k]
  constructor
  · rintro ⟨d, hd, hadm, hdk⟩
    exact ⟨d, (mem_values_freshCache L hnd d).1 hd, hadm, hdk⟩
  · rintro ⟨d, hd, hadm, hdk⟩
    exact ⟨d, (mem_values_freshCache L hnd d).2 hd, hadm, hdk⟩

theorem wgctrlNew_of_deletePeer (P : Platform) (h : Host) (key dev : String)
    (hd : (deletePeer P h key dev).1 = true) : P.wgctrlNew h = true := by
  unfold deletePeer at hd
  by_contra hne
  simp [hne] at hd

/-- After the first cycle of a fresh agent on a host without peers, the
configured peers are the peers of the listed devices the policy admits. -/
theorem Reconcile_first_fresh_wgPeers (P : Platform) (ax : Nexodus) (h : Host) (L : List Device)
    (hcache : ax.deviceCache = []) (hempty : h.wgPeers = [])
    (hwg : ∀ h, P.wgctrlNew h = true) (hcfg : ∀ h dev cfg, P.ConfigureDeviceOk h dev cfg = true)
    (hnd : (L.map (fun d => d.ID)).Nodup)
    (hb : (policyBuild P ax (freshCache L)).status = .done)
    (hi : ∀ p ∈ derivedPeers P ax L, installable P p = true)
    (hret : (Reconcile P ax h (some L) true).1 = .returned none) :
    SameFrame { ax with deviceCache := freshCache L } (Reconcile P ax h (some L) true).2.1 ∧
    ∀ k, k ∈ (Reconcile P ax h (some L) true).2.2.wgPeers ↔
      ∃ d ∈ L, policyAdmits ax d = true ∧ d.PublicKey = k := by
  obtain ⟨np, h1, h2, h3⟩ := Reconcile_first_fresh P ax h L hcache hnd hret
  have hcg := buildPeersConfig_congr P { ax with deviceCache := freshCache L }
    { ax with deviceCache := freshCache L } h {} (SameFrame.refl _)
  have hdone : (buildPeersConfig P { ax with deviceCache := freshCache L } h).status = .done :=
    hcg.1.trans hb
  have hpeers := hcg.2 hdone
  refine ⟨h1 ▸ buildPeersConfig_frame P _ h, fun k => ?_⟩
  have hb0 : (buildPeersConfig P { ax with deviceCache := freshCache L } h).host.wgPeers = [] := by
    rcases buildPeersConfig_wgPeers P { ax with deviceCache := freshCache L } h with h4 | h4
    · rw [h4, hempty]
    · exact h4
  rw [h3, DeployWireguardConfig_first_wgPeers P _ _ np hwg hcfg hb0
    (by rw [hpeers]; exact hi) h2 k, hpeers]
  exact derivedPeers_keys P ax L hnd hb k

/-! ## The contribution of each cached device to the derived peers -/

theorem stepPeers_length_le (ax : Nexodus) (allowed : List String) (value : Device) :
    (stepPeers ax allowed value).length ≤ 1 := by
  unfold stepPeers
  cases SplitHostPort value.LocalIP with
  | none => simp
  | some hp =>
    simp only
    by_cases hk : value.PublicKey = ax.wireguardPubKey
    · simp [hk]
    · simp only [hk, if_false]
      cases hr : value.Relay
      · simp only [Bool.false_eq_true, if_false, List.nil_append, and_true]
        split_ifs <;> simp
      · simp

theorem stepPeers_eq_nil (ax : Nexodus) (allowed : List String) (value : Device)
    (hrelay : value.Relay = false) (hrefl : ax.nodeReflexiveAddress ≠ value.ReflexiveIPv4)
    (hsym : ax.symmetricNat = true ∨ value.SymmetricNat = true) :
    stepPeers ax allowed value = [] := by
  unfold stepPeers
  cases SplitHostPort value.LocalIP with
  | none => rfl
  | some hp =>
    simp only [hrelay, hrefl, Bool.false_eq_true, if_false, List.nil_append, false_and,
      and_true]
    rcases hsym with h1 | h1 <;> simp [h1]

theorem stepPeers_eq_nil_of_unsplit (ax : Nexodus) (allowed : List String) (value : Device)
    (hs : SplitHostPort value.LocalIP = none) : stepPeers ax allowed value = [] := by
  unfold stepPeers
  rw [hs]

/-- The derived peers are the concatenation of the contributions of the cached
devices, in cache order; each contribution is what `stepPeers` gives for the
device at the relay allowed-IP list accumulated so far. -/
theorem policyPeers_parts (ax : Nexodus) (R : Device → List WgPeerConfig → Prop)
    (hR : ∀ allowed value, R value (stepPeers ax allowed value))
    (allowed : List String) (devs : List Device) :
    ∃ parts : List (List WgPeerConfig),
      policyPeers ax allowed devs = parts.flatten ∧ List.Forall₂ R devs parts := by
  induction devs generalizing allowed with
  | nil => exact ⟨[], rfl, List.Forall₂.nil⟩
  | cons d rest ih =>
    obtain ⟨parts, hp, hf⟩ := ih (stepAllowed ax allowed d)
    refine ⟨stepPeers ax allowed d :: parts, ?_, List.Forall₂.cons (hR allowed d) hf⟩
    simp only [policyPeers, List.flatten_cons, hp]

/-! ## The call history: what each operation appends -/

theorem Emits.idle (Q : Call → Prop) (h : Host) : Emits Q h h :=
  ⟨[], by simp, by simp⟩

theorem Emits.of_calls_eq (Q : Call → Prop) {h h' : Host} (he : h'.calls = h.calls) :
    Emits Q h h' :=
  ⟨[], by simp [he], by simp⟩

theorem Emits.seq {Q : Call → Prop} {h1 h2 h3 : Host} (a : Emits Q h1 h2) (b : Emits Q h2 h3) :
    Emits Q h1 h3 := by
  obtain ⟨c1, e1, q1⟩ := a
  obtain ⟨c2, e2, q2⟩ := b
  refine ⟨c1 ++ c2, by rw [e2, e1, List.append_assoc], ?_⟩
  intro c hc
  rcases List.mem_append.1 hc with h | h
  · exact q1 c h
  · exact q2 c h

theorem Emits.mono {Q Q' : Call → Prop} {h h' : Host} (a : Emits Q h h')
    (hq : ∀ c, Q c → Q' c) : Emits Q' h h' := by
  obtain ⟨cs, e, q⟩ := a
  exact ⟨cs, e, fun c hc => hq c (q c hc)⟩

theorem Emits.log (Q : Call → Prop) (h : Host) (c : Call) (hc : Q c) : Emits Q h (h.log c) :=
  ⟨[c], rfl, by simpa using hc⟩

theorem callsSince_of_emits {Q : Call → Prop} {h h' : Host} (a : Emits Q h h') :
    h'.calls = h.calls ++ callsSince h h' ∧ ∀ c ∈ callsSince h h', Q c := by
  obtain ⟨cs, e, q⟩ := a
  have : callsSince h h' = cs := by
    unfold callsSince
    rw [e, List.drop_left]
  rw [this]
  exact ⟨e, q⟩

theorem RunCommand_emits (P : Platform) (h : Host) (args : List String) :
    Emits (fun c => c = .RunCommand args) h (RunCommand P h args).2 :=
  Emits.log _ h _ rfl

theorem AddRoute_emits (P : Platform) (h : Host) (dst dev : String) :
    Emits (fun c => c = .AddRoute dst dev) h (AddRoute P h dst dev).2 := by
  unfold AddRoute
  simp only
  split
  · exact ⟨[.AddRoute dst dev], rfl, by simp⟩
  · exact Emits.log _ h _ rfl

theorem DeleteRoute_emits (P : Platform) (h : Host) (dst dev : String) :
    Emits (fun c => c = .DeleteRoute dst dev) h (DeleteRoute P h dst dev).2 := by
  unfold DeleteRoute
  simp only
  split
  · exact ⟨[.DeleteRoute dst dev], rfl, by simp⟩
  · exact Emits.log _ h _ rfl

theorem DelLink_emits (P : Platform) (h : Host) (dev : String) :
    Emits (fun c => c = .DelLink dev) h (DelLink P h dev).2 := by
  unfold DelLink
  simp only
  split
  · exact ⟨[.DelLink dev], rfl, by simp⟩
  · exact Emits.log _ h _ rfl

theorem ConfigureDevice_emits (P : Platform) (h : Host) (dev : String) (cfg : Config) :
    Emits (fun c => c = .ConfigureDevice dev cfg) h (ConfigureDevice P h dev cfg).2 := by
  unfold ConfigureDevice
  simp only
  split
  · exact ⟨[.ConfigureDevice dev cfg], rfl, by simp⟩
  · exact Emits.log _ h _ rfl

theorem AddChildPrefixRoute_emits (P : Platform) (h : Host) (cp iface : String) :
    Emits (fun c => c = .AddRoute cp iface) h (AddChildPrefixRoute P h cp iface).2 := by
  unfold AddChildPrefixRoute
  simp only
  split
  · exact Emits.idle _ _
  · split
    · exact AddRoute_emits P h cp iface
    · exact Emits.idle _ _

theorem foldChildPrefix_emits (P : Platform) (iface : String) (cps : List String) (h : Host)
    (allowed : List String) :
    Emits (fun c => ∃ cp ∈ cps, c = .AddRoute cp iface) h
      (foldChildPrefix P iface cps h allowed).1 := by
  induction cps generalizing h allowed with
  | nil => exact Emits.idle _ _
  | cons cp rest ih =>
    rw [foldChildPrefix_cons]
    refine Emits.seq ((AddChildPrefixRoute_emits P h cp iface).mono ?_) ((ih _ _).mono ?_)
    · intro c hc
      exact ⟨cp, List.mem_cons_self _ _, hc⟩
    · rintro c ⟨x, hx, hc⟩
      exact ⟨x, List.mem_cons_of_mem _ hx, hc⟩

theorem relayArm_emits (P : Platform) (ax : Nexodus) (relayIP : String) (st : PeerLoop)
    (value : Device) :
    Emits (fun c => ∃ cp ∈ value.ChildPrefix, c = .AddRoute cp ax.tunnelIface) st.host
      (relayArm P ax relayIP st value).host := by
  unfold relayArm
  split
  · exact foldChildPrefix_emits P _ _ _ _
  · exact Emits.idle _ _

/-- One iteration of the peer loop issues only route additions for child
prefixes of its device, and none at all when the `LocalIP` of the device does
not split or the device is this host. -/
theorem peerStep_emits (P : Platform) (ax : Nexodus) (relayIP : String) (st : PeerLoop)
    (value : Device) :
    Emits (fun c => (SplitHostPort value.LocalIP).isSome = true ∧
        value.PublicKey ≠ ax.wireguardPubKey ∧
        ∃ cp ∈ value.ChildPrefix, c = .AddRoute cp ax.tunnelIface) st.host
      (peerStep P ax relayIP st value).host := by
  unfold peerStep
  cases hs : SplitHostPort value.LocalIP with
  | none => exact Emits.idle _ _
  | some hp =>
    simp only
    by_cases hk : value.PublicKey = ax.wireguardPubKey
    · simp only [hk, if_true]
      exact Emits.idle _ _
    · simp only [hk, if_false]
      have h1 := @Emits.mono _
        (fun c => (some hp).isSome = true ∧ value.PublicKey ≠ ax.wireguardPubKey ∧
          ∃ cp ∈ value.ChildPrefix, c = .AddRoute cp ax.tunnelIface) _ _
        (relayArm_emits P ax relayIP st value) (fun c hc => ⟨rfl, hk, hc⟩)
      split
      · exact h1.seq ((foldChildPrefix_emits P _ _ _ _).mono (fun c hc => ⟨rfl, hk, hc⟩))
      · split
        · exact h1.seq ((foldChildPrefix_emits P _ _ _ _).mono (fun c hc => ⟨rfl, hk, hc⟩))
        · exact h1

theorem peerLoop_emits (P : Platform) (ax : Nexodus) (relayIP : String) (devs : List Device)
    (st : PeerLoop) :
    Emits (fun c => ∃ d ∈ devs, (SplitHostPort d.LocalIP).isSome = true ∧
        d.PublicKey ≠ ax.wireguardPubKey ∧
        ∃ cp ∈ d.ChildPrefix, c = .AddRoute cp ax.tunnelIface) st.host
      (devs.foldl (peerStep P ax relayIP) st).host := by
  induction devs generalizing st with
  | nil => exact Emits.idle _ _
  | cons d rest ih =>
    simp only [List.foldl_cons]
    refine Emits.seq ((peerStep_emits P ax relayIP st d).mono ?_) ((ih _).mono ?_)
    · intro c hc
      exact ⟨d, List.mem_cons_self _ _, hc⟩
    · rintro c ⟨x, hx, hc⟩
      exact ⟨x, List.mem_cons_of_mem _ hx, hc⟩

theorem buildLocalConfigStep_emits (P : Platform) (st : Nexodus × Host) (value : Device) :
    Emits (fun c => c = .DelLink st.1.tunnelIface) st.2 (buildLocalConfigStep P st value).2 ∧
    (buildLocalConfigStep P st value).1.tunnelIface = st.1.tunnelIface := by
  unfold buildLocalConfigStep
  simp only
  split
  · refine ⟨?_, rfl⟩
    simp only
    split
    · split
      · exact DelLink_emits P _ _
      · exact Emits.idle _ _
    · exact Emits.idle _ _
  · exact ⟨Emits.idle _ _, rfl⟩

theorem buildLocalConfig_fold_emits (P : Platform) (devs : List Device) (st : Nexodus × Host) :
    Emits (fun c => c = .DelLink st.1.tunnelIface) st.2
      (devs.foldl (buildLocalConfigStep P) st).2 := by
  induction devs generalizing st with
  | nil => exact Emits.idle _ _
  | cons d rest ih =>
    simp only [List.foldl_cons]
    have h1 := buildLocalConfigStep_emits P st d
    have h2 := ih (buildLocalConfigStep P st d)
    rw [h1.2] at h2
    exact h1.1.seq h2

/-- A build issues only route additions for child prefixes of cached devices
whose `LocalIP` splits and that are not this host, and `DelLink`. -/
theorem buildPeersConfig_emits (P : Platform) (ax : Nexodus) (h : Host) :
    Emits (fun c => c = .DelLink ax.tunnelIface ∨
        ∃ d ∈ ax.deviceCache.map Prod.snd, (SplitHostPort d.LocalIP).isSome = true ∧
          d.PublicKey ≠ ax.wireguardPubKey ∧
          ∃ cp ∈ d.ChildPrefix, c = .AddRoute cp ax.tunnelIface) h
      (buildPeersConfig P ax h).host := by
  rcases buildPeersConfig_parts P ax h with ⟨h1, _⟩ | ⟨ax1, ax2, relayIP, st0, hf1, hf2, _, h0, hh, _⟩
  · rw [h1]; exact Emits.idle _ _
  · rw [hh]
    have hl := peerLoop_emits P ax1 relayIP (ax.deviceCache.map Prod.snd) st0
    rw [h0, ← hf1.2.1, ← hf1.2.2.1] at hl
    have hb := buildLocalConfig_fold_emits P (ax2.deviceCache.map Prod.snd)
      (ax2, ((ax.deviceCache.map Prod.snd).foldl (peerStep P ax1 relayIP) st0).host)
    simp only at hb
    rw [← hf2.2.1] at hb
    exact (hl.mono (fun c hc => Or.inr hc)).seq (hb.mono (fun c hc => Or.inl hc))

/-! ## The relay persona: the peers and the calls of a build -/

theorem Nexrelay.relay_peerStep_peers (P : Platform) (nexr : Nexrelay) (st : RelayPeerLoop)
    (value : Device) :
    (Nexrelay.peerStep P nexr st value).peers = st.peers ++ Nexrelay.stepPeers nexr value := by
  unfold Nexrelay.peerStep Nexrelay.stepPeers
  cases SplitHostPort value.LocalIP with
  | none => simp
  | some hp =>
    simp only
    by_cases hk : value.PublicKey = nexr.wireguardPubKey
    · simp [hk]
    · simp only [hk, if_false, foldChildPrefix_snd]
      split
      · simp
      · split <;> simp

theorem Nexrelay.relay_peerLoop_peers (P : Platform) (nexr : Nexrelay) (devs : List Device)
    (st : RelayPeerLoop) :
    (devs.foldl (Nexrelay.peerStep P nexr) st).peers =
      st.peers ++ devs.flatMap (Nexrelay.stepPeers nexr) := by
  induction devs generalizing st with
  | nil => simp
  | cons d rest ih =>
    simp only [List.foldl_cons, List.flatMap_cons]
    rw [ih, Nexrelay.relay_peerStep_peers, List.append_assoc]

theorem Nexrelay.relay_stepPeers_congr (nexr nexr' : Nexrelay)
    (hk : nexr'.wireguardPubKey = nexr.wireguardPubKey)
    (hr : nexr'.nodeReflexiveAddress = nexr.nodeReflexiveAddress) (value : Device) :
    Nexrelay.stepPeers nexr' value = Nexrelay.stepPeers nexr value := by
  unfold Nexrelay.stepPeers
  rw [hk, hr]

/-- One iteration of the relay's peer loop issues only route additions for child
prefixes of its device, and none at all when the `LocalIP` of the device does
not split or the device is this host. -/
theorem Nexrelay.relay_peerStep_emits (P : Platform) (nexr : Nexrelay) (st : RelayPeerLoop)
    (value : Device) :
    Emits (fun c => (SplitHostPort value.LocalIP).isSome = true ∧
        value.PublicKey ≠ nexr.wireguardPubKey ∧
        ∃ cp ∈ value.ChildPrefix, c = .AddRoute cp nexr.tunnelIface) st.host
      (Nexrelay.peerStep P nexr st value).host := by
  unfold Nexrelay.peerStep
  cases hs : SplitHostPort value.LocalIP with
  | none => exact Emits.idle _ _
  | some hp =>
    simp only
    by_cases hk : value.PublicKey = nexr.wireguardPubKey
    · simp only [hk, if_true]
      exact Emits.idle _ _
    · simp only [hk, if_false]
      have h1 := @Emits.mono _
        (fun c => (some hp).isSome = true ∧ value.PublicKey ≠ nexr.wireguardPubKey ∧
          ∃ cp ∈ value.ChildPrefix, c = .AddRoute cp nexr.tunnelIface) _ _
        (foldChildPrefix_emits P nexr.tunnelIface value.ChildPrefix st.host
          value.AllowedIPs) (fun c hc => ⟨rfl, hk, hc⟩)
      split
      · exact h1.seq ((foldChildPrefix_emits P _ _ _ _).mono (fun c hc => ⟨rfl, hk, hc⟩))
      · split
        · exact h1.seq ((foldChildPrefix_emits P _ _ _ _).mono (fun c hc => ⟨rfl, hk, hc⟩))
        · exact h1

theorem Nexrelay.relay_peerLoop_emits (P : Platform) (nexr : Nexrelay) (devs : List Device)
    (st : RelayPeerLoop) :
    Emits (fun c => ∃ d ∈ devs, (SplitHostPort d.LocalIP).isSome = true ∧
        d.PublicKey ≠ nexr.wireguardPubKey ∧
        ∃ cp ∈ d.ChildPrefix, c = .AddRoute cp nexr.tunnelIface) st.host
      (devs.foldl (Nexrelay.peerStep P nexr) st).host := by
  induction devs generalizing st with
  | nil => exact Emits.idle _ _
  | cons d rest ih =>
    simp only [List.foldl_cons]
    refine Emits.seq ((Nexrelay.relay_peerStep_emits P nexr st d).mono ?_) ((ih _).mono ?_)
    · intro c hc
      exact ⟨d, List.mem_cons_self _ _, hc⟩
    · rintro c ⟨x, hx, hc⟩
      exact ⟨x, List.mem_cons_of_mem _ hx, hc⟩

/-- What `Nexrelay.buildLocalConfig` leaves alone: the peers, the keys, the
tunnel interface name, the cache, and it issues `DelLink` only. -/
theorem Nexrelay.relay_buildLocalConfigStep_frame (P : Platform) (st : Nexrelay × Host)
    (value : Device) :
    (Nexrelay.buildLocalConfigStep P st value).1.wgConfig.Peers = st.1.wgConfig.Peers ∧
    (Nexrelay.buildLocalConfigStep P st value).1.wireguardPubKey = st.1.wireguardPubKey ∧
    (Nexrelay.buildLocalConfigStep P st value).1.tunnelIface = st.1.tunnelIface ∧
    (Nexrelay.buildLocalConfigStep P st value).1.deviceCache = st.1.deviceCache ∧
    Emits (fun c => c = .DelLink st.1.tunnelIface) st.2
      (Nexrelay.buildLocalConfigStep P st value).2 := by
  unfold Nexrelay.buildLocalConfigStep
  simp only
  split
  · refine ⟨rfl, rfl, rfl, rfl, ?_⟩
    simp only
    split
    · split
      · exact DelLink_emits P _ _
      · exact Emits.idle _ _
    · exact Emits.idle _ _
  · exact ⟨rfl, rfl, rfl, rfl, Emits.idle _ _⟩

theorem Nexrelay.relay_buildLocalConfig_fold_frame (P : Platform) (devs : List Device)
    (st : Nexrelay × Host) :
    (devs.foldl (Nexrelay.buildLocalConfigStep P) st).1.wgConfig.Peers = st.1.wgConfig.Peers ∧
    (devs.foldl (Nexrelay.buildLocalConfigStep P) st).1.wireguardPubKey = st.1.wireguardPubKey ∧
    (devs.foldl (Nexrelay.buildLocalConfigStep P) st).1.tunnelIface = st.1.tunnelIface ∧
    (devs.foldl (Nexrelay.buildLocalConfigStep P) st).1.deviceCache = st.1.deviceCache ∧
    Emits (fun c => c = .DelLink st.1.tunnelIface) st.2
      (devs.foldl (Nexrelay.buildLocalConfigStep P) st).2 := by
  induction devs generalizing st with
  | nil => exact ⟨rfl, rfl, rfl, rfl, Emits.idle _ _⟩
  | cons d rest ih =>
    simp only [List.foldl_cons]
    obtain ⟨a1, a2, a3, a4, a5⟩ := Nexrelay.relay_buildLocalConfigStep_frame P st d
    obtain ⟨b1, b2, b3, b4, b5⟩ := ih (Nexrelay.buildLocalConfigStep P st d)
    rw [a3] at b5
    exact ⟨b1.trans a1, b2.trans a2, b3.trans a3, b4.trans a4, a5.seq b5⟩

/-- The peers a completed relay build derives: the contributions of the cached
devices, in cache order. -/
theorem Nexrelay.relay_buildPeersConfig_done (P : Platform) (nexr : Nexrelay) (h : Host)
    (hdone : (Nexrelay.buildPeersConfig P nexr h).status = .done) :
    (Nexrelay.buildPeersConfig P nexr h).nexr.wgConfig.Peers =
      (nexr.deviceCache.map Prod.snd).flatMap (Nexrelay.stepPeers nexr) := by
  unfold Nexrelay.buildPeersConfig at hdone ⊢
  simp only at hdone ⊢
  cases hscan : Nexrelay.relayScan nexr (nexr.deviceCache.map Prod.snd)
      { pubKeyInConfig := nexr.wireguardPubKeyInConfig } with
  | none => simp [hscan] at hdone
  | some scan =>
    simp only [hscan] at hdone ⊢
    by_cases hhub : scan.relayIP = "" ∧ decide (scan.orgPrefix ≠ "") = true
    · simp [hhub] at hdone
    · simp only [hhub, if_false] at hdone ⊢
      unfold Nexrelay.buildLocalConfig
      rw [(Nexrelay.relay_buildLocalConfig_fold_frame P _ _).1]
      simp only
      rw [Nexrelay.relay_peerLoop_peers]
      simp only [List.nil_append]
      congr 1

/-- A relay build issues only route additions for child prefixes of cached
devices whose `LocalIP` splits and that are not this host, and `DelLink`. -/
theorem Nexrelay.relay_buildPeersConfig_emits (P : Platform) (nexr : Nexrelay) (h : Host) :
    Emits (fun c => c = .DelLink nexr.tunnelIface ∨
        ∃ d ∈ nexr.deviceCache.map Prod.snd, (SplitHostPort d.LocalIP).isSome = true ∧
          d.PublicKey ≠ nexr.wireguardPubKey ∧
          ∃ cp ∈ d.ChildPrefix, c = .AddRoute cp nexr.tunnelIface) h
      (Nexrelay.buildPeersConfig P nexr h).host := by
  unfold Nexrelay.buildPeersConfig
  simp only
  cases hscan : Nexrelay.relayScan nexr (nexr.deviceCache.map Prod.snd)
      { pubKeyInConfig := nexr.wireguardPubKeyInConfig } with
  | none => exact Emits.idle _ _
  | some scan =>
    simp only
    by_cases hhub : scan.relayIP = "" ∧ decide (scan.orgPrefix ≠ "") = true
    · simp only [hhub, and_self, if_true]
      exact Emits.idle _ _
    · simp only [hhub, if_false]
      unfold Nexrelay.buildLocalConfig
      have hl := Nexrelay.relay_peerLoop_emits P
        { nexr with wireguardPubKeyInConfig := scan.pubKeyInConfig }
        (nexr.deviceCache.map Prod.snd) { peers := [], host := h }
      have hb := (Nexrelay.relay_buildLocalConfig_fold_frame P (nexr.deviceCache.map Prod.snd)
        ({ nexr with
            wireguardPubKeyInConfig := scan.pubKeyInConfig,
            wgConfig := { nexr.wgConfig with
              Peers := ((nexr.deviceCache.map Prod.snd).foldl
                (Nexrelay.peerStep P { nexr with wireguardPubKeyInConfig := scan.pubKeyInConfig })
                { peers := [], host := h }).peers } },
         ((nexr.deviceCache.map Prod.snd).foldl
            (Nexrelay.peerStep P { nexr with wireguardPubKeyInConfig := scan.pubKeyInConfig })
            { peers := [], host := h }).host)).2.2.2.2
      exact (hl.mono (fun c hc => Or.inr hc)).seq (hb.mono (fun c hc => Or.inl hc))

theorem Nexrelay.relay_mem_stepPeers (nexr : Nexrelay) (value : Device) (p : WgPeerConfig)
    (hp : p ∈ Nexrelay.stepPeers nexr value) :
    p.PublicKey = value.PublicKey ∧ value.PublicKey ≠ nexr.wireguardPubKey ∧
      (SplitHostPort value.LocalIP).isSome = true := by
  unfold Nexrelay.stepPeers at hp
  cases hs : SplitHostPort value.LocalIP with
  | none => simp [hs] at hp
  | some x =>
    simp only [hs] at hp
    by_cases hk : value.PublicKey = nexr.wireguardPubKey
    · simp [hk] at hp
    · refine ⟨?_, hk, rfl⟩
      simp only [hk, if_false, List.mem_cons] at hp
      rcases hp with h1 | h1
      · rw [h1]
      · split at h1
        · simp only [List.mem_singleton] at h1; rw [h1]
        · split at h1
          · simp only [List.mem_singleton] at h1; rw [h1]
          · simp at h1

/-- The peers a completed relay build derives split into one contribution per
cached device, each satisfying what `Nexrelay.stepPeers` satisfies. -/
theorem Nexrelay.relay_buildPeersConfig_parts (P : Platform) (nexr : Nexrelay) (h : Host)
    (hdone : (Nexrelay.buildPeersConfig P nexr h).status = .done)
    (R : Device → List WgPeerConfig → Prop)
    (hR : ∀ value, R value (Nexrelay.stepPeers nexr value)) :
    ∃ parts : List (List WgPeerConfig),
      (Nexrelay.buildPeersConfig P nexr h).nexr.wgConfig.Peers = parts.flatten ∧
      List.Forall₂ R (nexr.deviceCache.map Prod.snd) parts := by
  rw [Nexrelay.relay_buildPeersConfig_done P nexr h hdone]
  refine ⟨(nexr.deviceCache.map Prod.snd).map (Nexrelay.stepPeers nexr), ?_, ?_⟩
  · rw [List.flatMap_def]
  · rw [List.forall₂_map_right_iff]
    exact List.forall₂_same.2 (fun d _ => hR d)

/-! ## The calls of a deployment -/

theorem HandlePeerRoute_loop_emits (P : Platform) (ips : List String) (iface : String)
    (h : Host) :
    Emits (fun c => ∃ ip ∈ ips, c = .AddRoute ip iface) h
      (ips.foldl (fun h allowedIP =>
        let (routeExists, _) := RouteExists P h allowedIP
        if !routeExists then (AddRoute P h allowedIP iface).2 else h) h) := by
  induction ips generalizing h with
  | nil => exact Emits.idle _ _
  | cons ip rest ih =>
    simp only [List.foldl_cons]
    have hstep : Emits (fun c => ∃ x ∈ ip :: rest, c = .AddRoute x iface) h
        (if (!(RouteExists P h ip).1) = true then (AddRoute P h ip iface).2 else h) := by
      split
      · exact (AddRoute_emits P h ip iface).mono
          (fun c hc => ⟨ip, List.mem_cons_self _ _, hc⟩)
      · exact Emits.idle _ _
    refine hstep.seq ((ih _).mono ?_)
    rintro c ⟨x, hx, hc⟩
    exact ⟨x, List.mem_cons_of_mem _ hx, hc⟩

/-- `HandlePeerRoute` records itself and then issues only route additions for
the allowed IPs it was given. -/
theorem HandlePeerRoute_calls (P : Platform) (h : Host) (ips : List String) (iface : String) :
    ∃ rs, (HandlePeerRoute P h ips iface).calls =
        h.calls ++ (.HandlePeerRoute ips iface :: rs) ∧
      ∀ c ∈ rs, ∃ ip ∈ ips, c = .AddRoute ip iface := by
  unfold HandlePeerRoute
  obtain ⟨rs, e, q⟩ := HandlePeerRoute_loop_emits P ips iface
    (h.log (.HandlePeerRoute ips iface))
  refine ⟨rs, ?_, q⟩
  rw [e]
  simp [Host.log]

theorem addPeer_emits (P : Platform) (h : Host) (p : WgPeerConfig) (iface : String)
    (relay : Bool) :
    Emits (fun c => c = .addPeer p iface relay ∨
        ∃ cfg, c = .ConfigureDevice iface cfg ∧
          ∀ q ∈ cfg.Peers, q.Remove = false ∧ q.PublicKey = p.PublicKey) h
      (addPeer P h p iface relay).2 := by
  have hlog : Emits (fun c => c = .addPeer p iface relay ∨
        ∃ cfg, c = .ConfigureDevice iface cfg ∧
          ∀ q ∈ cfg.Peers, q.Remove = false ∧ q.PublicKey = p.PublicKey) h
      (h.log (.addPeer p iface relay)) := Emits.log _ h _ (Or.inl rfl)
  unfold addPeer
  simp only
  split
  · exact hlog
  · split
    · exact hlog
    · split
      · exact hlog
      · split
        · exact hlog
        · split
          · exact hlog
          · refine hlog.seq ((ConfigureDevice_emits P _ iface _).mono ?_)
            intro c hc
            right
            refine ⟨_, hc, ?_⟩
            intro q hq
            split at hq <;> simp at hq <;> subst hq <;> exact ⟨rfl, rfl⟩

/-- `HandlePeerTunnel` records itself and then issues only `addPeer` and the
`ConfigureDevice` that adds the peer. -/
theorem HandlePeerTunnel_calls (P : Platform) (h : Host) (p : WgPeerConfig) (iface : String)
    (relay : Bool) :
    ∃ ts, (HandlePeerTunnel P h p iface relay).calls =
        h.calls ++ (.HandlePeerTunnel p iface relay :: ts) ∧
      ∀ c ∈ ts, c = .addPeer p iface relay ∨
        ∃ cfg, c = .ConfigureDevice iface cfg ∧
          ∀ q ∈ cfg.Peers, q.Remove = false ∧ q.PublicKey = p.PublicKey := by
  unfold HandlePeerTunnel
  simp only
  split
  · exact ⟨[], rfl, by simp⟩
  · obtain ⟨ts, e, q⟩ := addPeer_emits P (h.log (.HandlePeerTunnel p iface relay)) p iface relay
    refine ⟨ts, ?_, q⟩
    rw [e]
    simp [Host.log]

/-- One peer installation: the route handler and its route additions come
before the tunnel handler and the peer entry. -/
theorem install_segment (P : Platform) (h : Host) (p : WgPeerConfig) (iface : String)
    (relay : Bool) :
    ∃ seg, (HandlePeerTunnel P (HandlePeerRoute P h p.AllowedIPs iface) p iface relay).calls =
        h.calls ++ seg ∧ InstallSegment iface relay p seg := by
  obtain ⟨rs, e1, q1⟩ := HandlePeerRoute_calls P h p.AllowedIPs iface
  obtain ⟨ts, e2, q2⟩ := HandlePeerTunnel_calls P (HandlePeerRoute P h p.AllowedIPs iface) p
    iface relay
  refine ⟨(.HandlePeerRoute p.AllowedIPs iface :: rs) ++ (.HandlePeerTunnel p iface relay :: ts),
    ?_, rs, ts, rfl, q1, q2⟩
  rw [e2, e1, List.append_assoc]

/-- A loop that installs the peers satisfying `c`. -/
theorem installWhere_segments (iface : String) (relay : Bool)
    (install : Host → WgPeerConfig → Host)
    (hinst : ∀ h p, ∃ seg, (install h p).calls = h.calls ++ seg ∧ InstallSegment iface relay p seg)
    (c : WgPeerConfig → Prop) [DecidablePred c] (peers : List WgPeerConfig) (h : Host) :
    ∃ segs : List (List Call),
      (peers.foldl (fun h peer => if c peer then install h peer else h) h).calls =
        h.calls ++ segs.flatten ∧
      List.Forall₂ (InstallSegment iface relay) (peers.filter (fun p => decide (c p))) segs := by
  induction peers generalizing h with
  | nil => exact ⟨[], by simp, by simp⟩
  | cons p rest ih =>
    simp only [List.foldl_cons]
    by_cases hc : c p
    · obtain ⟨seg, e1, s1⟩ := hinst h p
      obtain ⟨segs, e2, s2⟩ := ih (install h p)
      refine ⟨seg :: segs, ?_, ?_⟩
      · rw [if_pos hc, e2, e1]
        simp
      · rw [List.filter_cons_of_pos (by simpa using hc)]
        exact List.Forall₂.cons s1 s2
    · obtain ⟨segs, e2, s2⟩ := ih h
      refine ⟨segs, ?_, ?_⟩
      · rw [if_neg hc, e2]
      · rw [List.filter_cons_of_neg (by simpa using hc)]
        exact s2

theorem forall₂_append_flat {α β : Type} (R : α → β → Prop) {l1 l2 : List α} {m1 m2 : List β}
    (a : List.Forall₂ R l1 m1) (b : List.Forall₂ R l2 m2) :
    List.Forall₂ R (l1 ++ l2) (m1 ++ m2) := by
  induction a with
  | nil => simpa using b
  | cons hx _ ih => exact List.Forall₂.cons hx ih

/-- The loop of an incremental deployment over `newPeers`: it installs the
selected peers, in order. -/
theorem installNew_segments (iface : String) (relay : Bool)
    (install : Host → WgPeerConfig → Host)
    (hinst : ∀ h p, ∃ seg, (install h p).calls = h.calls ++ seg ∧ InstallSegment iface relay p seg)
    (peers : List WgPeerConfig) (ownKey : String) (np : List Device) (h : Host) :
    ∃ segs : List (List Call),
      (np.foldl (fun h newPeer =>
        if newPeer.ID ≠ uuidNil then
          peers.foldl (fun h peer =>
            if peer.PublicKey = newPeer.PublicKey ∧ newPeer.PublicKey ≠ ownKey then
              install h peer
            else h) h
        else h) h).calls = h.calls ++ segs.flatten ∧
      List.Forall₂ (InstallSegment iface relay) (selectedPeers peers ownKey np) segs := by
  induction np generalizing h with
  | nil => exact ⟨[], by simp, by simp [selectedPeers]⟩
  | cons n rest ih =>
    simp only [List.foldl_cons]
    by_cases hid : n.ID ≠ uuidNil
    · obtain ⟨s1, e1, f1⟩ := installWhere_segments iface relay install hinst
        (fun peer => peer.PublicKey = n.PublicKey ∧ n.PublicKey ≠ ownKey) peers h
      obtain ⟨s2, e2, f2⟩ := ih (peers.foldl (fun h peer =>
        if peer.PublicKey = n.PublicKey ∧ n.PublicKey ≠ ownKey then install h peer else h) h)
      refine ⟨s1 ++ s2, ?_, ?_⟩
      · rw [if_pos hid, e2, e1]
        simp
      · have : selectedPeers peers ownKey (n :: rest) =
            peers.filter (fun p => decide (p.PublicKey = n.PublicKey ∧ n.PublicKey ≠ ownKey)) ++
              selectedPeers peers ownKey rest := by
          simp [selectedPeers, hid]
        rw [this]
        exact forall₂_append_flat _ f1 f2
    · obtain ⟨s2, e2, f2⟩ := ih h
      refine ⟨s2, ?_, ?_⟩
      · rw [if_neg hid, e2]
      · have : selectedPeers peers ownKey (n :: rest) = selectedPeers peers ownKey rest := by
          have hid' : n.ID = uuidNil := by simpa using hid
          simp [selectedPeers, hid']
        rw [this]
        exact f2

theorem installAll_segments (iface : String) (relay : Bool)
    (install : Host → WgPeerConfig → Host)
    (hinst : ∀ h p, ∃ seg, (install h p).calls = h.calls ++ seg ∧ InstallSegment iface relay p seg)
    (peers : List WgPeerConfig) (h : Host) :
    ∃ segs : List (List Call),
      (peers.foldl install h).calls = h.calls ++ segs.flatten ∧
      List.Forall₂ (InstallSegment iface relay) peers segs := by
  induction peers generalizing h with
  | nil => exact ⟨[], by simp, by simp⟩
  | cons p rest ih =>
    simp only [List.foldl_cons]
    obtain ⟨seg, e1, s1⟩ := hinst h p
    obtain ⟨segs, e2, s2⟩ := ih (install h p)
    refine ⟨seg :: segs, ?_, List.Forall₂.cons s1 s2⟩
    rw [e2, e1]
    simp

/-! ## Interface setup issues commands only -/

theorem deleteExistingLink_emits (P : Platform) (ax : Nexodus) (h : Host) :
    Emits (fun c => ∃ args, c = .RunCommand args) h (deleteExistingLink P ax h) := by
  unfold deleteExistingLink
  split
  · simp only
    have h1 := @Emits.mono _ (fun c => ∃ args, c = .RunCommand args) _ _
      (RunCommand_emits P h ["ip", "link", "del", ax.tunnelIface]) (fun c hc => ⟨_, hc⟩)
    split
    · exact h1.seq (Emits.of_calls_eq _ rfl)
    · exact h1
  · exact Emits.idle _ _

theorem RunCommand_emits_any (P : Platform) (h : Host) (args : List String) :
    Emits (fun c => ∃ args, c = .RunCommand args) h (RunCommand P h args).2 :=
  (RunCommand_emits P h args).mono (fun _ hc => ⟨_, hc⟩)

theorem assignAddress_emits (P : Platform) (ax : Nexodus) (h : Host) :
    Emits (fun c => ∃ args, c = .RunCommand args) h (assignAddress P ax h).2 := by
  unfold assignAddress
  simp only
  have h4 := RunCommand_emits_any P h
    ["ip", "address", "add", ax.wgLocalAddress, "dev", ax.tunnelIface]
  split
  · exact h4.seq (Emits.of_calls_eq _ rfl)
  · have hd := RunCommand_emits_any P
      (RunCommand P h ["ip", "address", "add", ax.wgLocalAddress, "dev", ax.tunnelIface]).2
      ["ip", "address", "del",
        GetIPv4IfaceString
          (RunCommand P h ["ip", "address", "add", ax.wgLocalAddress, "dev", ax.tunnelIface]).2,
        "dev", ax.tunnelIface]
    split
    · split
      · exact (h4.seq (hd.seq (Emits.of_calls_eq _ rfl))).seq
          ((RunCommand_emits_any P _ _).seq (Emits.of_calls_eq _ rfl))
      · exact (h4.seq hd).seq ((RunCommand_emits_any P _ _).seq (Emits.of_calls_eq _ rfl))
    · split
      · exact (h4.seq (hd.seq (Emits.of_calls_eq _ rfl))).seq (RunCommand_emits_any P _ _)
      · exact (h4.seq hd).seq (RunCommand_emits_any P _ _)

theorem setupInterface_emits (P : Platform) (ax : Nexodus) (h : Host) :
    Emits (fun c => ∃ args, c = .RunCommand args) h (setupInterface P ax h).2 := by
  unfold setupInterface
  simp only
  have h1 := deleteExistingLink_emits P ax h
  have h2 := h1.seq (RunCommand_emits_any P (deleteExistingLink P ax h)
    ["ip", "link", "add", ax.tunnelIface, "type", "wireguard"])
  split
  · exact h2
  · have h3 := (h2.seq (Emits.of_calls_eq _ rfl)).seq (RunCommand_emits_any P
      { (RunCommand P (deleteExistingLink P ax h)
          ["ip", "link", "add", ax.tunnelIface, "type", "wireguard"]).2 with linkExists := true }
      ["wg", "set", ax.tunnelIface, "listen-port", toString ax.listenPort,
        "private-key", LinuxPrivateKeyFile])
    split
    · exact h3
    · have h5 := h3.seq (assignAddress_emits P ax _)
      split
      · exact h5
      · split
        · exact h5.seq (RunCommand_emits_any P _ _)
        · exact h5.seq (RunCommand_emits_any P _ _)

theorem Nexrelay.relay_assignAddress_emits (P : Platform) (nexr : Nexrelay) (h : Host) :
    Emits (fun c => ∃ args, c = .RunCommand args) h (Nexrelay.assignAddress P nexr h).2 := by
  unfold Nexrelay.assignAddress
  simp only
  have h4 := RunCommand_emits_any P h
    ["ip", "address", "add", nexr.wgLocalAddress, "dev", nexr.tunnelIface]
  split
  · exact h4.seq (Emits.of_calls_eq _ rfl)
  · have hd := RunCommand_emits_any P
      (RunCommand P h ["ip", "address", "add", nexr.wgLocalAddress, "dev", nexr.tunnelIface]).2
      ["ip", "address", "del",
        GetIPv4IfaceString
          (RunCommand P h
            ["ip", "address", "add", nexr.wgLocalAddress, "dev", nexr.tunnelIface]).2,
        "dev", nexr.tunnelIface]
    split
    · split
      · exact (h4.seq (hd.seq (Emits.of_calls_eq _ rfl))).seq
          ((RunCommand_emits_any P _ _).seq (Emits.of_calls_eq _ rfl))
      · exact (h4.seq hd).seq ((RunCommand_emits_any P _ _).seq (Emits.of_calls_eq _ rfl))
    · split
      · exact (h4.seq (hd.seq (Emits.of_calls_eq _ rfl))).seq (RunCommand_emits_any P _ _)
      · exact (h4.seq hd).seq (RunCommand_emits_any P _ _)

theorem Nexrelay.relay_deleteExistingLink_emits (P : Platform) (nexr : Nexrelay) (h : Host) :
    Emits (fun c => ∃ args, c = .RunCommand args) h (Nexrelay.deleteExistingLink P nexr h) := by
  unfold Nexrelay.deleteExistingLink
  split
  · simp only
    split
    · exact (RunCommand_emits_any P h _).seq (Emits.of_calls_eq _ rfl)
    · exact RunCommand_emits_any P h _
  · exact Emits.idle _ _

theorem Nexrelay.relay_setupInterface_emits (P : Platform) (nexr : Nexrelay) (h : Host) :
    Emits (fun c => ∃ args, c = .RunCommand args) h (Nexrelay.setupInterface P nexr h).2 := by
  unfold Nexrelay.setupInterface
  simp only
  have h1 := Nexrelay.relay_deleteExistingLink_emits P nexr h
  have h2 := h1.seq (RunCommand_emits_any P (Nexrelay.deleteExistingLink P nexr h)
    ["ip", "link", "add", nexr.tunnelIface, "type", "wireguard"])
  split
  · exact h2
  · have h3 := (h2.seq (Emits.of_calls_eq _ rfl)).seq (RunCommand_emits_any P
      { (RunCommand P (Nexrelay.deleteExistingLink P nexr h)
          ["ip", "link", "add", nexr.tunnelIface, "type", "wireguard"]).2 with linkExists := true }
      ["wg", "set", nexr.tunnelIface, "listen-port", toString WgDefaultPort,
        "private-key", LinuxPrivateKeyFile])
    split
    · exact h3
    · have h5 := h3.seq (Nexrelay.relay_assignAddress_emits P nexr _)
      split
      · exact h5
      · split
        · exact h5.seq (RunCommand_emits_any P _ _)
        · exact h5.seq (RunCommand_emits_any P _ _)

/-! ## The calls of `DeployWireguardConfig` -/

/-- The calls of a deployment that returns no error: the commands of the
interface setup, then one installation segment for each peer it installs, in
order: every peer of the configuration on a first deployment, the selected
peers on a later one. -/
theorem DeployWireguardConfig_calls (P : Platform) (ax : Nexodus) (h : Host)
    (np : List Device) (ft : Bool)
    (hok : (DeployWireguardConfig P ax h np ft).1 = none) :
    ∃ (setup : List Call) (segs : List (List Call)),
      (DeployWireguardConfig P ax h np ft).2.calls = h.calls ++ (setup ++ segs.flatten) ∧
      (∀ c ∈ setup, ∃ args, c = .RunCommand args) ∧
      List.Forall₂ (InstallSegment ax.tunnelIface false)
        (if ft then ax.wgConfig.Peers
         else selectedPeers ax.wgConfig.Peers ax.wireguardPubKey np) segs := by
  have hinst : ∀ h p, ∃ seg, (installPeer P ax h p).calls = h.calls ++ seg ∧
      InstallSegment ax.tunnelIface false p seg :=
    fun h p => install_segment P h p ax.tunnelIface false
  have key : ∀ h1 : Host, Emits (fun c => ∃ args, c = .RunCommand args) h h1 →
      ∃ (setup : List Call) (segs : List (List Call)),
        (if ft = true then ax.wgConfig.Peers.foldl (installPeer P ax) h1
         else np.foldl (fun h newPeer =>
          if newPeer.ID ≠ uuidNil then
            ax.wgConfig.Peers.foldl (fun h peer =>
              if peer.PublicKey = newPeer.PublicKey ∧ newPeer.PublicKey ≠ ax.wireguardPubKey then
                installPeer P ax h peer
              else h) h
          else h) h1).calls = h.calls ++ (setup ++ segs.flatten) ∧
        (∀ c ∈ setup, ∃ args, c = .RunCommand args) ∧
        List.Forall₂ (InstallSegment ax.tunnelIface false)
          (if ft then ax.wgConfig.Peers
           else selectedPeers ax.wgConfig.Peers ax.wireguardPubKey np) segs := by
    rintro h1 ⟨setup, e0, q0⟩
    cases ft with
    | true =>
      obtain ⟨segs, e, f⟩ := installAll_segments ax.tunnelIface false (installPeer P ax) hinst
        ax.wgConfig.Peers h1
      refine ⟨setup, segs, ?_, q0, by simpa using f⟩
      simp only [if_true]
      rw [e, e0, List.append_assoc]
    | false =>
      obtain ⟨segs, e, f⟩ := installNew_segments ax.tunnelIface false (installPeer P ax) hinst
        ax.wgConfig.Peers ax.wireguardPubKey np h1
      refine ⟨setup, segs, ?_, q0, by simpa using f⟩
      simp only [Bool.false_eq_true, if_false]
      rw [e, e0, List.append_assoc]
  unfold DeployWireguardConfig at hok ⊢
  simp only at hok ⊢
  by_cases ha : ax.wgLocalAddress ≠ GetIPv4IfaceString h
  · rw [if_pos ha] at hok ⊢
    rcases hs : setupInterface P ax h with ⟨e, h1⟩
    rw [hs] at hok
    cases e with
    | some e => simp at hok
    | none =>
      have hem := setupInterface_emits P ax h
      rw [hs] at hem
      have := key h1 hem
      cases ft <;> simpa using this
  · rw [if_neg ha] at hok ⊢
    have := key h (Emits.idle _ _)
    cases ft <;> simpa using this

/-- A deployment that returns an error has issued commands only: no route and
no peer entry is installed. -/
theorem DeployWireguardConfig_calls_err (P : Platform) (ax : Nexodus) (h : Host)
    (np : List Device) (ft : Bool) (e : Err)
    (herr : (DeployWireguardConfig P ax h np ft).1 = some e) :
    Emits (fun c => ∃ args, c = .RunCommand args) h (DeployWireguardConfig P ax h np ft).2 := by
  unfold DeployWireguardConfig at herr ⊢
  simp only at herr ⊢
  by_cases ha : ax.wgLocalAddress ≠ GetIPv4IfaceString h
  · rw [if_pos ha] at herr ⊢
    have hem := setupInterface_emits P ax h
    rcases hs : setupInterface P ax h with ⟨e', h1⟩
    rw [hs] at herr hem
    cases e' with
    | some e' => exact hem
    | none => cases ft <;> simp at herr
  · rw [if_neg ha] at herr
    cases ft <;> simp at herr

theorem Nexrelay.relay_DeployWireguardConfig_calls (P : Platform) (nexr : Nexrelay) (h : Host)
    (np : List Device) (ft : Bool)
    (hok : (Nexrelay.DeployWireguardConfig P nexr h np ft).1 = none) :
    ∃ (setup : List Call) (segs : List (List Call)),
      (Nexrelay.DeployWireguardConfig P nexr h np ft).2.calls =
        h.calls ++ (setup ++ segs.flatten) ∧
      (∀ c ∈ setup, ∃ args, c = .RunCommand args) ∧
      List.Forall₂ (InstallSegment nexr.tunnelIface true)
        (if ft then nexr.wgConfig.Peers
         else selectedPeers nexr.wgConfig.Peers nexr.wireguardPubKey np) segs := by
  have hinst : ∀ h p, ∃ seg, (Nexrelay.installPeer P nexr h p).calls = h.calls ++ seg ∧
      InstallSegment nexr.tunnelIface true p seg :=
    fun h p => install_segment P h p nexr.tunnelIface true
  have key : ∀ h1 : Host, Emits (fun c => ∃ args, c = .RunCommand args) h h1 →
      ∃ (setup : List Call) (segs : List (List Call)),
        (if ft = true then nexr.wgConfig.Peers.foldl (Nexrelay.installPeer P nexr) h1
         else np.foldl (fun h newPeer =>
          if newPeer.ID ≠ uuidNil then
            nexr.wgConfig.Peers.foldl (fun h peer =>
              if peer.PublicKey = newPeer.PublicKey ∧
                  newPeer.PublicKey ≠ nexr.wireguardPubKey then
                Nexrelay.installPeer P nexr h peer
              else h) h
          else h) h1).calls = h.calls ++ (setup ++ segs.flatten) ∧
        (∀ c ∈ setup, ∃ args, c = .RunCommand args) ∧
        List.Forall₂ (InstallSegment nexr.tunnelIface true)
          (if ft then nexr.wgConfig.Peers
           else selectedPeers nexr.wgConfig.Peers nexr.wireguardPubKey np) segs := by
    rintro h1 ⟨setup, e0, q0⟩
    cases ft with
    | true =>
      obtain ⟨segs, e, f⟩ := installAll_segments nexr.tunnelIface true
        (Nexrelay.installPeer P nexr) hinst nexr.wgConfig.Peers h1
      refine ⟨setup, segs, ?_, q0, by simpa using f⟩
      simp only [if_true]
      rw [e, e0, List.append_assoc]
    | false =>
      obtain ⟨segs, e, f⟩ := installNew_segments nexr.tunnelIface true
        (Nexrelay.installPeer P nexr) hinst nexr.wgConfig.Peers nexr.wireguardPubKey np h1
      refine ⟨setup, segs, ?_, q0, by simpa using f⟩
      simp only [Bool.false_eq_true, if_false]
      rw [e, e0, List.append_assoc]
  unfold Nexrelay.DeployWireguardConfig at hok ⊢
  simp only at hok ⊢
  by_cases ha : nexr.wgLocalAddress ≠ GetIPv4IfaceString h
  · rw [if_pos ha] at hok ⊢
    rcases hs : Nexrelay.setupInterface P nexr h with ⟨e, h1⟩
    rw [hs] at hok
    cases e with
    | some e => simp at hok
    | none =>
      have hem := Nexrelay.relay_setupInterface_emits P nexr h
      rw [hs] at hem
      have := key h1 hem
      cases ft <;> simpa using this
  · rw [if_neg ha] at hok ⊢
    have := key h (Emits.idle _ _)
    cases ft <;> simpa using this

/-! ## Reading installation segments -/

theorem InstallSegment.mem {iface : String} {relay : Bool} {p : WgPeerConfig} {seg : List Call}
    (hs : InstallSegment iface relay p seg) {c : Call} (hc : c ∈ seg) :
    c = .HandlePeerRoute p.AllowedIPs iface ∨ (∃ ip ∈ p.AllowedIPs, c = .AddRoute ip iface) ∨
    c = .HandlePeerTunnel p iface relay ∨ c = .addPeer p iface relay ∨
    ∃ cfg, c = .ConfigureDevice iface cfg ∧
      ∀ q ∈ cfg.Peers, q.Remove = false ∧ q.PublicKey = p.PublicKey := by
  obtain ⟨rs, ts, e, q1, q2⟩ := hs
  rw [e] at hc
  simp only [List.mem_append, List.mem_cons] at hc
  rcases hc with (h1 | h1) | (h1 | h1)
  · exact Or.inl h1
  · exact Or.inr (Or.inl (q1 c h1))
  · exact Or.inr (Or.inr (Or.inl h1))
  · rcases q2 c h1 with h2 | h2
    · exact Or.inr (Or.inr (Or.inr (Or.inl h2)))
    · exact Or.inr (Or.inr (Or.inr (Or.inr h2)))

theorem InstallSegment.removes_eq_false {iface : String} {relay : Bool} {p : WgPeerConfig}
    {seg : List Call} (hs : InstallSegment iface relay p seg) :
    ∀ c ∈ seg, c.removes = false := by
  intro c hc
  rcases hs.mem hc with h1 | ⟨ip, _, h1⟩ | h1 | h1 | ⟨cfg, h1, hq⟩
  · rw [h1]; rfl
  · rw [h1]; rfl
  · rw [h1]; rfl
  · rw [h1]; rfl
  · rw [h1]
    simp only [Call.removes, List.any_eq_false]
    intro q hq'
    simp [(hq q hq').1]

/-- The handler calls of one installation segment: the route handler, then the
tunnel handler. -/
theorem InstallSegment.filter_isHandler {iface : String} {relay : Bool} {p : WgPeerConfig}
    {seg : List Call} (hs : InstallSegment iface relay p seg) :
    seg.filter Call.isHandler =
      [.HandlePeerRoute p.AllowedIPs iface, .HandlePeerTunnel p iface relay] := by
  obtain ⟨rs, ts, e, q1, q2⟩ := hs
  have h1 : rs.filter Call.isHandler = [] := by
    rw [List.filter_eq_nil_iff]
    intro c hc
    obtain ⟨ip, _, hh⟩ := q1 c hc
    rw [hh]; simp [Call.isHandler]
  have h2 : ts.filter Call.isHandler = [] := by
    rw [List.filter_eq_nil_iff]
    intro c hc
    rcases q2 c hc with hh | ⟨cfg, hh, _⟩ <;> rw [hh] <;> simp [Call.isHandler]
  rw [e, List.filter_append, List.filter_cons_of_pos (by rfl), List.filter_cons_of_pos (by rfl),
    h1, h2]
  rfl

theorem segments_filter_isHandler {iface : String} {relay : Bool} {ps : List WgPeerConfig}
    {segs : List (List Call)} (hf : List.Forall₂ (InstallSegment iface relay) ps segs) :
    segs.flatten.filter Call.isHandler =
      ps.flatMap (fun p => [.HandlePeerRoute p.AllowedIPs iface, .HandlePeerTunnel p iface relay])
    := by
  induction hf with
  | nil => rfl
  | cons hx _ ih =>
    rw [List.flatten_cons, List.filter_append, hx.filter_isHandler, ih, List.flatMap_cons]

theorem segments_mem {iface : String} {relay : Bool} {ps : List WgPeerConfig}
    {segs : List (List Call)} (hf : List.Forall₂ (InstallSegment iface relay) ps segs)
    {c : Call} (hc : c ∈ segs.flatten) :
    ∃ p ∈ ps, ∃ seg, InstallSegment iface relay p seg ∧ c ∈ seg := by
  induction hf with
  | nil => simp at hc
  | cons hx _ ih =>
    rw [List.flatten_cons, List.mem_append] at hc
    rcases hc with h1 | h1
    · exact ⟨_, List.mem_cons_self _ _, _, hx, h1⟩
    · obtain ⟨p, hp, seg, hs, hm⟩ := ih h1
      exact ⟨p, List.mem_cons_of_mem _ hp, seg, hs, hm⟩

theorem setup_filter_isHandler {setup : List Call}
    (h : ∀ c ∈ setup, ∃ args, c = Call.RunCommand args) : setup.filter Call.isHandler = [] := by
  rw [List.filter_eq_nil_iff]
  intro c hc
  obtain ⟨args, hh⟩ := h c hc
  rw [hh]; simp [Call.isHandler]

/-- The peers an incremental deployment selects. -/
theorem mem_selectedPeers (peers : List WgPeerConfig) (ownKey : String) (np : List Device)
    (p : WgPeerConfig) :
    p ∈ selectedPeers peers ownKey np ↔
      p ∈ peers ∧ p.PublicKey ≠ ownKey ∧
        ∃ n ∈ np, n.ID ≠ uuidNil ∧ p.PublicKey = n.PublicKey := by
  unfold selectedPeers
  simp only [List.mem_flatMap]
  constructor
  · rintro ⟨n, hn, hp⟩
    by_cases hid : n.ID ≠ uuidNil
    · rw [if_pos hid] at hp
      simp only [List.mem_filter, decide_eq_true_eq] at hp
      exact ⟨hp.1, hp.2.1 ▸ hp.2.2, n, hn, hid, hp.2.1⟩
    · rw [if_neg hid] at hp
      simp at hp
  · rintro ⟨hp, hown, n, hn, hid, hk⟩
    refine ⟨n, hn, ?_⟩
    rw [if_pos hid]
    simp only [List.mem_filter, decide_eq_true_eq]
    exact ⟨hp, hk, hk ▸ hown⟩

theorem Nexrelay.relay_DeployWireguardConfig_calls_err (P : Platform) (nexr : Nexrelay) (h : Host)
    (np : List Device) (ft : Bool) (e : Err)
    (herr : (Nexrelay.DeployWireguardConfig P nexr h np ft).1 = some e) :
    Emits (fun c => ∃ args, c = .RunCommand args) h
      (Nexrelay.DeployWireguardConfig P nexr h np ft).2 := by
  unfold Nexrelay.DeployWireguardConfig at herr ⊢
  simp only at herr ⊢
  by_cases ha : nexr.wgLocalAddress ≠ GetIPv4IfaceString h
  · rw [if_pos ha] at herr ⊢
    have hem := Nexrelay.relay_setupInterface_emits P nexr h
    rcases hs : Nexrelay.setupInterface P nexr h with ⟨e', h1⟩
    rw [hs] at herr hem
    cases e' with
    | some e' => exact hem
    | none => cases ft <;> simp at herr
  · rw [if_neg ha] at herr
    cases ft <;> simp at herr

theorem callsSince_append (h h' : Host) (cs : List Call) (e : h'.calls = h.calls ++ cs) :
    callsSince h h' = cs := by
  unfold callsSince
  rw [e, List.drop_left]

/-- Every call of a deployment is a command of the interface setup or belongs
to the installation of one of the peers it installs. -/
theorem DeployWireguardConfig_calls_any (P : Platform) (ax : Nexodus) (h : Host)
    (np : List Device) (ft : Bool) :
    Emits (fun c => (∃ args, c = .RunCommand args) ∨
        ∃ p ∈ (if ft then ax.wgConfig.Peers
               else selectedPeers ax.wgConfig.Peers ax.wireguardPubKey np),
          ∃ seg, InstallSegment ax.tunnelIface false p seg ∧ c ∈ seg) h
      (DeployWireguardConfig P ax h np ft).2 := by
  cases hr : (DeployWireguardConfig P ax h np ft).1 with
  | some e =>
    exact (DeployWireguardConfig_calls_err P ax h np ft e hr).mono (fun c hc => Or.inl hc)
  | none =>
    obtain ⟨setup, segs, e, q, f⟩ := DeployWireguardConfig_calls P ax h np ft hr
    refine ⟨setup ++ segs.flatten, e, ?_⟩
    intro c hc
    rcases List.mem_append.1 hc with h1 | h1
    · exact Or.inl (q c h1)
    · exact Or.inr (segments_mem f h1)

theorem Nexrelay.relay_DeployWireguardConfig_calls_any (P : Platform) (nexr : Nexrelay) (h : Host)
    (np : List Device) (ft : Bool) :
    Emits (fun c => (∃ args, c = .RunCommand args) ∨
        ∃ p ∈ (if ft then nexr.wgConfig.Peers
               else selectedPeers nexr.wgConfig.Peers nexr.wireguardPubKey np),
          ∃ seg, InstallSegment nexr.tunnelIface true p seg ∧ c ∈ seg) h
      (Nexrelay.DeployWireguardConfig P nexr h np ft).2 := by
  cases hr : (Nexrelay.DeployWireguardConfig P nexr h np ft).1 with
  | some e =>
    exact (Nexrelay.relay_DeployWireguardConfig_calls_err P nexr h np ft e hr).mono
      (fun c hc => Or.inl hc)
  | none =>
    obtain ⟨setup, segs, e, q, f⟩ := Nexrelay.relay_DeployWireguardConfig_calls P nexr h np ft hr
    refine ⟨setup ++ segs.flatten, e, ?_⟩
    intro c hc
    rcases List.mem_append.1 hc with h1 | h1
    · exact Or.inl (q c h1)
    · exact Or.inr (segments_mem f h1)

/-! ## Installations come before removals -/

theorem buildPeersConfig_no_removal (P : Platform) (ax : Nexodus) (h : Host) :
    Emits (fun c => c.removes = false) h (buildPeersConfig P ax h).host := by
  refine (buildPeersConfig_emits P ax h).mono ?_
  rintro c (h1 | ⟨_, _, _, _, _, _, h1⟩) <;> rw [h1] <;> rfl

theorem DeployWireguardConfig_no_removal (P : Platform) (ax : Nexodus) (h : Host)
    (np : List Device) (ft : Bool) :
    Emits (fun c => c.removes = false) h (DeployWireguardConfig P ax h np ft).2 := by
  refine (DeployWireguardConfig_calls_any P ax h np ft).mono ?_
  rintro c (⟨args, h1⟩ | ⟨p, _, seg, hs, hm⟩)
  · rw [h1]; rfl
  · exact hs.removes_eq_false c hm

theorem buildAndDeploy_no_removal (P : Platform) (ax : Nexodus) (h : Host)
    (np : List Device) (ft : Bool) :
    Emits (fun c => c.removes = false) h (buildAndDeploy P ax h np ft).2.2 := by
  have hb := buildPeersConfig_no_removal P ax h
  have hd := DeployWireguardConfig_no_removal P (buildPeersConfig P ax h).ax
    (buildPeersConfig P ax h).host np ft
  unfold buildAndDeploy
  simp only
  cases hs : (buildPeersConfig P ax h).status <;> simp only
  · rcases hr : DeployWireguardConfig P (buildPeersConfig P ax h).ax
      (buildPeersConfig P ax h).host np ft with ⟨e, h1⟩
    rw [hr] at hd
    cases e <;> exact hb.seq hd
  · rcases hr : DeployWireguardConfig P (buildPeersConfig P ax h).ax
      (buildPeersConfig P ax h).host np ft with ⟨e, h1⟩
    rw [hr] at hd
    cases e <;> exact hb.seq hd
  · exact hb
  · exact hb

theorem deletePeer_no_install (P : Platform) (h : Host) (key dev : String) :
    Emits (fun c => c.installs = false) h (deletePeer P h key dev).2 := by
  have hlog : Emits (fun c => c.installs = false) h (h.log (.deletePeer key dev)) :=
    Emits.log _ h _ rfl
  unfold deletePeer
  simp only
  split
  · exact hlog
  · split
    · exact hlog
    · refine hlog.seq ((ConfigureDevice_emits P _ dev _).mono ?_)
      intro c hc
      rw [hc]
      rfl

theorem HandlePeerRouteDelete_no_install (P : Platform) (h : Host) (dev : String)
    (ips : List String) :
    Emits (fun c => c.installs = false) h (HandlePeerRouteDelete P h dev ips) := by
  unfold HandlePeerRouteDelete
  induction ips generalizing h with
  | nil => exact Emits.idle _ _
  | cons ip rest ih =>
    simp only [List.foldl_cons]
    have hstep : Emits (fun c => c.installs = false) h
        (if (!(RouteExists P h ip).1) = true then h else (DeleteRoute P h ip dev).2) := by
      split
      · exact Emits.idle _ _
      · exact (DeleteRoute_emits P h ip dev).mono (fun c hc => by rw [hc]; rfl)
    exact hstep.seq (ih _)

theorem HandlePeerDeleteLoop_no_install (P : Platform) (L : List Device) (iface : String) :
    ∀ (entries : List (UUID × Device)) (cache : DeviceCache) (h : Host),
      Emits (fun c => c.installs = false) h
        (HandlePeerDeleteLoop P L iface entries cache h).2.2 := by
  intro entries
  induction entries with
  | nil => intro cache h; exact Emits.idle _ _
  | cons e rest ih =>
    intro cache h
    obtain ⟨k, p⟩ := e
    unfold HandlePeerDeleteLoop
    split
    · exact ih cache h
    · split
      · exact ih cache h
      · simp only
        have hd := deletePeer_no_install P h ((cacheGet cache p.ID).getD {}).PublicKey iface
        split
        · exact hd
        · exact hd.seq ((HandlePeerRouteDelete_no_install P _ iface p.AllowedIPs).seq
            (ih _ _))

theorem HandlePeerDelete_no_install (P : Platform) (L : List Device) (cache : DeviceCache)
    (iface : String) (h : Host) :
    Emits (fun c => c.installs = false) h (HandlePeerDelete P L cache iface h).2.2 :=
  HandlePeerDeleteLoop_no_install P L iface cache cache h

/-- The calls of a cycle split into a part without removals followed by a part
without installations. -/
theorem reconcileUpdate_order (P : Platform) (ax : Nexodus) (h : Host) (L np : List Device) :
    ∃ A D, (reconcileUpdate P ax h L np).2.2.calls = h.calls ++ (A ++ D) ∧
      (∀ c ∈ A, c.removes = false) ∧ (∀ c ∈ D, c.installs = false) := by
  unfold reconcileUpdate
  simp only
  have hdep : Emits (fun c => c.removes = false) h
      (if (L.foldl diffStep (ax.deviceCache, false, np)).2.1 = true then
        buildAndDeploy P { ax with deviceCache := (L.foldl diffStep (ax.deviceCache, false, np)).1 }
          h (L.foldl diffStep (ax.deviceCache, false, np)).2.2 false
       else (none, { ax with deviceCache := (L.foldl diffStep (ax.deviceCache, false, np)).1 },
          h)).2.2 := by
    split
    · exact buildAndDeploy_no_removal P _ h _ false
    · exact Emits.idle _ _
  obtain ⟨A, eA, qA⟩ := hdep
  cases hr : (if (L.foldl diffStep (ax.deviceCache, false, np)).2.1 = true then
        buildAndDeploy P { ax with deviceCache := (L.foldl diffStep (ax.deviceCache, false, np)).1 }
          h (L.foldl diffStep (ax.deviceCache, false, np)).2.2 false
       else (none, { ax with deviceCache := (L.foldl diffStep (ax.deviceCache, false, np)).1 },
          h)).1 with
  | some res =>
    refine ⟨A, [], ?_, qA, by simp⟩
    simp only [List.append_nil]
    exact eA
  | none =>
    simp only
    obtain ⟨D, eD, qD⟩ := HandlePeerDelete_no_install P L
      (if (L.foldl diffStep (ax.deviceCache, false, np)).2.1 = true then
        buildAndDeploy P { ax with deviceCache := (L.foldl diffStep (ax.deviceCache, false, np)).1 }
          h (L.foldl diffStep (ax.deviceCache, false, np)).2.2 false
       else (none, { ax with deviceCache := (L.foldl diffStep (ax.deviceCache, false, np)).1 },
          h)).2.1.deviceCache
      (if (L.foldl diffStep (ax.deviceCache, false, np)).2.1 = true then
        buildAndDeploy P { ax with deviceCache := (L.foldl diffStep (ax.deviceCache, false, np)).1 }
          h (L.foldl diffStep (ax.deviceCache, false, np)).2.2 false
       else (none, { ax with deviceCache := (L.foldl diffStep (ax.deviceCache, false, np)).1 },
          h)).2.1.tunnelIface
      (if (L.foldl diffStep (ax.deviceCache, false, np)).2.1 = true then
        buildAndDeploy P { ax with deviceCache := (L.foldl diffStep (ax.deviceCache, false, np)).1 }
          h (L.foldl diffStep (ax.deviceCache, false, np)).2.2 false
       else (none, { ax with deviceCache := (L.foldl diffStep (ax.deviceCache, false, np)).1 },
          h)).2.2
    refine ⟨A, D, ?_, qA, qD⟩
    rw [eD, eA, List.append_assoc]

/-! ## `buildLocalConfig` with a single self entry -/

theorem buildLocalConfig_fold_no_self (P : Platform) (devs : List Device) (st : Nexodus × Host)
    (hno : ∀ x ∈ devs, x.PublicKey ≠ st.1.wireguardPubKey) :
    devs.foldl (buildLocalConfigStep P) st = st := by
  induction devs generalizing st with
  | nil => rfl
  | cons x rest ih =>
    simp only [List.foldl_cons]
    have hstep : buildLocalConfigStep P st x = st := by
      unfold buildLocalConfigStep
      simp only [hno x (List.mem_cons_self _ _), if_false]
    rw [hstep]
    exact ih st (fun y hy => hno y (List.mem_cons_of_mem _ hy))

theorem buildLocalConfig_fold_self (P : Platform) (devs : List Device) (st : Nexodus × Host)
    (d : Device) (hd : d ∈ devs) (hk : d.PublicKey = st.1.wireguardPubKey)
    (hu : ∀ x ∈ devs, x.PublicKey = st.1.wireguardPubKey → x = d) :
    devs.foldl (buildLocalConfigStep P) st =
      ({ st.1 with wgLocalAddress := d.TunnelIP,
                   wgConfig := { st.1.wgConfig with
                     Interface := { PrivateKey := st.1.wireguardPvtKey,
                                    ListenPort := st.1.listenPort } } },
       if st.1.wgLocalAddress ≠ d.TunnelIP ∧ st.2.linkExists = true then
         (DelLink P st.2 st.1.tunnelIface).2
       else st.2) := by
  induction devs generalizing st with
  | nil => simp at hd
  | cons x rest ih =>
    simp only [List.foldl_cons]
    by_cases hx : x.PublicKey = st.1.wireguardPubKey
    · have hxd : x = d := hu x (List.mem_cons_self _ _) hx
      subst hxd
      have hstep : buildLocalConfigStep P st x =
          ({ st.1 with wgLocalAddress := x.TunnelIP,
                       wgConfig := { st.1.wgConfig with
                         Interface := { PrivateKey := st.1.wireguardPvtKey,
                                        ListenPort := st.1.listenPort } } },
           if st.1.wgLocalAddress ≠ x.TunnelIP ∧ st.2.linkExists = true then
             (DelLink P st.2 st.1.tunnelIface).2
           else st.2) := by
        unfold buildLocalConfigStep
        simp only [hx, if_true]
        congr 1
        by_cases ha : st.1.wgLocalAddress ≠ x.TunnelIP
        · by_cases hl : st.2.linkExists = true <;> simp [ha, hl]
        · simp [ha]
      rw [hstep]
      by_cases hin : x ∈ rest
      · refine (ih _ hin ?_ ?_).trans ?_
        · exact hk
        · exact fun y hy hyk => hu y (List.mem_cons_of_mem _ hy) hyk
        · simp
      · apply buildLocalConfig_fold_no_self
        intro y hy hyk
        exact hin ((hu y (List.mem_cons_of_mem _ hy) hyk) ▸ hy)
    · have hstep : buildLocalConfigStep P st x = st := by
        unfold buildLocalConfigStep
        simp only [hx, if_false]
      rw [hstep]
      have hne : d ≠ x := fun e => hx (e ▸ hk)
      have hin : d ∈ rest := by
        rcases List.mem_cons.1 hd with h1 | h1
        · exact absurd h1 hne
        · exact h1
      exact ih st hin hk (fun y hy hyk => hu y (List.mem_cons_of_mem _ hy) hyk)

theorem Nexrelay.relay_buildLocalConfig_fold_no_self (P : Platform) (devs : List Device)
    (st : Nexrelay × Host) (hno : ∀ x ∈ devs, x.PublicKey ≠ st.1.wireguardPubKey) :
    devs.foldl (Nexrelay.buildLocalConfigStep P) st = st := by
  induction devs generalizing st with
  | nil => rfl
  | cons x rest ih =>
    simp only [List.foldl_cons]
    have hstep : Nexrelay.buildLocalConfigStep P st x = st := by
      unfold Nexrelay.buildLocalConfigStep
      simp only [hno x (List.mem_cons_self _ _), if_false]
    rw [hstep]
    exact ih st (fun y hy => hno y (List.mem_cons_of_mem _ hy))

theorem Nexrelay.relay_buildLocalConfig_fold_self (P : Platform) (devs : List Device)
    (st : Nexrelay × Host) (d : Device) (hd : d ∈ devs)
    (hk : d.PublicKey = st.1.wireguardPubKey)
    (hu : ∀ x ∈ devs, x.PublicKey = st.1.wireguardPubKey → x = d) :
    devs.foldl (Nexrelay.buildLocalConfigStep P) st =
      ({ st.1 with wgLocalAddress := d.TunnelIP,
                   wgConfig := { st.1.wgConfig with
                     Interface := { PrivateKey := st.1.wireguardPvtKey,
                                    ListenPort := st.1.listenPort } } },
       if st.1.wgLocalAddress ≠ d.TunnelIP ∧ st.2.linkExists = true then
         (DelLink P st.2 st.1.tunnelIface).2
       else st.2) := by
  induction devs generalizing st with
  | nil => simp at hd
  | cons x rest ih =>
    simp only [List.foldl_cons]
    by_cases hx : x.PublicKey = st.1.wireguardPubKey
    · have hxd : x = d := hu x (List.mem_cons_self _ _) hx
      subst hxd
      have hstep : Nexrelay.buildLocalConfigStep P st x =
          ({ st.1 with wgLocalAddress := x.TunnelIP,
                       wgConfig := { st.1.wgConfig with
                         Interface := { PrivateKey := st.1.wireguardPvtKey,
                                        ListenPort := st.1.listenPort } } },
           if st.1.wgLocalAddress ≠ x.TunnelIP ∧ st.2.linkExists = true then
             (DelLink P st.2 st.1.tunnelIface).2
           else st.2) := by
        unfold Nexrelay.buildLocalConfigStep
        simp only [hx, if_true]
        congr 1
        by_cases ha : st.1.wgLocalAddress ≠ x.TunnelIP
        · by_cases hl : st.2.linkExists = true <;> simp [ha, hl]
        · simp [ha]
      rw [hstep]
      by_cases hin : x ∈ rest
      · refine (ih _ hin ?_ ?_).trans ?_
        · exact hk
        · exact fun y hy hyk => hu y (List.mem_cons_of_mem _ hy) hyk
        · simp
      · apply Nexrelay.relay_buildLocalConfig_fold_no_self
        intro y hy hyk
        exact hin ((hu y (List.mem_cons_of_mem _ hy) hyk) ▸ hy)
    · have hstep : Nexrelay.buildLocalConfigStep P st x = st := by
        unfold Nexrelay.buildLocalConfigStep
        simp only [hx, if_false]
      rw [hstep]
      have hne : d ≠ x := fun e => hx (e ▸ hk)
      have hin : d ∈ rest := by
        rcases List.mem_cons.1 hd with h1 | h1
        · exact absurd h1 hne
        · exact h1
      exact ih st hin hk (fun y hy hyk => hu y (List.mem_cons_of_mem _ hy) hyk)

/-! ## The relay check -/

theorem Nexrelay.orgRelayCheck_some (nexr : Nexrelay) (L : List Device) :
    (Nexrelay.orgRelayCheck nexr (some L)).2 = true ∧
    ((∃ p ∈ L, p.Relay = true ∧ p.PublicKey ≠ nexr.wireguardPubKey) →
      ∃ p ∈ L, p.Relay = true ∧ p.PublicKey ≠ nexr.wireguardPubKey ∧
        (Nexrelay.orgRelayCheck nexr (some L)).1 = p.ID) ∧
    ((∀ p ∈ L, ¬ (p.Relay = true ∧ p.PublicKey ≠ nexr.wireguardPubKey)) →
      (Nexrelay.orgRelayCheck nexr (some L)).1 = uuidNil) := by
  unfold Nexrelay.orgRelayCheck
  simp only
  cases hf : L.find? (fun p => p.Relay && decide (nexr.wireguardPubKey ≠ p.PublicKey)) with
  | none =>
    simp only [List.find?_eq_none, Bool.and_eq_true, decide_eq_true_eq, not_and] at hf
    refine ⟨rfl, ?_, fun _ => rfl⟩
    rintro ⟨p, hp, hr, hk⟩
    exact absurd (fun e => hk e.symm) (hf p hp hr)
  | some p =>
    have hmem := List.mem_of_find?_eq_some hf
    have hprop := List.find?_some hf
    simp only [Bool.and_eq_true, decide_eq_true_eq] at hprop
    refine ⟨rfl, fun _ => ⟨p, hmem, hprop.1, fun e => hprop.2 e.symm, rfl⟩, ?_⟩
    intro hno
    exact absurd ⟨hprop.1, fun e => hprop.2 e.symm⟩ (hno p hmem)

/-- A `Start` that fails in its first part has sent no `CreateDevice`. -/
theorem Nexrelay.startSession_error (env : StartEnv) (nexr : Nexrelay)
    (r : String × Nexrelay × List ApiCall) (h : Nexrelay.startSession env nexr = .error r) :
    ∀ body, ApiCall.CreateDevice body ∉ r.2.2 := by
  have key : r.2.2 = [] ∨ r.2.2 = [.GetCurrentUser] := by
    unfold Nexrelay.startSession at h
    simp only at h
    split at h
    · injection h with h; rw [← h]; exact Or.inl rfl
    · split at h
      · injection h with h; rw [← h]; exact Or.inl rfl
      · split at h
        · injection h with h; rw [← h]; exact Or.inl rfl
        · split at h
          · injection h with h; rw [← h]; exact Or.inl rfl
          · split at h
            · injection h with h; rw [← h]; exact Or.inr rfl
            · split at h
              · injection h with h; rw [← h]; exact Or.inr rfl
              · exact Except.noConfusion h
              · injection h with h; rw [← h]; exact Or.inr rfl
  intro body hb
  rcases key with k | k <;> rw [k] at hb <;> simp at hb

/-- The registration keeps the key pair the agent loaded. -/
theorem Nexrelay.startRegister_key (env : StartEnv) (nexr : Nexrelay) (userID : String)
    (local0 : String × Int) (calls : List ApiCall) :
    (Nexrelay.startRegister env nexr userID local0 calls).2.1.wireguardPubKey =
      nexr.wireguardPubKey := by
  unfold Nexrelay.startRegister
  simp only
  split
  · rfl
  · split
    · rfl
    · rfl
    · rfl
    · split <;> rfl

/-! ## The relay scan and the index `AllowedIPs[0]` -/

theorem relayScanStep_eq_none_iff (ax : Nexodus) (st : RelayScan) (d : Device) :
    relayScanStep ax st d = none ↔ d.Relay = true ∧ d.AllowedIPs = [] := by
  unfold relayScanStep
  cases hr : d.Relay <;> cases ha : d.AllowedIPs <;> simp

theorem relayScan_eq_none_iff (ax : Nexodus) :
    ∀ (ds : List Device) (st : RelayScan),
      relayScan ax ds st = none ↔ ∃ d ∈ ds, d.Relay = true ∧ d.AllowedIPs = [] := by
  intro ds
  induction ds with
  | nil => intro st; simp [relayScan]
  | cons d rest ih =>
    intro st
    unfold relayScan
    cases hs : relayScanStep ax st d with
    | none =>
      have := (relayScanStep_eq_none_iff ax st d).1 hs
      simp only [true_iff]
      exact ⟨d, List.mem_cons_self _ _, this⟩
    | some st1 =>
      have hn : ¬ (d.Relay = true ∧ d.AllowedIPs = []) := by
        intro hc
        have := (relayScanStep_eq_none_iff ax st d).2 hc
        rw [hs] at this
        cases this
      simp only [ih st1, List.mem_cons, exists_eq_or_imp]
      constructor
      · intro hx; exact Or.inr hx
      · intro hx
        rcases hx with hx | hx
        · exact absurd hx hn
        · exact hx

theorem buildPeersConfig_panicked_iff (P : Platform) (ax : Nexodus) (h : Host) :
    (buildPeersConfig P ax h).status = .panicked ↔
      ∃ d ∈ ax.deviceCache.map Prod.snd, d.Relay = true ∧ d.AllowedIPs = [] := by
  rw [← relayScan_eq_none_iff ax (ax.deviceCache.map Prod.snd)
    { pubKeyInConfig := ax.wireguardPubKeyInConfig }]
  unfold buildPeersConfig
  cases hs : relayScan ax (ax.deviceCache.map Prod.snd)
      { pubKeyInConfig := ax.wireguardPubKeyInConfig } with
  | none => simp only [hs]
  | some scan =>
    simp only [hs]
    split
    · simp
    · split <;> simp

theorem Nexrelay.relay_relayScanStep_eq_none_iff (nexr : Nexrelay) (st : RelayScan) (d : Device) :
    Nexrelay.relayScanStep nexr st d = none ↔ d.Relay = true ∧ d.AllowedIPs = [] := by
  unfold Nexrelay.relayScanStep
  cases hr : d.Relay <;> cases ha : d.AllowedIPs <;> simp

theorem Nexrelay.relay_relayScan_eq_none_iff (nexr : Nexrelay) :
    ∀ (ds : List Device) (st : RelayScan),
      Nexrelay.relayScan nexr ds st = none ↔ ∃ d ∈ ds, d.Relay = true ∧ d.AllowedIPs = [] := by
  intro ds
  induction ds with
  | nil => intro st; simp [Nexrelay.relayScan]
  | cons d rest ih =>
    intro st
    unfold Nexrelay.relayScan
    cases hs : Nexrelay.relayScanStep nexr st d with
    | none =>
      have := (Nexrelay.relay_relayScanStep_eq_none_iff nexr st d).1 hs
      simp only [true_iff]
      exact ⟨d, List.mem_cons_self _ _, this⟩
    | some st1 =>
      have hn : ¬ (d.Relay = true ∧ d.AllowedIPs = []) := by
        intro hc
        have := (Nexrelay.relay_relayScanStep_eq_none_iff nexr st d).2 hc
        rw [hs] at this
        cases this
      simp only [ih st1, List.mem_cons, exists_eq_or_imp]
      constructor
      · intro hx; exact Or.inr hx
      · intro hx
        rcases hx with hx | hx
        · exact absurd hx hn
        · exact hx

theorem Nexrelay.relay_buildPeersConfig_panicked_iff (P : Platform) (nexr : Nexrelay) (h : Host) :
    (Nexrelay.buildPeersConfig P nexr h).status = .panicked ↔
      ∃ d ∈ nexr.deviceCache.map Prod.snd, d.Relay = true ∧ d.AllowedIPs = [] := by
  rw [← Nexrelay.relay_relayScan_eq_none_iff nexr (nexr.deviceCache.map Prod.snd)
    { pubKeyInConfig := nexr.wireguardPubKeyInConfig }]
  unfold Nexrelay.buildPeersConfig
  cases hs : Nexrelay.relayScan nexr (nexr.deviceCache.map Prod.snd)
      { pubKeyInConfig := nexr.wireguardPubKeyInConfig } with
  | none => simp only [hs]
  | some scan =>
    simp only [hs]
    split <;> simp

/-- The relay address the scan leaves: the first allowed IP of the last relay
device, whichever device that is. -/
theorem relayScan_relayIP (ax : Nexodus) :
    ∀ (ds : List Device) (st st' : RelayScan), relayScan ax ds st = some st' →
      st'.relayIP = st.relayIP ∨ ∃ d ∈ ds, d.Relay = true ∧ d.AllowedIPs.head? = some st'.relayIP := by
  intro ds
  induction ds with
  | nil =>
    intro st st' h
    simp only [relayScan, Option.some.injEq] at h
    exact Or.inl (h ▸ rfl)
  | cons d rest ih =>
    intro st st' h
    unfold relayScan at h
    cases hs : relayScanStep ax st d with
    | none => rw [hs] at h; cases h
    | some st1 =>
      rw [hs] at h
      simp only at h
      rcases ih st1 st' h with h1 | ⟨x, hx, hr, hh⟩
      · unfold relayScanStep at hs
        cases hr : d.Relay
        · simp only [hr, Bool.false_eq_true, if_false, Option.some.injEq] at hs
          left
          rw [h1, ← hs]
          split <;> rfl
        · cases ha : d.AllowedIPs with
          | nil => simp [hr, ha] at hs
          | cons ip tl =>
            simp only [hr, ha, if_true, Option.some.injEq] at hs
            right
            refine ⟨d, List.mem_cons_self _ _, hr, ?_⟩
            rw [ha, h1, ← hs]
            rfl
      · exact Or.inr ⟨x, List.mem_cons_of_mem _ hx, hr, hh⟩

/-! ## The configuration `addPeer` and `deletePeer` issue -/

theorem ConfigureDevice_calls (P : Platform) (h : Host) (dev : String) (cfg : Config) :
    (ConfigureDevice P h dev cfg).2.calls = h.calls ++ [.ConfigureDevice dev cfg] := by
  unfold ConfigureDevice
  split <;> simp [Host.log]

/-- The peer entry `addPeer` builds. -/
theorem addPeer_calls (P : Platform) (h : Host) (w : WgPeerConfig) (iface : String)
    (relay : Bool) :
    ((P.wgctrlNew h = false ∨ P.ParseKey w.PublicKey = false ∨
        w.AllowedIPs.all P.ParseCIDR = false ∨ SplitHostPort w.Endpoint = none ∨
        ∃ host port, SplitHostPort w.Endpoint = some (host, port) ∧ P.Atoi port = none) ∧
      (addPeer P h w iface relay).1 = false ∧
      (addPeer P h w iface relay).2.calls = h.calls ++ [.addPeer w iface relay]) ∨
    (P.wgctrlNew h = true ∧ P.ParseKey w.PublicKey = true ∧
      w.AllowedIPs.all P.ParseCIDR = true ∧
      ∃ host port n, SplitHostPort w.Endpoint = some (host, port) ∧ P.Atoi port = some n ∧
        (addPeer P h w iface relay).2.calls = h.calls ++
          [.addPeer w iface relay,
           .ConfigureDevice iface
             { ReplacePeers := false,
               Peers := [{ PublicKey := w.PublicKey, Remove := false,
                           Endpoint := if relay then none else some ⟨P.ParseIP host, n⟩,
                           AllowedIPs := w.AllowedIPs,
                           PersistentKeepaliveInterval := some 0 }] }]) := by
  unfold addPeer
  cases h1 : P.wgctrlNew h
  · left; simp [Host.log]
  · cases h2 : P.ParseKey w.PublicKey
    · left; simp [Host.log]
    · cases h3 : w.AllowedIPs.all P.ParseCIDR
      · left
        refine ⟨Or.inr (Or.inr (Or.inl rfl)), ?_, ?_⟩ <;> simp [Host.log, h3]
      · cases h4 : SplitHostPort w.Endpoint with
        | none => left; simp [Host.log, h3]
        | some hp =>
          obtain ⟨host, port⟩ := hp
          cases h5 : P.Atoi port with
          | none =>
            left
            refine ⟨Or.inr (Or.inr (Or.inr (Or.inr ⟨host, port, rfl, h5⟩))), ?_, ?_⟩ <;>
              simp [Host.log, h3, h5]
          | some n =>
            right
            refine ⟨rfl, rfl, rfl, host, port, n, rfl, h5, ?_⟩
            simp only [Bool.not_true, Bool.false_eq_true, if_false, h3, h5]
            rw [ConfigureDevice_calls]
            cases relay <;> simp [Host.log]

/-- The peer entry `deletePeer` builds. -/
theorem deletePeer_calls (P : Platform) (h : Host) (publicKey dev : String) :
    ((P.wgctrlNew h = false ∨ P.ParseKey publicKey = false) ∧
      (deletePeer P h publicKey dev).1 = false ∧
      (deletePeer P h publicKey dev).2.calls = h.calls ++ [.deletePeer publicKey dev]) ∨
    (P.wgctrlNew h = true ∧ P.ParseKey publicKey = true ∧
      (deletePeer P h publicKey dev).2.calls = h.calls ++
        [.deletePeer publicKey dev,
         .ConfigureDevice dev
           { ReplacePeers := false, Peers := [{ PublicKey := publicKey, Remove := true }] }]) := by
  unfold deletePeer
  cases h1 : P.wgctrlNew h
  · left; simp [Host.log]
  · cases h2 : P.ParseKey publicKey
    · left; simp [Host.log]
    · right
      refine ⟨rfl, rfl, ?_⟩
      simp only [Bool.not_true, Bool.false_eq_true, if_false]
      rw [ConfigureDevice_calls]
      simp [Host.log]

/-! ## When a deployment sets up the interface -/

/-- What follows the `ip link add` of `setupInterface` issues commands only. -/
theorem setupInterface_after_add (P : Platform) (ax : Nexodus) (h : Host) :
    Emits (fun c => ∃ args, c = .RunCommand args)
      (RunCommand P (deleteExistingLink P ax h)
        ["ip", "link", "add", ax.tunnelIface, "type", "wireguard"]).2
      (setupInterface P ax h).2 := by
  unfold setupInterface
  simp only
  split
  · exact Emits.idle _ _
  · have h3 := (Emits.of_calls_eq (fun c => ∃ args, c = Call.RunCommand args)
      (rfl : ({ (RunCommand P (deleteExistingLink P ax h)
          ["ip", "link", "add", ax.tunnelIface, "type", "wireguard"]).2 with
          linkExists := true } : Host).calls = _)).seq (RunCommand_emits_any P
      { (RunCommand P (deleteExistingLink P ax h)
          ["ip", "link", "add", ax.tunnelIface, "type", "wireguard"]).2 with linkExists := true }
      ["wg", "set", ax.tunnelIface, "listen-port", toString ax.listenPort,
        "private-key", LinuxPrivateKeyFile])
    split
    · exact h3
    · have h5 := h3.seq (assignAddress_emits P ax _)
      split
      · exact h5
      · split
        · exact h5.seq (RunCommand_emits_any P _ _)
        · exact h5.seq (RunCommand_emits_any P _ _)

/-- Every run of `setupInterface` issues the `ip link add` of the tunnel link. -/
theorem setupInterface_issues_add (P : Platform) (ax : Nexodus) (h : Host) :
    Call.RunCommand ["ip", "link", "add", ax.tunnelIface, "type", "wireguard"] ∈
      callsSince h (setupInterface P ax h).2 := by
  obtain ⟨c1, e1, _⟩ := deleteExistingLink_emits P ax h
  obtain ⟨c2, e2, _⟩ := setupInterface_after_add P ax h
  have e : (setupInterface P ax h).2.calls = h.calls ++
      (c1 ++ Call.RunCommand ["ip", "link", "add", ax.tunnelIface, "type", "wireguard"] :: c2) := by
    rw [e2]
    simp only [RunCommand, Host.log, e1, List.append_assoc, List.singleton_append]
  rw [callsSince_append _ _ _ e]
  simp

/-- The error of `setupInterface` is `InterfaceErr`. -/
theorem setupInterface_err (P : Platform) (ax : Nexodus) (h : Host) (e : Err)
    (he : (setupInterface P ax h).1 = some e) : e = .InterfaceErr := by
  unfold setupInterface at he
  simp only at he
  split at he
  · simpa using he.symm
  · split at he
    · simpa using he.symm
    · split at he
      · simpa using he.symm
      · split at he
        · simp at he
        · simpa using he.symm

/-- A deployment on an interface that already carries the recorded address: no
setup, no error, and the calls are the installation segments alone. -/
theorem DeployWireguardConfig_no_setup (P : Platform) (ax : Nexodus) (h : Host)
    (np : List Device) (ft : Bool) (ha : ax.wgLocalAddress = GetIPv4IfaceString h) :
    (DeployWireguardConfig P ax h np ft).1 = none ∧
    ∃ segs : List (List Call),
      (DeployWireguardConfig P ax h np ft).2.calls = h.calls ++ segs.flatten ∧
      List.Forall₂ (InstallSegment ax.tunnelIface false)
        (if ft then ax.wgConfig.Peers
         else selectedPeers ax.wgConfig.Peers ax.wireguardPubKey np) segs := by
  have hinst : ∀ h p, ∃ seg, (installPeer P ax h p).calls = h.calls ++ seg ∧
      InstallSegment ax.tunnelIface false p seg :=
    fun h p => install_segment P h p ax.tunnelIface false
  have hn : ¬ (ax.wgLocalAddress ≠ GetIPv4IfaceString h) := fun hc => hc ha
  unfold DeployWireguardConfig
  simp only
  rw [if_neg hn]
  cases ft with
  | true =>
    obtain ⟨segs, e, f⟩ := installAll_segments ax.tunnelIface false (installPeer P ax) hinst
      ax.wgConfig.Peers h
    exact ⟨by simp, segs, by simpa using e, by simpa using f⟩
  | false =>
    obtain ⟨segs, e, f⟩ := installNew_segments ax.tunnelIface false (installPeer P ax) hinst
      ax.wgConfig.Peers ax.wireguardPubKey np h
    exact ⟨by simp, segs, by simpa using e, by simpa using f⟩

/-- A deployment on an interface that does not carry the recorded address runs
`setupInterface` first; when that fails the deployment ends there. -/
theorem DeployWireguardConfig_setup (P : Platform) (ax : Nexodus) (h : Host)
    (np : List Device) (ft : Bool) (ha : ax.wgLocalAddress ≠ GetIPv4IfaceString h) :
    Call.RunCommand ["ip", "link", "add", ax.tunnelIface, "type", "wireguard"] ∈
      callsSince h (DeployWireguardConfig P ax h np ft).2 ∧
    ((setupInterface P ax h).1 ≠ none →
      DeployWireguardConfig P ax h np ft = setupInterface P ax h) := by
  have hadd := setupInterface_issues_add P ax h
  have hem := setupInterface_emits P ax h
  constructor
  · rcases hd : (DeployWireguardConfig P ax h np ft).1 with _ | e
    · -- the deployment went on: its calls extend those of the setup
      have hany := DeployWireguardConfig_calls_any P ax h np ft
      obtain ⟨cs, ecs, _⟩ := hem
      rw [callsSince_append _ _ _ ecs] at hadd
      have hext : ∃ ds, (DeployWireguardConfig P ax h np ft).2.calls =
          (setupInterface P ax h).2.calls ++ ds := by
        have hinst : ∀ h p, ∃ seg, (installPeer P ax h p).calls = h.calls ++ seg ∧
            InstallSegment ax.tunnelIface false p seg :=
          fun h p => install_segment P h p ax.tunnelIface false
        unfold DeployWireguardConfig at hd ⊢
        simp only at hd ⊢
        rw [if_pos ha] at hd ⊢
        rcases hs : setupInterface P ax h with ⟨e', h1⟩
        rw [hs] at hd
        cases e' with
        | some e' => simp at hd
        | none =>
          cases ft with
          | true =>
            obtain ⟨segs, e, _⟩ := installAll_segments ax.tunnelIface false (installPeer P ax)
              hinst ax.wgConfig.Peers h1
            exact ⟨segs.flatten, by simpa using e⟩
          | false =>
            obtain ⟨segs, e, _⟩ := installNew_segments ax.tunnelIface false (installPeer P ax)
              hinst ax.wgConfig.Peers ax.wireguardPubKey np h1
            exact ⟨segs.flatten, by simpa using e⟩
      obtain ⟨ds, eds⟩ := hext
      rw [ecs, List.append_assoc] at eds
      rw [callsSince_append _ _ _ eds]
      exact List.mem_append_left _ hadd
    · have : DeployWireguardConfig P ax h np ft = setupInterface P ax h := by
        unfold DeployWireguardConfig at hd ⊢
        simp only at hd ⊢
        rw [if_pos ha] at hd ⊢
        rcases hs : setupInterface P ax h with ⟨e', h1⟩
        rw [hs] at hd
        cases e' with
        | some e' => rfl
        | none => cases ft <;> simp at hd
      rw [this]
      exact hadd
  · intro hne
    unfold DeployWireguardConfig
    simp only
    rw [if_pos ha]
    rcases hs : setupInterface P ax h with ⟨e', h1⟩
    rw [hs] at hne
    cases e' with
    | some e' => rfl
    | none => exact absurd rfl hne

/-- No call of an installation segment is a command. -/
theorem InstallSegment.not_command {iface : String} {relay : Bool} {p : WgPeerConfig}
    {seg : List Call} (hs : InstallSegment iface relay p seg) (args : List String) :
    Call.RunCommand args ∉ seg := by
  intro hc
  rcases hs.mem hc with h1 | ⟨_, _, h1⟩ | h1 | h1 | ⟨_, h1, _⟩ <;> cases h1

/-! ## A periodic cycle that returns an error -/

/-- A build-and-deploy step of a periodic cycle that ends the cycle with an
error: the deployment returned that error. -/
theorem buildAndDeploy_error (P : Platform) (ax : Nexodus) (h : Host) (np : List Device)
    (e : Err) (hn : (buildAndDeploy P ax h np false).1 = some (.returned (some e))) :
    (buildAndDeploy P ax h np false).2.1 = (buildPeersConfig P ax h).ax ∧
    (DeployWireguardConfig P (buildPeersConfig P ax h).ax (buildPeersConfig P ax h).host np
      false).1 = some e ∧
    (buildAndDeploy P ax h np false).2.2 =
      (DeployWireguardConfig P (buildPeersConfig P ax h).ax (buildPeersConfig P ax h).host np
        false).2 := by
  unfold buildAndDeploy at hn ⊢
  simp only at hn ⊢
  cases hs : (buildPeersConfig P ax h).status <;> simp only [hs] at hn ⊢
  · rcases hd : DeployWireguardConfig P (buildPeersConfig P ax h).ax
      (buildPeersConfig P ax h).host np false with ⟨e', h1⟩
    rw [hd] at hn
    cases e' with
    | some e' =>
      simp at hn
      subst hn
      exact ⟨rfl, rfl, rfl⟩
    | none => simp at hn
  · rcases hd : DeployWireguardConfig P (buildPeersConfig P ax h).ax
      (buildPeersConfig P ax h).host np false with ⟨e', h1⟩
    rw [hd] at hn
    cases e' with
    | some e' =>
      simp at hn
      subst hn
      exact ⟨rfl, rfl, rfl⟩
    | none => simp at hn
  · simp at hn
  · simp at hn

/-- A periodic cycle that returns an error: the listing changed the cache, the
deployment returned the error, and the cycle ended there, with the merged cache
and without a deletion pass. -/
theorem reconcileUpdate_error (P : Platform) (ax : Nexodus) (h : Host) (L : List Device)
    (e : Err) (hret : (reconcileUpdate P ax h L []).1 = .returned (some e)) :
    (L.foldl diffStep (ax.deviceCache, false, [])).2.1 = true ∧
    (reconcileUpdate P ax h L []).2.1.deviceCache =
      (L.foldl diffStep (ax.deviceCache, false, [])).1 ∧
    (DeployWireguardConfig P
      (buildPeersConfig P
        { ax with deviceCache := (L.foldl diffStep (ax.deviceCache, false, [])).1 } h).ax
      (buildPeersConfig P
        { ax with deviceCache := (L.foldl diffStep (ax.deviceCache, false, [])).1 } h).host
      (L.foldl diffStep (ax.deviceCache, false, [])).2.2 false).1 = some e ∧
    (reconcileUpdate P ax h L []).2.2 =
      (DeployWireguardConfig P
        (buildPeersConfig P
          { ax with deviceCache := (L.foldl diffStep (ax.deviceCache, false, [])).1 } h).ax
        (buildPeersConfig P
          { ax with deviceCache := (L.foldl diffStep (ax.deviceCache, false, [])).1 } h).host
        (L.foldl diffStep (ax.deviceCache, false, [])).2.2 false).2 ∧
    Emits (fun c => c.removes = false) h (reconcileUpdate P ax h L []).2.2 := by
  unfold reconcileUpdate at hret ⊢
  simp only at hret ⊢
  cases hc : (L.foldl diffStep (ax.deviceCache, false, [])).2.1
  · simp [hc] at hret
  · simp only [hc, if_true] at hret ⊢
    cases hr : (buildAndDeploy P
        { ax with deviceCache := (L.foldl diffStep (ax.deviceCache, false, [])).1 } h
        (L.foldl diffStep (ax.deviceCache, false, [])).2.2 false).1 with
    | none => simp [hr] at hret
    | some res =>
      simp only [hr] at hret ⊢
      subst hret
      obtain ⟨h1, h2, h3⟩ := buildAndDeploy_error P _ h _ e hr
      have hfr := buildAndDeploy_frame P
        { ax with deviceCache := (L.foldl diffStep (ax.deviceCache, false, [])).1 } h
        (L.foldl diffStep (ax.deviceCache, false, [])).2.2 false
      refine ⟨trivial, hfr.1.symm, h2, h3, ?_⟩
      exact buildAndDeploy_no_removal P _ h _ false

/-! ## A deletion pass that fails -/

/-- A failed `deletePeer` leaves the configured peers as they were. -/
theorem deletePeer_wgPeers_of_fail (P : Platform) (h : Host) (key dev : String)
    (hf : (deletePeer P h key dev).1 = false) :
    (deletePeer P h key dev).2.wgPeers = h.wgPeers := by
  unfold deletePeer at hf ⊢
  simp only at hf ⊢
  split
  · rfl
  · split
    · rfl
    · rename_i h1 h2
      simp only [h1, h2, if_false, Bool.false_eq_true] at hf
      unfold ConfigureDevice at hf ⊢
      simp only at hf ⊢
      split
      · rename_i h3
        simp [h3] at hf
      · rfl

/-- Where a failing deletion loop stops: at an entry that is still cached and
not listed, whose removal fails.  The loop returns the cache as it was at that
moment and the host as the failed `deletePeer` left it. -/
theorem HandlePeerDeleteLoop_fail (P : Platform) (L : List Device) (iface : String) :
    ∀ (entries : List (UUID × Device)) (cache : DeviceCache) (h : Host),
      (HandlePeerDeleteLoop P L iface entries cache h).1 = false →
      ∃ (k : UUID) (p : Device) (cacheF : DeviceCache) (hF : Host),
        (k, p) ∈ entries ∧ inPeerListing L p = false ∧
        (cacheGet cacheF k).isSome = true ∧
        (deletePeer P hF ((cacheGet cacheF p.ID).getD {}).PublicKey iface).1 = false ∧
        HandlePeerDeleteLoop P L iface entries cache h =
          (false, cacheF,
            (deletePeer P hF ((cacheGet cacheF p.ID).getD {}).PublicKey iface).2) ∧
        Emits (fun c => c.installs = false) h hF ∧ List.Sublist cacheF cache := by
  intro entries
  induction entries with
  | nil => intro cache h hf; simp [HandlePeerDeleteLoop] at hf
  | cons e rest ih =>
    intro cache h hf
    obtain ⟨k, p⟩ := e
    unfold HandlePeerDeleteLoop at hf ⊢
    by_cases h1 : (cacheGet cache k).isNone = true
    · rw [if_pos h1] at hf ⊢
      obtain ⟨k', p', cF, hF, hm, rest'⟩ := ih cache h hf
      exact ⟨k', p', cF, hF, List.mem_cons_of_mem _ hm, rest'⟩
    · rw [if_neg h1] at hf ⊢
      by_cases h2 : inPeerListing L p = true
      · rw [if_pos h2] at hf ⊢
        obtain ⟨k', p', cF, hF, hm, rest'⟩ := ih cache h hf
        exact ⟨k', p', cF, hF, List.mem_cons_of_mem _ hm, rest'⟩
      · rw [if_neg h2] at hf ⊢
        simp only at hf ⊢
        by_cases h3 : (deletePeer P h ((cacheGet cache p.ID).getD {}).PublicKey iface).1 = true
        · simp only [h3, Bool.not_true, Bool.false_eq_true, if_false] at hf ⊢
          obtain ⟨k', p', cF, hF, hm, hl, hs, hd, he, hem, hsub⟩ := ih _ _ hf
          refine ⟨k', p', cF, hF, List.mem_cons_of_mem _ hm, hl, hs, hd, he, ?_, ?_⟩
          · exact (deletePeer_no_install P h _ iface).seq
              ((HandlePeerRouteDelete_no_install P _ iface p.AllowedIPs).seq hem)
          · refine hsub.trans ?_
            unfold cacheDelete
            exact (List.filter_sublist _).trans (List.filter_sublist _)
        · have h3' : (deletePeer P h ((cacheGet cache p.ID).getD {}).PublicKey iface).1 = false := by
            simpa using h3
          simp only [h3', Bool.not_false, if_true]
          refine ⟨k, p, cache, h, List.mem_cons_self _ _, by simpa using h2, ?_, h3', rfl,
            Emits.idle _ _, List.Sublist.refl _⟩
          cases hc : cacheGet cache k with
          | none => simp [hc] at h1
          | some v => rfl

/-- A failing `HandlePeerDelete` over a well-formed cache: the device whose
removal failed is cached and not listed, it is still in the returned cache with
its record unchanged, and the returned host is the host as the failed
`deletePeer` left it. -/
theorem HandlePeerDelete_fail (P : Platform) (L : List Device) (cache : DeviceCache)
    (iface : String) (h : Host) (hwf : CacheWF cache)
    (hf : (HandlePeerDelete P L cache iface h).1 = false) :
    ∃ (p : Device) (hF : Host),
      (p.ID, p) ∈ cache ∧ inPeerListing L p = false ∧
      cacheGet (HandlePeerDelete P L cache iface h).2.1 p.ID = some p ∧
      (deletePeer P hF p.PublicKey iface).1 = false ∧
      (HandlePeerDelete P L cache iface h).2.2 = (deletePeer P hF p.PublicKey iface).2 ∧
      Emits (fun c => c.installs = false) h hF := by
  unfold HandlePeerDelete at hf ⊢
  obtain ⟨k, p, cF, hF, hm, hl, hs, hd, he, hem, hsub⟩ :=
    HandlePeerDeleteLoop_fail P L iface cache cache h hf
  have hk : k = p.ID := hwf.2 (k, p) hm
  subst hk
  have hwfF : CacheWF cF := CacheWF_of_sublist hsub hwf
  have hget : cacheGet cF p.ID = some p := by
    cases hc : cacheGet cF p.ID with
    | none => simp [hc] at hs
    | some v =>
      have hmv : (p.ID, v) ∈ cache := hsub.subset (mem_of_cacheGet hc)
      have h1 := cacheGet_of_mem hwf.1 hmv
      have h2 := cacheGet_of_mem hwf.1 hm
      rw [h1] at h2
      exact h2
  rw [hget] at hd he
  simp only [Option.getD_some] at hd he
  refine ⟨p, hF, hm, hl, ?_, hd, ?_, hem⟩
  · rw [he]; exact hget
  · rw [he]

/-- The result of a periodic cycle is nil, or it is what the build-and-deploy
step ended the cycle with: an error of the deletion pass is never returned. -/
theorem reconcileUpdate_result (P : Platform) (ax : Nexodus) (h : Host) (L np : List Device) :
    (reconcileUpdate P ax h L np).1 = .returned none ∨
    ((L.foldl diffStep (ax.deviceCache, false, np)).2.1 = true ∧
      (buildAndDeploy P
        { ax with deviceCache := (L.foldl diffStep (ax.deviceCache, false, np)).1 } h
        (L.foldl diffStep (ax.deviceCache, false, np)).2.2 false).1 =
        some (reconcileUpdate P ax h L np).1) := by
  unfold reconcileUpdate
  simp only
  cases hc : (L.foldl diffStep (ax.deviceCache, false, np)).2.1
  · left; simp
  · simp only [if_true]
    cases hr : (buildAndDeploy P
        { ax with deviceCache := (L.foldl diffStep (ax.deviceCache, false, np)).1 } h
        (L.foldl diffStep (ax.deviceCache, false, np)).2.2 false).1 with
    | none => left; rfl
    | some res => right; exact ⟨trivial, rfl⟩

/-- A periodic cycle over a listing that changes nothing in the cache is the
deletion pass alone, and it returns nil whatever that pass returns. -/
theorem reconcileUpdate_unchanged (P : Platform) (ax : Nexodus) (h : Host) (L : List Device)
    (hc : (L.foldl diffStep (ax.deviceCache, false, [])).2.1 = false) :
    reconcileUpdate P ax h L [] =
      (.returned none,
       { ax with deviceCache := (HandlePeerDelete P L
           (L.foldl diffStep (ax.deviceCache, false, [])).1 ax.tunnelIface h).2.1 },
       (HandlePeerDelete P L (L.foldl diffStep (ax.deviceCache, false, [])).1
           ax.tunnelIface h).2.2) := by
  unfold reconcileUpdate
  simp only [hc, Bool.false_eq_true, if_false]

/-! ## How often the diff appends a device to `newPeers` -/

/-- One iteration of the diff loop on a device whose ID is not cached: the
device is appended twice, unless it is the zero-valued record, which is appended
once. -/
theorem diffStep_newPeers_absent (st : DeviceCache × Bool × List Device) (p : Device)
    (hc : cacheGet st.1 p.ID = none) :
    (diffStep st p).2.2 = st.2.2 ++ (if p = {} then [p] else [p, p]) := by
  unfold diffStep
  simp only [hc, Option.getD_none, Option.isSome_none, Bool.not_false, if_true]
  by_cases hz : p = {}
  · have : ¬ (({} : Device) ≠ p) := fun hh => hh hz.symm
    rw [if_neg this, if_pos hz]
  · have : ({} : Device) ≠ p := fun hh => hz hh.symm
    rw [if_pos this, if_neg hz]
    simp

/-- One iteration of the diff loop on a device whose ID is cached: the device
is appended once when the cached record differs, and not at all otherwise. -/
theorem diffStep_newPeers_present (st : DeviceCache × Bool × List Device) (p e : Device)
    (hc : cacheGet st.1 p.ID = some e) :
    (diffStep st p).2.2 = st.2.2 ++ (if e = p then [] else [p]) := by
  unfold diffStep
  simp only [hc, Option.getD_some, Option.isSome_some, Bool.not_true, Bool.false_eq_true,
    if_false]
  by_cases hz : e = p
  · have : ¬ (e ≠ p) := fun hh => hh hz
    rw [if_neg this, if_pos hz]
    simp
  · rw [if_pos hz, if_neg hz]

/-- The diff loop only appends listed devices. -/
theorem foldl_diffStep_appends (L : List Device) (st : DeviceCache × Bool × List Device) :
    ∃ app, (L.foldl diffStep st).2.2 = st.2.2 ++ app ∧ ∀ x ∈ app, x ∈ L := by
  induction L generalizing st with
  | nil => exact ⟨[], by simp, by simp⟩
  | cons q rest ih =>
    simp only [List.foldl_cons]
    obtain ⟨app, e, hm⟩ := ih (diffStep st q)
    have hq : ∃ a1, (diffStep st q).2.2 = st.2.2 ++ a1 ∧ ∀ x ∈ a1, x = q := by
      cases hc : cacheGet st.1 q.ID with
      | none =>
        refine ⟨_, diffStep_newPeers_absent st q hc, ?_⟩
        intro x hx
        split at hx <;> simp at hx <;> exact hx
      | some e0 =>
        refine ⟨_, diffStep_newPeers_present st q e0 hc, ?_⟩
        intro x hx
        split at hx <;> simp at hx
        exact hx
    obtain ⟨a1, e1, h1⟩ := hq
    refine ⟨a1 ++ app, ?_, ?_⟩
    · rw [e, e1, List.append_assoc]
    · intro x hx
      rcases List.mem_append.1 hx with hx | hx
      · rw [h1 x hx]; exact List.mem_cons_self _ _
      · exact List.mem_cons_of_mem _ (hm x hx)

/-- Over a listing with distinct IDs, the number of copies of a listed device
in `newPeers` grows by what its own iteration appends. -/
theorem count_foldl_diffStep (L : List Device) (hnd : (L.map (fun d => d.ID)).Nodup)
    (p : Device) (hp : p ∈ L) (st : DeviceCache × Bool × List Device) :
    (L.foldl diffStep st).2.2.count p = st.2.2.count p +
      (match cacheGet st.1 p.ID with
       | none => if p = {} then 1 else 2
       | some e => if e = p then 0 else 1) := by
  induction L generalizing st with
  | nil => cases hp
  | cons q rest ih =>
    simp only [List.map_cons, List.nodup_cons] at hnd
    simp only [List.foldl_cons]
    by_cases hqp : q = p
    · subst hqp
      -- the rest appends other devices only
      obtain ⟨app, e, hm⟩ := foldl_diffStep_appends rest (diffStep st q)
      have hnot : q ∉ app := by
        intro hq
        exact hnd.1 (List.mem_map.2 ⟨q, hm q hq, rfl⟩)
      rw [e, List.count_append, List.count_eq_zero_of_not_mem hnot, Nat.add_zero]
      cases hc : cacheGet st.1 q.ID with
      | none =>
        rw [diffStep_newPeers_absent st q hc, List.count_append]
        by_cases hz : q = {}
        · simp [hz]
        · simp [hz]
      | some e0 =>
        rw [diffStep_newPeers_present st q e0 hc, List.count_append]
        by_cases hz : e0 = q
        · simp [hz]
        · simp [hz]
    · have hp' : p ∈ rest := by
        rcases List.mem_cons.1 hp with h1 | h1
        · exact absurd h1.symm hqp
        · exact h1
      have hid : q.ID ≠ p.ID := by
        intro hh
        exact hnd.1 (List.mem_map.2 ⟨p, hp', hh.symm⟩)
      rw [ih hnd.2 hp' (diffStep st q), cacheGet_diffStep, if_neg hid]
      congr 1
      cases hc : cacheGet st.1 q.ID with
      | none =>
        rw [diffStep_newPeers_absent st q hc, List.count_append]
        have : p ∉ (if q = {} then [q] else [q, q]) := by
          split <;> simp <;> exact fun hh => hqp hh.symm
        rw [List.count_eq_zero_of_not_mem this, Nat.add_zero]
      | some e0 =>
        rw [diffStep_newPeers_present st q e0 hc, List.count_append]
        have : p ∉ (if e0 = q then [] else [q]) := by
          split <;> simp
          exact fun hh => hqp hh.symm
        rw [List.count_eq_zero_of_not_mem this, Nat.add_zero]

/-- The peers an incremental deployment selects, one new peer at a time. -/
theorem selectedPeers_eq_flatMap (peers : List WgPeerConfig) (ownKey : String)
    (np : List Device) :
    selectedPeers peers ownKey np = np.flatMap (fun n => selectedPeers peers ownKey [n]) := by
  unfold selectedPeers
  simp

/-! ## Printing numbers and joining host and port -/

/-- The value of a decimal digit string. -/
theorem digitChar_val (d : Nat) (hd : d < 10) :
    (Nat.digitChar d).toNat - 48 = d ∧ (Nat.digitChar d).isDigit = true := by
  interval_cases d <;> decide

/-- The digits `Nat.toDigitsCore` puts in front of its accumulator: they read
back as the number, and all of them are decimal digits. -/
theorem toDigitsCore_spec :
    ∀ (fuel n : Nat) (ds : List Char), n < fuel →
      ∃ pre : List Char, Nat.toDigitsCore 10 fuel n ds = pre ++ ds ∧
        pre.foldl (fun acc c => 10 * acc + (c.toNat - 48)) 0 = n ∧
        (∀ c ∈ pre, c.isDigit = true) ∧ pre ≠ [] := by
  intro fuel
  induction fuel with
  | zero => intro n ds h; exact absurd h (Nat.not_lt_zero _)
  | succ fuel ih =>
    intro n ds hn
    have hd := digitChar_val (n % 10) (Nat.mod_lt _ (by decide))
    unfold Nat.toDigitsCore
    simp only
    by_cases h0 : n / 10 = 0
    · rw [if_pos h0]
      refine ⟨[Nat.digitChar (n % 10)], rfl, ?_, ?_, by simp⟩
      · simp only [List.foldl_cons, List.foldl_nil, Nat.mul_zero, Nat.zero_add]
        rw [hd.1]
        have : n < 10 := by
          by_contra hc
          have : 1 ≤ n / 10 := (Nat.le_div_iff_mul_le (by decide)).2 (by omega)
          omega
        exact Nat.mod_eq_of_lt this
      · intro c hc
        simp only [List.mem_singleton] at hc
        rw [hc]; exact hd.2
    · rw [if_neg h0]
      have hlt : n / 10 < fuel := by
        have : n / 10 < n := Nat.div_lt_self (by
          by_contra hc
          have : n = 0 := by omega
          rw [this] at h0
          exact h0 rfl) (by decide)
        omega
      obtain ⟨pre, e, hv, hdig, _⟩ := ih (n / 10) (Nat.digitChar (n % 10) :: ds) hlt
      refine ⟨pre ++ [Nat.digitChar (n % 10)], ?_, ?_, ?_, by simp⟩
      · rw [e]; simp
      · rw [List.foldl_append, hv]
        simp only [List.foldl_cons, List.foldl_nil]
        rw [hd.1]
        omega
      · intro c hc
        rcases List.mem_append.1 hc with hc | hc
        · exact hdig c hc
        · simp only [List.mem_singleton] at hc
          rw [hc]; exact hd.2

theorem toDigits_spec (n : Nat) :
    (Nat.toDigits 10 n).foldl (fun acc c => 10 * acc + (c.toNat - 48)) 0 = n ∧
    (∀ c ∈ Nat.toDigits 10 n, c.isDigit = true) ∧ Nat.toDigits 10 n ≠ [] := by
  obtain ⟨pre, e, hv, hd, hne⟩ := toDigitsCore_spec (n + 1) n [] (Nat.lt_succ_self n)
  unfold Nat.toDigits
  rw [e, List.append_nil]
  exact ⟨hv, hd, hne⟩

theorem natToString_data (n : Nat) : (toString n).data = Nat.toDigits 10 n := rfl

theorem natToString_inj {a b : Nat} (h : toString a = toString b) : a = b := by
  have hd : (toString a).data = (toString b).data := by rw [h]
  rw [natToString_data, natToString_data] at hd
  have h1 := (toDigits_spec a).1
  rw [hd, (toDigits_spec b).1] at h1
  exact h1.symm

theorem intToString_ofNat (m : Nat) : toString (Int.ofNat m) = toString m := rfl

theorem intToString_negSucc (m : Nat) :
    toString (Int.negSucc m) = "-" ++ toString (m + 1) := rfl

/-- The characters of a printed integer: digits, after a minus sign for a
negative number. -/
theorem intToString_chars (i : Int) :
    ∀ c ∈ (toString i).data, c.isDigit = true ∨ c = '-' := by
  intro c hc
  cases i with
  | ofNat m =>
    rw [intToString_ofNat, natToString_data] at hc
    exact Or.inl ((toDigits_spec m).2.1 c hc)
  | negSucc m =>
    rw [intToString_negSucc, String.data_append, natToString_data] at hc
    rcases List.mem_append.1 hc with hc | hc
    · right
      have : "-".data = ['-'] := rfl
      rw [this] at hc
      simpa using hc
    · exact Or.inl ((toDigits_spec (m + 1)).2.1 c hc)

theorem intToString_no_colon (i : Int) : ':' ∉ (toString i).data := by
  intro hc
  rcases intToString_chars i ':' hc with h | h
  · exact absurd h (by decide)
  · exact absurd h (by decide)

theorem intToString_inj {a b : Int} (h : toString a = toString b) : a = b := by
  have hd : (toString a).data = (toString b).data := by rw [h]
  cases a with
  | ofNat m =>
    cases b with
    | ofNat k =>
      rw [intToString_ofNat, intToString_ofNat] at h
      rw [natToString_inj h]
    | negSucc k =>
      rw [intToString_ofNat, intToString_negSucc, String.data_append, natToString_data] at hd
      have hm := toDigits_spec m
      cases hx : Nat.toDigits 10 m with
      | nil => exact absurd hx hm.2.2
      | cons c cs =>
        rw [hx] at hd
        have h1 : "-".data = ['-'] := rfl
        rw [h1] at hd
        simp only [List.singleton_append, List.cons.injEq] at hd
        have := hm.2.1 c (by rw [hx]; exact List.mem_cons_self _ _)
        rw [hd.1] at this
        exact absurd this (by decide)
  | negSucc m =>
    cases b with
    | ofNat k =>
      rw [intToString_ofNat, intToString_negSucc, String.data_append, natToString_data,
        natToString_data] at hd
      have hk := toDigits_spec k
      cases hx : Nat.toDigits 10 k with
      | nil => exact absurd hx hk.2.2
      | cons c cs =>
        rw [hx] at hd
        have h1 : "-".data = ['-'] := rfl
        rw [h1] at hd
        simp only [List.singleton_append, List.cons.injEq] at hd
        have := hk.2.1 c (by rw [hx]; exact List.mem_cons_self _ _)
        rw [← hd.1] at this
        exact absurd this (by decide)
    | negSucc k =>
      rw [intToString_negSucc, intToString_negSucc, String.data_append, String.data_append] at hd
      have h1 := List.append_cancel_left hd
      have h2 : toString (m + 1) = toString (k + 1) := String.ext h1
      have := natToString_inj h2
      have hmk : m = k := by omega
      rw [hmk]

/-- Splitting at a separator that the parts after it do not contain. -/
theorem append_cons_inj_right {c : Char} :
    ∀ (a a' b b' : List Char), c ∉ b → c ∉ b' → a ++ c :: b = a' ++ c :: b' →
      a = a' ∧ b = b' := by
  intro a a' b b' hb hb' h
  have hr : (c :: b).reverse ++ a.reverse = (c :: b').reverse ++ a'.reverse := by
    rw [← List.reverse_append, ← List.reverse_append, h]
  simp only [List.reverse_cons, List.append_assoc, List.singleton_append] at hr
  -- compare the two lists from the left: the first separator ends `b.reverse`
  have key : ∀ (x x' y y' : List Char), c ∉ x → c ∉ x' → x ++ c :: y = x' ++ c :: y' →
      x = x' ∧ y = y' := by
    intro x
    induction x with
    | nil =>
      intro x' y y' _ hx' hh
      cases x' with
      | nil => simpa using hh
      | cons d ds =>
        simp only [List.nil_append, List.cons_append, List.cons.injEq] at hh
        exact absurd (hh.1 ▸ List.mem_cons_self _ _) hx'
    | cons d ds ih =>
      intro x' y y' hx hx' hh
      cases x' with
      | nil =>
        simp only [List.nil_append, List.cons_append, List.cons.injEq] at hh
        exact absurd (hh.1 ▸ List.mem_cons_self _ _) hx
      | cons d' ds' =>
        simp only [List.cons_append, List.cons.injEq] at hh
        obtain ⟨e1, e2⟩ := ih ds' y y' (fun hm => hx (List.mem_cons_of_mem _ hm))
          (fun hm => hx' (List.mem_cons_of_mem _ hm)) hh.2
        exact ⟨by rw [hh.1, e1], e2⟩
  obtain ⟨e1, e2⟩ := key b.reverse b'.reverse a.reverse a'.reverse
    (by simpa using hb) (by simpa using hb') hr
  exact ⟨List.reverse_injective e2, List.reverse_injective e1⟩

theorem indexByte_isSome (s : List Char) (c : Char) : (indexByte s c).isSome = true ↔ c ∈ s := by
  induction s with
  | nil => simp [indexByte]
  | cons x xs ih =>
    unfold indexByte
    by_cases hx : x = c
    · simp [hx]
    · rw [if_neg hx]
      simp only [Option.isSome_map', ih, List.mem_cons]
      constructor
      · intro h; exact Or.inr h
      · rintro (h | h)
        · exact absurd h.symm hx
        · exact h

theorem JoinHostPort_data (host port : String) :
    (JoinHostPort host port).data =
      (if ':' ∈ host.data then '[' :: host.data ++ [']'] else host.data) ++ ':' :: port.data := by
  unfold JoinHostPort
  by_cases hc : ':' ∈ host.data
  · rw [if_pos ((indexByte_isSome _ _).2 hc), if_pos hc]
    simp only [String.data_append]
    simp
  · rw [if_neg (fun h => hc ((indexByte_isSome _ _).1 h)), if_neg hc]
    simp only [String.data_append]
    simp

/-- Go `net.JoinHostPort` is injective on ports without a colon. -/
theorem JoinHostPort_inj {h1 h2 p1 p2 : String} (hp1 : ':' ∉ p1.data) (hp2 : ':' ∉ p2.data)
    (he : JoinHostPort h1 p1 = JoinHostPort h2 p2) : h1 = h2 ∧ p1 = p2 := by
  have hd : (JoinHostPort h1 p1).data = (JoinHostPort h2 p2).data := by rw [he]
  rw [JoinHostPort_data, JoinHostPort_data] at hd
  obtain ⟨e1, e2⟩ := append_cons_inj_right _ _ _ _ hp1 hp2 hd
  refine ⟨?_, String.ext e2⟩
  by_cases c1 : ':' ∈ h1.data <;> by_cases c2 : ':' ∈ h2.data
  · rw [if_pos c1, if_pos c2] at e1
    simp only [List.cons_append, List.cons.injEq, true_and] at e1
    exact String.ext (List.append_cancel_right e1)
  · rw [if_pos c1, if_neg c2] at e1
    exfalso
    apply c2
    rw [← e1]
    simp [c1]
  · rw [if_neg c1, if_pos c2] at e1
    exfalso
    apply c1
    rw [e1]
    simp [c2]
  · rw [if_neg c1, if_neg c2] at e1
    exact String.ext e1

/-- Two UDP addresses with an IP print the same only when they are equal. -/
theorem UDPAddr_String_inj {a b : UDPAddr} (ha : a.IP ≠ "") (hb : b.IP ≠ "")
    (he : a.String = b.String) : a = b := by
  unfold UDPAddr.String at he
  obtain ⟨e1, e2⟩ := JoinHostPort_inj (intToString_no_colon _) (intToString_no_colon _) he
  have hp := intToString_inj e2
  have hip : a.IP = b.IP := by
    unfold ipEmptyString at e1
    by_cases c1 : a.IP = "<nil>" <;> by_cases c2 : b.IP = "<nil>"
    · rw [c1, c2]
    · rw [if_pos c1, if_neg c2] at e1
      exact absurd e1.symm hb
    · rw [if_neg c1, if_pos c2] at e1
      exact absurd e1 ha
    · rw [if_neg c1, if_neg c2] at e1
      exact e1
  cases a; cases b
  simp only at hip hp
  rw [hip, hp]

/-! ## `Start`: the session, the endpoint and the registration -/

/-- A `Start` that fails in its first part has sent at most `GetCurrentUser`. -/
theorem startSession_fails (env : StartEnv) (ax : Nexodus)
    (r : String × Nexodus × List ApiCall) (h : startSession env ax = .error r) :
    r.2.2 = [] ∨ r.2.2 = [.GetCurrentUser] := by
  unfold startSession at h
  simp only at h
  split at h
  · injection h with h; rw [← h]; exact Or.inl rfl
  · split at h
    · injection h with h; rw [← h]; exact Or.inl rfl
    · split at h
      · injection h with h; rw [← h]; exact Or.inl rfl
      · split at h
        · injection h with h; rw [← h]; exact Or.inl rfl
        · split at h
          · injection h with h; rw [← h]; exact Or.inr rfl
          · split at h
            · injection h with h; rw [← h]; exact Or.inr rfl
            · exact Except.noConfusion h
            · injection h with h; rw [← h]; exact Or.inr rfl

/-- The first part of `Start` leaves the options of the agent as they are. -/
theorem startSession_ok (env : StartEnv) (ax ax1 : Nexodus) (uid : String)
    (h : startSession env ax = .ok (ax1, uid)) :
    ax1.userProvidedLocalIP = ax.userProvidedLocalIP ∧ ax1.listenPort = ax.listenPort ∧
    ax1.stun = ax.stun ∧ ax1.symmetricNat = ax.symmetricNat ∧
    ax1.childPrefix = ax.childPrefix ∧ ax1.nodeReflexiveAddress = ax.nodeReflexiveAddress ∧
    ax1.hostname = ax.hostname ∧ ax1.requestedIP = ax.requestedIP := by
  unfold startSession at h
  simp only at h
  split at h
  · exact Except.noConfusion h
  · split at h
    · exact Except.noConfusion h
    · split at h
      · exact Except.noConfusion h
      · split at h
        · exact Except.noConfusion h
        · split at h
          · exact Except.noConfusion h
          · split at h
            · exact Except.noConfusion h
            · injection h with h
              injection h with h1 h2
              subst h1
              exact ⟨rfl, rfl, rfl, rfl, rfl, rfl, rfl, rfl⟩
            · exact Except.noConfusion h

/-- The endpoint `Start` advertises, case by case. -/
theorem startEndpoint_cases (env : StartEnv) (ax : Nexodus)
    (hstun : ∀ sip sport, env.stunRequest = some (sip, sport) → sip ≠ "") :
    (ax.userProvidedLocalIP ≠ "" →
      startEndpoint env ax = some (ax.userProvidedLocalIP, ax.listenPort)) ∧
    (ax.userProvidedLocalIP = "" → ax.stun = true → ax.symmetricNat = false →
      ∀ sip sport, env.stunRequest = some (sip, sport) →
        startEndpoint env ax = some (sip, sport)) ∧
    (ax.userProvidedLocalIP = "" →
      (ax.stun = false ∨ ax.symmetricNat = true ∨ env.stunRequest = none) →
      startEndpoint env ax = env.findLocalIP.map (fun ip => (ip, ax.listenPort))) := by
  refine ⟨?_, ?_, ?_⟩
  · intro hu
    unfold startEndpoint
    simp [hu]
  · intro hu hs hn sip sport hr
    have := hstun sip sport hr
    unfold startEndpoint
    simp [hu, hs, hn, hr, this]
  · intro hu hor
    unfold startEndpoint
    rcases hor with h1 | h1 | h1
    · simp [hu, h1]
    · simp [hu, h1]
    · simp [hu, h1]

/-- The requests `startRegister` sends and how it ends, once the endpoint is
chosen: by the answer to `CreateDevice` and, after a conflict, to
`UpdateDevice`. -/
theorem startRegister_of_endpoint (env : StartEnv) (ax : Nexodus) (uid : String)
    (calls : List ApiCall) (ip : String) (port : Int)
    (he : startEndpoint env ax = some (ip, port)) :
    (∀ dev, env.createDevice (startAddDevice
        { ax with LocalIP := ip, endpointLocalAddress := ip } uid
        (JoinHostPort ip (toString port))) = .ok dev →
      startRegister env ax uid calls =
        (.registered dev, { ax with LocalIP := ip, endpointLocalAddress := ip },
          calls ++ [.CreateDevice (startAddDevice
            { ax with LocalIP := ip, endpointLocalAddress := ip } uid
            (JoinHostPort ip (toString port)))])) ∧
    (env.createDevice (startAddDevice
        { ax with LocalIP := ip, endpointLocalAddress := ip } uid
        (JoinHostPort ip (toString port))) = .failed →
      startRegister env ax uid calls =
        (.failed "error creating device", { ax with LocalIP := ip, endpointLocalAddress := ip },
          calls ++ [.CreateDevice (startAddDevice
            { ax with LocalIP := ip, endpointLocalAddress := ip } uid
            (JoinHostPort ip (toString port)))])) ∧
    (env.createDevice (startAddDevice
        { ax with LocalIP := ip, endpointLocalAddress := ip } uid
        (JoinHostPort ip (toString port))) = .conflict none →
      startRegister env ax uid calls =
        (.failed "error parsing conflicting device id",
          { ax with LocalIP := ip, endpointLocalAddress := ip },
          calls ++ [.CreateDevice (startAddDevice
            { ax with LocalIP := ip, endpointLocalAddress := ip } uid
            (JoinHostPort ip (toString port)))])) ∧
    (∀ id dev, env.createDevice (startAddDevice
        { ax with LocalIP := ip, endpointLocalAddress := ip } uid
        (JoinHostPort ip (toString port))) = .conflict (some id) →
      env.updateDevice id (startUpdateDevice
        { ax with LocalIP := ip, endpointLocalAddress := ip }
        (JoinHostPort ip (toString port))) = some dev →
      startRegister env ax uid calls =
        (.registered dev, { ax with LocalIP := ip, endpointLocalAddress := ip },
          calls ++ [.CreateDevice (startAddDevice
            { ax with LocalIP := ip, endpointLocalAddress := ip } uid
            (JoinHostPort ip (toString port))),
            .UpdateDevice id (startUpdateDevice
              { ax with LocalIP := ip, endpointLocalAddress := ip }
              (JoinHostPort ip (toString port)))])) ∧
    (∀ id, env.createDevice (startAddDevice
        { ax with LocalIP := ip, endpointLocalAddress := ip } uid
        (JoinHostPort ip (toString port))) = .conflict (some id) →
      env.updateDevice id (startUpdateDevice
        { ax with LocalIP := ip, endpointLocalAddress := ip }
        (JoinHostPort ip (toString port))) = none →
      startRegister env ax uid calls =
        (.failed "error updating device", { ax with LocalIP := ip, endpointLocalAddress := ip },
          calls ++ [.CreateDevice (startAddDevice
            { ax with LocalIP := ip, endpointLocalAddress := ip } uid
            (JoinHostPort ip (toString port))),
            .UpdateDevice id (startUpdateDevice
              { ax with LocalIP := ip, endpointLocalAddress := ip }
              (JoinHostPort ip (toString port)))])) := by
  refine ⟨?_, ?_, ?_, ?_, ?_⟩
  · intro dev hc
    unfold startRegister
    simp only [he, hc]
  · intro hc
    unfold startRegister
    simp only [he, hc]
  · intro hc
    unfold startRegister
    simp only [he, hc]
  · intro id dev hc hu
    unfold startRegister
    simp only [he, hc, hu]
  · intro id hc hu
    unfold startRegister
    simp only [he, hc, hu]

theorem startRegister_no_endpoint (env : StartEnv) (ax : Nexodus) (uid : String)
    (calls : List ApiCall) (he : startEndpoint env ax = none) :
    startRegister env ax uid calls =
      (.failed "unable to determine the ip address of the host", ax, calls) := by
  unfold startRegister
  simp only [he]

/-- The first part of the relay's `Start` leaves the options of the agent as
they are. -/
theorem Nexrelay.relay_startSession_ok (env : StartEnv) (nexr nexr1 : Nexrelay) (uid : String)
    (h : Nexrelay.startSession env nexr = .ok (nexr1, uid)) :
    nexr1.userProvidedLocalIP = nexr.userProvidedLocalIP ∧ nexr1.listenPort = nexr.listenPort ∧
    nexr1.stun = nexr.stun := by
  unfold Nexrelay.startSession at h
  simp only at h
  split at h
  · exact Except.noConfusion h
  · split at h
    · exact Except.noConfusion h
    · split at h
      · exact Except.noConfusion h
      · split at h
        · exact Except.noConfusion h
        · split at h
          · exact Except.noConfusion h
          · split at h
            · exact Except.noConfusion h
            · injection h with h
              injection h with h1 h2
              subst h1
              exact ⟨rfl, rfl, rfl⟩
            · exact Except.noConfusion h

/-- The endpoint the relay's `Start` advertises, case by case. -/
theorem Nexrelay.relay_startEndpoint_cases (env : StartEnv) (nexr : Nexrelay)
    (hstun : ∀ sip sport, env.stunRequest = some (sip, sport) → sip ≠ "") :
    (nexr.userProvidedLocalIP ≠ "" →
      Nexrelay.startEndpoint env nexr (nexr.userProvidedLocalIP, nexr.listenPort) =
        some (nexr.userProvidedLocalIP, nexr.listenPort)) ∧
    (nexr.stun = true → ∀ sip sport, env.stunRequest = some (sip, sport) →
      Nexrelay.startEndpoint env nexr ("", 0) = some (sip, sport)) ∧
    ((nexr.stun = false ∨ env.stunRequest = none) →
      Nexrelay.startEndpoint env nexr ("", 0) =
        env.findLocalIP.map (fun ip => (ip, nexr.listenPort))) := by
  refine ⟨?_, ?_, ?_⟩
  · intro hu
    unfold Nexrelay.startEndpoint
    simp [hu]
  · intro hs sip sport hr
    have := hstun sip sport hr
    unfold Nexrelay.startEndpoint
    simp [hs, hr, this]
  · intro hor
    unfold Nexrelay.startEndpoint
    rcases hor with h1 | h1
    · simp [h1]
    · simp [h1]

/-- Every `CreateDevice` the relay's registration sends carries the chosen
endpoint. -/
theorem Nexrelay.relay_startRegister_body (env : StartEnv) (nexr : Nexrelay) (uid : String)
    (local0 : String × Int) (calls : List ApiCall) (body : AddDevice)
    (hnc : ∀ b, ApiCall.CreateDevice b ∉ calls)
    (hb : ApiCall.CreateDevice body ∈ (Nexrelay.startRegister env nexr uid local0 calls).2.2) :
    ∃ ip port, Nexrelay.startEndpoint env nexr local0 = some (ip, port) ∧
      body.LocalIP = JoinHostPort ip (toString port) ∧ body.EndpointLocalAddressIPv4 = ip ∧
      body.Relay = true := by
  unfold Nexrelay.startRegister at hb
  cases he : Nexrelay.startEndpoint env nexr local0 with
  | none =>
    simp only [he] at hb
    exact absurd hb (hnc body)
  | some v =>
    obtain ⟨ip, port⟩ := v
    simp only [he] at hb
    refine ⟨ip, port, rfl, ?_⟩
    have hnc2 : ApiCall.CreateDevice body ∉ calls := hnc body
    split at hb
    · simp only [List.mem_append, List.mem_singleton, ApiCall.CreateDevice.injEq] at hb
      rcases hb with hb | hb
      · exact absurd hb hnc2
      · rw [hb]; exact ⟨rfl, rfl, rfl⟩
    · simp only [List.mem_append, List.mem_singleton, ApiCall.CreateDevice.injEq] at hb
      rcases hb with hb | hb
      · exact absurd hb hnc2
      · rw [hb]; exact ⟨rfl, rfl, rfl⟩
    · simp only [List.mem_append, List.mem_singleton, ApiCall.CreateDevice.injEq] at hb
      rcases hb with hb | hb
      · exact absurd hb hnc2
      · rw [hb]; exact ⟨rfl, rfl, rfl⟩
    · split at hb
      · simp only [List.mem_append, List.mem_cons, List.mem_singleton, List.not_mem_nil,
          ApiCall.CreateDevice.injEq, or_false] at hb
        rcases hb with (hb | hb) | hb
        · exact absurd hb hnc2
        · rw [hb]; exact ⟨rfl, rfl, rfl⟩
        · cases hb
      · simp only [List.mem_append, List.mem_cons, List.mem_singleton, List.not_mem_nil,
          ApiCall.CreateDevice.injEq, or_false] at hb
        rcases hb with (hb | hb) | hb
        · exact absurd hb hnc2
        · rw [hb]; exact ⟨rfl, rfl, rfl⟩
        · cases hb

/-! ## `Start` as a whole -/

theorem Start_of_error (P : Platform) (env : StartEnv) (ax : Nexodus) (h : Host)
    (r : String × Nexodus × List ApiCall) (hs : startSession env ax = .error r) :
    Start P env ax h = (.failed r.1, r.2.1, h, r.2.2) := by
  unfold Start
  simp only [hs]

theorem Start_of_failed (P : Platform) (env : StartEnv) (ax ax1 ax2 : Nexodus) (h : Host)
    (uid msg : String) (calls : List ApiCall)
    (hs : startSession env ax = .ok (ax1, uid))
    (hr : startRegister env ax1 uid [.GetCurrentUser] = (.failed msg, ax2, calls)) :
    Start P env ax h = (.failed msg, ax2, h, calls) := by
  unfold Start
  simp only [hs, hr]

theorem Start_of_registered (P : Platform) (env : StartEnv) (ax ax1 ax2 : Nexodus) (h : Host)
    (uid : String) (dev : Device) (calls : List ApiCall)
    (hs : startSession env ax = .ok (ax1, uid))
    (hr : startRegister env ax1 uid [.GetCurrentUser] = (.registered dev, ax2, calls)) :
    Start P env ax h =
      (.reconciled (Reconcile P ax2 h env.listing true).1,
       (Reconcile P ax2 h env.listing true).2.1, (Reconcile P ax2 h env.listing true).2.2,
       calls ++ [.GetDeviceInOrganization ax2.organization]) := by
  unfold Start
  simp only [hs, hr]

/-- A `Start` that has sent `CreateDevice` went through the session part, chose
an endpoint, and sent the body built from them. -/
theorem Start_reaches (P : Platform) (env : StartEnv) (ax : Nexodus) (h : Host)
    (body : AddDevice) (hb : ApiCall.CreateDevice body ∈ (Start P env ax h).2.2.2) :
    ∃ ax1 uid ip port, startSession env ax = .ok (ax1, uid) ∧
      startEndpoint env ax1 = some (ip, port) ∧
      body = startAddDevice { ax1 with LocalIP := ip, endpointLocalAddress := ip } uid
        (JoinHostPort ip (toString port)) := by
  cases hs : startSession env ax with
  | error r =>
    rw [Start_of_error P env ax h r hs] at hb
    rcases startSession_fails env ax r hs with k | k <;> simp only [k] at hb <;> simp at hb
  | ok v =>
    obtain ⟨ax1, uid⟩ := v
    cases he : startEndpoint env ax1 with
    | none =>
      rw [Start_of_failed P env ax ax1 ax1 h uid _ _ hs
        (startRegister_no_endpoint env ax1 uid _ he)] at hb
      simp at hb
    | some v =>
      obtain ⟨ip, port⟩ := v
      refine ⟨ax1, uid, ip, port, rfl, he, ?_⟩
      obtain ⟨c1, c2, c3, c4, c5⟩ := startRegister_of_endpoint env ax1 uid [.GetCurrentUser] ip
        port he
      cases hc : env.createDevice (startAddDevice
          { ax1 with LocalIP := ip, endpointLocalAddress := ip } uid
          (JoinHostPort ip (toString port))) with
      | ok dev =>
        rw [Start_of_registered P env ax ax1 _ h uid dev _ hs (c1 dev hc)] at hb
        simpa using hb
      | failed =>
        rw [Start_of_failed P env ax ax1 _ h uid _ _ hs (c2 hc)] at hb
        simpa using hb
      | conflict oid =>
        cases oid with
        | none =>
          rw [Start_of_failed P env ax ax1 _ h uid _ _ hs (c3 hc)] at hb
          simpa using hb
        | some id =>
          cases hu : env.updateDevice id (startUpdateDevice
              { ax1 with LocalIP := ip, endpointLocalAddress := ip }
              (JoinHostPort ip (toString port))) with
          | some dev =>
            rw [Start_of_registered P env ax ax1 _ h uid dev _ hs (c4 id dev hc hu)] at hb
            simpa using hb
          | none =>
            rw [Start_of_failed P env ax ax1 _ h uid _ _ hs (c5 id hc hu)] at hb
            simpa using hb

/-! ## The NAT classifier -/

/-- What `nodePrep` leaves in the agent: the reflexive address of the first
request when that succeeded, and the symmetric flag raised when the second
request succeeded and the two addresses print differently. -/
theorem nodePrep_agent (P : Platform) (ax : Nexodus) (h : Host) (stun1 stun2 : UDPAddr × Bool) :
    (nodePrep P ax h stun1 stun2).1 =
      { ax with
        nodeReflexiveAddress := if stun1.2 then stun1.1.IP else ax.nodeReflexiveAddress,
        symmetricNat := ax.symmetricNat ||
          (stun2.2 && decide (stun1.1.String ≠ stun2.1.String)) } ∧
    (nodePrep P ax h stun1 stun2).2 = removeExistingInterface P ax h := by
  obtain ⟨a1, o1⟩ := stun1
  obtain ⟨a2, o2⟩ := stun2
  by_cases hne : a1.String ≠ a2.String
  · cases o1 <;> cases o2 <;> simp [nodePrep, hne]
  · cases o1 <;> cases o2 <;> simp [nodePrep, hne]

/-- The agent `NewNexodus` returns is the agent it builds from its arguments,
after `nodePrep`: before `nodePrep` the symmetric flag is the relay-only option
and the reflexive address is empty. -/
theorem NewNexodus_some (P : Platform) (env : NewEnv) (h : Host) (a : NexodusArgs)
    (ax' : Nexodus) (hn : (NewNexodus P env h a).1 = some ax') :
    ∃ ax0 : Nexodus, ax0.symmetricNat = a.relayOnly ∧ ax0.nodeReflexiveAddress = "" ∧
      ax' = (nodePrep P ax0 h env.stun1 env.stun2).1 := by
  unfold NewNexodus at hn
  split at hn
  · cases hn
  · split at hn
    · cases hn
    · split at hn
      · cases hn
      · split at hn
        · cases hn
        · simp only at hn
          split at hn
          · cases hn
          · split at hn
            · cases hn
            · simp only [Option.some.injEq] at hn
              exact ⟨_, rfl, rfl, hn.symm⟩

/-- C1 (as amended): for every device list `L` and every well-formed starting
cache, after one call of `Reconcile` that returns nil on a platform where peer
removal does not fail, the device cache is the map `{d.ID → d | d ∈ L}`: it is
a well-formed map, its entry at every ID is the one the listing carries (the
last one, should an ID be listed twice), every device listed once is stored
under its ID with exactly the listed record, and no ID absent from `L` remains. -/
theorem C1_reconcile_cache_is_listing (P : Platform) (ax : Nexodus) (h : Host) (L : List Device)
    (firstTime : Bool) (hwf : CacheWF ax.deviceCache)
    (hdel : ∀ h key, (deletePeer P h key ax.tunnelIface).1 = true)
    (hret : (Reconcile P ax h (some L) firstTime).1 = .returned none) :
    CacheWF (Reconcile P ax h (some L) firstTime).2.1.deviceCache ∧
    (∀ id, cacheGet (Reconcile P ax h (some L) firstTime).2.1.deviceCache id = listingMap L id) ∧
    (∀ d ∈ L, (∀ d' ∈ L, d'.ID = d.ID → d' = d) →
      cacheGet (Reconcile P ax h (some L) firstTime).2.1.deviceCache d.ID = some d) ∧
    (∀ id, (∀ d ∈ L, d.ID ≠ id) →
      cacheGet (Reconcile P ax h (some L) firstTime).2.1.deviceCache id = none) := by
  refine ⟨Reconcile_wf P ax h (some L) firstTime hwf,
    fun id => Reconcile_cache P ax h L firstTime hwf hdel hret id, fun d hd hu => ?_,
    fun id hn => ?_⟩
  · rw [Reconcile_cache P ax h L firstTime hwf hdel hret d.ID]
    exact listingMap_of_unique L d hd hu
  · rw [Reconcile_cache P ax h L firstTime hwf hdel hret id]
    exact listingMap_eq_none L id hn

/-- C1 witness: the agent holding stale device `Y` reconciles the listing
`[self, B]` for the first time on the reference platform; afterwards the cache
holds `B` under ID 2. -/
theorem C1_reconcile_cache_is_listing_witness :
    CacheWF ({ agentA with deviceCache := [(9, devY)] } : Nexodus).deviceCache ∧
    (Reconcile refPlatform { agentA with deviceCache := [(9, devY)] } {} (some [selfA, devB]) true).1
      = .returned none ∧
    cacheGet (Reconcile refPlatform { agentA with deviceCache := [(9, devY)] } {}
      (some [selfA, devB]) true).2.1.deviceCache 9 = none ∧
    cacheGet (Reconcile refPlatform { agentA with deviceCache := [(9, devY)] } {}
      (some [selfA, devB]) true).2.1.deviceCache 2 = some devB :=
  have hwf : CacheWF ({ agentA with deviceCache := [(9, devY)] } : Nexodus).deviceCache := by
    unfold CacheWF; decide
  have hret : (Reconcile refPlatform { agentA with deviceCache := [(9, devY)] } {}
      (some [selfA, devB]) true).1 = .returned none := by decide
  have key := C1_reconcile_cache_is_listing refPlatform { agentA with deviceCache := [(9, devY)] } {}
    [selfA, devB] true hwf (fun h k => refPlatform_deletePeer_ok h k _) hret
  ⟨hwf, hret, key.2.2.2 9 (by decide), key.2.2.1 devB (by decide) (by decide)⟩

/-- C1 counterexample: the cache holds `Y`, the controller returns the empty
list, and the WireGuard device rejects the removal.  `Reconcile` returns nil,
yet `Y` is still cached under ID 9, which the map of the empty listing does not
contain. -/
theorem C1_counterexample :
    CacheWF ({ agentA with deviceCache := [(9, devY)] } : Nexodus).deviceCache ∧
    (Reconcile wgDownPlatform { agentA with deviceCache := [(9, devY)] } {} (some []) false).1
      = .returned none ∧
    cacheGet (Reconcile wgDownPlatform { agentA with deviceCache := [(9, devY)] } {}
      (some []) false).2.1.deviceCache 9 = some devY ∧
    listingMap [] 9 = none := by
  refine ⟨by unfold CacheWF; decide, by decide, by decide, by decide⟩

/-- C2 (as amended): a fresh agent (empty cache, no peer configured) runs
`Reconcile` on `L1` and then on `L2`, and both calls return nil.  The listings
carry each ID once, `L2` carries no nil ID, and devices with the same public key
have the same ID.  Every device listed in both keeps its public key and, if the
policy admitted it in `L1`, is still admitted in `L2`.  Peer removal and
`ConfigureDevice` do not fail, the three builds involved run to their end and
the peers they derive pass the static checks of `addPeer`.  The second cycle
does not re-create the interface: after the first cycle the interface carries
the recorded address, and this host's own entries carry it too.  Then the keys
of the peers configured on the tunnel interface are exactly the keys of the
peers the policy derives from `L2` alone. -/
theorem C2_peer_set_follows_last_listing (P : Platform) (ax : Nexodus) (h : Host)
    (L1 L2 : List Device)
    (hcache : ax.deviceCache = []) (hempty : h.wgPeers = [])
    (hdel : ∀ h key, (deletePeer P h key ax.tunnelIface).1 = true)
    (hcfg : ∀ h dev cfg, P.ConfigureDeviceOk h dev cfg = true)
    (hnd1 : (L1.map (fun d => d.ID)).Nodup) (hnd2 : (L2.map (fun d => d.ID)).Nodup)
    (hnil : ∀ d ∈ L2, d.ID ≠ uuidNil)
    (hkeys : ∀ d ∈ L1 ++ L2, ∀ e ∈ L1 ++ L2, d.PublicKey = e.PublicKey → d.ID = e.ID)
    (hstable : ∀ d1 ∈ L1, ∀ d2 ∈ L2, d1.ID = d2.ID →
      d1.PublicKey = d2.PublicKey ∧ (policyAdmits ax d1 = true → policyAdmits ax d2 = true))
    (hb1 : (policyBuild P ax (freshCache L1)).status = .done)
    (hb2 : (policyBuild P ax (mergedCache L1 L2)).status = .done)
    (hb3 : (policyBuild P ax (freshCache L2)).status = .done)
    (hi1 : ∀ p ∈ derivedPeers P ax L1, installable P p = true)
    (hi2 : ∀ p ∈ (policyBuild P ax (mergedCache L1 L2)).ax.wgConfig.Peers,
      installable P p = true)
    (hret1 : (Reconcile P ax h (some L1) true).1 = .returned none)
    (hret2 : (Reconcile P (Reconcile P ax h (some L1) true).2.1
      (Reconcile P ax h (some L1) true).2.2 (some L2) false).1 = .returned none)
    (haddr : (Reconcile P ax h (some L1) true).2.1.wgLocalAddress =
      GetIPv4IfaceString (Reconcile P ax h (some L1) true).2.2)
    (hself : ∀ d ∈ L1 ++ L2, d.PublicKey = ax.wireguardPubKey →
      d.TunnelIP = (Reconcile P ax h (some L1) true).2.1.wgLocalAddress) :
    ∀ k, k ∈ (Reconcile P (Reconcile P ax h (some L1) true).2.1
        (Reconcile P ax h (some L1) true).2.2 (some L2) false).2.2.wgPeers ↔
      ∃ p ∈ derivedPeers P ax L2, p.PublicKey = k := by
  intro k
  have hwg : ∀ h, P.wgctrlNew h = true :=
    fun h => wgctrlNew_of_deletePeer P h "" ax.tunnelIface (hdel h "")
  obtain ⟨hfr, hinv⟩ := Reconcile_first_fresh_wgPeers P ax h L1 hcache hempty hwg hcfg hnd1 hb1
    hi1 hret1
  rw [derivedPeers_keys P ax L2 hnd2 hb3 k]
  -- the agent and the host the second call starts from
  generalize (Reconcile P ax h (some L1) true).2.1 = ax1 at hfr hret2 haddr hself ⊢
  generalize (Reconcile P ax h (some L1) true).2.2 = h1 at hinv hret2 haddr ⊢
  have hc1 : ax1.deviceCache = freshCache L1 := hfr.1.symm
  have hadm : ∀ d, policyAdmits ax1 d = policyAdmits ax d :=
    fun d => policyAdmits_congr { ax with deviceCache := freshCache L1 } ax1 hfr d
  have hwf : CacheWF ax1.deviceCache := hc1 ▸ CacheWF_freshCache L1
  have hvals : ∀ e, e ∈ ax1.deviceCache.map Prod.snd ↔ e ∈ L1 := by
    intro e; rw [hc1]; exact mem_values_freshCache L1 hnd1 e
  have hdel1 : ∀ h key, (deletePeer P h key ax1.tunnelIface).1 = true := by
    intro h key
    have : ax1.tunnelIface = ax.tunnelIface := hfr.2.1.symm
    rw [this]; exact hdel h key
  have hself1 : ∀ d, (d ∈ L2 ∨ d ∈ ax1.deviceCache.map Prod.snd) →
      d.PublicKey = ax1.wireguardPubKey → d.TunnelIP = ax1.wgLocalAddress := by
    intro d hd hkey
    have hk : ax1.wireguardPubKey = ax.wireguardPubKey := hfr.2.2.1.symm
    rw [hk] at hkey
    rcases hd with hd | hd
    · exact hself d (List.mem_append_right _ hd) hkey
    · exact hself d (List.mem_append_left _ ((hvals d).1 hd)) hkey
  have hcg := buildPeersConfig_congr P
    { ax1 with deviceCache := (L2.foldl diffStep (ax1.deviceCache, false, [])).1 }
    { ax with deviceCache := mergedCache L1 L2 } h1 {}
    ⟨by simp only [hc1]; rfl, hfr.2.1.symm, hfr.2.2.1.symm, hfr.2.2.2.1.symm,
      hfr.2.2.2.2.1.symm, hfr.2.2.2.2.2.symm⟩
  have hdone : (buildPeersConfig P
      { ax1 with deviceCache := (L2.foldl diffStep (ax1.deviceCache, false, [])).1 } h1).status
      = .done := hcg.1.trans hb2
  have hinst : ∀ p ∈ (buildPeersConfig P
      { ax1 with deviceCache := (L2.foldl diffStep (ax1.deviceCache, false, [])).1 }
      h1).ax.wgConfig.Peers, installable P p = true := by
    rw [hcg.2 hdone]; exact hi2
  have hret : (reconcileUpdate P ax1 h1 L2 []).1 = .returned none := by
    simpa [Reconcile] using hret2
  have hrec : Reconcile P ax1 h1 (some L2) false = reconcileUpdate P ax1 h1 L2 [] := by
    simp [Reconcile]
  rw [hrec]
  -- a device the second listing dropped shares its key with no listed device
  have hdropped : ∀ d2 ∈ L2, ∀ e ∈ ax1.deviceCache.map Prod.snd,
      (∀ d ∈ L2, d.ID ≠ e.ID) → e.PublicKey ≠ d2.PublicKey := by
    intro d2 hd2 e he hun hek
    exact hun d2 hd2 (hkeys e (List.mem_append_left _ ((hvals e).1 he)) d2
      (List.mem_append_right _ hd2) hek).symm
  constructor
  · intro hk
    obtain ⟨hsrc, hnot⟩ := reconcileUpdate_wgPeers_sub P ax1 h1 L2 hwf hnd2 hdel1 haddr hself1
      hdone hret k hk
    rcases hsrc with hk1 | ⟨n, hn, e, he, hae, hen, hnk⟩
    · obtain ⟨d1, hd1, ha1, hdk1⟩ := (hinv k).1 hk1
      by_cases hl : ∃ d2 ∈ L2, d1.ID = d2.ID
      · obtain ⟨d2, hd2, hid⟩ := hl
        obtain ⟨hpk, hstay⟩ := hstable d1 hd1 d2 hd2 hid
        exact ⟨d2, hd2, hstay ha1, hpk.symm.trans hdk1⟩
      · exfalso
        refine hnot d1 ((hvals d1).2 hd1) (fun d hd hid => hl ⟨d, hd, hid.symm⟩) hdk1
    · rcases he with he | ⟨he, hun⟩
      · exact ⟨e, he, (hadm e) ▸ hae, hen.trans hnk⟩
      · exact absurd hen (hdropped n hn e he hun)
  · rintro ⟨d2, hd2, ha2, hdk⟩
    apply reconcileUpdate_wgPeers_sup P ax1 h1 L2 hwf hnd2 hdel1 hwg hcfg haddr hself1 hnil hdone
      hinst hret k
    · by_cases hsame : cacheGet ax1.deviceCache d2.ID = some d2
      · left
        exact (hinv k).2 ⟨d2, (hvals d2).1 ((mem_values_iff hwf d2).2 hsame), ha2, hdk⟩
      · right
        exact ⟨d2, hd2, hsame, (hadm d2).trans ha2, hdk⟩
    · intro e he hun
      rw [← hdk]
      exact hdropped d2 hd2 e he hun

/-- C2 witness: on the reference platform the agent sees `[self, B, Y]` and then
`[self, B moved, X]`; afterwards the peers `B` and `X` are configured, the peers
the policy derives from the second listing. -/
theorem C2_peer_set_follows_last_listing_witness :
    (Reconcile refPlatform (Reconcile refPlatform agentA {} (some firstListing) true).2.1
        (Reconcile refPlatform agentA {} (some firstListing) true).2.2
        (some secondListing) false).2.2.wgPeers = ["B", "X"] ∧
    ∀ k, k ∈ (Reconcile refPlatform (Reconcile refPlatform agentA {} (some firstListing) true).2.1
        (Reconcile refPlatform agentA {} (some firstListing) true).2.2
        (some secondListing) false).2.2.wgPeers ↔
      ∃ p ∈ derivedPeers refPlatform agentA secondListing, p.PublicKey = k :=
  ⟨by decide,
   C2_peer_set_follows_last_listing refPlatform agentA {} firstListing secondListing
    rfl rfl (fun h k => refPlatform_deletePeer_ok h k _) (fun _ _ _ => rfl)
    (by decide) (by decide) (by decide) (by decide) (by decide) (by decide) (by decide)
    (by decide) (by decide) (by decide) (by decide) (by decide) (by decide) (by decide)⟩

/-- C2 counterexample: on the reference platform the agent sees `[self, B]` and
then `[self, B']`, where `B'` is `B` after it reported a symmetric NAT.  Both
calls return nil.  The policy derives no peer from `[self, B']`, yet peer `B`
stays configured; had the first listing been `[self]`, no peer would be
configured: the installed peer set depends on the first listing. -/
theorem C2_counterexample :
    (Reconcile refPlatform agentA {} (some [selfBare, devB]) true).1 = .returned none ∧
    (Reconcile refPlatform (Reconcile refPlatform agentA {} (some [selfBare, devB]) true).2.1
        (Reconcile refPlatform agentA {} (some [selfBare, devB]) true).2.2
        (some [selfBare, devBsym]) false).1 = .returned none ∧
    (Reconcile refPlatform (Reconcile refPlatform agentA {} (some [selfBare, devB]) true).2.1
        (Reconcile refPlatform agentA {} (some [selfBare, devB]) true).2.2
        (some [selfBare, devBsym]) false).2.2.wgPeers = ["B"] ∧
    derivedPeers refPlatform agentA [selfBare, devBsym] = [] ∧
    (Reconcile refPlatform (Reconcile refPlatform agentA {} (some [selfBare]) true).2.1
        (Reconcile refPlatform agentA {} (some [selfBare]) true).2.2
        (some [selfBare, devBsym]) false).2.2.wgPeers = [] := by
  refine ⟨by decide, by decide, by decide, by decide, by decide⟩

/-- C4 (as amended): in the peer persona, when this host is not symmetric, every cached
device that is not a relay, is not this host, is not symmetric and whose LocalIP
splits as host:port has a peer with its PublicKey in the configuration a
completed `buildPeersConfig` derives; that peer is the same-LAN peer or the
direct peer of the device. -/
theorem C4_nonsymmetric_device_has_peer (P : Platform) (ax : Nexodus) (h : Host)
    (e : UUID × Device) (host port : String) (he : e ∈ ax.deviceCache)
    (hdone : (buildPeersConfig P ax h).status = .done)
    (hself : ax.symmetricNat = false) (hrelay : e.2.Relay = false)
    (hkey : e.2.PublicKey ≠ ax.wireguardPubKey) (hsym : e.2.SymmetricNat = false)
    (hsplit : SplitHostPort e.2.LocalIP = some (host, port)) :
    ∃ p ∈ (buildPeersConfig P ax h).ax.wgConfig.Peers,
      p.PublicKey = e.2.PublicKey ∧ (p = localPeer e.2 port ∨ p = directPeer e.2) := by
  obtain ⟨scan, allowed0, _, _, _, hpeers⟩ := buildPeersConfig_done P ax h hdone
  rw [hpeers]
  have hd : e.2 ∈ ax.deviceCache.map Prod.snd := List.mem_map.2 ⟨e, he, rfl⟩
  obtain ⟨ds1, ds2, hsplitl⟩ := List.append_of_mem hd
  rw [hsplitl, policyPeers_append]
  have hstep : stepPeers ax (ds1.foldl (stepAllowed ax) allowed0) e.2 =
      if ax.nodeReflexiveAddress = e.2.ReflexiveIPv4 then [localPeer e.2 port]
      else [directPeer e.2] := by
    unfold stepPeers
    simp only [hsplit, hkey, if_false, hrelay, Bool.false_eq_true, List.nil_append, and_true,
      hself, hsym, and_self]
    split <;> rfl
  by_cases hrefl : ax.nodeReflexiveAddress = e.2.ReflexiveIPv4
  · refine ⟨localPeer e.2 port, ?_, rfl, Or.inl rfl⟩
    simp only [policyPeers, List.mem_append]
    right; left
    rw [hstep, if_pos hrefl]; simp
  · refine ⟨directPeer e.2, ?_, rfl, Or.inr rfl⟩
    simp only [policyPeers, List.mem_append]
    right; left
    rw [hstep, if_neg hrefl]; simp

/-- C4 witness: this host (not symmetric) caches itself and peer `B`; the
derived configuration holds a peer with key `B`. -/
theorem C4_nonsymmetric_device_has_peer_witness :
    (buildPeersConfig refPlatform { agentA with deviceCache := [(1, selfA), (2, devB)] } {}).status
      = .done ∧
    ∃ p ∈ (buildPeersConfig refPlatform { agentA with deviceCache := [(1, selfA), (2, devB)] }
        {}).ax.wgConfig.Peers,
      p.PublicKey = "B" ∧ (p = localPeer devB "51820" ∨ p = directPeer devB) :=
  ⟨by decide,
   C4_nonsymmetric_device_has_peer refPlatform { agentA with deviceCache := [(1, selfA), (2, devB)] }
     {} (2, devB) "203.0.113.5" "51820" (by decide) (by decide) rfl rfl (by decide) rfl (by decide)⟩

/-- C4 counterexample: this host (not symmetric) caches itself, a relay of its
organization whose first allowed IP is the empty string, and device `B`, which
is not a relay, not this host, not symmetric and whose LocalIP splits as
host:port.  The relay scan leaves the relay address empty while the organization
prefix is set, so `buildPeersConfig` returns before its peer loop: the build is
skipped and the derived configuration holds no peer with key `B`. -/
theorem C4_counterexample :
    agentA.symmetricNat = false ∧ devB.Relay = false ∧
    devB.PublicKey ≠ agentA.wireguardPubKey ∧ devB.SymmetricNat = false ∧
    SplitHostPort devB.LocalIP = some ("203.0.113.5", "51820") ∧
    CacheWF [(1, selfA), (3, { relayR32 with AllowedIPs := [""] }), (2, devB)] ∧
    (buildPeersConfig refPlatform
      { agentA with deviceCache :=
          [(1, selfA), (3, { relayR32 with AllowedIPs := [""] }), (2, devB)] } {}).status
      = .skipped ∧
    ¬ ∃ p ∈ (buildPeersConfig refPlatform
        { agentA with deviceCache :=
            [(1, selfA), (3, { relayR32 with AllowedIPs := [""] }), (2, devB)] }
        {}).ax.wgConfig.Peers,
      p.PublicKey = devB.PublicKey := by
  refine ⟨rfl, rfl, by decide, rfl, by decide, by unfold CacheWF; decide, by decide, by decide⟩

/-- C3 (as amended): in the peer persona, for every cached device `D` with
SymmetricNat=true and Relay=false whose reflexive address differs from this
host's and whose PublicKey no other cached device carries, the configuration a
completed `buildPeersConfig` derives contains no peer whose PublicKey is
`D.PublicKey`. -/
theorem C3_symmetric_device_has_no_peer (P : Platform) (ax : Nexodus) (h : Host)
    (e : UUID × Device) (_he : e ∈ ax.deviceCache)
    (hdone : (buildPeersConfig P ax h).status = .done)
    (hsym : e.2.SymmetricNat = true) (hrelay : e.2.Relay = false)
    (hrefl : ax.nodeReflexiveAddress ≠ e.2.ReflexiveIPv4)
    (huniq : ∀ e' ∈ ax.deviceCache, e'.2.PublicKey = e.2.PublicKey → e'.2 = e.2) :
    ∀ p ∈ (buildPeersConfig P ax h).ax.wgConfig.Peers, p.PublicKey ≠ e.2.PublicKey := by
  obtain ⟨scan, allowed0, _, _, _, hpeers⟩ := buildPeersConfig_done P ax h hdone
  rw [hpeers]
  intro p hp hk
  obtain ⟨d, hd, hpk, hadm⟩ := mem_policyPeers ax allowed0 _ p hp
  obtain ⟨e', he', rfl⟩ := List.mem_map.1 hd
  have heq : e'.2 = e.2 := huniq e' he' (hpk.symm.trans hk)
  rw [heq] at hadm
  unfold policyAdmits at hadm
  simp [hsym, hrelay, hrefl] at hadm

/-- C3 witness: symmetric device `T` sits behind another NAT than this host; no
derived peer carries its key. -/
theorem C3_symmetric_device_has_no_peer_witness :
    (buildPeersConfig refPlatform
      { agentA with deviceCache := [(1, selfA), (2, devB), (6, devT)] } {}).status = .done ∧
    ∀ p ∈ (buildPeersConfig refPlatform
      { agentA with deviceCache := [(1, selfA), (2, devB), (6, devT)] } {}).ax.wgConfig.Peers,
      p.PublicKey ≠ "T" :=
  ⟨by decide,
   C3_symmetric_device_has_no_peer refPlatform
     { agentA with deviceCache := [(1, selfA), (2, devB), (6, devT)] } {} (6, devT)
     (by decide) (by decide) rfl rfl (by decide) (by decide)⟩

/-- C3 counterexample: device `S` has SymmetricNat=true and Relay=false but
shares this host's reflexive address; the derived configuration contains a peer
with its PublicKey (the same-LAN arm does not look at `SymmetricNat`). -/
theorem C3_counterexample :
    devS.SymmetricNat = true ∧ devS.Relay = false ∧
    (buildPeersConfig refPlatform { agentA with deviceCache := [(1, selfA), (5, devS)] } {}).status
      = .done ∧
    (buildPeersConfig refPlatform { agentA with deviceCache := [(1, selfA), (5, devS)] }
      {}).ax.wgConfig.Peers =
      [{ PublicKey := devS.PublicKey, Endpoint := "192.168.1.18:42000",
         AllowedIPs := ["10.0.0.5/32"], PersistentKeepAlive := "0" }] := by
  refine ⟨rfl, rfl, by decide, by decide⟩

/-- C5 (as amended): two back-to-back `Reconcile` calls receive the same device
list `L`, in which every ID is listed once.  When the first call returns nil on
a platform where peer removal does not fail, the second call returns nil, issues
no call at all (no HandlePeerTunnel, no addPeer, no deletePeer: the host and its
call history are unchanged) and leaves the agent unchanged. -/
theorem C5_second_reconcile_is_idle (P : Platform) (ax : Nexodus) (h : Host) (L : List Device)
    (firstTime : Bool) (hwf : CacheWF ax.deviceCache)
    (hnd : (L.map (fun d => d.ID)).Nodup)
    (hdel : ∀ h key, (deletePeer P h key ax.tunnelIface).1 = true)
    (hret : (Reconcile P ax h (some L) firstTime).1 = .returned none) :
    Reconcile P (Reconcile P ax h (some L) firstTime).2.1 (Reconcile P ax h (some L) firstTime).2.2
        (some L) false =
      (.returned none, (Reconcile P ax h (some L) firstTime).2.1,
        (Reconcile P ax h (some L) firstTime).2.2) ∧
    (Reconcile P (Reconcile P ax h (some L) firstTime).2.1
        (Reconcile P ax h (some L) firstTime).2.2 (some L) false).2.2.calls =
      (Reconcile P ax h (some L) firstTime).2.2.calls := by
  have h1 := Reconcile_wf P ax h (some L) firstTime hwf
  have h2 := fun id => Reconcile_cache P ax h L firstTime hwf hdel hret id
  have key : Reconcile P (Reconcile P ax h (some L) firstTime).2.1
      (Reconcile P ax h (some L) firstTime).2.2 (some L) false =
      (.returned none, (Reconcile P ax h (some L) firstTime).2.1,
        (Reconcile P ax h (some L) firstTime).2.2) := by
    simp only [Reconcile, Bool.false_eq_true, if_false]
    exact reconcileUpdate_idle P _ _ L h1 hnd h2
  exact ⟨key, by rw [key]⟩

/-- C5 witness: the first reconcile of `[self, B]` on the reference platform
installs peer `B`; the second reconcile of the same list adds nothing to the
call history. -/
theorem C5_second_reconcile_is_idle_witness :
    (Reconcile refPlatform agentA {} (some [selfA, devB]) true).1 = .returned none ∧
    (Reconcile refPlatform (Reconcile refPlatform agentA {} (some [selfA, devB]) true).2.1
        (Reconcile refPlatform agentA {} (some [selfA, devB]) true).2.2
        (some [selfA, devB]) false).2.2.calls =
      (Reconcile refPlatform agentA {} (some [selfA, devB]) true).2.2.calls :=
  have hret : (Reconcile refPlatform agentA {} (some [selfA, devB]) true).1 = .returned none := by
    decide
  ⟨hret, (C5_second_reconcile_is_idle refPlatform agentA {} [selfA, devB] true
    (by unfold CacheWF; decide) (by decide) (fun h k => refPlatform_deletePeer_ok h k _) hret).2⟩

/-- C5 counterexample: the cache holds `Y`, the controller returns the empty
list twice, and the WireGuard device rejects the removal.  Both calls return
nil; the second call, over the unchanged list, issues `deletePeer` for `Y`
again. -/
theorem C5_counterexample :
    (Reconcile wgDownPlatform { agentA with deviceCache := [(9, devY)] } {} (some []) false).1
      = .returned none ∧
    (Reconcile wgDownPlatform
        (Reconcile wgDownPlatform { agentA with deviceCache := [(9, devY)] } {} (some []) false).2.1
        (Reconcile wgDownPlatform { agentA with deviceCache := [(9, devY)] } {} (some []) false).2.2
        (some []) false).2.2.calls =
      (Reconcile wgDownPlatform { agentA with deviceCache := [(9, devY)] } {}
        (some []) false).2.2.calls ++
      [Call.deletePeer "Y" "wg0",
       Call.ConfigureDevice "wg0" { ReplacePeers := false,
                                    Peers := [{ PublicKey := "Y", Remove := true }] }] := by
  refine ⟨by decide, by decide⟩

/-- C6 (as amended): after a completed `buildPeersConfig` in which route
lookups and route additions succeed and the tunnel link is not torn down (it
does not exist yet, or this host's cached overlay address is the recorded one),
for every cached device the peering policy admits (not this host, LocalIP
splitting as host:port, and a relay, on this host's reflexive address, or with
neither side symmetric) and every prefix in its ChildPrefix, the host routing
table contains a route to that prefix: through the tunnel interface, or one that
was already present before the build. -/
theorem C6_child_prefix_routes (P : Platform) (ax : Nexodus) (h : Host)
    (hdone : (buildPeersConfig P ax h).status = .done)
    (hlook : ∀ h dst, P.RouteExistsErr h dst = none)
    (hadd : ∀ h dst, P.AddRouteOk h dst ax.tunnelIface = true)
    (hkeep : h.linkExists = false ∨
      ∀ e ∈ ax.deviceCache, e.2.PublicKey = ax.wireguardPubKey → e.2.TunnelIP = ax.wgLocalAddress)
    (e : UUID × Device) (he : e ∈ ax.deviceCache) (hadm : policyAdmits ax e.2 = true) :
    ∀ c ∈ e.2.ChildPrefix, ∃ r ∈ (buildPeersConfig P ax h).host.routes,
      r.dst = c ∧ (r.dev = ax.tunnelIface ∨ r ∈ h.routes) := by
  obtain ⟨ax1, ax2, relayIP, st0, hf1, hf2, hloc, hst0, hhost⟩ :=
    buildPeersConfig_done_host P ax h hdone
  have hloop := peerLoop_adds_routes P ax1 relayIP hlook (by rw [← hf1.2.1]; exact hadd)
    (ax.deviceCache.map Prod.snd) st0 e.2 (List.mem_map.2 ⟨e, he, rfl⟩)
    (by rw [policyAdmits_congr ax ax1 hf1]; exact hadm)
  have hsame : (buildLocalConfig P ax2
      ((ax.deviceCache.map Prod.snd).foldl (peerStep P ax1 relayIP) st0).host).2 =
      ((ax.deviceCache.map Prod.snd).foldl (peerStep P ax1 relayIP) st0).host := by
    unfold buildLocalConfig
    rw [← hf2.1]
    rcases hkeep with hno | hsame
    · apply buildLocalConfig_fold_host_nolink
      show ((ax.deviceCache.map Prod.snd).foldl (peerStep P ax1 relayIP) st0).host.linkExists = false
      rw [peerLoop_linkExists, hst0]
      exact hno
    · apply buildLocalConfig_fold_host
      intro d hd hk
      obtain ⟨e', he', rfl⟩ := List.mem_map.1 hd
      simp only at hk ⊢
      rw [hloc]
      exact hsame e' he' (by rw [hf2.2.2.1]; exact hk)
  intro c hc
  obtain ⟨r, hr, hdst, hdev⟩ := hloop c hc
  rw [hhost, hsame]
  refine ⟨r, hr, hdst, ?_⟩
  rw [hst0, ← hf1.2.1] at hdev
  exact hdev

/-- C6 witness: this host caches itself and the gateway `G` of 192.168.20.0/24;
after the build the routing table holds `192.168.20.0/24 dev wg0`. -/
theorem C6_child_prefix_routes_witness :
    (buildPeersConfig refPlatform { agentA with deviceCache := [(1, selfA), (10, devG)] } {}).status
      = .done ∧
    policyAdmits { agentA with deviceCache := [(1, selfA), (10, devG)] } devG = true ∧
    (buildPeersConfig refPlatform { agentA with deviceCache := [(1, selfA), (10, devG)] }
      {}).host.routes = [⟨"192.168.20.0/24", "wg0"⟩] ∧
    ∃ r ∈ (buildPeersConfig refPlatform { agentA with deviceCache := [(1, selfA), (10, devG)] }
      {}).host.routes, r.dst = "192.168.20.0/24" ∧ (r.dev = "wg0" ∨ r ∈ ({} : Host).routes) :=
  ⟨by decide, by decide, by decide,
   C6_child_prefix_routes refPlatform { agentA with deviceCache := [(1, selfA), (10, devG)] } {}
     (by decide) (fun _ _ => rfl) (fun _ _ => rfl) (Or.inl rfl) (10, devG) (by decide) (by decide)
     "192.168.20.0/24" (by decide)⟩

/-- C6 counterexample: this host is the gateway of 192.168.50.0/24 and the
controller lists it with that child prefix next to peer `B`.  After the first
reconcile on the reference platform (every route addition succeeds) this host's
entry is cached with its child prefix, and the routing table holds the route to
`B` only: no route to 192.168.50.0/24 was installed. -/
theorem C6_counterexample :
    (Reconcile refPlatform agentA {} (some [selfLan, devB]) true).1 = .returned none ∧
    cacheGet (Reconcile refPlatform agentA {} (some [selfLan, devB]) true).2.1.deviceCache 1
      = some selfLan ∧
    "192.168.50.0/24" ∈ selfLan.ChildPrefix ∧
    (Reconcile refPlatform agentA {} (some [selfLan, devB]) true).2.2.routes
      = [⟨"10.0.0.2/32", "wg0"⟩] ∧
    ∀ r ∈ (Reconcile refPlatform agentA {} (some [selfLan, devB]) true).2.2.routes,
      r.dst ≠ "192.168.50.0/24" := by
  refine ⟨by decide, by decide, by decide, by decide, by decide⟩

/-- C7 (as amended): when `HandlePeerDelete` returns nil on a well-formed cache
and route lookups and route deletions succeed, then for every cached device
whose ID does not occur in the fetched listing the WireGuard peer with its
PublicKey is removed, no route to one of its AllowedIPs through the tunnel
interface is left, and the device is dropped from the cache; every cached
device whose ID occurs in the listing stays in the cache unchanged. -/
theorem C7_HandlePeerDelete_effect (P : Platform) (L : List Device) (cache : DeviceCache)
    (iface : String) (h : Host) (hwf : CacheWF cache)
    (hlook : ∀ h dst, P.RouteExistsErr h dst = none)
    (hdelr : ∀ h dst, P.DeleteRouteOk h dst iface = true)
    (hok : (HandlePeerDelete P L cache iface h).1 = true) :
    (∀ e ∈ cache, inPeerListing L e.2 = false →
      e.2.PublicKey ∉ (HandlePeerDelete P L cache iface h).2.2.wgPeers ∧
      (∀ ip ∈ e.2.AllowedIPs,
        (⟨ip, iface⟩ : Route) ∉ (HandlePeerDelete P L cache iface h).2.2.routes) ∧
      cacheGet (HandlePeerDelete P L cache iface h).2.1 e.1 = none) ∧
    (∀ e ∈ cache, inPeerListing L e.2 = true →
      cacheGet (HandlePeerDelete P L cache iface h).2.1 e.1 = some e.2) := by
  have hinv : ∀ e ∈ cache, e.1 = e.2.ID ∧ cacheGet cache e.1 = some e.2 :=
    fun e he => ⟨hwf.2 e he, cacheGet_of_mem hwf.1 (by cases e; exact he)⟩
  refine ⟨fun e he hun => ?_, fun e he hin => ?_⟩
  · have hhost := HandlePeerDeleteLoop_host P L iface hlook hdelr cache cache h hwf.1 hinv hok e he hun
    refine ⟨hhost.1, hhost.2, ?_⟩
    rw [HandlePeerDelete_cache_of_ok P L iface cache hwf h hok e.1]
    rw [inPeerListing_eq, ← (hinv e he).1] at hun
    simp [hun]
  · rw [HandlePeerDelete_cache_of_ok P L iface cache hwf h hok e.1]
    rw [inPeerListing_eq, ← (hinv e he).1] at hin
    simp [hin, (hinv e he).2]

/-- C7 witness: the deletion scenario of the specification.  The cache holds
`{X, Y}`, the controller returns `[X]`; afterwards peer `Y` and its route are
gone and the cache is `{X}`. -/
theorem C7_HandlePeerDelete_effect_witness :
    (HandlePeerDelete refPlatform [devX] [(8, devX), (9, devY)] "wg0" hostXY).1 = true ∧
    (HandlePeerDelete refPlatform [devX] [(8, devX), (9, devY)] "wg0" hostXY).2.1 = [(8, devX)] ∧
    (HandlePeerDelete refPlatform [devX] [(8, devX), (9, devY)] "wg0" hostXY).2.2.wgPeers = ["X"] ∧
    (HandlePeerDelete refPlatform [devX] [(8, devX), (9, devY)] "wg0" hostXY).2.2.routes
      = [⟨"10.0.0.8/32", "wg0"⟩] ∧
    devY.PublicKey ∉ (HandlePeerDelete refPlatform [devX] [(8, devX), (9, devY)] "wg0" hostXY).2.2.wgPeers ∧
    cacheGet (HandlePeerDelete refPlatform [devX] [(8, devX), (9, devY)] "wg0" hostXY).2.1 8
      = some devX :=
  have hok : (HandlePeerDelete refPlatform [devX] [(8, devX), (9, devY)] "wg0" hostXY).1 = true := by
    decide
  have key := C7_HandlePeerDelete_effect refPlatform [devX] [(8, devX), (9, devY)] "wg0" hostXY
    (by unfold CacheWF; decide) (fun _ _ => rfl) (fun _ _ => rfl) hok
  ⟨hok, by decide, by decide, by decide,
   (key.1 (9, devY) (by decide) (by decide)).1, key.2 (8, devX) (by decide) (by decide)⟩

/-- C7 counterexample: the same scenario on a WireGuard device that rejects the
removal.  `HandlePeerDelete` returns an error, peer `Y` is still configured, its
route is still in the routing table and `Y` is still cached. -/
theorem C7_counterexample :
    inPeerListing [devX] devY = false ∧
    (HandlePeerDelete wgDownPlatform [devX] [(8, devX), (9, devY)] "wg0" hostXY).1 = false ∧
    devY.PublicKey ∈ (HandlePeerDelete wgDownPlatform [devX] [(8, devX), (9, devY)] "wg0" hostXY).2.2.wgPeers ∧
    (⟨"10.0.0.9/32", "wg0"⟩ : Route) ∈
      (HandlePeerDelete wgDownPlatform [devX] [(8, devX), (9, devY)] "wg0" hostXY).2.2.routes ∧
    cacheGet (HandlePeerDelete wgDownPlatform [devX] [(8, devX), (9, devY)] "wg0" hostXY).2.1 9
      = some devY := by
  refine ⟨by decide, by decide, by decide, by decide, by decide⟩

/-- C8 (as amended): in the peer persona, for a cached relay device `R`
(Relay=true, not this host, LocalIP splitting as host:port) that is the only
relay in the cache, belongs to this host's organization and carries a non-empty
organization prefix, a completed `buildPeersConfig` adds exactly one peer for
`R`, with Endpoint = `R.LocalIP` and AllowedIPs = the string `ParseNetworkStr`
returns for `R.AllowedIPs[0]` followed by `/` and the prefix length of the
organization prefix, followed by `R.ChildPrefix`: the derived list is the peers
of the devices before `R`, then that peer, then the peers of the devices after
`R`, and when no other cached device carries `R.PublicKey` it is the only peer
with that key. -/
theorem C8_relay_peer (P : Platform) (ax : Nexodus) (h : Host) (ds1 ds2 : DeviceCache)
    (k : UUID) (R : Device)
    (hcache : ax.deviceCache = ds1 ++ (k, R) :: ds2)
    (hdone : (buildPeersConfig P ax h).status = .done)
    (hR : R.Relay = true) (hkey : R.PublicKey ≠ ax.wireguardPubKey)
    (hsplit : (SplitHostPort R.LocalIP).isSome = true)
    (honly : ∀ e ∈ ds1 ++ ds2, e.2.Relay = false)
    (horg : ax.organization = R.OrganizationID) (hpre : R.OrganizationPrefix ≠ "") :
    ∃ ip orgMask pre post,
      R.AllowedIPs.head? = some ip ∧ P.ParseIPNet R.OrganizationPrefix = some orgMask ∧
      (buildPeersConfig P ax h).ax.wgConfig.Peers =
        pre ++ { PublicKey := R.PublicKey, Endpoint := R.LocalIP,
                 AllowedIPs := (P.ParseNetworkStr (sprintfCidr ip orgMask)).1 :: R.ChildPrefix,
                 PersistentKeepAlive := "0" } :: post ∧
      (∀ p ∈ pre, ∃ e ∈ ds1, p.PublicKey = e.2.PublicKey) ∧
      (∀ p ∈ post, ∃ e ∈ ds2, p.PublicKey = e.2.PublicKey) ∧
      ((∀ e ∈ ds1 ++ ds2, e.2.PublicKey ≠ R.PublicKey) →
        (buildPeersConfig P ax h).ax.wgConfig.Peers.filter (fun p => p.PublicKey = R.PublicKey) =
          [{ PublicKey := R.PublicKey, Endpoint := R.LocalIP,
             AllowedIPs := (P.ParseNetworkStr (sprintfCidr ip orgMask)).1 :: R.ChildPrefix,
             PersistentKeepAlive := "0" }]) := by
  obtain ⟨scan, allowed0, hscan, _, hinit, hpeers⟩ := buildPeersConfig_done P ax h hdone
  have h1 : ∀ d ∈ ds1.map Prod.snd, d.Relay = false := by
    intro d hd
    obtain ⟨e, he, rfl⟩ := List.mem_map.1 hd
    exact honly e (List.mem_append_left _ he)
  have h2 : ∀ d ∈ ds2.map Prod.snd, d.Relay = false := by
    intro d hd
    obtain ⟨e, he, rfl⟩ := List.mem_map.1 hd
    exact honly e (List.mem_append_right _ he)
  rw [hcache, List.map_append, List.map_cons] at hscan
  obtain ⟨hip, hop⟩ := relayScan_single_relay ax _ _ R _ scan h2 hR horg hscan
  rw [hop] at hinit
  unfold initialRelayAllowedIP at hinit
  simp only [hpre, ne_eq, not_false_eq_true, if_true] at hinit
  cases hm : P.ParseIPNet R.OrganizationPrefix with
  | none => simp [hm] at hinit
  | some orgMask =>
    simp only [hm, Option.some.injEq] at hinit
    subst hinit
    rw [hpeers, hcache, policyPeers_split, stepAllowed_fold_no_relay ax _ _ h1]
    have hsp : ∃ hp, SplitHostPort R.LocalIP = some hp := Option.isSome_iff_exists.1 hsplit
    obtain ⟨⟨host, port⟩, hsp⟩ := hsp
    have hstep : stepPeers ax [(P.ParseNetworkStr (sprintfCidr scan.relayIP orgMask)).1] R =
        [relayPeer [(P.ParseNetworkStr (sprintfCidr scan.relayIP orgMask)).1] R] := by
      simp [stepPeers, hsp, hkey, hR]
    rw [hstep]
    refine ⟨scan.relayIP, orgMask, _, _, hip, rfl, rfl,
      fun p hp => policyPeers_keys ax _ ds1 p hp,
      fun p hp => policyPeers_keys ax _ ds2 p hp, fun hu => ?_⟩
    apply filter_key_split _ _ (relayPeer [(P.ParseNetworkStr (sprintfCidr scan.relayIP orgMask)).1] R)
    · intro p hp
      obtain ⟨e, he, hk⟩ := policyPeers_keys ax _ ds1 p hp
      rw [hk]; exact hu e (List.mem_append_left _ he)
    · intro p hp
      obtain ⟨e, he, hk⟩ := policyPeers_keys ax _ ds2 p hp
      rw [hk]; exact hu e (List.mem_append_right _ he)

/-- C8 witness: the relay-mediation scenario with a bare relay address.  This
host is symmetric and caches itself, relay `R` (AllowedIPs=[10.0.0.254],
OrganizationPrefix=10.0.0.0/24, LocalIP=198.51.100.9:51820) and `C`; on the
reference platform the derived configuration is the single peer `R` with
endpoint 198.51.100.9:51820 and AllowedIPs [10.0.0.254/24], and no peer for `C`. -/
theorem C8_relay_peer_witness :
    (buildPeersConfig refPlatform
      { agentA with symmetricNat := true, deviceCache := [(1, selfA), (3, relayR), (7, devC)] }
      {}).status = .done ∧
    (buildPeersConfig refPlatform
      { agentA with symmetricNat := true, deviceCache := [(1, selfA), (3, relayR), (7, devC)] }
      {}).ax.wgConfig.Peers =
      [{ PublicKey := "R", Endpoint := "198.51.100.9:51820", AllowedIPs := ["10.0.0.254/24"],
         PersistentKeepAlive := "0" }] ∧
    ∃ ip orgMask, relayR.AllowedIPs.head? = some ip ∧
      refPlatform.ParseIPNet relayR.OrganizationPrefix = some orgMask :=
  have key := C8_relay_peer refPlatform
    { agentA with symmetricNat := true, deviceCache := [(1, selfA), (3, relayR), (7, devC)] } {}
    [(1, selfA)] [(7, devC)] 3 relayR rfl (by decide) rfl (by decide) (by decide) (by decide)
    rfl (by decide)
  match key with
  | ⟨ip, orgMask, _, _, hip, hm, _⟩ => ⟨by decide, by decide, ip, orgMask, hip, hm⟩

/-- C8 counterexample: the relay-mediation scenario as the specification writes
it, the relay carrying AllowedIPs=[10.0.0.254/32].  The agent formats
`10.0.0.254/32/24`, which is no CIDR; the one derived peer `R` has the
endpoint 198.51.100.9:51820 but AllowedIPs `[""]`, not `[10.0.0.254/24]`. -/
theorem C8_counterexample :
    sprintfCidr "10.0.0.254/32" 24 = "10.0.0.254/32/24" ∧
    (buildPeersConfig refPlatform
      { agentA with symmetricNat := true, deviceCache := [(1, selfA), (3, relayR32), (7, devC)] }
      {}).status = .done ∧
    (buildPeersConfig refPlatform
      { agentA with symmetricNat := true, deviceCache := [(1, selfA), (3, relayR32), (7, devC)] }
      {}).ax.wgConfig.Peers =
      [{ PublicKey := "R", Endpoint := "198.51.100.9:51820", AllowedIPs := [""],
         PersistentKeepAlive := "0" }] ∧
    (buildPeersConfig refPlatform
      { agentA with symmetricNat := true, deviceCache := [(1, selfA), (3, relayR32), (7, devC)] }
      {}).ax.wgConfig.Peers ≠
      [{ PublicKey := "R", Endpoint := "198.51.100.9:51820", AllowedIPs := ["10.0.0.254/24"],
         PersistentKeepAlive := "0" }] := by
  refine ⟨by decide, by decide, by decide, by decide⟩

/-- C9 (as amended): in the peer persona, for every cached device `D` that is not this host
and not a relay, whose LocalIP splits as host:port and whose ReflexiveIPv4 equals
this host's reflexive address, a completed `buildPeersConfig` adds exactly one
peer for `D`: the derived list is the peers of the devices before `D`, then the
peer with Endpoint = `D.EndpointLocalAddressIPv4` joined with the port of
`D.LocalIP` and AllowedIPs = `D.AllowedIPs` followed by `D.ChildPrefix` (each
once), then the peers of the devices after `D`; when no other cached device
carries `D.PublicKey` it is the only peer with that key. -/
theorem C9_same_lan_peer (P : Platform) (ax : Nexodus) (h : Host) (ds1 ds2 : DeviceCache)
    (k : UUID) (D : Device) (host port : String)
    (hcache : ax.deviceCache = ds1 ++ (k, D) :: ds2)
    (hdone : (buildPeersConfig P ax h).status = .done)
    (hkey : D.PublicKey ≠ ax.wireguardPubKey) (hrelay : D.Relay = false)
    (hsplit : SplitHostPort D.LocalIP = some (host, port))
    (hrefl : D.ReflexiveIPv4 = ax.nodeReflexiveAddress) :
    ∃ pre post,
      (buildPeersConfig P ax h).ax.wgConfig.Peers =
        pre ++ { PublicKey := D.PublicKey,
                 Endpoint := JoinHostPort D.EndpointLocalAddressIPv4 port,
                 AllowedIPs := D.AllowedIPs ++ D.ChildPrefix,
                 PersistentKeepAlive := "0" } :: post ∧
      (∀ p ∈ pre, ∃ e ∈ ds1, p.PublicKey = e.2.PublicKey) ∧
      (∀ p ∈ post, ∃ e ∈ ds2, p.PublicKey = e.2.PublicKey) ∧
      ((∀ e ∈ ds1 ++ ds2, e.2.PublicKey ≠ D.PublicKey) →
        (buildPeersConfig P ax h).ax.wgConfig.Peers.filter (fun p => p.PublicKey = D.PublicKey) =
          [{ PublicKey := D.PublicKey,
             Endpoint := JoinHostPort D.EndpointLocalAddressIPv4 port,
             AllowedIPs := D.AllowedIPs ++ D.ChildPrefix,
             PersistentKeepAlive := "0" }]) := by
  obtain ⟨scan, allowed0, _, _, _, hpeers⟩ := buildPeersConfig_done P ax h hdone
  rw [hpeers, hcache, policyPeers_split]
  have hstep : ∀ a, stepPeers ax a D = [localPeer D port] := by
    intro a
    simp [stepPeers, hsplit, hkey, hrelay, hrefl]
  rw [hstep]
  refine ⟨_, _, rfl, fun p hp => policyPeers_keys ax _ ds1 p hp,
    fun p hp => policyPeers_keys ax _ ds2 p hp, fun hu => ?_⟩
  apply filter_key_split _ _ (localPeer D port)
  · intro p hp
    obtain ⟨e, he, hk⟩ := policyPeers_keys ax _ ds1 p hp
    rw [hk]; exact hu e (List.mem_append_left _ he)
  · intro p hp
    obtain ⟨e, he, hk⟩ := policyPeers_keys ax _ ds2 p hp
    rw [hk]; exact hu e (List.mem_append_right _ he)

/-- C9 witness: the same-LAN scenario of the specification.  This host has
reflexive address 198.51.100.1 and caches itself and `D`; the derived
configuration is the one peer `D` with endpoint 192.168.1.17:41000. -/
theorem C9_same_lan_peer_witness :
    (buildPeersConfig refPlatform { agentA with deviceCache := [(1, selfA), (4, devD)] } {}).status
      = .done ∧
    (buildPeersConfig refPlatform { agentA with deviceCache := [(1, selfA), (4, devD)] }
      {}).ax.wgConfig.Peers =
      [{ PublicKey := "D", Endpoint := "192.168.1.17:41000", AllowedIPs := ["10.0.0.4/32"],
         PersistentKeepAlive := "0" }] ∧
    ∃ pre post,
      (buildPeersConfig refPlatform { agentA with deviceCache := [(1, selfA), (4, devD)] }
        {}).ax.wgConfig.Peers =
        pre ++ { PublicKey := devD.PublicKey,
                 Endpoint := JoinHostPort devD.EndpointLocalAddressIPv4 "41000",
                 AllowedIPs := devD.AllowedIPs ++ devD.ChildPrefix,
                 PersistentKeepAlive := "0" } :: post :=
  have key := C9_same_lan_peer refPlatform { agentA with deviceCache := [(1, selfA), (4, devD)] } {}
    [(1, selfA)] [] 4 devD "198.51.100.1" "41000" rfl (by decide) (by decide) rfl (by decide) rfl
  ⟨by decide, by decide, key.imp (fun _ hpre => hpre.imp (fun _ hpost => hpost.1))⟩

/-- C9 counterexample: this host caches itself, a relay of its organization
whose first allowed IP is the empty string, and device `D`, which is not this
host, not a relay, has a LocalIP that splits as host:port and shares this host's
reflexive address.  The relay address is empty while the organization prefix is
set, so `buildPeersConfig` returns before its peer loop: the build is skipped
and no peer is added for `D` (the derived peer list is empty). -/
theorem C9_counterexample :
    devD.PublicKey ≠ agentA.wireguardPubKey ∧ devD.Relay = false ∧
    SplitHostPort devD.LocalIP = some ("198.51.100.1", "41000") ∧
    devD.ReflexiveIPv4 = agentA.nodeReflexiveAddress ∧
    CacheWF [(1, selfA), (3, { relayR32 with AllowedIPs := [""] }), (4, devD)] ∧
    (buildPeersConfig refPlatform
      { agentA with deviceCache :=
          [(1, selfA), (3, { relayR32 with AllowedIPs := [""] }), (4, devD)] } {}).status
      = .skipped ∧
    (buildPeersConfig refPlatform
      { agentA with deviceCache :=
          [(1, selfA), (3, { relayR32 with AllowedIPs := [""] }), (4, devD)] }
      {}).ax.wgConfig.Peers = [] := by
  refine ⟨by decide, rfl, by decide, rfl, by unfold CacheWF; decide, by decide, by decide⟩

/-- C10 (as amended): in the peer persona, for every cached device `D` that is not this
host and not a relay, whose LocalIP splits as host:port and whose reflexive
address differs from this host's, when neither this host nor `D` is symmetric a
completed `buildPeersConfig` adds exactly one peer for `D`: the derived list is
the peers of the devices before `D`, then the direct peer with Endpoint =
`D.LocalIP` and AllowedIPs = `D.AllowedIPs` followed by `D.ChildPrefix`, then the
peers of the devices after `D`; when no other cached device carries
`D.PublicKey` it is the only peer with that key. -/
theorem C10_direct_peer (P : Platform) (ax : Nexodus) (h : Host) (ds1 ds2 : DeviceCache)
    (k : UUID) (D : Device) (host port : String)
    (hcache : ax.deviceCache = ds1 ++ (k, D) :: ds2)
    (hdone : (buildPeersConfig P ax h).status = .done)
    (hkey : D.PublicKey ≠ ax.wireguardPubKey) (hrelay : D.Relay = false)
    (hsplit : SplitHostPort D.LocalIP = some (host, port))
    (hrefl : D.ReflexiveIPv4 ≠ ax.nodeReflexiveAddress)
    (hself : ax.symmetricNat = false) (hsym : D.SymmetricNat = false) :
    ∃ pre post,
      (buildPeersConfig P ax h).ax.wgConfig.Peers =
        pre ++ { PublicKey := D.PublicKey, Endpoint := D.LocalIP,
                 AllowedIPs := D.AllowedIPs ++ D.ChildPrefix,
                 PersistentKeepAlive := "0" } :: post ∧
      (∀ p ∈ pre, ∃ e ∈ ds1, p.PublicKey = e.2.PublicKey) ∧
      (∀ p ∈ post, ∃ e ∈ ds2, p.PublicKey = e.2.PublicKey) ∧
      ((∀ e ∈ ds1 ++ ds2, e.2.PublicKey ≠ D.PublicKey) →
        (buildPeersConfig P ax h).ax.wgConfig.Peers.filter (fun p => p.PublicKey = D.PublicKey) =
          [{ PublicKey := D.PublicKey, Endpoint := D.LocalIP,
             AllowedIPs := D.AllowedIPs ++ D.ChildPrefix,
             PersistentKeepAlive := "0" }]) := by
  obtain ⟨scan, allowed0, _, _, _, hpeers⟩ := buildPeersConfig_done P ax h hdone
  rw [hpeers, hcache, policyPeers_split]
  have hrefl' : ¬ ax.nodeReflexiveAddress = D.ReflexiveIPv4 := fun hh => hrefl hh.symm
  have hstep : ∀ a, stepPeers ax a D = [directPeer D] := by
    intro a
    simp [stepPeers, hsplit, hkey, hrelay, hrefl', hself, hsym]
  rw [hstep]
  refine ⟨_, _, rfl, fun p hp => policyPeers_keys ax _ ds1 p hp,
    fun p hp => policyPeers_keys ax _ ds2 p hp, fun hu => ?_⟩
  apply filter_key_split _ _ (directPeer D)
  · intro p hp
    obtain ⟨e, he, hk⟩ := policyPeers_keys ax _ ds1 p hp
    rw [hk]; exact hu e (List.mem_append_left _ he)
  · intro p hp
    obtain ⟨e, he, hk⟩ := policyPeers_keys ax _ ds2 p hp
    rw [hk]; exact hu e (List.mem_append_right _ he)

/-- C10 witness: the clean-enrollment scenario of the specification.  Starting
from an empty cache the controller returns `[self, B]`; the first reconcile
derives the one peer `B` with endpoint 203.0.113.5:51820 and allowed IP
10.0.0.2/32, installs it, adds the route `10.0.0.2/32 dev wg0` and brings the
interface up with address 10.0.0.1. -/
theorem C10_direct_peer_witness :
    (Reconcile refPlatform agentA {} (some [selfA, devB]) true).1 = .returned none ∧
    (Reconcile refPlatform agentA {} (some [selfA, devB]) true).2.1.wgConfig.Peers =
      [{ PublicKey := "B", Endpoint := "203.0.113.5:51820", AllowedIPs := ["10.0.0.2/32"],
         PersistentKeepAlive := "0" }] ∧
    (Reconcile refPlatform agentA {} (some [selfA, devB]) true).2.2.wgPeers = ["B"] ∧
    (Reconcile refPlatform agentA {} (some [selfA, devB]) true).2.2.routes
      = [⟨"10.0.0.2/32", "wg0"⟩] ∧
    (Reconcile refPlatform agentA {} (some [selfA, devB]) true).2.2.ifaceIPv4 = some "10.0.0.1" ∧
    ∃ pre post,
      (buildPeersConfig refPlatform { agentA with deviceCache := [(1, selfA), (2, devB)] }
        {}).ax.wgConfig.Peers =
        pre ++ { PublicKey := devB.PublicKey, Endpoint := devB.LocalIP,
                 AllowedIPs := devB.AllowedIPs ++ devB.ChildPrefix,
                 PersistentKeepAlive := "0" } :: post :=
  have key := C10_direct_peer refPlatform { agentA with deviceCache := [(1, selfA), (2, devB)] } {}
    [(1, selfA)] [] 2 devB "203.0.113.5" "51820" rfl (by decide) (by decide) rfl (by decide)
    (by decide) rfl rfl
  ⟨by decide, by decide, by decide, by decide, by decide,
   key.imp (fun _ hpre => hpre.imp (fun _ hpost => hpost.1))⟩

/-- C10 counterexample: neither this host nor device `B` is symmetric, `B` is
not this host, not a relay, has a LocalIP that splits as host:port and a
reflexive address other than this host's.  With a relay of this host's
organization in the cache whose first allowed IP is the empty string the build
is skipped, and with a relay whose organization prefix `bogus` is no CIDR the
build exits; in both runs `buildPeersConfig` ends before its peer loop and no
direct peer is added for `B`. -/
theorem C10_counterexample :
    agentA.symmetricNat = false ∧ devB.SymmetricNat = false ∧
    devB.PublicKey ≠ agentA.wireguardPubKey ∧ devB.Relay = false ∧
    SplitHostPort devB.LocalIP = some ("203.0.113.5", "51820") ∧
    devB.ReflexiveIPv4 ≠ agentA.nodeReflexiveAddress ∧
    (buildPeersConfig refPlatform
      { agentA with deviceCache :=
          [(1, selfA), (3, { relayR32 with AllowedIPs := [""] }), (2, devB)] } {}).status
      = .skipped ∧
    (buildPeersConfig refPlatform
      { agentA with deviceCache :=
          [(1, selfA), (3, { relayR32 with AllowedIPs := [""] }), (2, devB)] }
      {}).ax.wgConfig.Peers = [] ∧
    (buildPeersConfig refPlatform
      { agentA with deviceCache :=
          [(1, selfA), (3, { relayR32 with OrganizationPrefix := "bogus" }), (2, devB)] }
      {}).status = .exited ∧
    (buildPeersConfig refPlatform
      { agentA with deviceCache :=
          [(1, selfA), (3, { relayR32 with OrganizationPrefix := "bogus" }), (2, devB)] }
      {}).ax.wgConfig.Peers = [] := by
  refine ⟨rfl, rfl, by decide, rfl, by decide, by decide, by decide, by decide, by decide,
    by decide⟩

/-- C11: in the peer persona the configuration a completed `buildPeersConfig`
derives is the concatenation, in cache order, of one contribution per cached
device.  Every contribution holds at most one peer, and only peers with the
key of its device; the contribution of a device that is not a relay and whose
reflexive address differs from this host's is empty when this host is symmetric
or the device is symmetric. -/
theorem C11_policy_arms_exclusive (P : Platform) (ax : Nexodus) (h : Host)
    (hdone : (buildPeersConfig P ax h).status = .done) :
    ∃ parts : List (List WgPeerConfig),
      (buildPeersConfig P ax h).ax.wgConfig.Peers = parts.flatten ∧
      List.Forall₂ (fun d ps =>
          ps.length ≤ 1 ∧ (∀ p ∈ ps, p.PublicKey = d.PublicKey) ∧
          (d.Relay = false → ax.nodeReflexiveAddress ≠ d.ReflexiveIPv4 →
            (ax.symmetricNat = true ∨ d.SymmetricNat = true) → ps = []))
        (ax.deviceCache.map Prod.snd) parts := by
  obtain ⟨_, allowed0, _, _, _, hpeers⟩ := buildPeersConfig_done P ax h hdone
  rw [hpeers]
  apply policyPeers_parts ax
  intro allowed value
  refine ⟨stepPeers_length_le ax allowed value, ?_, ?_⟩
  · intro p hp
    exact (mem_stepPeers ax allowed value p hp).1
  · intro hrelay hrefl hsym
    exact stepPeers_eq_nil ax allowed value hrelay hrefl hsym

/-- C11 witness: this host caches itself, the direct peer `B`, the same-LAN peer
`D` and the symmetric device `T` behind another NAT; the derived configuration
splits into the contributions `[]`, `[B]`, `[D]`, `[]`. -/
theorem C11_policy_arms_exclusive_witness :
    (buildPeersConfig refPlatform
      { agentA with deviceCache := [(1, selfA), (2, devB), (4, devD), (6, devT)] } {}).status
      = .done ∧
    (buildPeersConfig refPlatform
      { agentA with deviceCache := [(1, selfA), (2, devB), (4, devD), (6, devT)] }
      {}).ax.wgConfig.Peers = [directPeer devB, localPeer devD "41000"] ∧
    ∃ parts : List (List WgPeerConfig),
      (buildPeersConfig refPlatform
        { agentA with deviceCache := [(1, selfA), (2, devB), (4, devD), (6, devT)] }
        {}).ax.wgConfig.Peers = parts.flatten ∧
      List.Forall₂ (fun d ps =>
          ps.length ≤ 1 ∧ (∀ p ∈ ps, p.PublicKey = d.PublicKey) ∧
          (d.Relay = false → agentA.nodeReflexiveAddress ≠ d.ReflexiveIPv4 →
            (agentA.symmetricNat = true ∨ d.SymmetricNat = true) → ps = []))
        [selfA, devB, devD, devT] parts :=
  ⟨by decide, by decide,
   C11_policy_arms_exclusive refPlatform
     { agentA with deviceCache := [(1, selfA), (2, devB), (4, devD), (6, devT)] } {} (by decide)⟩

/-- C12: in both personas a completed `buildPeersConfig` skips every cached
device whose `LocalIP` does not split into host:port.  The derived peers are
the concatenation, in cache order, of one contribution per cached device, each
holding only peers with the key of its device, and the contribution of a device
whose `LocalIP` does not split is empty; every route addition the build issues
is for a child prefix of a cached device whose `LocalIP` splits. -/
theorem C12_unsplit_device_is_skipped (P : Platform) (ax : Nexodus) (nexr : Nexrelay)
    (h : Host)
    (hd1 : (buildPeersConfig P ax h).status = .done)
    (hd2 : (Nexrelay.buildPeersConfig P nexr h).status = .done) :
    (∃ parts : List (List WgPeerConfig),
      (buildPeersConfig P ax h).ax.wgConfig.Peers = parts.flatten ∧
      List.Forall₂ (fun d ps =>
          (∀ p ∈ ps, p.PublicKey = d.PublicKey) ∧ (SplitHostPort d.LocalIP = none → ps = []))
        (ax.deviceCache.map Prod.snd) parts) ∧
    (∀ dst dev, Call.AddRoute dst dev ∈ callsSince h (buildPeersConfig P ax h).host →
      ∃ d ∈ ax.deviceCache.map Prod.snd,
        (SplitHostPort d.LocalIP).isSome = true ∧ dst ∈ d.ChildPrefix) ∧
    (∃ parts : List (List WgPeerConfig),
      (Nexrelay.buildPeersConfig P nexr h).nexr.wgConfig.Peers = parts.flatten ∧
      List.Forall₂ (fun d ps =>
          (∀ p ∈ ps, p.PublicKey = d.PublicKey) ∧ (SplitHostPort d.LocalIP = none → ps = []))
        (nexr.deviceCache.map Prod.snd) parts) ∧
    (∀ dst dev, Call.AddRoute dst dev ∈ callsSince h (Nexrelay.buildPeersConfig P nexr h).host →
      ∃ d ∈ nexr.deviceCache.map Prod.snd,
        (SplitHostPort d.LocalIP).isSome = true ∧ dst ∈ d.ChildPrefix) := by
  refine ⟨?_, ?_, ?_, ?_⟩
  · obtain ⟨_, allowed0, _, _, _, hpeers⟩ := buildPeersConfig_done P ax h hd1
    rw [hpeers]
    apply policyPeers_parts ax
    intro allowed value
    exact ⟨fun p hp => (mem_stepPeers ax allowed value p hp).1,
      fun hs => stepPeers_eq_nil_of_unsplit ax allowed value hs⟩
  · intro dst dev hc
    rcases (callsSince_of_emits (buildPeersConfig_emits P ax h)).2 _ hc with h1 | ⟨d, hd, hs, _, cp, hcp, he⟩
    · exact Call.noConfusion h1
    · injection he with e1 _
      exact ⟨d, hd, hs, e1 ▸ hcp⟩
  · apply Nexrelay.relay_buildPeersConfig_parts P nexr h hd2
    intro value
    refine ⟨fun p hp => (Nexrelay.relay_mem_stepPeers nexr value p hp).1, fun hs => ?_⟩
    unfold Nexrelay.stepPeers
    rw [hs]
  · intro dst dev hc
    rcases (callsSince_of_emits (Nexrelay.relay_buildPeersConfig_emits P nexr h)).2 _ hc with
      h1 | ⟨d, hd, hs, _, cp, hcp, he⟩
    · exact Call.noConfusion h1
    · injection he with e1 _
      exact ⟨d, hd, hs, e1 ▸ hcp⟩

/-- C12 witness: the peer agent and the relay agent each cache themselves, peer
`B` and device `N`, whose `LocalIP` is `(none)` and which announces the child
prefix 192.168.99.0/24.  Both builds derive peers for `B` only and issue no
route addition for the prefix of `N`. -/
theorem C12_unsplit_device_is_skipped_witness :
    SplitHostPort devN.LocalIP = none ∧
    (buildPeersConfig refPlatform
      { agentA with deviceCache := [(1, selfA), (2, devB), (11, devN)] } {}).ax.wgConfig.Peers
      = [directPeer devB] ∧
    callsSince {} (Nexrelay.buildPeersConfig refPlatform
      { relayAgent with deviceCache := [(3, relaySelf), (2, devB), (11, devN)] } {}).host = [] ∧
    ((∃ parts : List (List WgPeerConfig),
      (buildPeersConfig refPlatform
        { agentA with deviceCache := [(1, selfA), (2, devB), (11, devN)] }
        {}).ax.wgConfig.Peers = parts.flatten ∧
      List.Forall₂ (fun d ps =>
          (∀ p ∈ ps, p.PublicKey = d.PublicKey) ∧ (SplitHostPort d.LocalIP = none → ps = []))
        [selfA, devB, devN] parts) ∧
    (∀ dst dev, Call.AddRoute dst dev ∈ callsSince {} (buildPeersConfig refPlatform
        { agentA with deviceCache := [(1, selfA), (2, devB), (11, devN)] } {}).host →
      ∃ d ∈ [selfA, devB, devN],
        (SplitHostPort d.LocalIP).isSome = true ∧ dst ∈ d.ChildPrefix) ∧
    (∃ parts : List (List WgPeerConfig),
      (Nexrelay.buildPeersConfig refPlatform
        { relayAgent with deviceCache := [(3, relaySelf), (2, devB), (11, devN)] }
        {}).nexr.wgConfig.Peers = parts.flatten ∧
      List.Forall₂ (fun d ps =>
          (∀ p ∈ ps, p.PublicKey = d.PublicKey) ∧ (SplitHostPort d.LocalIP = none → ps = []))
        [relaySelf, devB, devN] parts) ∧
    (∀ dst dev, Call.AddRoute dst dev ∈ callsSince {} (Nexrelay.buildPeersConfig refPlatform
        { relayAgent with deviceCache := [(3, relaySelf), (2, devB), (11, devN)] } {}).host →
      ∃ d ∈ [relaySelf, devB, devN],
        (SplitHostPort d.LocalIP).isSome = true ∧ dst ∈ d.ChildPrefix)) :=
  ⟨by decide, by decide, by decide,
   C12_unsplit_device_is_skipped refPlatform
     { agentA with deviceCache := [(1, selfA), (2, devB), (11, devN)] }
     { relayAgent with deviceCache := [(3, relaySelf), (2, devB), (11, devN)] } {}
     (by decide) (by decide)⟩

/-- C13: in both personas no peer of the configuration a completed
`buildPeersConfig` derives carries this host's own public key; and every call
an incremental deployment issues, in either persona, is a command of the
interface setup or belongs to the installation of a peer of the configuration
whose key is not this host's key: no route and no peer entry is installed for
the self key. -/
theorem C13_no_self_peer (P : Platform) (ax : Nexodus) (nexr : Nexrelay) (h : Host)
    (np : List Device)
    (hd1 : (buildPeersConfig P ax h).status = .done)
    (hd2 : (Nexrelay.buildPeersConfig P nexr h).status = .done) :
    (∀ p ∈ (buildPeersConfig P ax h).ax.wgConfig.Peers, p.PublicKey ≠ ax.wireguardPubKey) ∧
    (∀ p ∈ (Nexrelay.buildPeersConfig P nexr h).nexr.wgConfig.Peers,
      p.PublicKey ≠ nexr.wireguardPubKey) ∧
    (∀ c ∈ callsSince h (DeployWireguardConfig P ax h np false).2,
      (∃ args, c = .RunCommand args) ∨
      ∃ p ∈ ax.wgConfig.Peers, p.PublicKey ≠ ax.wireguardPubKey ∧
        ∃ seg, InstallSegment ax.tunnelIface false p seg ∧ c ∈ seg) ∧
    (∀ c ∈ callsSince h (Nexrelay.DeployWireguardConfig P nexr h np false).2,
      (∃ args, c = .RunCommand args) ∨
      ∃ p ∈ nexr.wgConfig.Peers, p.PublicKey ≠ nexr.wireguardPubKey ∧
        ∃ seg, InstallSegment nexr.tunnelIface true p seg ∧ c ∈ seg) := by
  refine ⟨?_, ?_, ?_, ?_⟩
  · obtain ⟨_, allowed0, _, _, _, hpeers⟩ := buildPeersConfig_done P ax h hd1
    rw [hpeers]
    intro p hp
    obtain ⟨d, _, hpd, hadm⟩ := mem_policyPeers ax allowed0 _ p hp
    rw [hpd]
    exact policyAdmits_ne_self ax d hadm
  · rw [Nexrelay.relay_buildPeersConfig_done P nexr h hd2]
    intro p hp
    obtain ⟨d, _, hpd⟩ := List.mem_flatMap.1 hp
    obtain ⟨hk, hne, _⟩ := Nexrelay.relay_mem_stepPeers nexr d p hpd
    rw [hk]
    exact hne
  · intro c hc
    rcases (callsSince_of_emits (DeployWireguardConfig_calls_any P ax h np false)).2 c hc with
      h1 | ⟨p, hp, seg, hs, hm⟩
    · exact Or.inl h1
    · simp only [Bool.false_eq_true, if_false] at hp
      obtain ⟨hin, hown, _⟩ := (mem_selectedPeers _ _ _ p).1 hp
      exact Or.inr ⟨p, hin, hown, seg, hs, hm⟩
  · intro c hc
    rcases (callsSince_of_emits (Nexrelay.relay_DeployWireguardConfig_calls_any P nexr h np false)).2
      c hc with h1 | ⟨p, hp, seg, hs, hm⟩
    · exact Or.inl h1
    · simp only [Bool.false_eq_true, if_false] at hp
      obtain ⟨hin, hown, _⟩ := (mem_selectedPeers _ _ _ p).1 hp
      exact Or.inr ⟨p, hin, hown, seg, hs, hm⟩

/-- C13 witness: with the interface up, the peer agent caches itself and `B`
and the relay agent caches itself and `B`; each derives a configuration without
a peer for its own key, and an incremental deployment with the agent's own entry
as the new peer issues no call. -/
theorem C13_no_self_peer_witness :
    (buildPeersConfig refPlatform
      { agentUp with deviceCache := [(1, selfBare), (2, devB)] } hostUp).ax.wgConfig.Peers
      = [directPeer devB] ∧
    callsSince hostUp (DeployWireguardConfig refPlatform
      { agentUp with deviceCache := [(1, selfBare), (2, devB)] } hostUp [selfBare] false).2 = [] ∧
    ((∀ p ∈ (buildPeersConfig refPlatform
        { agentUp with deviceCache := [(1, selfBare), (2, devB)] } hostUp).ax.wgConfig.Peers,
      p.PublicKey ≠ "A") ∧
    (∀ p ∈ (Nexrelay.buildPeersConfig refPlatform
        { relayAgent with deviceCache := [(3, relaySelf), (2, devB)] }
        hostUp).nexr.wgConfig.Peers,
      p.PublicKey ≠ "R")) :=
  have key := C13_no_self_peer refPlatform
    { agentUp with deviceCache := [(1, selfBare), (2, devB)] }
    { relayAgent with deviceCache := [(3, relaySelf), (2, devB)] } hostUp [selfBare]
    (by decide) (by decide)
  ⟨by decide, by decide, key.1, key.2.1⟩

/-- C14 (as amended): in the relay persona the peers a completed
`buildPeersConfig` derives are the concatenation, in cache order, of one
contribution per cached device.  For a device `D` that is not this host and
whose `LocalIP` splits as host:port, the contribution starts with the peer with
`PublicKey = D.PublicKey`, `Endpoint = D.LocalIP` and
`AllowedIPs = D.AllowedIPs ++ D.ChildPrefix`.  A second peer follows exactly
when `D` is not a relay and shares the relay's reflexive address (the local
entry, `Endpoint = D.EndpointLocalAddressIPv4:port`) or is not symmetric (a
second entry with `Endpoint = D.LocalIP`); otherwise the contribution is that
one peer. -/
theorem C14_relay_persona_peers (P : Platform) (nexr : Nexrelay) (h : Host)
    (hdone : (Nexrelay.buildPeersConfig P nexr h).status = .done) :
    ∃ parts : List (List WgPeerConfig),
      (Nexrelay.buildPeersConfig P nexr h).nexr.wgConfig.Peers = parts.flatten ∧
      List.Forall₂ (fun D ps =>
          ∀ host port, SplitHostPort D.LocalIP = some (host, port) →
            D.PublicKey ≠ nexr.wireguardPubKey →
            ps = { PublicKey := D.PublicKey, Endpoint := D.LocalIP,
                   AllowedIPs := D.AllowedIPs ++ D.ChildPrefix,
                   PersistentKeepAlive := PersistentHubKeepalive } ::
              (if nexr.nodeReflexiveAddress = D.ReflexiveIPv4 ∧ D.Relay = false then
                [{ PublicKey := D.PublicKey,
                   Endpoint := JoinHostPort D.EndpointLocalAddressIPv4 port,
                   AllowedIPs := D.AllowedIPs ++ D.ChildPrefix ++ D.ChildPrefix,
                   PersistentKeepAlive := PersistentKeepalive }]
               else if D.SymmetricNat = false ∧ D.Relay = false then
                [{ PublicKey := D.PublicKey, Endpoint := D.LocalIP,
                   AllowedIPs := D.AllowedIPs ++ D.ChildPrefix ++ D.ChildPrefix,
                   PersistentKeepAlive := PersistentKeepalive }]
               else []) ∧
            ps.length =
              (if D.Relay = false ∧
                  (nexr.nodeReflexiveAddress = D.ReflexiveIPv4 ∨ D.SymmetricNat = false)
               then 2 else 1))
        (nexr.deviceCache.map Prod.snd) parts := by
  apply Nexrelay.relay_buildPeersConfig_parts P nexr h hdone
  intro D host port hs hk
  have hstep : Nexrelay.stepPeers nexr D =
      { PublicKey := D.PublicKey, Endpoint := D.LocalIP,
        AllowedIPs := D.AllowedIPs ++ D.ChildPrefix,
        PersistentKeepAlive := PersistentHubKeepalive } ::
      (if nexr.nodeReflexiveAddress = D.ReflexiveIPv4 ∧ D.Relay = false then
        [{ PublicKey := D.PublicKey,
           Endpoint := JoinHostPort D.EndpointLocalAddressIPv4 port,
           AllowedIPs := D.AllowedIPs ++ D.ChildPrefix ++ D.ChildPrefix,
           PersistentKeepAlive := PersistentKeepalive }]
       else if D.SymmetricNat = false ∧ D.Relay = false then
        [{ PublicKey := D.PublicKey, Endpoint := D.LocalIP,
           AllowedIPs := D.AllowedIPs ++ D.ChildPrefix ++ D.ChildPrefix,
           PersistentKeepAlive := PersistentKeepalive }]
       else []) := by
    unfold Nexrelay.stepPeers
    simp only [hs, hk, if_false]
  refine ⟨hstep, ?_⟩
  rw [hstep]
  cases hr : D.Relay <;> cases hsym : D.SymmetricNat <;>
    by_cases hrefl : nexr.nodeReflexiveAddress = D.ReflexiveIPv4 <;> simp [hrefl]

/-- C14 witness: the relay caches itself, the device `L` on its own LAN, the
device `C` elsewhere and the symmetric device `T`.  `L` contributes two peers
(the second is the local entry), `C` contributes two peers with `Endpoint =
C.LocalIP`, and `T` contributes one. -/
theorem C14_relay_persona_peers_witness :
    (Nexrelay.buildPeersConfig refPlatform
      { relayAgent with deviceCache := [(3, relaySelf), (14, devL), (7, devC), (6, devT)] }
      {}).nexr.wgConfig.Peers.map (fun p => (p.PublicKey, p.Endpoint)) =
      [("L", "198.51.100.9:43000"), ("L", "192.168.7.14:43000"),
       ("C", "198.51.100.42:51820"), ("C", "198.51.100.42:51820"),
       ("T", "203.0.113.6:42000")] ∧
    ∃ parts : List (List WgPeerConfig),
      (Nexrelay.buildPeersConfig refPlatform
        { relayAgent with deviceCache := [(3, relaySelf), (14, devL), (7, devC), (6, devT)] }
        {}).nexr.wgConfig.Peers = parts.flatten ∧
      List.Forall₂ (fun D ps =>
          ∀ host port, SplitHostPort D.LocalIP = some (host, port) →
            D.PublicKey ≠ relayAgent.wireguardPubKey →
            ps = { PublicKey := D.PublicKey, Endpoint := D.LocalIP,
                   AllowedIPs := D.AllowedIPs ++ D.ChildPrefix,
                   PersistentKeepAlive := PersistentHubKeepalive } ::
              (if relayAgent.nodeReflexiveAddress = D.ReflexiveIPv4 ∧ D.Relay = false then
                [{ PublicKey := D.PublicKey,
                   Endpoint := JoinHostPort D.EndpointLocalAddressIPv4 port,
                   AllowedIPs := D.AllowedIPs ++ D.ChildPrefix ++ D.ChildPrefix,
                   PersistentKeepAlive := PersistentKeepalive }]
               else if D.SymmetricNat = false ∧ D.Relay = false then
                [{ PublicKey := D.PublicKey, Endpoint := D.LocalIP,
                   AllowedIPs := D.AllowedIPs ++ D.ChildPrefix ++ D.ChildPrefix,
                   PersistentKeepAlive := PersistentKeepalive }]
               else []) ∧
            ps.length =
              (if D.Relay = false ∧
                  (relayAgent.nodeReflexiveAddress = D.ReflexiveIPv4 ∨ D.SymmetricNat = false)
               then 2 else 1))
        [relaySelf, devL, devC, devT] parts :=
  ⟨by decide,
   C14_relay_persona_peers refPlatform
     { relayAgent with deviceCache := [(3, relaySelf), (14, devL), (7, devC), (6, devT)] } {}
     (by decide)⟩

/-- C14 counterexample: device `C` is not a relay, is not symmetric, and its
reflexive address differs from the relay's; the claim gives it exactly one peer,
the relay build derives two peers for it. -/
theorem C14_counterexample :
    devC.Relay = false ∧ devC.ReflexiveIPv4 ≠ relayAgent.nodeReflexiveAddress ∧
    SplitHostPort devC.LocalIP = some ("198.51.100.42", "51820") ∧
    (Nexrelay.buildPeersConfig refPlatform
      { relayAgent with deviceCache := [(3, relaySelf), (7, devC)] } {}).status = .done ∧
    (Nexrelay.buildPeersConfig refPlatform
      { relayAgent with deviceCache := [(3, relaySelf), (7, devC)] } {}).nexr.wgConfig.Peers =
      [{ PublicKey := "C", Endpoint := "198.51.100.42:51820", AllowedIPs := ["10.0.0.3/32"],
         PersistentKeepAlive := "0" },
       { PublicKey := "C", Endpoint := "198.51.100.42:51820", AllowedIPs := ["10.0.0.3/32"],
         PersistentKeepAlive := "0" }] := by
  refine ⟨by decide, by decide, by decide, by decide, by decide⟩

/-- C15 (as amended): a `DeployWireguardConfig` that returns nil, in either
persona, invokes the route handler and then the tunnel handler once for each
peer it installs, in order, and invokes them for nothing else.  On the first
deployment the installed peers are all peers of the derived configuration.  On
a later deployment they are the selected peers: a peer is selected exactly when
it is in the derived configuration, its key differs from this host's, and its
key is that of some device in `newPeers` whose ID is not nil. -/
theorem C15_deployment_installs (P : Platform) (ax : Nexodus) (nexr : Nexrelay) (h : Host)
    (np : List Device) (ft : Bool)
    (hok1 : (DeployWireguardConfig P ax h np ft).1 = none)
    (hok2 : (Nexrelay.DeployWireguardConfig P nexr h np ft).1 = none) :
    (callsSince h (DeployWireguardConfig P ax h np ft).2).filter Call.isHandler =
      (if ft then ax.wgConfig.Peers
       else selectedPeers ax.wgConfig.Peers ax.wireguardPubKey np).flatMap
        (fun p => [.HandlePeerRoute p.AllowedIPs ax.tunnelIface,
                   .HandlePeerTunnel p ax.tunnelIface false]) ∧
    (callsSince h (Nexrelay.DeployWireguardConfig P nexr h np ft).2).filter Call.isHandler =
      (if ft then nexr.wgConfig.Peers
       else selectedPeers nexr.wgConfig.Peers nexr.wireguardPubKey np).flatMap
        (fun p => [.HandlePeerRoute p.AllowedIPs nexr.tunnelIface,
                   .HandlePeerTunnel p nexr.tunnelIface true]) ∧
    ∀ (peers : List WgPeerConfig) (ownKey : String) (p : WgPeerConfig),
      p ∈ selectedPeers peers ownKey np ↔
        p ∈ peers ∧ p.PublicKey ≠ ownKey ∧
          ∃ n ∈ np, n.ID ≠ uuidNil ∧ p.PublicKey = n.PublicKey := by
  refine ⟨?_, ?_, fun peers ownKey p => mem_selectedPeers peers ownKey np p⟩
  · obtain ⟨setup, segs, e, q, f⟩ := DeployWireguardConfig_calls P ax h np ft hok1
    rw [callsSince_append h _ _ e, List.filter_append, setup_filter_isHandler q,
      segments_filter_isHandler f]
    rfl
  · obtain ⟨setup, segs, e, q, f⟩ := Nexrelay.relay_DeployWireguardConfig_calls P nexr h np ft hok2
    rw [callsSince_append h _ _ e, List.filter_append, setup_filter_isHandler q,
      segments_filter_isHandler f]
    rfl

/-- C15 witness: with the interface up and peer `B` in the derived
configuration, an incremental deployment for the new peer `B` invokes the two
handlers for `B`, in the peer agent and in the relay agent. -/
theorem C15_deployment_installs_witness :
    (callsSince hostUp (DeployWireguardConfig refPlatform agentUp hostUp [devB] false).2).filter
        Call.isHandler =
      [.HandlePeerRoute ["10.0.0.2/32"] "wg0", .HandlePeerTunnel (directPeer devB) "wg0" false] ∧
    (callsSince hostUp (Nexrelay.DeployWireguardConfig refPlatform
        { relayAgent with wgLocalAddress := "10.0.0.1",
                          wgConfig := { Peers := [directPeer devB] } }
        hostUp [devB] false).2).filter Call.isHandler =
      (selectedPeers [directPeer devB] "R" [devB]).flatMap
        (fun p => [.HandlePeerRoute p.AllowedIPs "wg0", .HandlePeerTunnel p "wg0" true]) :=
  ⟨by decide,
   (C15_deployment_installs refPlatform agentUp
      { relayAgent with wgLocalAddress := "10.0.0.1", wgConfig := { Peers := [directPeer devB] } }
      hostUp [devB] false (by decide) (by decide)).2.1⟩

/-- C15 counterexample: peer `B` is in the derived configuration, its key is
that of the one device in `newPeers` and is not this host's key, but the ID of
that device is nil: the incremental deployment returns nil and issues no call
at all, so nothing is installed for `B`. -/
theorem C15_counterexample :
    directPeer devB ∈ agentUp.wgConfig.Peers ∧
    (directPeer devB).PublicKey = devBnil.PublicKey ∧
    devBnil.PublicKey ≠ agentUp.wireguardPubKey ∧
    DeployWireguardConfig refPlatform agentUp hostUp [devBnil] false = (none, hostUp) ∧
    callsSince hostUp (DeployWireguardConfig refPlatform agentUp hostUp [devBnil] false).2 = []
    := by
  refine ⟨by decide, by decide, by decide, by decide, by decide⟩

/-- C16 (the code at the failing input): on a platform where `ip link add`
fails, a deployment that has to set up the interface fails with
`InterfaceErr`.  In the first-time cycle the agent exits (`logger.Fatal`); in a
periodic cycle the same error is returned to the caller and the agent does not
exit.  Two inputs: (1) the listing `[self, B]` reconciled from a fresh state,
where the only call is the failed `ip link add`; (2) the agent and host left by
a successful first cycle on `[self, B]`, then a periodic listing in which this
host has the new overlay address `10.0.0.7`: the interface is deleted, the
`ip link add` fails, and the periodic cycle returns the error. -/
theorem C16_periodic_interface_error_is_returned :
    ((DeployWireguardConfig noLinkPlatform
      (buildPeersConfig noLinkPlatform
        { agentA with deviceCache := [(1, selfA), (2, devB)] } {}).ax
      (buildPeersConfig noLinkPlatform
        { agentA with deviceCache := [(1, selfA), (2, devB)] } {}).host
      [selfA, devB] false).1 = some .InterfaceErr ∧
    (Reconcile noLinkPlatform agentA {} (some [selfA, devB]) true).1 = .exited ∧
    (Reconcile noLinkPlatform agentA {} (some [selfA, devB]) false).1
      = .returned (some .InterfaceErr) ∧
    (Reconcile noLinkPlatform agentA {} (some [selfA, devB]) false).2.2.calls
      = [.RunCommand ["ip", "link", "add", "wg0", "type", "wireguard"]]) ∧
    ((Reconcile refPlatform agentA {} (some [selfBare, devB]) true).1 = .returned none ∧
    (Reconcile noLinkPlatform
      (Reconcile refPlatform agentA {} (some [selfBare, devB]) true).2.1
      (Reconcile refPlatform agentA {} (some [selfBare, devB]) true).2.2
      (some [{ selfBare with TunnelIP := "10.0.0.7" }, devB]) false).1
      = .returned (some .InterfaceErr) ∧
    callsSince (Reconcile refPlatform agentA {} (some [selfBare, devB]) true).2.2
      (Reconcile noLinkPlatform
        (Reconcile refPlatform agentA {} (some [selfBare, devB]) true).2.1
        (Reconcile refPlatform agentA {} (some [selfBare, devB]) true).2.2
        (some [{ selfBare with TunnelIP := "10.0.0.7" }, devB]) false).2.2
      = [.DelLink "wg0", .RunCommand ["ip", "link", "add", "wg0", "type", "wireguard"]] ∧
    (Reconcile noLinkPlatform
      (Reconcile refPlatform agentA {} (some [selfBare, devB]) true).2.1
      (Reconcile refPlatform agentA {} (some [selfBare, devB]) true).2.2
      (some [{ selfBare with TunnelIP := "10.0.0.7" }, devB]) true).1 = .exited) := by
  refine ⟨⟨by decide, by decide, by decide, by decide⟩,
    ⟨by decide, by decide, by decide, by decide⟩⟩

/-- C17: the calls one `Reconcile` issues split into a first part without any
removal (no `deletePeer`, no route deletion, no `ConfigureDevice` that removes
a peer) followed by a part without any installation (no route addition, no
peer handler, no `addPeer`, no `ConfigureDevice` that adds a peer): every
installation precedes every removal.  The calls of one `DeployWireguardConfig`
are the commands of the interface setup followed by one segment per installed
peer of the configuration, and in each segment the route handler and its route
additions for the allowed IPs of the peer come before the tunnel handler and the
peer entry. -/
theorem C17_installation_order (P : Platform) (ax : Nexodus) (h : Host)
    (fetched : Option (List Device)) (np : List Device) (ft : Bool) :
    (∃ A D, callsSince h (Reconcile P ax h fetched ft).2.2 = A ++ D ∧
      (∀ c ∈ A, c.removes = false) ∧ (∀ c ∈ D, c.installs = false)) ∧
    (∃ (setup : List Call) (segs : List (List Call)) (ps : List WgPeerConfig),
      callsSince h (DeployWireguardConfig P ax h np ft).2 = setup ++ segs.flatten ∧
      (∀ c ∈ setup, ∃ args, c = .RunCommand args) ∧
      (∀ p ∈ ps, p ∈ ax.wgConfig.Peers) ∧
      List.Forall₂ (InstallSegment ax.tunnelIface false) ps segs) := by
  constructor
  · cases fetched with
    | none => exact ⟨[], [], by simp [Reconcile, callsSince], by simp, by simp⟩
    | some L =>
      cases ft with
      | false =>
        obtain ⟨A, D, e, qA, qD⟩ := reconcileUpdate_order P ax h L []
        refine ⟨A, D, ?_, qA, qD⟩
        simp only [Reconcile, Bool.false_eq_true, if_false]
        exact callsSince_append h _ _ e
      | true =>
        simp only [Reconcile, if_true]
        obtain ⟨A1, e1, q1⟩ := buildAndDeploy_no_removal P
          { ax with deviceCache := (L.foldl diffStep (ax.deviceCache, false, [])).1 } h
          (L.foldl diffStep (ax.deviceCache, false, [])).2.2 true
        cases hr : (buildAndDeploy P
            { ax with deviceCache := (L.foldl diffStep (ax.deviceCache, false, [])).1 } h
            (L.foldl diffStep (ax.deviceCache, false, [])).2.2 true).1 with
        | some res =>
          refine ⟨A1, [], ?_, q1, by simp⟩
          simp only [List.append_nil]
          exact callsSince_append h _ _ e1
        | none =>
          simp only
          obtain ⟨A2, D, e2, q2, qD⟩ := reconcileUpdate_order P
            (buildAndDeploy P
              { ax with deviceCache := (L.foldl diffStep (ax.deviceCache, false, [])).1 } h
              (L.foldl diffStep (ax.deviceCache, false, [])).2.2 true).2.1
            (buildAndDeploy P
              { ax with deviceCache := (L.foldl diffStep (ax.deviceCache, false, [])).1 } h
              (L.foldl diffStep (ax.deviceCache, false, [])).2.2 true).2.2
            L (L.foldl diffStep (ax.deviceCache, false, [])).2.2
          refine ⟨A1 ++ A2, D, ?_, ?_, qD⟩
          · apply callsSince_append
            rw [e2, e1]
            simp only [List.append_assoc]
          · intro c hc
            rcases List.mem_append.1 hc with h1 | h1
            · exact q1 c h1
            · exact q2 c h1
  · cases hr : (DeployWireguardConfig P ax h np ft).1 with
    | some e =>
      obtain ⟨cs, e1, q1⟩ := DeployWireguardConfig_calls_err P ax h np ft e hr
      refine ⟨cs, [], [], ?_, q1, by simp, List.Forall₂.nil⟩
      simp only [List.flatten_nil, List.append_nil]
      exact callsSince_append h _ _ e1
    | none =>
      obtain ⟨setup, segs, e1, q1, f⟩ := DeployWireguardConfig_calls P ax h np ft hr
      refine ⟨setup, segs, _, callsSince_append h _ _ e1, q1, ?_, f⟩
      intro p hp
      cases ft with
      | true => simpa using hp
      | false =>
        simp only [Bool.false_eq_true, if_false] at hp
        exact ((mem_selectedPeers _ _ _ p).1 hp).1

/-- C18: `buildLocalConfig`, in both personas.  When the cache holds the entry
`d` of this host (the one cached device with this host's public key), the
recorded local address afterwards is `d.TunnelIP`, the recorded interface
configuration is this host's private key and listen port, and the existing
tunnel link is deleted (`DelLink`) exactly when `d.TunnelIP` differs from the
address recorded before; otherwise the host is untouched.  When the cache holds
no entry with this host's key, agent and host are unchanged. -/
theorem C18_buildLocalConfig (P : Platform) (ax : Nexodus) (nexr : Nexrelay) (h : Host)
    (d dr : Device)
    (hd : d ∈ ax.deviceCache.map Prod.snd) (hk : d.PublicKey = ax.wireguardPubKey)
    (hu : ∀ x ∈ ax.deviceCache.map Prod.snd, x.PublicKey = ax.wireguardPubKey → x = d)
    (hdr : dr ∈ nexr.deviceCache.map Prod.snd) (hkr : dr.PublicKey = nexr.wireguardPubKey)
    (hur : ∀ x ∈ nexr.deviceCache.map Prod.snd, x.PublicKey = nexr.wireguardPubKey → x = dr) :
    ((buildLocalConfig P ax h).1.wgLocalAddress = d.TunnelIP ∧
      (buildLocalConfig P ax h).1.wgConfig.Interface =
        { PrivateKey := ax.wireguardPvtKey, ListenPort := ax.listenPort } ∧
      (buildLocalConfig P ax h).2 =
        if ax.wgLocalAddress ≠ d.TunnelIP ∧ h.linkExists = true then
          (DelLink P h ax.tunnelIface).2
        else h) ∧
    ((Nexrelay.buildLocalConfig P nexr h).1.wgLocalAddress = dr.TunnelIP ∧
      (Nexrelay.buildLocalConfig P nexr h).1.wgConfig.Interface =
        { PrivateKey := nexr.wireguardPvtKey, ListenPort := nexr.listenPort } ∧
      (Nexrelay.buildLocalConfig P nexr h).2 =
        if nexr.wgLocalAddress ≠ dr.TunnelIP ∧ h.linkExists = true then
          (DelLink P h nexr.tunnelIface).2
        else h) ∧
    (∀ (ax0 : Nexodus) (h0 : Host),
      (∀ x ∈ ax0.deviceCache.map Prod.snd, x.PublicKey ≠ ax0.wireguardPubKey) →
      buildLocalConfig P ax0 h0 = (ax0, h0)) ∧
    (∀ (nexr0 : Nexrelay) (h0 : Host),
      (∀ x ∈ nexr0.deviceCache.map Prod.snd, x.PublicKey ≠ nexr0.wireguardPubKey) →
      Nexrelay.buildLocalConfig P nexr0 h0 = (nexr0, h0)) := by
  refine ⟨?_, ?_, ?_, ?_⟩
  · have key := buildLocalConfig_fold_self P (ax.deviceCache.map Prod.snd) (ax, h) d hd hk hu
    unfold buildLocalConfig
    rw [key]
    exact ⟨rfl, rfl, rfl⟩
  · have key := Nexrelay.relay_buildLocalConfig_fold_self P (nexr.deviceCache.map Prod.snd) (nexr, h)
      dr hdr hkr hur
    unfold Nexrelay.buildLocalConfig
    rw [key]
    exact ⟨rfl, rfl, rfl⟩
  · intro ax0 h0 hno
    exact buildLocalConfig_fold_no_self P _ (ax0, h0) hno
  · intro nexr0 h0 hno
    exact Nexrelay.relay_buildLocalConfig_fold_no_self P _ (nexr0, h0) hno

/-- C18 witness: the peer agent has recorded `10.0.0.1` and finds `10.0.0.1/32`
in its own entry, the relay agent has recorded nothing and finds `10.0.0.254`;
both record the new address and delete the existing link. -/
theorem C18_buildLocalConfig_witness :
    (buildLocalConfig refPlatform { agentUp with deviceCache := [(1, selfA), (2, devB)] }
      hostUp).1.wgLocalAddress = "10.0.0.1/32" ∧
    (buildLocalConfig refPlatform { agentUp with deviceCache := [(1, selfA), (2, devB)] }
      hostUp).2.calls = [.DelLink "wg0"] ∧
    (buildLocalConfig refPlatform { agentUp with deviceCache := [(1, selfA), (2, devB)] }
        hostUp).2 =
      (if agentUp.wgLocalAddress ≠ selfA.TunnelIP ∧ hostUp.linkExists = true then
        (DelLink refPlatform hostUp "wg0").2
       else hostUp) ∧
    (Nexrelay.buildLocalConfig refPlatform
      { relayAgent with deviceCache := [(3, relaySelf), (2, devB)] } hostUp).1.wgLocalAddress
      = "10.0.0.254" :=
  have key := C18_buildLocalConfig refPlatform
    { agentUp with deviceCache := [(1, selfA), (2, devB)] }
    { relayAgent with deviceCache := [(3, relaySelf), (2, devB)] } hostUp selfA relaySelf
    (by decide) (by decide) (by decide) (by decide) (by decide) (by decide)
  ⟨key.1.1, by decide, key.1.2.2, key.2.1.1⟩

/-- C19: the relay state sampler.  For every device list and every session dump,
after the listing request `relayStateReconcile` issues, in listing order, one
`UpdateDevice(peer.ID, {LocalIP: e})` for each listed peer that is not flagged
`SymmetricNat`, whose public key appears in the dump, and whose dumped endpoint
`e` splits as host:port, and nothing else.  An empty endpoint and `(none)` do
not split, so such peers and symmetric peers receive no update; in the scenario
of the specification `K` is updated with `203.0.113.77:55512` and `M` is not. -/
theorem C19_relay_state_sampler (nexr : Nexrelay) (orgID : UUID) (L : List Device)
    (dump : List WgSessions) :
    (Nexrelay.relayStateReconcile nexr orgID (some L) dump).2 =
      .GetDeviceInOrganization orgID ::
        L.filterMap (fun peer =>
          if peer.SymmetricNat = true then none
          else (relayData dump peer.PublicKey).bind (fun s =>
            if (SplitHostPort s.Endpoint).isSome = true then
              some (.UpdateDevice peer.ID { LocalIP := s.Endpoint })
            else none)) ∧
    (∀ id body, ApiCall.UpdateDevice id body ∈
        (Nexrelay.relayStateReconcile nexr orgID (some L) dump).2 ↔
      ∃ peer ∈ L, peer.SymmetricNat = false ∧
        ∃ s, relayData dump peer.PublicKey = some s ∧
          (SplitHostPort s.Endpoint).isSome = true ∧
          id = peer.ID ∧ body = { LocalIP := s.Endpoint }) ∧
    SplitHostPort "" = none ∧ SplitHostPort "(none)" = none ∧
    (Nexrelay.relayStateReconcile relayAgent 1 (some [relaySelf, devK, devM]) sessionDump).2 =
      [.GetDeviceInOrganization 1, .UpdateDevice devK.ID { LocalIP := "203.0.113.77:55512" }] := by
  have hfold : ∀ (l : List Device) (acc : List ApiCall),
      l.foldl (fun calls peer =>
        if peer.SymmetricNat = true then calls
        else
          match relayData dump peer.PublicKey with
          | none => calls
          | some session =>
            if session.Endpoint ≠ "" then
              match SplitHostPort session.Endpoint with
              | none => calls
              | some _ => calls ++ [.UpdateDevice peer.ID { LocalIP := session.Endpoint }]
            else calls) acc =
      acc ++ l.filterMap (fun peer =>
          if peer.SymmetricNat = true then none
          else (relayData dump peer.PublicKey).bind (fun s =>
            if (SplitHostPort s.Endpoint).isSome = true then
              some (.UpdateDevice peer.ID { LocalIP := s.Endpoint })
            else none)) := by
    intro l
    induction l with
    | nil => intro acc; simp
    | cons p rest ih =>
      intro acc
      simp only [List.foldl_cons, List.filterMap_cons]
      rw [ih]
      by_cases hs : p.SymmetricNat = true
      · simp [hs]
      · simp only [hs, if_false]
        cases hr : relayData dump p.PublicKey with
        | none => simp
        | some s =>
          simp only [Option.some_bind]
          by_cases he : s.Endpoint = ""
          · have h0 : SplitHostPort "" = none := by decide
            simp [he, h0]
          · cases hsp : SplitHostPort s.Endpoint with
            | none => simp [he]
            | some x => simp [he]
  have hcalls : (Nexrelay.relayStateReconcile nexr orgID (some L) dump).2 =
      .GetDeviceInOrganization orgID ::
        L.filterMap (fun peer =>
          if peer.SymmetricNat = true then none
          else (relayData dump peer.PublicKey).bind (fun s =>
            if (SplitHostPort s.Endpoint).isSome = true then
              some (.UpdateDevice peer.ID { LocalIP := s.Endpoint })
            else none)) := by
    exact hfold L [.GetDeviceInOrganization orgID]
  refine ⟨hcalls, ?_, by decide, by decide, by decide⟩
  intro id body
  rw [hcalls]
  simp only [List.mem_cons, List.mem_filterMap]
  constructor
  · rintro (h1 | ⟨peer, hp, h2⟩)
    · exact ApiCall.noConfusion h1
    · cases hs : peer.SymmetricNat with
      | true => simp [hs] at h2
      | false =>
        cases hr : relayData dump peer.PublicKey with
        | none => simp [hs, hr] at h2
        | some s =>
          cases hsp : (SplitHostPort s.Endpoint).isSome with
          | false => simp [hs, hr, hsp] at h2
          | true =>
            simp only [hs, hr, hsp, Bool.false_eq_true, if_false, if_true, Option.some_bind,
              Option.some.injEq, ApiCall.UpdateDevice.injEq] at h2
            exact ⟨peer, hp, hs, s, hr, hsp, h2.1.symm, h2.2.symm⟩
  · rintro ⟨peer, hp, hs, s, hr, hsp, hid, hb⟩
    right
    refine ⟨peer, hp, ?_⟩
    simp [hs, hr, hsp, hid, hb]

/-- C20 (as amended): `orgRelayCheck` on a listing `L` returns no error; when
`L` lists a device with `Relay=true` and a public key other than this host's it
returns the ID of such a device (the first one); when `L` lists none it returns
the nil ID.  When no listed device carries the nil ID, it returns the nil ID
only when no such device is listed, and `Start` then fails before it registers
(it sends no `CreateDevice`) whenever the listing shows another device with
`Relay=true`. -/
theorem C20_relay_check (env : StartEnv) (nexr : Nexrelay) (L : List Device)
    (hl : env.listing = some L) (hid : ∀ p ∈ L, p.ID ≠ uuidNil) :
    (Nexrelay.orgRelayCheck nexr (some L)).2 = true ∧
    ((∃ p ∈ L, p.Relay = true ∧ p.PublicKey ≠ nexr.wireguardPubKey) →
      ∃ p ∈ L, p.Relay = true ∧ p.PublicKey ≠ nexr.wireguardPubKey ∧
        (Nexrelay.orgRelayCheck nexr (some L)).1 = p.ID) ∧
    ((Nexrelay.orgRelayCheck nexr (some L)).1 = uuidNil ↔
      ∀ p ∈ L, ¬ (p.Relay = true ∧ p.PublicKey ≠ nexr.wireguardPubKey)) ∧
    ((∃ p ∈ L, p.Relay = true ∧ p.PublicKey ≠ (Nexrelay.Start env nexr).2.1.wireguardPubKey) →
      (∃ msg, (Nexrelay.Start env nexr).1 = .failed msg) ∧
      ∀ body, ApiCall.CreateDevice body ∉ (Nexrelay.Start env nexr).2.2) := by
  obtain ⟨h1, h2, h3⟩ := Nexrelay.orgRelayCheck_some nexr L
  refine ⟨h1, h2, ⟨fun hnil => ?_, h3⟩, ?_⟩
  · intro p hp hrel
    obtain ⟨q, hq, _, _, hqid⟩ := h2 ⟨p, hp, hrel⟩
    exact hid q hq (hqid ▸ hnil)
  · intro hrelay
    unfold Nexrelay.Start at hrelay ⊢
    cases hs : Nexrelay.startSession env nexr with
    | error r =>
      simp only
      exact ⟨⟨r.1, rfl⟩, Nexrelay.startSession_error env nexr r hs⟩
    | ok v =>
      obtain ⟨n, u⟩ := v
      simp only [hs, hl] at hrelay ⊢
      obtain ⟨c1, c2, _⟩ := Nexrelay.orgRelayCheck_some n L
      simp only [c1, Bool.not_true, Bool.false_eq_true, if_false] at hrelay ⊢
      by_cases hchk : (Nexrelay.orgRelayCheck n (some L)).1 ≠ uuidNil
      · rw [if_pos hchk]
        refine ⟨⟨_, rfl⟩, ?_⟩
        intro body hb
        simp at hb
      · exfalso
        rw [if_neg hchk, Nexrelay.startRegister_key] at hrelay
        obtain ⟨q, hq, _, _, hqid⟩ := c2 hrelay
        exact hid q hq (hqid ▸ (by simpa using hchk))

/-- C20 witness: the controller lists `B` and another relay `Q`; the check
returns the ID of `Q`, and `Start` fails after the listing request without
sending `CreateDevice`. -/
theorem C20_relay_check_witness :
    Nexrelay.orgRelayCheck relayAgent (some [devB, otherRelay]) = (20, true) ∧
    (Nexrelay.Start (startEnv [devB, otherRelay]) relayAgent).2.2 =
      [.GetCurrentUser, .GetDeviceInOrganization 1] ∧
    (∃ msg, (Nexrelay.Start (startEnv [devB, otherRelay]) relayAgent).1 = .failed msg) ∧
    ∀ body, ApiCall.CreateDevice body ∉
      (Nexrelay.Start (startEnv [devB, otherRelay]) relayAgent).2.2 :=
  ⟨by decide, by decide,
   (C20_relay_check (startEnv [devB, otherRelay]) relayAgent [devB, otherRelay] rfl
      (by decide)).2.2.2 ⟨otherRelay, by decide, by decide, by decide⟩⟩

/-- C20 counterexample: the controller lists `B` and a device with `Relay=true`,
public key `Q` and the nil ID.  Another device claims to be the relay, yet
`orgRelayCheck` returns the nil ID and `Start` goes on to register: it sends
`CreateDevice` and ends registered. -/
theorem C20_counterexample :
    nilRelay ∈ [devB, nilRelay] ∧ nilRelay.Relay = true ∧
    nilRelay.PublicKey ≠ relayAgent.wireguardPubKey ∧
    Nexrelay.orgRelayCheck relayAgent (some [devB, nilRelay]) = (uuidNil, true) ∧
    (Nexrelay.Start (startEnv [devB, nilRelay]) relayAgent).1 =
      .registered { ID := 3, PublicKey := "R", LocalIP := "198.51.100.9:51820", Relay := true } ∧
    (Nexrelay.Start (startEnv [devB, nilRelay]) relayAgent).2.2.length = 3 := by
  refine ⟨by decide, by decide, by decide, by decide, by decide, by decide⟩

/-- C21: registration in `Nexodus.Start`.  Let `body` be the `AddDevice` request
`Start` has sent.  When `CreateDevice` answers with a conflict whose device ID
parses, `Start` sends `UpdateDevice` on that ID, and the update carries
`LocalIP`, `ChildPrefix`, `ReflexiveIPv4`, `EndpointLocalAddressIPv4`,
`SymmetricNat` and `Hostname` with the values of `body`; when the update
succeeds `Start` goes on to its first `Reconcile` (the listing request is the
next and last request), and when the update fails `Start` returns an error.
When `CreateDevice` fails otherwise (another error, or a conflict whose ID does
not parse) `Start` returns an error right after `CreateDevice`.  In the failing
cases no `Reconcile` runs: no listing is requested and the host is untouched. -/
theorem C21_conflict_on_register (P : Platform) (env : StartEnv) (ax : Nexodus) (h : Host)
    (body : AddDevice) (hb : ApiCall.CreateDevice body ∈ (Start P env ax h).2.2.2) :
    (∀ id, env.createDevice body = .conflict (some id) →
      ∃ upd : UpdateDevice,
        upd.LocalIP = body.LocalIP ∧ upd.ChildPrefix = body.ChildPrefix ∧
        upd.ReflexiveIPv4 = body.ReflexiveIPv4 ∧
        upd.EndpointLocalAddressIPv4 = body.EndpointLocalAddressIPv4 ∧
        upd.SymmetricNat = body.SymmetricNat ∧ upd.Hostname = body.Hostname ∧
        ((env.updateDevice id upd).isSome = true →
          ∃ ax', (Start P env ax h).1 = .reconciled (Reconcile P ax' h env.listing true).1 ∧
            (Start P env ax h).2.2.1 = (Reconcile P ax' h env.listing true).2.2 ∧
            (Start P env ax h).2.2.2 =
              [.GetCurrentUser, .CreateDevice body, .UpdateDevice id upd,
               .GetDeviceInOrganization ax'.organization]) ∧
        (env.updateDevice id upd = none →
          (Start P env ax h).1 = .failed "error updating device" ∧
          (Start P env ax h).2.2.1 = h ∧
          (Start P env ax h).2.2.2 =
            [.GetCurrentUser, .CreateDevice body, .UpdateDevice id upd])) ∧
    ((env.createDevice body = .failed ∨ env.createDevice body = .conflict none) →
      (∃ msg, (Start P env ax h).1 = .failed msg) ∧
      (Start P env ax h).2.2.1 = h ∧
      (Start P env ax h).2.2.2 = [.GetCurrentUser, .CreateDevice body]) := by
  obtain ⟨ax1, uid, ip, port, hs, he, hbody⟩ := Start_reaches P env ax h body hb
  obtain ⟨c1, c2, c3, c4, c5⟩ := startRegister_of_endpoint env ax1 uid [.GetCurrentUser] ip
    port he
  rw [← hbody] at c1 c2 c3 c4 c5
  constructor
  · intro id hc
    refine ⟨startUpdateDevice { ax1 with LocalIP := ip, endpointLocalAddress := ip }
      (JoinHostPort ip (toString port)), ?_, ?_, ?_, ?_, ?_, ?_, ?_, ?_⟩
    · rw [hbody]; rfl
    · rw [hbody]; rfl
    · rw [hbody]; rfl
    · rw [hbody]; rfl
    · rw [hbody]; rfl
    · rw [hbody]; rfl
    · intro hu
      cases hd : env.updateDevice id (startUpdateDevice
          { ax1 with LocalIP := ip, endpointLocalAddress := ip }
          (JoinHostPort ip (toString port))) with
      | none => rw [hd] at hu; cases hu
      | some dev =>
        rw [Start_of_registered P env ax ax1 _ h uid dev _ hs (c4 id dev hc hd)]
        exact ⟨_, rfl, rfl, rfl⟩
    · intro hd
      rw [Start_of_failed P env ax ax1 _ h uid _ _ hs (c5 id hc hd)]
      exact ⟨rfl, rfl, rfl⟩
  · rintro (hc | hc)
    · rw [Start_of_failed P env ax ax1 _ h uid _ _ hs (c2 hc)]
      exact ⟨⟨_, rfl⟩, rfl, rfl⟩
    · rw [Start_of_failed P env ax ax1 _ h uid _ _ hs (c3 hc)]
      exact ⟨⟨_, rfl⟩, rfl, rfl⟩

/-- C21 witness: the controller answers `CreateDevice` with a conflict on
device 1 and accepts the update.  `Start` sends `GetCurrentUser`,
`CreateDevice`, `UpdateDevice(1, …)` and the listing request of its first
`Reconcile`, which returns nil.  With a controller that rejects the update,
`Start` fails after `UpdateDevice`. -/
theorem C21_conflict_on_register_witness :
    (Start refPlatform (peerStartEnv (fun _ => .conflict (some 1)) updateOk)
      { agentA with stun := true } {}).1 = .reconciled (.returned none) ∧
    (Start refPlatform (peerStartEnv (fun _ => .conflict (some 1)) updateOk)
      { agentA with stun := true } {}).2.2.2 =
      [.GetCurrentUser,
       .CreateDevice { UserID := "u", OrganizationID := 1, PublicKey := "A",
                       LocalIP := "198.51.100.1:40000",
                       ReflexiveIPv4 := "198.51.100.1",
                       EndpointLocalAddressIPv4 := "198.51.100.1" },
       .UpdateDevice 1 { LocalIP := "198.51.100.1:40000", ReflexiveIPv4 := "198.51.100.1",
                         EndpointLocalAddressIPv4 := "198.51.100.1" },
       .GetDeviceInOrganization 1] ∧
    (Start refPlatform (peerStartEnv (fun _ => .conflict (some 1)) (fun _ _ => none))
      { agentA with stun := true } {}).1 = .failed "error updating device" ∧
    ∃ upd : UpdateDevice,
      upd.LocalIP = "198.51.100.1:40000" ∧ upd.ChildPrefix = [] ∧
      upd.ReflexiveIPv4 = "198.51.100.1" ∧
      upd.EndpointLocalAddressIPv4 = "198.51.100.1" ∧
      upd.SymmetricNat = false ∧ upd.Hostname = "" :=
  have key := (C21_conflict_on_register refPlatform
    (peerStartEnv (fun _ => .conflict (some 1)) updateOk) { agentA with stun := true } {}
    { UserID := "u", OrganizationID := 1, PublicKey := "A", LocalIP := "198.51.100.1:40000",
      ReflexiveIPv4 := "198.51.100.1", EndpointLocalAddressIPv4 := "198.51.100.1" }
    (by decide)).1 1 rfl
  ⟨by decide, by decide, by decide,
   key.elim fun upd hu => ⟨upd, hu.1, hu.2.1, hu.2.2.1, hu.2.2.2.1, hu.2.2.2.2.1, hu.2.2.2.2.2.1⟩⟩

/-- C22: the endpoint `Start` advertises, in both personas.  Every `CreateDevice`
request `Start` sends carries `LocalIP = ip:port` (and `ip` as the local endpoint
address), where `ip` is the user-provided local endpoint IP when there is one;
otherwise the address a STUN request observes, when STUN is enabled, the node is
not flagged symmetric (the relay has no such flag) and the request succeeds;
otherwise the address `findLocalIP` discovers.  The port is the port the STUN
request observed exactly in the second case, and the listen port in the two
others.  The address a successful STUN request prints is taken to be non-empty,
as `IP.String()` always is. -/
theorem C22_endpoint_selection (P : Platform) (env : StartEnv) (ax : Nexodus)
    (nexr : Nexrelay) (h : Host)
    (hstun : ∀ sip sport, env.stunRequest = some (sip, sport) → sip ≠ "") :
    (∀ body, ApiCall.CreateDevice body ∈ (Start P env ax h).2.2.2 →
      ∃ ip port, body.LocalIP = JoinHostPort ip (toString port) ∧
        body.EndpointLocalAddressIPv4 = ip ∧
        (ax.userProvidedLocalIP ≠ "" → ip = ax.userProvidedLocalIP ∧ port = ax.listenPort) ∧
        (ax.userProvidedLocalIP = "" → ax.stun = true → ax.symmetricNat = false →
          ∀ sip sport, env.stunRequest = some (sip, sport) → ip = sip ∧ port = sport) ∧
        (ax.userProvidedLocalIP = "" →
          (ax.stun = false ∨ ax.symmetricNat = true ∨ env.stunRequest = none) →
          env.findLocalIP = some ip ∧ port = ax.listenPort)) ∧
    (∀ body, ApiCall.CreateDevice body ∈ (Nexrelay.Start env nexr).2.2 →
      ∃ ip port, body.LocalIP = JoinHostPort ip (toString port) ∧
        body.EndpointLocalAddressIPv4 = ip ∧
        (nexr.userProvidedLocalIP ≠ "" →
          ip = nexr.userProvidedLocalIP ∧ port = nexr.listenPort) ∧
        (nexr.userProvidedLocalIP = "" → nexr.stun = true →
          ∀ sip sport, env.stunRequest = some (sip, sport) → ip = sip ∧ port = sport) ∧
        (nexr.userProvidedLocalIP = "" → (nexr.stun = false ∨ env.stunRequest = none) →
          env.findLocalIP = some ip ∧ port = nexr.listenPort)) := by
  have hmap : ∀ (o : Option String) (lp : Int) (ip : String) (port : Int),
      o.map (fun x => (x, lp)) = some (ip, port) → o = some ip ∧ port = lp := by
    intro o lp ip port ho
    cases o with
    | none => cases ho
    | some x =>
      simp only [Option.map_some', Option.some.injEq, Prod.mk.injEq] at ho
      exact ⟨by rw [ho.1], ho.2.symm⟩
  constructor
  · intro body hb
    obtain ⟨ax1, uid, ip, port, hs, he, hbody⟩ := Start_reaches P env ax h body hb
    obtain ⟨f1, f2, f3, f4, _⟩ := startSession_ok env ax ax1 uid hs
    obtain ⟨e1, e2, e3⟩ := startEndpoint_cases env ax1 hstun
    rw [f1, f2] at e1
    rw [f1, f3, f4] at e2
    rw [f1, f2, f3, f4] at e3
    refine ⟨ip, port, by rw [hbody]; rfl, by rw [hbody]; rfl, ?_, ?_, ?_⟩
    · intro hu
      have := e1 hu
      rw [he] at this
      simp only [Option.some.injEq, Prod.mk.injEq] at this
      exact this
    · intro hu hst hsym sip sport hr
      have := e2 hu hst hsym sip sport hr
      rw [he] at this
      simp only [Option.some.injEq, Prod.mk.injEq] at this
      exact this
    · intro hu hor
      have := e3 hu hor
      rw [he] at this
      exact hmap _ _ _ _ this.symm
  · intro body hb
    unfold Nexrelay.Start at hb
    cases hs : Nexrelay.startSession env nexr with
    | error r =>
      simp only [hs] at hb
      exact absurd hb (Nexrelay.startSession_error env nexr r hs body)
    | ok v =>
      obtain ⟨nexr1, uid⟩ := v
      obtain ⟨f1, f2, f3⟩ := Nexrelay.relay_startSession_ok env nexr nexr1 uid hs
      obtain ⟨e1, e2, e3⟩ := Nexrelay.relay_startEndpoint_cases env nexr1 hstun
      rw [f1, f2] at e1
      rw [f3] at e2
      rw [f2, f3] at e3
      simp only [hs] at hb
      split at hb
      · simp at hb
      · split at hb
        · simp at hb
        · obtain ⟨ip, port, he, hl, hep, _⟩ := Nexrelay.relay_startRegister_body env nexr1 uid _ _
            body (by intro b hc; simp at hc) hb
          rw [f1, f2] at he
          refine ⟨ip, port, hl, hep, ?_, ?_, ?_⟩
          · intro hu
            rw [if_pos hu, e1 hu] at he
            simp only [Option.some.injEq, Prod.mk.injEq] at he
            exact ⟨he.1.symm, he.2.symm⟩
          · intro hu hst sip sport hr
            have hn : ¬ (nexr.userProvidedLocalIP ≠ "") := fun hc => hc hu
            rw [if_neg hn, e2 hst sip sport hr] at he
            simp only [Option.some.injEq, Prod.mk.injEq] at he
            exact ⟨he.1.symm, he.2.symm⟩
          · intro hu hor
            have hn : ¬ (nexr.userProvidedLocalIP ≠ "") := fun hc => hc hu
            rw [if_neg hn, e3 hor] at he
            exact hmap _ _ _ _ he

/-- C22 witness: with STUN enabled and no user-provided address, the peer agent
and the relay agent advertise the STUN-observed `198.51.100.1:40000`; the peer
agent flagged symmetric advertises the discovered `192.168.1.10` with its listen
port, and an agent with a user-provided address advertises that address with
the listen port. -/
theorem C22_endpoint_selection_witness :
    (Start refPlatform (peerStartEnv (fun _ => .failed) updateOk)
      { agentA with stun := true } {}).2.2.2 =
      [.GetCurrentUser,
       .CreateDevice { UserID := "u", OrganizationID := 1, PublicKey := "A",
                       LocalIP := "198.51.100.1:40000", ReflexiveIPv4 := "198.51.100.1",
                       EndpointLocalAddressIPv4 := "198.51.100.1" }] ∧
    (∀ body, ApiCall.CreateDevice body ∈
        (Start refPlatform (peerStartEnv (fun _ => .failed) updateOk)
          { agentA with stun := true } {}).2.2.2 →
      body.LocalIP = "198.51.100.1:40000") ∧
    startEndpoint (peerStartEnv (fun _ => .failed) updateOk)
      { agentA with stun := true, symmetricNat := true } = some ("192.168.1.10", 51820) ∧
    startEndpoint (peerStartEnv (fun _ => .failed) updateOk)
      { agentA with stun := true, userProvidedLocalIP := "203.0.113.50" }
      = some ("203.0.113.50", 51820) ∧
    Nexrelay.startEndpoint (peerStartEnv (fun _ => .failed) updateOk)
      { relayAgent with stun := true } ("", 0) = some ("198.51.100.1", 40000) :=
  have key := (C22_endpoint_selection refPlatform (peerStartEnv (fun _ => .failed) updateOk)
    { agentA with stun := true } relayAgent {}
    (by
      intro sip sport hr
      have hreq : (peerStartEnv (fun _ => .failed) updateOk).stunRequest =
          some ("198.51.100.1", 40000) := rfl
      rw [hreq] at hr
      simp only [Option.some.injEq, Prod.mk.injEq] at hr
      rw [← hr.1]
      decide)).1
  ⟨by decide, fun body hb => (key body hb).elim fun ip hip => hip.elim fun port hp => by
      have h2 := hp.2.2.2.1 rfl rfl rfl "198.51.100.1" 40000 rfl
      rw [hp.1, h2.1, h2.2]
      decide,
   by decide, by decide, by decide⟩

/-- C23 (as amended): the NAT classifier when both STUN requests succeed, with
the answers `A1` and `A2` (each with an IP).  The published reflexive address
is the IP of `A1`.  When `A1` equals `A2` in IP and port, `nodePrep` leaves the
symmetric flag as it found it; when `A1` differs from `A2`, the host is flagged
symmetric.  `NewNexodus` sets the flag to the relay-only option before it calls
`nodePrep`, so the agent it returns is flagged symmetric exactly when relay-only
was requested or `A1` differs from `A2`. -/
theorem C23_classifier_both_probes (P : Platform) (ax : Nexodus) (h : Host) (A1 A2 : UDPAddr)
    (hip1 : A1.IP ≠ "") (hip2 : A2.IP ≠ "") :
    (nodePrep P ax h (A1, true) (A2, true)).1.nodeReflexiveAddress = A1.IP ∧
    (A1 = A2 → (nodePrep P ax h (A1, true) (A2, true)).1.symmetricNat = ax.symmetricNat) ∧
    (A1 ≠ A2 → (nodePrep P ax h (A1, true) (A2, true)).1.symmetricNat = true) ∧
    (∀ (env : NewEnv) (a : NexodusArgs) (ax' : Nexodus),
      env.stun1 = (A1, true) → env.stun2 = (A2, true) →
      (NewNexodus P env h a).1 = some ax' →
      ax'.nodeReflexiveAddress = A1.IP ∧
      (ax'.symmetricNat = true ↔ a.relayOnly = true ∨ A1 ≠ A2)) := by
  have hstr : A1.String ≠ A2.String ↔ A1 ≠ A2 := by
    constructor
    · intro hs he; exact hs (by rw [he])
    · intro hs he; exact hs (UDPAddr_String_inj hip1 hip2 he)
  have key : ∀ ax0 : Nexodus,
      (nodePrep P ax0 h (A1, true) (A2, true)).1.nodeReflexiveAddress = A1.IP ∧
      (nodePrep P ax0 h (A1, true) (A2, true)).1.symmetricNat =
        (ax0.symmetricNat || decide (A1 ≠ A2)) := by
    intro ax0
    rw [(nodePrep_agent P ax0 h (A1, true) (A2, true)).1]
    simp only [if_true, Bool.true_and]
    refine ⟨trivial, ?_⟩
    congr 1
    exact decide_eq_decide.2 hstr
  refine ⟨(key ax).1, ?_, ?_, ?_⟩
  · intro he
    rw [(key ax).2]
    simp [he]
  · intro hne
    rw [(key ax).2]
    simp [hne]
  · intro env a ax' h1 h2 hn
    obtain ⟨ax0, hsym, _, hax⟩ := NewNexodus_some P env h a ax' hn
    rw [h1, h2] at hax
    rw [hax, (key ax0).1, (key ax0).2, hsym]
    refine ⟨rfl, ?_⟩
    simp

/-- C23 witness: the two requests observe `198.51.100.1:40000` twice and the
agent is not flagged; they observe the ports 40000 and 40001 and the agent is
flagged symmetric; in both cases the reflexive address is `198.51.100.1`. -/
theorem C23_classifier_both_probes_witness :
    (NewNexodus refPlatform (newEnv (stunA, true) (stunA, true)) {} argsA).1.map
      (fun ax => (ax.nodeReflexiveAddress, ax.symmetricNat)) = some ("198.51.100.1", false) ∧
    (NewNexodus refPlatform (newEnv (stunA, true) (stunB, true)) {} argsA).1.map
      (fun ax => (ax.nodeReflexiveAddress, ax.symmetricNat)) = some ("198.51.100.1", true) ∧
    (nodePrep refPlatform agentA {} (stunA, true) (stunB, true)).1.symmetricNat = true :=
  ⟨by decide, by decide,
   (C23_classifier_both_probes refPlatform agentA {} stunA stunB (by decide) (by decide)).2.2.1
     (by decide)⟩

/-- C23 counterexample: both requests succeed with the same answer
`198.51.100.1:40000`, and the agent was started with the relay-only option; the
agent `NewNexodus` returns is flagged symmetric. -/
theorem C23_counterexample :
    stunA = stunA ∧
    (NewNexodus refPlatform (newEnv (stunA, true) (stunA, true)) {}
      { argsA with relayOnly := true }).1.map
      (fun ax => (ax.nodeReflexiveAddress, ax.symmetricNat)) = some ("198.51.100.1", true) ∧
    (nodePrep refPlatform { agentA with symmetricNat := true } {} (stunA, true)
      (stunA, true)).1.symmetricNat = true := by
  refine ⟨rfl, by decide, by decide⟩

/-- C24 (the code at the failing input): the NAT classifier when exactly one
STUN request fails.  When the second request fails and the first succeeds with
`A1`, the symmetric flag is left as it was and the reflexive address is the IP
of `A1`.  When the first request fails and the second succeeds with `A2`, the
reflexive address is left as it was (the IP of `A2` is not published), and the
address `v` that came with the error of the first request is compared with
`A2`: the host is flagged symmetric whenever the two print differently.  With
the zero address as `v` and `A2 = 198.51.100.1:40000`, the agent `NewNexodus`
returns is flagged symmetric and has an empty reflexive address. -/
theorem C24_first_probe_failure (P : Platform) (ax : Nexodus) (h : Host) (A v : UDPAddr) :
    ((nodePrep P ax h (A, true) (v, false)).1.symmetricNat = ax.symmetricNat ∧
      (nodePrep P ax h (A, true) (v, false)).1.nodeReflexiveAddress = A.IP) ∧
    ((nodePrep P ax h (v, false) (A, true)).1.nodeReflexiveAddress = ax.nodeReflexiveAddress ∧
      (nodePrep P ax h (v, false) (A, true)).1.symmetricNat =
        (ax.symmetricNat || decide (v.String ≠ A.String))) ∧
    (stunZero.String = ":0" ∧ stunA.String = "198.51.100.1:40000" ∧
      (NewNexodus refPlatform (newEnv (stunZero, false) (stunA, true)) {} argsA).1.map
        (fun ax => (ax.nodeReflexiveAddress, ax.symmetricNat)) = some ("", true) ∧
      (NewNexodus refPlatform (newEnv (stunA, true) (stunZero, false)) {} argsA).1.map
        (fun ax => (ax.nodeReflexiveAddress, ax.symmetricNat)) =
        some ("198.51.100.1", false)) := by
  refine ⟨⟨?_, ?_⟩, ⟨?_, ?_⟩, by decide, by decide, by decide, by decide⟩
  · rw [(nodePrep_agent P ax h (A, true) (v, false)).1]
    simp
  · rw [(nodePrep_agent P ax h (A, true) (v, false)).1]
    simp
  · rw [(nodePrep_agent P ax h (v, false) (A, true)).1]
    simp
  · rw [(nodePrep_agent P ax h (v, false) (A, true)).1]
    simp

/-- C25: every WireGuard configuration `addPeer` issues is for the tunnel device,
has `ReplacePeers=false` and holds exactly one peer entry, with the key of the
peer, `Remove=false`, `PersistentKeepaliveInterval=0`, the allowed IPs of the
peer in order, and an endpoint exactly when the relay flag is false (then the
parsed host and port of the peer's endpoint).  It issues that configuration
whenever the WireGuard client opens and key, allowed IPs, endpoint and port
parse.  Every configuration `deletePeer` issues has `ReplacePeers=false` and
the one entry `{key, Remove=true}`, and it is issued whenever the client opens
and the key parses.  On the reference platform: peer `B` installed by the peer
agent carries the endpoint `203.0.113.5:51820`, installed by the relay it
carries none. -/
theorem C25_peer_entry_configuration (P : Platform) (h : Host) (w : WgPeerConfig)
    (iface publicKey : String) (relay : Bool) :
    (∀ dev cfg, Call.ConfigureDevice dev cfg ∈ callsSince h (addPeer P h w iface relay).2 →
      dev = iface ∧ cfg.ReplacePeers = false ∧
      ∃ e, cfg.Peers = [e] ∧ e.PublicKey = w.PublicKey ∧ e.Remove = false ∧
        e.PersistentKeepaliveInterval = some 0 ∧ e.AllowedIPs = w.AllowedIPs ∧
        (e.Endpoint.isSome = true ↔ relay = false) ∧
        (relay = false → ∃ host port n, SplitHostPort w.Endpoint = some (host, port) ∧
          P.Atoi port = some n ∧ e.Endpoint = some ⟨P.ParseIP host, n⟩)) ∧
    ((P.wgctrlNew h = true ∧ P.ParseKey w.PublicKey = true ∧
        w.AllowedIPs.all P.ParseCIDR = true ∧
        ∃ host port, SplitHostPort w.Endpoint = some (host, port) ∧ (P.Atoi port).isSome = true) →
      ∃ cfg, callsSince h (addPeer P h w iface relay).2 =
        [.addPeer w iface relay, .ConfigureDevice iface cfg]) ∧
    (∀ dev cfg, Call.ConfigureDevice dev cfg ∈ callsSince h (deletePeer P h publicKey iface).2 →
      dev = iface ∧
      cfg = { ReplacePeers := false, Peers := [{ PublicKey := publicKey, Remove := true }] }) ∧
    ((P.wgctrlNew h = true ∧ P.ParseKey publicKey = true) →
      callsSince h (deletePeer P h publicKey iface).2 =
        [.deletePeer publicKey iface,
         .ConfigureDevice iface
           { ReplacePeers := false, Peers := [{ PublicKey := publicKey, Remove := true }] }]) ∧
    callsSince hostUp (addPeer refPlatform hostUp (directPeer devB) "wg0" false).2 =
      [.addPeer (directPeer devB) "wg0" false,
       .ConfigureDevice "wg0"
         { ReplacePeers := false,
           Peers := [{ PublicKey := "B", Remove := false,
                       Endpoint := some ⟨"203.0.113.5", 51820⟩,
                       AllowedIPs := ["10.0.0.2/32"],
                       PersistentKeepaliveInterval := some 0 }] }] ∧
    callsSince hostUp (addPeer refPlatform hostUp (directPeer devB) "wg0" true).2 =
      [.addPeer (directPeer devB) "wg0" true,
       .ConfigureDevice "wg0"
         { ReplacePeers := false,
           Peers := [{ PublicKey := "B", Remove := false, Endpoint := none,
                       AllowedIPs := ["10.0.0.2/32"],
                       PersistentKeepaliveInterval := some 0 }] }] := by
  refine ⟨?_, ?_, ?_, ?_, by decide, by decide⟩
  · intro dev cfg hc
    rcases addPeer_calls P h w iface relay with ⟨_, _, e⟩ | ⟨_, _, _, host, port, n, hs, ha, e⟩
    · rw [callsSince_append _ _ _ e] at hc
      simp at hc
    · rw [callsSince_append _ _ _ e] at hc
      simp only [List.mem_cons, List.mem_singleton, List.not_mem_nil, or_false,
        Call.ConfigureDevice.injEq, reduceCtorEq, false_or] at hc
      obtain ⟨hd, hcfg⟩ := hc
      subst hd hcfg
      refine ⟨rfl, rfl, _, rfl, rfl, rfl, rfl, rfl, ?_, ?_⟩
      · cases relay <;> simp
      · intro hr
        subst hr
        exact ⟨host, port, n, hs, ha, rfl⟩
  · rintro ⟨h1, h2, h3, host, port, h4, h5⟩
    rcases addPeer_calls P h w iface relay with ⟨hbad, _, _⟩ | ⟨_, _, _, _, _, _, _, _, e⟩
    · rcases hbad with hb | hb | hb | hb | ⟨host', port', hs, ha⟩
      · rw [h1] at hb; cases hb
      · rw [h2] at hb; cases hb
      · rw [h3] at hb; cases hb
      · rw [h4] at hb; cases hb
      · rw [h4] at hs
        simp only [Option.some.injEq, Prod.mk.injEq] at hs
        rw [hs.2, ha] at h5
        cases h5
    · exact ⟨_, callsSince_append _ _ _ e⟩
  · intro dev cfg hc
    rcases deletePeer_calls P h publicKey iface with ⟨_, _, e⟩ | ⟨_, _, e⟩
    · rw [callsSince_append _ _ _ e] at hc
      simp at hc
    · rw [callsSince_append _ _ _ e] at hc
      simp only [List.mem_cons, List.mem_singleton, List.not_mem_nil, or_false,
        Call.ConfigureDevice.injEq, reduceCtorEq, false_or] at hc
      exact hc
  · rintro ⟨h1, h2⟩
    rcases deletePeer_calls P h publicKey iface with ⟨hbad, _, _⟩ | ⟨_, _, e⟩
    · rcases hbad with hb | hb
      · rw [h1] at hb; cases hb
      · rw [h2] at hb; cases hb
    · exact callsSince_append _ _ _ e

/-- C26 (the code at the failing input): reading an existing key file returns
the content with every newline dropped, wherever it stands, and nothing else:
the result holds no newline, and it is the content itself when the content holds
none.  So a trailing carriage return, space or tab stays in the key
(`k3y=\r\n` reads as `k3y=\r`), and a newline inside the content is dropped
(`k3\ny=\n` reads as `k3y=`).  `generateKeyPair` trims the same text to
`k3y=`. -/
theorem C26_key_file_reading (env : KeyEnv) (keyFile content : String)
    (hex : env.FileExists keyFile = true) (hrd : env.ReadFile keyFile = some content) :
    (∃ key, readKeyFile env keyFile = some key ∧
      '\n' ∉ key.data ∧ List.Sublist key.data content.data ∧
      (∀ c ∈ content.data, c ≠ '\n' → c ∈ key.data) ∧
      ('\n' ∉ content.data → key = content)) ∧
    (readKeyFile (keyEnv "k3y=\r\n") "/etc/wireguard/private.key" = some "k3y=\r" ∧
      readKeyFile (keyEnv "k3y= \n") "/etc/wireguard/private.key" = some "k3y= " ∧
      readKeyFile (keyEnv "k3y=\t") "/etc/wireguard/private.key" = some "k3y=\t" ∧
      readKeyFile (keyEnv "k3\ny=\n") "/etc/wireguard/private.key" = some "k3y=" ∧
      CheckExistingKeys (keyEnv "k3y=\r\n") "/etc/wireguard/public.key"
        "/etc/wireguard/private.key" = some ("k3y=\r", "k3y=\r") ∧
      generateKeyPair (keyEnv "k3y=\r\n") "/etc/wireguard/public.key"
        "/etc/wireguard/private.key" = some ("k3y=", "k3y=") ∧
      TrimSpace "k3y= \n" = "k3y=" ∧ TrimSpace "k3\ny=\n" = "k3\ny=") := by
  refine ⟨⟨stringsReplaceNewline content, ?_, ?_, ?_, ?_, ?_⟩,
    by decide, by decide, by decide, by decide, by decide, by decide, by decide, by decide⟩
  · unfold readKeyFile readKeyFileToString
    simp [hex, hrd]
  · unfold stringsReplaceNewline
    simp
  · unfold stringsReplaceNewline
    exact List.filter_sublist _
  · intro c hc hne
    unfold stringsReplaceNewline
    simp [hc, hne]
  · intro hno
    unfold stringsReplaceNewline
    have : content.data.filter (fun c => decide (c ≠ '\n')) = content.data := by
      rw [List.filter_eq_self]
      intro c hc
      have : c ≠ '\n' := fun he => hno (he ▸ hc)
      simpa using this
    rw [this]

/-- C26 witness: a key file with a clean key and a final newline reads as the
key. -/
theorem C26_key_file_reading_witness :
    readKeyFile (keyEnv "k3y=\n") "/etc/wireguard/private.key" = some "k3y=" ∧
    ∃ key, readKeyFile (keyEnv "k3y=\n") "/etc/wireguard/private.key" = some key ∧
      '\n' ∉ key.data :=
  have key := (C26_key_file_reading (keyEnv "k3y=\n") "/etc/wireguard/private.key" "k3y=\n"
    rfl rfl).1
  ⟨by decide, key.elim fun k hk => ⟨k, hk.1, hk.2.1⟩⟩

/-- C27: the diff loop of `Reconcile`.  One iteration on a device `q` appends
`q` to `newPeers` twice when the ID of `q` is not cached and `q` is not the
zero-valued record, once when the ID is cached with a different record, and not
at all when the cached record equals `q`.  Over a listing `L` with distinct IDs,
a listed device `p` therefore occurs in `newPeers` twice when it is new (so
`newPeers` has duplicates), once when its record changed, and never when it is
unchanged.  An incremental deployment that returns nil runs the route handler
and the tunnel handler once for every occurrence of a device in `newPeers`: a
device that occurs twice has its peers installed twice. -/
theorem C27_new_device_is_appended_twice (L : List Device) (cache : DeviceCache) (p : Device)
    (hnd : (L.map (fun d => d.ID)).Nodup) (hp : p ∈ L) :
    (∀ (st : DeviceCache × Bool × List Device) (q : Device),
      (cacheGet st.1 q.ID = none → q ≠ {} → (diffStep st q).2.2 = st.2.2 ++ [q, q]) ∧
      (∀ e, cacheGet st.1 q.ID = some e → e ≠ q → (diffStep st q).2.2 = st.2.2 ++ [q]) ∧
      (cacheGet st.1 q.ID = some q → (diffStep st q).2.2 = st.2.2)) ∧
    (cacheGet cache p.ID = none → p ≠ {} →
      (L.foldl diffStep (cache, false, [])).2.2.count p = 2 ∧
      ¬ (L.foldl diffStep (cache, false, [])).2.2.Nodup) ∧
    (∀ e, cacheGet cache p.ID = some e → e ≠ p →
      (L.foldl diffStep (cache, false, [])).2.2.count p = 1) ∧
    (cacheGet cache p.ID = some p →
      (L.foldl diffStep (cache, false, [])).2.2.count p = 0) ∧
    (∀ (P : Platform) (ax : Nexodus) (h : Host) (np : List Device),
      (DeployWireguardConfig P ax h np false).1 = none →
      (callsSince h (DeployWireguardConfig P ax h np false).2).filter Call.isHandler =
        np.flatMap (fun n =>
          (selectedPeers ax.wgConfig.Peers ax.wireguardPubKey [n]).flatMap
            (fun w => [.HandlePeerRoute w.AllowedIPs ax.tunnelIface,
                       .HandlePeerTunnel w ax.tunnelIface false]))) := by
  have hcount := count_foldl_diffStep L hnd p hp (cache, false, [])
  simp only [List.count_nil, Nat.zero_add] at hcount
  refine ⟨?_, ?_, ?_, ?_, ?_⟩
  · intro st q
    refine ⟨?_, ?_, ?_⟩
    · intro hc hz
      rw [diffStep_newPeers_absent st q hc, if_neg hz]
    · intro e hc hz
      rw [diffStep_newPeers_present st q e hc, if_neg hz]
    · intro hc
      rw [diffStep_newPeers_present st q q hc, if_pos rfl, List.append_nil]
  · intro hc hz
    rw [hc] at hcount
    simp only [if_neg hz] at hcount
    refine ⟨hcount, ?_⟩
    intro hn
    have := List.nodup_iff_count_le_one.1 hn p
    rw [hcount] at this
    exact absurd this (by decide)
  · intro e hc hz
    rw [hc] at hcount
    simpa [hz] using hcount
  · intro hc
    rw [hc] at hcount
    simpa using hcount
  · intro P ax h np hok
    obtain ⟨setup, segs, e, q, f⟩ := DeployWireguardConfig_calls P ax h np false hok
    rw [callsSince_append h _ _ e, List.filter_append, setup_filter_isHandler q,
      segments_filter_isHandler f]
    simp only [Bool.false_eq_true, if_false, List.nil_append]
    rw [selectedPeers_eq_flatMap, List.flatMap_assoc]

/-- C27 witness: after a first cycle on `[self, B]` the controller lists
`[self, B, X]`.  The diff appends the new device `X` twice, and the periodic
cycle runs the route handler and the tunnel handler for `X` twice: the second
route handler finds the route and adds none, the peer entry is configured
twice. -/
theorem C27_new_device_is_appended_twice_witness :
    ([selfBare, devB, devX].foldl diffStep
      ((Reconcile refPlatform agentA {} (some [selfBare, devB]) true).2.1.deviceCache,
        false, [])).2.2 = [devX, devX] ∧
    (callsSince (Reconcile refPlatform agentA {} (some [selfBare, devB]) true).2.2
      (Reconcile refPlatform (Reconcile refPlatform agentA {} (some [selfBare, devB]) true).2.1
        (Reconcile refPlatform agentA {} (some [selfBare, devB]) true).2.2
        (some [selfBare, devB, devX]) false).2.2).map
      (fun c => match c with
        | .HandlePeerRoute _ _ => "HandlePeerRoute"
        | .AddRoute dst _ => "AddRoute " ++ dst
        | .HandlePeerTunnel w _ _ => "HandlePeerTunnel " ++ w.PublicKey
        | .addPeer w _ _ => "addPeer " ++ w.PublicKey
        | .ConfigureDevice _ _ => "ConfigureDevice"
        | _ => "other") =
      ["HandlePeerRoute", "AddRoute 10.0.0.8/32", "HandlePeerTunnel X", "addPeer X",
       "ConfigureDevice",
       "HandlePeerRoute", "HandlePeerTunnel X", "addPeer X", "ConfigureDevice"] ∧
    ([selfBare, devB, devX].foldl diffStep
      ((Reconcile refPlatform agentA {} (some [selfBare, devB]) true).2.1.deviceCache,
        false, [])).2.2.count devX = 2 ∧
    ¬ ([selfBare, devB, devX].foldl diffStep
      ((Reconcile refPlatform agentA {} (some [selfBare, devB]) true).2.1.deviceCache,
        false, [])).2.2.Nodup :=
  have key := (C27_new_device_is_appended_twice [selfBare, devB, devX]
    (Reconcile refPlatform agentA {} (some [selfBare, devB]) true).2.1.deviceCache devX
    (by decide) (by decide)).2.1 (by decide) (by decide)
  ⟨by decide, by decide, key.1, key.2⟩

/-- C28: `buildPeersConfig`, in both personas, indexes `AllowedIPs[0]` of every
cached device with `Relay=true`, this host's own entry included.  It faults
(index out of range) exactly when the cache holds a device with `Relay=true` and
an empty `AllowedIPs`; so it is free of the fault on every cache in which each
`Relay=true` device has a non-empty `AllowedIPs`, and it faults on every cache
that holds a `Relay=true` device with an empty one.  On the caches `[self, B]`
in which the self entry is a relay without allowed IPs both builds fault,
although the peer loops skip the self entry. -/
theorem C28_relay_allowed_ips_index (P : Platform) (ax : Nexodus) (nexr : Nexrelay) (h : Host) :
    ((buildPeersConfig P ax h).status = .panicked ↔
      ∃ d ∈ ax.deviceCache.map Prod.snd, d.Relay = true ∧ d.AllowedIPs = []) ∧
    ((Nexrelay.buildPeersConfig P nexr h).status = .panicked ↔
      ∃ d ∈ nexr.deviceCache.map Prod.snd, d.Relay = true ∧ d.AllowedIPs = []) ∧
    (buildPeersConfig refPlatform
      { agentA with deviceCache := [(1, { selfA with Relay := true, AllowedIPs := [] }), (2, devB)] }
      {}).status = .panicked ∧
    (Nexrelay.buildPeersConfig refPlatform
      { relayAgent with deviceCache := [(3, { relaySelf with AllowedIPs := [] }), (2, devB)] }
      {}).status = .panicked ∧
    (buildPeersConfig refPlatform
      { agentA with deviceCache := [(1, selfA), (3, relayR32), (2, devB)] } {}).status = .done ∧
    (Nexrelay.buildPeersConfig refPlatform
      { relayAgent with deviceCache := [(3, relaySelf), (2, devB)] } {}).status = .done := by
  refine ⟨buildPeersConfig_panicked_iff P ax h,
    Nexrelay.relay_buildPeersConfig_panicked_iff P nexr h, ?_, ?_, ?_, ?_⟩
  · exact (buildPeersConfig_panicked_iff refPlatform _ {}).2
      ⟨{ selfA with Relay := true, AllowedIPs := [] }, by simp, rfl, rfl⟩
  · exact (Nexrelay.relay_buildPeersConfig_panicked_iff refPlatform _ {}).2
      ⟨{ relaySelf with AllowedIPs := [] }, by simp, rfl, rfl⟩
  · decide
  · decide

/-- C29: when `HandlePeerDelete` returns an error over a well-formed cache, it
stopped at a cached device `p` that is not listed and whose WireGuard removal
failed.  That device is still in the returned cache with its record unchanged;
the returned host is the host as the failed `deletePeer` left it, so routing
table and configured peers are as they were when the removal was attempted and
no route deletion was issued for `p`.  The removal is retried: a later pass over
the returned cache in which removals succeed drops `p` from the cache.  And a
periodic `Reconcile` returns nil or what its build-and-deploy step ended with:
the error of the deletion pass is never returned. -/
theorem C29_failed_removal_keeps_device (P : Platform) (L : List Device) (cache : DeviceCache)
    (iface : String) (h : Host) (hwf : CacheWF cache)
    (hfail : (HandlePeerDelete P L cache iface h).1 = false) :
    (∃ (p : Device) (hF : Host),
      (p.ID, p) ∈ cache ∧ inPeerListing L p = false ∧
      cacheGet (HandlePeerDelete P L cache iface h).2.1 p.ID = some p ∧
      (∃ pre, hF.calls = h.calls ++ pre) ∧
      (deletePeer P hF p.PublicKey iface).1 = false ∧
      (HandlePeerDelete P L cache iface h).2.2 = (deletePeer P hF p.PublicKey iface).2 ∧
      (HandlePeerDelete P L cache iface h).2.2.routes = hF.routes ∧
      (HandlePeerDelete P L cache iface h).2.2.wgPeers = hF.wgPeers ∧
      (∀ c ∈ callsSince hF (HandlePeerDelete P L cache iface h).2.2,
        c = .deletePeer p.PublicKey iface ∨ ∃ cfg, c = .ConfigureDevice iface cfg) ∧
      ∀ (P' : Platform) (h' : Host), (∀ h key, (deletePeer P' h key iface).1 = true) →
        cacheGet (HandlePeerDelete P' L (HandlePeerDelete P L cache iface h).2.1 iface h').2.1
          p.ID = none) ∧
    ∀ (ax : Nexodus) (h0 : Host) (L0 : List Device),
      (Reconcile P ax h0 (some L0) false).1 = .returned none ∨
      (L0.foldl diffStep (ax.deviceCache, false, [])).2.1 = true ∧
      (buildAndDeploy P
        { ax with deviceCache := (L0.foldl diffStep (ax.deviceCache, false, [])).1 } h0
        (L0.foldl diffStep (ax.deviceCache, false, [])).2.2 false).1 =
        some (Reconcile P ax h0 (some L0) false).1 := by
  constructor
  · obtain ⟨p, hF, hm, hl, hget, hd, he, hem⟩ := HandlePeerDelete_fail P L cache iface h hwf hfail
    refine ⟨p, hF, hm, hl, hget, ?_, hd, he, ?_, ?_, ?_, ?_⟩
    · obtain ⟨cs, ecs, _⟩ := hem
      exact ⟨cs, ecs⟩
    · rw [he]; exact deletePeer_routes P hF _ iface
    · rw [he]; exact deletePeer_wgPeers_of_fail P hF _ iface hd
    · intro c hc
      rw [he] at hc
      rcases deletePeer_calls P hF p.PublicKey iface with ⟨_, _, e⟩ | ⟨_, _, e⟩
      · rw [callsSince_append _ _ _ e] at hc
        simp only [List.mem_singleton] at hc
        exact Or.inl hc
      · rw [callsSince_append _ _ _ e] at hc
        simp only [List.mem_cons, List.mem_singleton, List.not_mem_nil, or_false] at hc
        rcases hc with hc | hc
        · exact Or.inl hc
        · exact Or.inr ⟨_, hc⟩
    · intro P' h' hdel
      have hwf' := HandlePeerDelete_wf P L cache iface h hwf
      have := (HandlePeerDelete_cache P' L iface hdel _ hwf' h').2 p.ID
      rw [this]
      rw [inPeerListing_eq] at hl
      simp [hl]
  · intro ax h0 L0
    have := reconcileUpdate_result P ax h0 L0 []
    simpa [Reconcile] using this

/-- C29 witness: after a first cycle on the listing `[self, B, Y]` the WireGuard
device rejects every configuration; the next listing is `[self, B]`.  The
deletion pass fails at `Y`: `Y` is still cached with its record, its route and
its peer entry are still on the host, and the periodic `Reconcile` returns
nil. -/
theorem C29_failed_removal_keeps_device_witness :
    (HandlePeerDelete wgDownPlatform [selfBare, devB]
      (Reconcile refPlatform agentA {} (some firstListing) true).2.1.deviceCache "wg0"
      (Reconcile refPlatform agentA {} (some firstListing) true).2.2).1 = false ∧
    (Reconcile wgDownPlatform
      (Reconcile refPlatform agentA {} (some firstListing) true).2.1
      (Reconcile refPlatform agentA {} (some firstListing) true).2.2
      (some [selfBare, devB]) false).1 = .returned none ∧
    cacheGet (Reconcile wgDownPlatform
      (Reconcile refPlatform agentA {} (some firstListing) true).2.1
      (Reconcile refPlatform agentA {} (some firstListing) true).2.2
      (some [selfBare, devB]) false).2.1.deviceCache 9 = some devY ∧
    (⟨"10.0.0.9/32", "wg0"⟩ : Route) ∈ (Reconcile wgDownPlatform
      (Reconcile refPlatform agentA {} (some firstListing) true).2.1
      (Reconcile refPlatform agentA {} (some firstListing) true).2.2
      (some [selfBare, devB]) false).2.2.routes ∧
    "Y" ∈ (Reconcile wgDownPlatform
      (Reconcile refPlatform agentA {} (some firstListing) true).2.1
      (Reconcile refPlatform agentA {} (some firstListing) true).2.2
      (some [selfBare, devB]) false).2.2.wgPeers ∧
    ∃ (p : Device) (hF : Host),
      (p.ID, p) ∈ (Reconcile refPlatform agentA {} (some firstListing) true).2.1.deviceCache ∧
      inPeerListing [selfBare, devB] p = false ∧
      cacheGet (HandlePeerDelete wgDownPlatform [selfBare, devB]
        (Reconcile refPlatform agentA {} (some firstListing) true).2.1.deviceCache "wg0"
        (Reconcile refPlatform agentA {} (some firstListing) true).2.2).2.1 p.ID = some p ∧
      (deletePeer wgDownPlatform hF p.PublicKey "wg0").1 = false :=
  have key := (C29_failed_removal_keeps_device wgDownPlatform [selfBare, devB]
    (Reconcile refPlatform agentA {} (some firstListing) true).2.1.deviceCache "wg0"
    (Reconcile refPlatform agentA {} (some firstListing) true).2.2
    (by unfold CacheWF; decide) (by decide)).1
  ⟨by decide, by decide, by decide, by decide, by decide,
   key.elim fun p hp => hp.elim fun hF hq => ⟨p, hF, hq.1, hq.2.1, hq.2.2.1, hq.2.2.2.2.1⟩⟩

/-- C30: `DeployWireguardConfig` issues commands (the interface setup) exactly
when the recorded local address differs from the text of the IPv4 address on
the tunnel interface, and then the `ip link add` of the tunnel link is among
them.  When it returns an error, that error is `InterfaceErr`, the recorded
address did differ, and every call it issued is a command: no route and no peer
entry is installed.  A periodic `Reconcile` that returns such an error ends
there: its cache is the cache merged with the listing, it has issued no removal,
and every device that was cached and is not listed is still cached, with its
record unchanged. -/
theorem C30_interface_setup_and_error (P : Platform) (ax : Nexodus) (h : Host)
    (np : List Device) (ft : Bool) :
    ((∃ args, Call.RunCommand args ∈ callsSince h (DeployWireguardConfig P ax h np ft).2) ↔
      ax.wgLocalAddress ≠ GetIPv4IfaceString h) ∧
    (ax.wgLocalAddress ≠ GetIPv4IfaceString h →
      Call.RunCommand ["ip", "link", "add", ax.tunnelIface, "type", "wireguard"] ∈
        callsSince h (DeployWireguardConfig P ax h np ft).2) ∧
    (∀ e', (DeployWireguardConfig P ax h np ft).1 = some e' →
      e' = .InterfaceErr ∧ ax.wgLocalAddress ≠ GetIPv4IfaceString h ∧
      DeployWireguardConfig P ax h np ft = setupInterface P ax h ∧
      ∀ c ∈ callsSince h (DeployWireguardConfig P ax h np ft).2,
        (∃ args, c = .RunCommand args) ∧ c.installs = false) ∧
    (∀ (L : List Device) (e : Err),
      (Reconcile P ax h (some L) false).1 = .returned (some e) →
      e = .InterfaceErr ∧
      (Reconcile P ax h (some L) false).2.1.deviceCache =
        (L.foldl diffStep (ax.deviceCache, false, [])).1 ∧
      (∀ c ∈ callsSince h (Reconcile P ax h (some L) false).2.2, c.removes = false) ∧
      ∀ id d, cacheGet ax.deviceCache id = some d → L.any (fun p => p.ID = id) = false →
        cacheGet (Reconcile P ax h (some L) false).2.1.deviceCache id = some d) := by
  have herr : ∀ (ax : Nexodus) (h : Host) (np : List Device) (ft : Bool) (e' : Err),
      (DeployWireguardConfig P ax h np ft).1 = some e' →
      e' = .InterfaceErr ∧ ax.wgLocalAddress ≠ GetIPv4IfaceString h ∧
      DeployWireguardConfig P ax h np ft = setupInterface P ax h := by
    intro ax h np ft e' he
    have ha : ax.wgLocalAddress ≠ GetIPv4IfaceString h := by
      intro hc
      rw [(DeployWireguardConfig_no_setup P ax h np ft hc).1] at he
      cases he
    have hne : (setupInterface P ax h).1 ≠ none := by
      intro hn
      have hd : (DeployWireguardConfig P ax h np ft).1 = none := by
        unfold DeployWireguardConfig
        simp only
        rw [if_pos ha]
        rcases hs : setupInterface P ax h with ⟨e0, h1⟩
        rw [hs] at hn
        simp only at hn
        subst hn
        cases ft <;> simp
      rw [hd] at he
      cases he
    have heq := (DeployWireguardConfig_setup P ax h np ft ha).2 hne
    rw [heq] at he
    exact ⟨setupInterface_err P ax h e' he, ha, heq⟩
  refine ⟨?_, ?_, ?_, ?_⟩
  · constructor
    · rintro ⟨args, hc⟩ heq
      obtain ⟨_, segs, ecs, hf⟩ := DeployWireguardConfig_no_setup P ax h np ft heq
      rw [callsSince_append _ _ _ ecs] at hc
      obtain ⟨p, _, seg, hs, hm⟩ := segments_mem hf hc
      exact hs.not_command args hm
    · intro ha
      exact ⟨_, (DeployWireguardConfig_setup P ax h np ft ha).1⟩
  · intro ha
    exact (DeployWireguardConfig_setup P ax h np ft ha).1
  · intro e' he
    obtain ⟨h1, h2, h3⟩ := herr ax h np ft e' he
    refine ⟨h1, h2, h3, ?_⟩
    intro c hc
    obtain ⟨args, hargs⟩ :=
      (callsSince_of_emits (DeployWireguardConfig_calls_err P ax h np ft e' he)).2 c hc
    exact ⟨⟨args, hargs⟩, by rw [hargs]; rfl⟩
  · intro L e hret
    have hru : (reconcileUpdate P ax h L []).1 = .returned (some e) := by
      simpa [Reconcile] using hret
    have hR : Reconcile P ax h (some L) false = reconcileUpdate P ax h L [] := by
      simp [Reconcile]
    obtain ⟨_, hcache, hdep, _, hem⟩ := reconcileUpdate_error P ax h L e hru
    rw [hR]
    refine ⟨(herr _ _ _ _ e hdep).1, hcache, (callsSince_of_emits hem).2, ?_⟩
    intro id d hd hl
    rw [hcache, cacheGet_foldl_diffStep, foldl_pick_of_not_listed L id _ hl]
    exact hd

/-- C30 witness: after a first cycle on the listing `[self, B, Y]` the link can
no longer be created; a periodic cycle on the listing `[self with the new
address 10.0.0.7, B]` has to set the interface up again, fails with
`InterfaceErr` and returns it.  The device `Y`, which is no longer listed, is
still in the cache and no removal was issued. -/
theorem C30_interface_setup_and_error_witness :
    (Reconcile noLinkPlatform
      (Reconcile refPlatform agentA {} (some firstListing) true).2.1
      (Reconcile refPlatform agentA {} (some firstListing) true).2.2
      (some [{ selfBare with TunnelIP := "10.0.0.7" }, devB]) false).1
      = .returned (some .InterfaceErr) ∧
    cacheGet (Reconcile noLinkPlatform
      (Reconcile refPlatform agentA {} (some firstListing) true).2.1
      (Reconcile refPlatform agentA {} (some firstListing) true).2.2
      (some [{ selfBare with TunnelIP := "10.0.0.7" }, devB]) false).2.1.deviceCache 9
      = some devY ∧
    (∀ c ∈ callsSince (Reconcile refPlatform agentA {} (some firstListing) true).2.2
      (Reconcile noLinkPlatform
        (Reconcile refPlatform agentA {} (some firstListing) true).2.1
        (Reconcile refPlatform agentA {} (some firstListing) true).2.2
        (some [{ selfBare with TunnelIP := "10.0.0.7" }, devB]) false).2.2,
      c.removes = false) :=
  have key := C30_interface_setup_and_error noLinkPlatform
    (Reconcile refPlatform agentA {} (some firstListing) true).2.1
    (Reconcile refPlatform agentA {} (some firstListing) true).2.2
    [] false
  have k4 := key.2.2.2 [{ selfBare with TunnelIP := "10.0.0.7" }, devB] .InterfaceErr (by decide)
  ⟨by decide, k4.2.2.2 9 devY (by decide) (by decide), k4.2.2.1⟩

end Nexd
